import Mathlib

/-!
# Term-encoded formulae of the E prover

A shallow embedding of `TERMS/cte_termtypes.h` and `CLAUSES/ccl_tformulae.c`.

* A `Term_p` is an address: an index into the list of cells of the bank
  (`TB.cells`).  A nullable pointer is an `Option TermRef`.
* Cells that are mutated in place by the C code (property bits) are mutated
  by replacing the cell at its address; the bank is passed explicitly.
* Recursive traversals of the term graph carry a fuel argument and return
  `none` when it runs out; the theorems show that a fuel above the address
  of the root always suffices in a well-formed bank.
* `assert`s of the C code are preconditions: they are hypotheses of the
  theorems, and the definitions follow the code that runs when they are
  compiled out.
-/

namespace EProver

/-! ## Term cells (`TERMS/cte_termtypes.h`) -/

abbrev FunCode := Int
abbrev TermRef := Nat
abbrev Type_p := Nat
abbrev TermProperties := Nat

def DEFAULT_VWEIGHT : Int := 1
def DEFAULT_FWEIGHT : Int := 2

def TPIgnoreProps : TermProperties := 0
def TPRestricted : TermProperties := 1
def TPTopPos : TermProperties := 2
def TPIsGround : TermProperties := 4
def TPPredPos : TermProperties := 8
def TPIsRewritable : TermProperties := 16
def TPIsRRewritable : TermProperties := 32
def TPIsSOSRewritten : TermProperties := 64
def TPSpecialFlag : TermProperties := 128
def TPOpFlag : TermProperties := 256
def TPCheckFlag : TermProperties := 512
def TPOutputFlag : TermProperties := 1024
def TPIsSpecialVar : TermProperties := 2048
def TPIsRewritten : TermProperties := 4096
def TPIsRRewritten : TermProperties := 8192
def TPIsShared : TermProperties := 16384
def TPGarbageFlag : TermProperties := 32768
def TPIsFreeVar : TermProperties := 65536
def TPPotentialParamod : TermProperties := 131072
def TPPosPolarity : TermProperties := 1 <<< 18
def TPNegPolarity : TermProperties := 1 <<< 19
def TPIsDerefedAppVar : TermProperties := 1 <<< 20
def TPIsBetaReducible : TermProperties := 1 <<< 21
def TPIsEtaReducible : TermProperties := 1 <<< 22
def TPIsDBVar : TermProperties := 1 <<< 23
def TPHasLambdaSubterm : TermProperties := 1 <<< 24
def TPHasEtaExpandableSubterm : TermProperties := 1 <<< 25
def TPHasDBSubterm : TermProperties := 1 <<< 26
def TPHasNonPatternVar : TermProperties := 1 <<< 27
def TPHasAppVar : TermProperties := 1 <<< 28
def TPHasEqNeqSym : TermProperties := 1 <<< 29
def TPHasBoolSubterm : TermProperties := 1 <<< 30

/-- The cell `struct termcell`.  The fields `entry_no`, `rw_data`, `lson`,
`rson` and `owner_bank` play no part in the functions embedded here and are
left out.  `args` is the flexible array member: slot `i` holds `none` for a
NULL pointer. -/
structure TermCell where
  f_code : FunCode
  properties : TermProperties
  arity : Nat
  binding : Option TermRef
  weight : Int
  v_count : Nat
  f_count : Nat
  type : Option Type_p
  binding_cache : Option TermRef
  args : List (Option TermRef)
deriving DecidableEq, Repr

/-- Modelled from the spec: the macros of `clb_properties.h` (not part of the
sources at hand).  Set adds the bits of `prop`. -/
def SetProp (props prop : TermProperties) : TermProperties := props ||| prop

/-- Modelled from the spec: `DelProp` clears the bits of `prop`
(`props & ~prop`; on naturals the bits `props & prop` are flipped off). -/
def DelProp (props prop : TermProperties) : TermProperties := props ^^^ (props &&& prop)

/-- Modelled from the spec: `GiveProps` returns the bits of `prop` that are set. -/
def GiveProps (props prop : TermProperties) : TermProperties := props &&& prop

/-- Modelled from the spec: "query all" tests that every flag in the queried
set is present. -/
def QueryProp (props prop : TermProperties) : Bool := (props &&& prop) == prop

/-- Modelled from the spec: "query any" tests that at least one flag is present. -/
def IsAnyPropSet (props prop : TermProperties) : Bool := (props &&& prop) != 0

/-- The function `TermDefaultCellAlloc()`; the fields that C leaves
uninitialised (`f_code` and the cached scalars) read as `0`. -/
def TermDefaultCellAlloc : TermCell :=
  { f_code := 0, properties := TPIgnoreProps, arity := 0, binding := none,
    weight := 0, v_count := 0, f_count := 0, type := none,
    binding_cache := none, args := [] }

instance : Inhabited TermCell := ⟨TermDefaultCellAlloc⟩

/-- The function `TermDefaultCellArityAlloc()`: all argument slots are NULL. -/
def TermDefaultCellArityAlloc (arity : Nat) : TermCell :=
  { f_code := 0, properties := TPIgnoreProps, arity := arity, binding := none,
    weight := 0, v_count := 0, f_count := 0, type := none,
    binding_cache := none, args := List.replicate arity none }

/-- The function `TermTopAlloc()`. -/
def TermTopAlloc (f_code : FunCode) (arity : Nat) : TermCell :=
  { TermDefaultCellArityAlloc arity with f_code := f_code }

/-- The macro `TermIsFreeVar`. -/
def TermIsFreeVar (t : TermCell) : Bool := decide (t.f_code < 0)

/-- Modelled from the spec: `TermIsVar` is used by `ccl_tformulae.c` but is not
defined in the header at hand; "negative values denote (first-order) free
variables". -/
def TermIsVar (t : TermCell) : Bool := decide (t.f_code < 0)

/-- The macro `TermIsDBVar` (build with `ENABLE_LFHO`). -/
def TermIsDBVar (t : TermCell) : Bool := QueryProp t.properties TPIsDBVar

/-- The macro `TermIsShared`. -/
def TermIsShared (t : TermCell) : Bool := QueryProp t.properties TPIsShared

/-! ## Signature and term bank -/

/-- One entry of the signature table `sig->f_info` (declared in
`cte_signature.h`, not part of the sources at hand): the declared arity and
whether the symbol is a predicate symbol. -/
structure FuncCell where
  arity : Nat
  predicate : Bool
deriving DecidableEq, Repr, Inhabited

/-- The type bank `sig->type_bank` (declared in `cte_simpletypes.h`, not part of
the sources at hand), as far as the formula layer reads it. -/
structure TypeBank where
  bool_type : Type_p
deriving DecidableEq, Repr

/-- The signature `Sig_p`, as far as the formula layer reads it.  The
`SIG_..._CODE` macros of `cte_signature.h` (not part of the sources at hand)
are taken as parameters. -/
structure Sig where
  f_info : List FuncCell
  internal_symbols : FunCode
  SIG_TRUE_CODE : FunCode
  SIG_FALSE_CODE : FunCode
  SIG_PHONY_APP_CODE : FunCode
  SIG_NAMED_LAMBDA_CODE : FunCode
  SIG_DB_LAMBDA_CODE : FunCode
  eqn_code : FunCode
  neqn_code : FunCode
  not_code : FunCode
  and_code : FunCode
  or_code : FunCode
  impl_code : FunCode
  bimpl_code : FunCode
  equiv_code : FunCode
  xor_code : FunCode
  nand_code : FunCode
  nor_code : FunCode
  qex_code : FunCode
  qall_code : FunCode
  type_bank : TypeBank

/-- Modelled from the spec: `SigFindArity` is `DeclaredArity(code)` of the
signature registry (module `cte_signature`, not part of the sources at hand). -/
def SigFindArity (sig : Sig) (op : FunCode) : Nat := (sig.f_info.getD op.toNat default).arity

/-- Modelled from the spec: `SigIsPredicate` tells whether the symbol is declared
as a predicate symbol (module `cte_signature`, not part of the sources at
hand). -/
def SigIsPredicate (sig : Sig) (op : FunCode) : Bool := (sig.f_info.getD op.toNat default).predicate

/-- Modelled from the spec: `SigGetEqnCode` returns the reserved code of the
equation or of the negated-equation symbol (module `cte_signature`, not part
of the sources at hand). -/
def SigGetEqnCode (sig : Sig) (positive : Bool) : FunCode :=
  if positive then sig.eqn_code else sig.neqn_code

/-- The term bank `TB_p` (declared in `cte_termbanks.h`, not part of the sources
at hand), as far as the formula layer reads it, together with the memory its
cells live in: `cells`
maps an address to the cell stored there (shared term cells and the variable
cells of `bank->vars` alike), `vars` lists the addresses of the variables
registered in the variable bank. -/
structure TB where
  sig : Sig
  cells : List TermCell
  vars : List TermRef
  true_term : TermRef
  false_term : TermRef

/-- Reading the cell at an address (`*t`); a dangling address reads as the
default cell. -/
def TB.cell (bank : TB) (t : TermRef) : TermCell := bank.cells.getD t default

/-- Reading `t->args[i]`. -/
def TB.arg (bank : TB) (t : TermRef) (i : Nat) : Option TermRef := ((bank.cell t).args.getD i none)

/-- Overwriting the property word of the cell at address `t`. -/
def TB.setProperties (bank : TB) (t : TermRef) (props : TermProperties) : TB :=
  { bank with cells := bank.cells.set t { bank.cell t with properties := props } }

/-- The macro `TermCellSetProp(term, prop)`. -/
def TermCellSetProp (bank : TB) (t : TermRef) (prop : TermProperties) : TB :=
  bank.setProperties t (SetProp (bank.cell t).properties prop)

/-- The macro `TermCellDelProp(term, prop)`. -/
def TermCellDelProp (bank : TB) (t : TermRef) (prop : TermProperties) : TB :=
  bank.setProperties t (DelProp (bank.cell t).properties prop)

/-- The macro `TermCellGiveProps(term, props)`. -/
def TermCellGiveProps (bank : TB) (t : TermRef) (prop : TermProperties) : TermProperties :=
  GiveProps (bank.cell t).properties prop

/-- The macro `TermCellQueryProp(term, prop)`. -/
def TermCellQueryProp (bank : TB) (t : TermRef) (prop : TermProperties) : Bool :=
  QueryProp (bank.cell t).properties prop

/-! ## Insertion into the term bank -/

/-- Modelled from the spec: the comparison behind the lookup of `Insert`, "an
existing shared node with identical symbol, arity, and identical shared
children". -/
def TermTopCompare (c t : TermCell) : Bool :=
  TermIsShared c && (c.f_code == t.f_code && (c.arity == t.arity && c.args == t.args))

/-- Modelled from the spec: the lookup half of `Insert` (the term cell store is
not part of the sources at hand); the address of the first matching cell. -/
def TermCellStoreFind (t : TermCell) : List TermCell → Option TermRef
  | [] => none
  | c :: cs => if TermTopCompare c t then some 0 else (TermCellStoreFind t cs).map (· + 1)

/-- Reading the cell behind a possibly NULL pointer; NULL reads as the default
cell. -/
def TB.cellAt (bank : TB) (a : Option TermRef) : TermCell :=
  match a with
  | some r => bank.cell r
  | none => default

/-- Modelled from the spec: `TBTermTopInsert`, the contract `Insert` of the term
bank: "Looks up an existing shared node with identical symbol, arity, and
identical shared children; if found, returns it (discarding the transient
one); otherwise registers it, computes weight/variable_count/
function_symbol_count from children's cached scalars plus the node's own
symbol weight, marks it shared, and returns it."  A registered cell gets the
next free address. -/
def TBTermTopInsert (bank : TB) (t : TermCell) : TB × TermRef :=
  match TermCellStoreFind t bank.cells with
  | some r => (bank, r)
  | none =>
    let kids := t.args.map bank.cellAt
    let t1 : TermCell :=
      { t with
        properties := SetProp t.properties TPIsShared
        weight := DEFAULT_FWEIGHT + (kids.map (·.weight)).sum
        v_count := (kids.map (·.v_count)).sum
        f_count := 1 + (kids.map (·.f_count)).sum }
    ({ bank with cells := bank.cells ++ [t1] }, bank.cells.length)

/-! ## The formula layer (`CLAUSES/ccl_tformulae.c`) -/

/-- The function `TFormulaFCodeAlloc()`: allocate a formula given an f_code and
two subformulas (the second one may be NULL). -/
def TFormulaFCodeAlloc (bank : TB) (op : FunCode) (arg1 : TermRef) (arg2 : Option TermRef) :
    TB × TermRef :=
  let sig := bank.sig
  let arity := SigFindArity sig op
  let res := TermTopAlloc op arity
  let res := if op ≠ sig.SIG_NAMED_LAMBDA_CODE then
      { res with type := some sig.type_bank.bool_type } else res
  let res := if SigIsPredicate sig op then
      { res with properties := SetProp res.properties TPPredPos } else res
  let res := if arity > 0 then
      (let res := { res with args := res.args.set 0 (some arg1) }
       if arity > 1 then { res with args := res.args.set 1 arg2 } else res)
    else res
  TBTermTopInsert bank res

/-- Modelled from the spec: the values of the global variable `problemType`, the
"current problem mode" (first-order vs higher-order); its declaration is not
part of the sources at hand. -/
inductive ProblemType where
  | PROBLEM_NOT_INIT
  | PROBLEM_FO
  | PROBLEM_HO
deriving DecidableEq, Repr

/-- The macro `TermIsPhonyApp` (build with `ENABLE_LFHO`). -/
def TermIsPhonyApp (sig : Sig) (t : TermCell) : Bool :=
  !TermIsDBVar t && t.f_code == sig.SIG_PHONY_APP_CODE

/-- Modelled from the spec: `EqnTermsTBTermEncode` (module `ccl_eqn`, not part
of the sources at hand) builds the literal-shaped node: "literals are always
represented as an equation (positive or negative) between two terms", a
boolean node with the equation code of the wanted sign and the two sides as
children, inserted into the bank.  Only the direction `PENormal` is used
here, so the direction argument is left out. -/
def EqnTermsTBTermEncode (bank : TB) (lterm rterm : TermRef) (positive : Bool) : TB × TermRef :=
  let res := TermTopAlloc (SigGetEqnCode bank.sig positive) 2
  let res := { res with type := some bank.sig.type_bank.bool_type
                        args := [some lterm, some rterm] }
  TBTermTopInsert bank res

/-- The function `EncodePredicateAsEqn()`; the global `problemType` is passed
explicitly. -/
def EncodePredicateAsEqn (problemType : ProblemType) (bank : TB) (f : TermRef) : TB × TermRef :=
  let sig := bank.sig
  let fc := bank.cell f
  if problemType == ProblemType.PROBLEM_HO &&
      (decide (fc.f_code > sig.internal_symbols) ||
       fc.f_code == sig.SIG_TRUE_CODE ||
       fc.f_code == sig.SIG_FALSE_CODE ||
       TermIsVar fc ||
       TermIsPhonyApp sig fc) &&
      fc.type == some sig.type_bank.bool_type then
    let positive := fc.f_code != sig.SIG_FALSE_CODE
    EqnTermsTBTermEncode bank (if fc.f_code == sig.SIG_FALSE_CODE then bank.true_term else f)
      bank.true_term positive
  else
    (bank, f)

/-- The function `TFormulaIsPropConst()`; `bank` supplies the memory that the
argument pointers are read from. -/
def TFormulaIsPropConst (bank : TB) (sig : Sig) (form : TermRef) (positive : Bool) : Bool :=
  let f_code := SigGetEqnCode sig positive
  if (bank.cell form).f_code != f_code then
    false
  else
    (bank.cellAt (bank.arg form 0)).f_code == sig.SIG_TRUE_CODE &&
    (bank.cellAt (bank.arg form 1)).f_code == sig.SIG_TRUE_CODE

/-! ## Free variables and closure -/

/-- Modelled from the spec: the macro `TFormulaIsQuantified` (header
`ccl_tformulae.h`, not part of the sources at hand): a binder node carries the
existential or the universal quantifier code, the test `TFormulaVarIsFree`
spells out inline. -/
def TFormulaIsQuantified (sig : Sig) (form : TermCell) : Bool :=
  form.f_code == sig.qex_code || form.f_code == sig.qall_code

/-- Modelled from the spec: a `PTree_p` is a set of pointers (module
`clb_ptrees`, not part of the sources at hand); the keys are kept in the order
in which they were first stored ("order = collection order").  The empty
list is the NULL tree. -/
abbrev PTree := List TermRef

/-- Modelled from the spec: `PTreeStore` adds a key unless it is present. -/
def PTreeStore (root : PTree) (key : TermRef) : PTree :=
  if key ∈ root then root else root ++ [key]

/-- Modelled from the spec: `PTreeToPStack` pushes the keys of the tree onto a
stack; the stack is listed from index `0`. -/
def PTreeToPStack (root : PTree) : List TermRef := root

/-- Modelled from the spec: `VarBankVarsSetProp` sets the property in every
variable cell registered in the variable bank. -/
def VarBankVarsSetProp (bank : TB) (prop : TermProperties) : TB :=
  bank.vars.foldl (fun b v => TermCellSetProp b v prop) bank

/-- The loop `for(i = start; i < start + n; i++) body(i)` over a state; the
loop fails when its body fails. -/
def forLoop {σ : Type} (body : Nat → σ → Option σ) : Nat → Nat → σ → Option σ
  | 0, _, s => some s
  | n + 1, i, s =>
    match body i s with
    | none => none
    | some s1 => forLoop body n (i + 1) s1

/-- The function `tformula_collect_freevars()`.  The result is the bank (whose
`TPIsFreeVar` bits the function changes) and the tree `*vars`; following a
NULL argument pointer fails. -/
def tformula_collect_freevars : Nat → TB → TermRef → PTree → Option (TB × PTree)
  | 0, _, _, _ => none
  | fuel + 1, bank, form, vars =>
    if TFormulaIsQuantified bank.sig (bank.cell form) then
      match bank.arg form 0, bank.arg form 1 with
      | some a0, some a1 =>
        let old_prop := TermCellGiveProps bank a0 TPIsFreeVar
        match tformula_collect_freevars fuel (TermCellDelProp bank a0 TPIsFreeVar) a1 vars with
        | none => none
        | some (bank1, vars1) =>
          match bank1.arg form 0 with
          | some b0 => some (TermCellSetProp bank1 b0 old_prop, vars1)
          | none => none
      | _, _ => none
    else if TermIsVar (bank.cell form) then
      if TermCellQueryProp bank form TPIsFreeVar then
        some (bank, PTreeStore vars form)
      else
        some (bank, vars)
    else
      forLoop (fun i (st : TB × PTree) =>
          match st.1.arg form i with
          | none => none
          | some a =>
            if TermIsVar (st.1.cell a) && TermCellQueryProp st.1 a TPIsFreeVar then
              some (st.1, PTreeStore st.2 a)
            else
              tformula_collect_freevars fuel st.1 a st.2)
        (bank.cell form).arity 0 (bank, vars)

/-- The function `TFormulaCollectFreeVars()`. -/
def TFormulaCollectFreeVars (fuel : Nat) (bank : TB) (form : TermRef) (vars : PTree) :
    Option (TB × PTree) :=
  tformula_collect_freevars fuel (VarBankVarsSetProp bank TPIsFreeVar) form vars

/-- The function `TFormulaIsClosed()`. -/
def TFormulaIsClosed (fuel : Nat) (bank : TB) (form : TermRef) : Option (TB × Bool) :=
  match TFormulaCollectFreeVars fuel bank form [] with
  | none => none
  | some (bank1, vars) => some (bank1, vars.isEmpty)

/-- The function `TFormulaAddQuantor()`. -/
def TFormulaAddQuantor (bank : TB) (form : TermRef) (universal : Bool) (var : TermRef) :
    TB × TermRef :=
  let quantor := if universal then bank.sig.qall_code else bank.sig.qex_code
  TFormulaFCodeAlloc bank quantor var (some form)

/-- The function `TFormulaAddQuantors()`: the loop runs over the stack from
index `0` upwards and wraps the formula built so far. -/
def TFormulaAddQuantors (bank : TB) (form : TermRef) (universal : Bool) (vars : PTree) :
    TB × TermRef :=
  (PTreeToPStack vars).foldl
    (fun (st : TB × TermRef) var => TFormulaAddQuantor st.1 st.2 universal var) (bank, form)

/-- The function `TFormulaClosure()`. -/
def TFormulaClosure (fuel : Nat) (bank : TB) (form : TermRef) (universal : Bool) :
    Option (TB × TermRef) :=
  match TFormulaCollectFreeVars fuel (VarBankVarsSetProp bank TPIsFreeVar) form [] with
  | none => none
  | some (bank1, vars) => some (TFormulaAddQuantors bank1 form universal vars)

/-! ## Well-formed banks and the specification vocabulary -/

/-- An argument pointer is set and points below address `i`. -/
def argBelow (i : TermRef) : Option TermRef → Bool
  | some r => decide (r < i)
  | none => false

/-- The cell stored at address `i` is well formed: it has as many argument
slots as its arity says, every argument was allocated before the cell itself
(arguments are shared before the term that holds them), a quantifier cell has
the two arguments variable and body, and a variable cell is registered in
the variable bank. -/
def TermCell.WF (sig : Sig) (vars : List TermRef) (i : TermRef) (c : TermCell) : Prop :=
  c.args.length = c.arity ∧ (∀ a ∈ c.args, argBelow i a = true) ∧
  (TFormulaIsQuantified sig c = true → c.arity = 2) ∧
  (TermIsVar c = true → i ∈ vars)

instance (sig : Sig) (vars : List TermRef) (i : TermRef) (c : TermCell) :
    Decidable (TermCell.WF sig vars i c) := by
  unfold TermCell.WF; infer_instance

/-- A well-formed bank: the quantifier codes are symbol codes (not variable
codes) of declared arity two, and every cell is well formed. -/
def TB.WF (bank : TB) : Prop :=
  0 ≤ bank.sig.qex_code ∧ 0 ≤ bank.sig.qall_code ∧
  SigFindArity bank.sig bank.sig.qex_code = 2 ∧ SigFindArity bank.sig bank.sig.qall_code = 2 ∧
  ∀ i, i < bank.cells.length → TermCell.WF bank.sig bank.vars i (bank.cell i)

instance (bank : TB) : Decidable (TB.WF bank) := by
  unfold TB.WF; infer_instance

/-- Free occurrence, in the words of the claim: the variable `v` has an
occurrence in `form` that is not inside the scope of a quantifier binding
`v`.  A variable node is an occurrence of itself; a quantifier node binds its
first argument in its second; every other node passes on the occurrences in
its arguments. -/
inductive FreeOcc (bank : TB) (v : TermRef) : TermRef → Prop where
  | var : TermIsVar (bank.cell v) = true → FreeOcc bank v v
  | quant (form a0 a1 : TermRef) :
      TFormulaIsQuantified bank.sig (bank.cell form) = true →
      bank.arg form 0 = some a0 → bank.arg form 1 = some a1 →
      a0 ≠ v → FreeOcc bank v a1 → FreeOcc bank v form
  | arg (form : TermRef) (i : Nat) (a : TermRef) :
      TFormulaIsQuantified bank.sig (bank.cell form) = false →
      TermIsVar (bank.cell form) = false →
      i < (bank.cell form).arity → bank.arg form i = some a →
      FreeOcc bank v a → FreeOcc bank v form

/-- The node `r` is the chain `Q x1.(Q x2.( ... (Q xn. f)))` of quantifier
nodes with code `quantor`, binding the listed variables from the outside in,
around the body `f`. -/
def QuantChain (bank : TB) (quantor : FunCode) : List TermRef → TermRef → TermRef → Prop
  | [], f, r => r = f
  | x :: xs, f, r =>
    (bank.cell r).f_code = quantor ∧ (bank.cell r).arity = 2 ∧
    ∃ r1, (bank.cell r).args = [some x, some r1] ∧ QuantChain bank quantor xs f r1

/-- The bank `b1` has the shape of `b` on the addresses of `b`: same
signature and variable bank, and at every address of `b` a cell with the
same symbol, arity and arguments (property bits may differ, cells may have
been added). -/
def ShapeExt (b b1 : TB) : Prop :=
  b1.sig = b.sig ∧ b1.vars = b.vars ∧ b.cells.length ≤ b1.cells.length ∧
  ∀ i, i < b.cells.length →
    (b1.cell i).f_code = (b.cell i).f_code ∧ (b1.cell i).arity = (b.cell i).arity ∧
    (b1.cell i).args = (b.cell i).args

/-! ## Polarity -/

/-- Modelled from the spec: the macro `TFormulaIsLiteral` (header
`ccl_tformulae.h`, not part of the sources at hand): "the literal-shaped forms
(equation/negated-equation)". -/
def TFormulaIsLiteral (sig : Sig) (form : TermCell) : Bool :=
  form.f_code == sig.eqn_code || form.f_code == sig.neqn_code

/-- The function `TFormulaMarkPolarity()`.  The `default` branch of the
`switch` (an assertion only) leaves the cell as it is; following a NULL
argument pointer fails. -/
def TFormulaMarkPolarity : Nat → TB → TermRef → Int → Option TB
  | 0, _, _, _ => none
  | fuel + 1, bank, form, polarity =>
    if TFormulaIsLiteral bank.sig (bank.cell form) then
      some bank
    else
      let bank1 :=
        if polarity = -1 then TermCellSetProp bank form TPNegPolarity
        else if polarity = 0 then TermCellSetProp bank form (TPPosPolarity ||| TPNegPolarity)
        else if polarity = 1 then TermCellSetProp bank form TPPosPolarity
        else bank
      let res0 : Option TB :=
        if (bank1.cell form).f_code == bank1.sig.and_code ||
            (bank1.cell form).f_code == bank1.sig.or_code then
          (bank1.arg form 0).bind (fun a => TFormulaMarkPolarity fuel bank1 a polarity)
        else if (bank1.cell form).f_code == bank1.sig.not_code ||
            (bank1.cell form).f_code == bank1.sig.impl_code then
          (bank1.arg form 0).bind (fun a => TFormulaMarkPolarity fuel bank1 a (-polarity))
        else if (bank1.cell form).f_code == bank1.sig.equiv_code then
          (bank1.arg form 0).bind (fun a => TFormulaMarkPolarity fuel bank1 a 0)
        else some bank1
      res0.bind (fun bank2 =>
        if (bank2.cell form).f_code == bank2.sig.and_code ||
            (bank2.cell form).f_code == bank2.sig.or_code ||
            (bank2.cell form).f_code == bank2.sig.impl_code ||
            (bank2.cell form).f_code == bank2.sig.qex_code ||
            (bank2.cell form).f_code == bank2.sig.qall_code then
          (bank2.arg form 1).bind (fun a => TFormulaMarkPolarity fuel bank2 a polarity)
        else if (bank2.cell form).f_code == bank2.sig.equiv_code then
          (bank2.arg form 1).bind (fun a => TFormulaMarkPolarity fuel bank2 a 0)
        else some bank2)

/-- The function `TFormulaDecodePolarity()`; the last `return 0` is reached
when the assertion before it is compiled out. -/
def TFormulaDecodePolarity (bank : TB) (form : TermRef) : Int :=
  if TermCellQueryProp bank form (TPPosPolarity ||| TPNegPolarity) then 0
  else if TermCellQueryProp bank form TPPosPolarity then 1
  else if TermCellQueryProp bank form TPNegPolarity then -1
  else 0

/-- The reserved codes of the equation symbols, connectives and quantifiers
are pairwise distinct. -/
def Sig.CodesDistinct (sig : Sig) : Prop :=
  [sig.eqn_code, sig.neqn_code, sig.not_code, sig.and_code, sig.or_code, sig.impl_code,
   sig.bimpl_code, sig.equiv_code, sig.xor_code, sig.nand_code, sig.nor_code, sig.qex_code,
   sig.qall_code].Nodup

instance (sig : Sig) : Decidable sig.CodesDistinct := by
  unfold Sig.CodesDistinct; infer_instance

/-- The cells carry the arguments that the polarity scan reads: a first
argument under negation, a first and a second under the binary connectives it
descends into and under the quantifiers. -/
def TB.PolarityWF (bank : TB) : Prop :=
  ∀ i, i < bank.cells.length →
    ((bank.cell i).f_code ∈ [bank.sig.and_code, bank.sig.or_code, bank.sig.not_code,
        bank.sig.impl_code, bank.sig.equiv_code] → 1 ≤ (bank.cell i).arity) ∧
    ((bank.cell i).f_code ∈ [bank.sig.and_code, bank.sig.or_code, bank.sig.impl_code,
        bank.sig.qex_code, bank.sig.qall_code, bank.sig.equiv_code] → 2 ≤ (bank.cell i).arity)

instance (bank : TB) : Decidable bank.PolarityWF := by
  unfold TB.PolarityWF; infer_instance

/-- The node `x` is the node `t` or lies below it (`fuel` bounds the depth of
the search; a fuel above the address `t` reaches every node below `t` in a
well-formed bank). -/
def occursIn : Nat → TB → TermRef → TermRef → Bool
  | 0, _, _, _ => false
  | fuel + 1, bank, x, t =>
    t == x || (bank.cell t).args.any (fun a =>
      match a with
      | some r => occursIn fuel bank x r
      | none => false)

/-- What one step of the polarity scan below `form` may do to the bank `b`
(a bank of the shape of `bank`): it keeps the shape, leaves `form` itself,
every node that does not occur in `form` and every literal as they are, and
takes no property away. -/
def PolarityStep (bank : TB) (form : TermRef) (b b1 : TB) : Prop :=
  ShapeExt b b1 ∧ b1.cells.length = b.cells.length ∧
  (∀ x, x < bank.cells.length → (x = form ∨ occursIn (form + 1) bank x form = false) →
    b1.cell x = b.cell x) ∧
  (∀ x, x < bank.cells.length → TFormulaIsLiteral bank.sig (bank.cell x) = true →
    b1.cell x = b.cell x) ∧
  (∀ x prop, TermCellQueryProp b x prop = true → TermCellQueryProp b1 x prop = true)

/-- The polarity flags that `TFormulaMarkPolarity` sets for a polarity. -/
def polarityFlags (polarity : Int) : TermProperties :=
  if polarity = -1 then TPNegPolarity
  else if polarity = 0 then TPPosPolarity ||| TPNegPolarity
  else if polarity = 1 then TPPosPolarity
  else TPIgnoreProps

/-- The specification of `TFormulaMarkPolarity` that the induction on the fuel
carries. -/
def MarkPolaritySpec (fuel : Nat) : Prop :=
  ∀ (bank : TB) (form : TermRef) (polarity : Int), bank.WF → bank.PolarityWF →
    form < bank.cells.length → form < fuel →
    ∃ bank1, TFormulaMarkPolarity fuel bank form polarity = some bank1 ∧
      ShapeExt bank bank1 ∧ bank1.cells.length = bank.cells.length ∧
      (∀ x, x < bank.cells.length → occursIn (form + 1) bank x form = false →
        bank1.cell x = bank.cell x) ∧
      (∀ x, x < bank.cells.length → TFormulaIsLiteral bank.sig (bank.cell x) = true →
        bank1.cell x = bank.cell x) ∧
      (∀ x prop, TermCellQueryProp bank x prop = true →
        TermCellQueryProp bank1 x prop = true) ∧
      (TFormulaIsLiteral bank.sig (bank.cell form) = false →
        (bank1.cell form).properties
          = SetProp (bank.cell form).properties (polarityFlags polarity))

/-! ## Clauses and their term encoding -/

/-- Modelled from the spec: a literal cell `Eqn_p` (module `ccl_eqn`, not part
of the sources at hand): "literals are always represented as an equation
(positive or negative) between two terms". -/
structure Eqn where
  lterm : TermRef
  rterm : TermRef
  positive : Bool
deriving DecidableEq, Repr

/-- Modelled from the spec: a clause is its literal list (the chain of `next`
pointers starting at `clause->literals`). -/
structure Clause where
  literals : List Eqn
deriving DecidableEq, Repr

/-- Modelled from the spec: `EqnIsPositive` reads the sign of a literal. -/
def EqnIsPositive (literal : Eqn) : Bool := literal.positive

/-- Modelled from the spec: `EqnAlloc` builds a literal from two sides and a sign. -/
def EqnAlloc (lterm rterm : TermRef) (positive : Bool) : Eqn :=
  { lterm := lterm, rterm := rterm, positive := positive }

/-- Modelled from the spec: `ClauseIsEmpty`. -/
def ClauseIsEmpty (clause : Clause) : Bool := clause.literals.isEmpty

/-- Modelled from the spec: `ClauseAlloc` makes the clause of a literal list. -/
def ClauseAlloc (literals : List Eqn) : Clause := { literals := literals }

/-- Modelled from the spec: `EqnTBTermDecode` reads a literal off a
literal-shaped node: the two arguments are the sides, the equation code
gives the sign.  Following a NULL argument pointer fails. -/
def EqnTBTermDecode (terms : TB) (eqnterm : TermRef) : Option Eqn :=
  (terms.arg eqnterm 0).bind (fun l =>
    (terms.arg eqnterm 1).bind (fun r =>
      some (EqnAlloc l r ((terms.cell eqnterm).f_code == terms.sig.eqn_code))))

/-- The function `TFormulaLitAlloc()`.  The bank `literal->bank` the literal
points to is the bank at hand, whose state is passed in. -/
def TFormulaLitAlloc (bank : TB) (literal : Eqn) : TB × TermRef :=
  EqnTermsTBTermEncode bank literal.lterm literal.rterm (EqnIsPositive literal)

/-- The function `TFormulaPropConstantAlloc()`. -/
def TFormulaPropConstantAlloc (terms : TB) (positive : Bool) : TB × TermRef :=
  TFormulaLitAlloc terms (EqnAlloc terms.true_term terms.true_term positive)

/-- The function `TFormulaClauseEncode()`. -/
def TFormulaClauseEncode (bank : TB) (clause : Clause) : TB × TermRef :=
  match clause.literals with
  | [] => TFormulaPropConstantAlloc bank false
  | first :: rest =>
    rest.foldl
      (fun (st : TB × TermRef) handle =>
        TFormulaFCodeAlloc (TFormulaLitAlloc st.1 handle).1 st.1.sig.or_code st.2
          (some (TFormulaLitAlloc st.1 handle).2))
      (TFormulaLitAlloc bank first)

/-- The `while(!PStackEmpty(stack))` loop of `TFormulaCollectClause()`.  The
head of `stack` is the top of the stack; `lit_stack` is listed from index `0`. -/
def TFormulaCollectClause_loop : Nat → TB → List TermRef → List Eqn → Option (List Eqn)
  | _, _, [], lit_stack => some lit_stack
  | 0, _, _ :: _, _ => none
  | fuel + 1, terms, form :: stack, lit_stack =>
    if (terms.cell form).f_code == terms.sig.or_code then
      (terms.arg form 0).bind (fun a0 =>
        (terms.arg form 1).bind (fun a1 =>
          TFormulaCollectClause_loop fuel terms (a1 :: a0 :: stack) lit_stack))
    else
      (EqnTBTermDecode terms form).bind (fun lit =>
        TFormulaCollectClause_loop fuel terms stack (lit_stack ++ [lit]))

/-- The function `TFormulaCollectClause()` called with `fresh_vars == NULL` (the
branch that renames the variables calls into modules that are not part of
the sources at hand).  The second loop inserts the elements of `lit_stack`,
from index `0` upwards, at the front of the literal list. -/
def TFormulaCollectClause (fuel : Nat) (form : TermRef) (terms : TB) : Option Clause :=
  (TFormulaCollectClause_loop fuel terms [form] []).bind (fun lit_stack =>
    some (ClauseAlloc (lit_stack.foldl (fun lit_list lit => lit :: lit_list) [])))

/-- The node `f` is the literal-shaped node of the literal `lit`. -/
def IsLitNode (b : TB) (f : TermRef) (lit : Eqn) : Prop :=
  f < b.cells.length ∧ (b.cell f).f_code = SigGetEqnCode b.sig lit.positive ∧
  (b.cell f).args = [some lit.lterm, some lit.rterm]

/-- The node `f` is the disjunction chain over the literals listed last to
first: a single literal is its literal node, and a longer list is a
disjunction node whose second argument is the node of the last literal and
whose first argument is the chain over the literals before it. -/
def OrChainRev (b : TB) : TermRef → List Eqn → Prop
  | _, [] => False
  | f, [lit] => IsLitNode b f lit
  | f, lit :: (lit1 :: rest) =>
    f < b.cells.length ∧ (b.cell f).f_code = b.sig.or_code ∧
    ∃ g h, (b.cell f).args = [some g, some h] ∧ IsLitNode b h lit ∧
      OrChainRev b g (lit1 :: rest)

/-! ## Dereferencing (`TERMS/cte_termtypes.h`)

The header has two variants of these macros and functions, chosen by
`ENABLE_LFHO`; the flag is the first argument of each definition. -/

abbrev DerefType := Nat

def DEREF_NEVER : DerefType := 0
def DEREF_ONCE : DerefType := 1
def DEREF_ALWAYS : DerefType := 2

/-- The macro `TermIsAppliedFreeVar`: a phony application whose head
(`args[0]`) is a free variable; `false` without `ENABLE_LFHO`. -/
def TermIsAppliedFreeVar (ENABLE_LFHO : Bool) (bank : TB) (term : TermRef) : Bool :=
  ENABLE_LFHO && (!TermIsDBVar (bank.cell term) &&
    ((bank.cell term).f_code == bank.sig.SIG_PHONY_APP_CODE &&
      TermIsFreeVar (bank.cellAt (bank.arg term 0))))

/-- The macro `TermIsLambda`; `false` without `ENABLE_LFHO`. -/
def TermIsLambda (ENABLE_LFHO : Bool) (sig : Sig) (term : TermCell) : Bool :=
  ENABLE_LFHO && (!TermIsDBVar term &&
    (term.f_code == sig.SIG_NAMED_LAMBDA_CODE || term.f_code == sig.SIG_DB_LAMBDA_CODE))

/-- The macro `CAN_DEREF(term)`. -/
def CAN_DEREF (ENABLE_LFHO : Bool) (bank : TB) (term : TermRef) : Bool :=
  if ENABLE_LFHO then
    (TermIsFreeVar (bank.cell term) && (bank.cell term).binding.isSome) ||
    (TermIsAppliedFreeVar true bank term &&
      (bank.cellAt (bank.arg term 0)).binding.isSome)
  else (bank.cell term).binding.isSome

/-- The macro `DEREF_LIMIT(t, d)`. -/
def DEREF_LIMIT (ENABLE_LFHO : Bool) (bank : TB) (t : TermRef) (d : DerefType) : Nat :=
  if ENABLE_LFHO then
    if TermIsAppliedFreeVar true bank t && (bank.cellAt (bank.arg t 0)).binding.isSome &&
        d == DEREF_ONCE then
      let b := bank.cellAt (bank.cellAt (bank.arg t 0)).binding
      (if TermIsLambda true bank.sig b then 1 else b.arity) +
        (if TermIsFreeVar b then 1 else 0)
    else 0
  else 0

/-- The macro `CONVERT_DEREF(i, l, d)`. -/
def CONVERT_DEREF (ENABLE_LFHO : Bool) (i l : Nat) (d : DerefType) : DerefType :=
  if ENABLE_LFHO then
    if decide (i < l) && d == DEREF_ONCE then DEREF_NEVER else d
  else d

/-- The function `deref_step()` (the macro of the same name without
`ENABLE_LFHO`).  `applied_var_deref` is only declared in the header; it
builds the expansion of an applied variable and caches it, so it is taken as
a parameter that maps a bank and a term to the new bank and the expansion. -/
def deref_step (ENABLE_LFHO : Bool) (applied_var_deref : TB → TermRef → TB × TermRef)
    (bank : TB) (orig : TermRef) : TB × Option TermRef :=
  if ENABLE_LFHO then
    if TermIsFreeVar (bank.cell orig) then (bank, (bank.cell orig).binding)
    else
      let r := applied_var_deref bank orig
      (r.1, some r.2)
  else (bank, (bank.cell orig).binding)

/-- The function `TermDerefAlways()`: the `while(CAN_DEREF(term))` loop, one
unit of fuel per iteration.  Stepping to a NULL pointer has no result. -/
def TermDerefAlways (ENABLE_LFHO : Bool) (applied_var_deref : TB → TermRef → TB × TermRef) :
    Nat → TB → TermRef → Option (TB × TermRef)
  | 0, bank, term => if CAN_DEREF ENABLE_LFHO bank term then none else some (bank, term)
  | fuel + 1, bank, term =>
    if CAN_DEREF ENABLE_LFHO bank term then
      match deref_step ENABLE_LFHO applied_var_deref bank term with
      | (bank1, some term1) => TermDerefAlways ENABLE_LFHO applied_var_deref fuel bank1 term1
      | (_, none) => none
    else some (bank, term)

/-- The second loop of `TermDeref()`, `while(*deref && CAN_DEREF(term))`; the
cell `*deref` is threaded through. -/
def TermDeref_loop (ENABLE_LFHO : Bool) (applied_var_deref : TB → TermRef → TB × TermRef) :
    Nat → TB → TermRef → DerefType → Option (TB × TermRef × DerefType)
  | 0, bank, term, deref =>
    if deref != 0 && CAN_DEREF ENABLE_LFHO bank term then none else some (bank, term, deref)
  | fuel + 1, bank, term, deref =>
    if deref != 0 && CAN_DEREF ENABLE_LFHO bank term then
      let originally_app_var := TermIsAppliedFreeVar ENABLE_LFHO bank term
      match deref_step ENABLE_LFHO applied_var_deref bank term with
      | (bank1, some term1) =>
        if deref == DEREF_ONCE && originally_app_var then some (bank1, term1, deref)
        else TermDeref_loop ENABLE_LFHO applied_var_deref fuel bank1 term1 (deref - 1)
      | (_, none) => none
    else some (bank, term, deref)

/-- The function `TermDeref()`; the result carries the final value of
`*deref`.  The loop of the `DEREF_ALWAYS` branch is the loop of
`TermDerefAlways`. -/
def TermDeref (ENABLE_LFHO : Bool) (applied_var_deref : TB → TermRef → TB × TermRef)
    (fuel : Nat) (bank : TB) (term : TermRef) (deref : DerefType) :
    Option (TB × TermRef × DerefType) :=
  if deref == DEREF_ALWAYS then
    (TermDerefAlways ENABLE_LFHO applied_var_deref fuel bank term).map
      (fun r => (r.1, r.2, deref))
  else TermDeref_loop ENABLE_LFHO applied_var_deref fuel bank term deref

/-- The nodes visited by following bindings from `x`: node `k + 1` is the
binding of node `k` as long as node `k` can be dereferenced; afterwards the
sequence stays where it is. -/
def bindingChain (ENABLE_LFHO : Bool) (bank : TB) (x : TermRef) : Nat → TermRef
  | 0 => x
  | k + 1 =>
    let t := bindingChain ENABLE_LFHO bank x k
    if CAN_DEREF ENABLE_LFHO bank t then (bank.cell t).binding.getD t else t

/-! ## Copying a top cell (`TERMS/cte_termtypes.h`) -/

/-- The function `TermTopCopyWithoutArgs()`.  `TermSetBank` writes the field
`owner_bank`, which is not part of the cell here. -/
def TermTopCopyWithoutArgs (source : TermCell) : TermCell :=
  let handle := if source.arity ≠ 0 then TermDefaultCellArityAlloc source.arity
    else TermDefaultCellAlloc
  let handle := { handle with properties := source.properties &&& (TPPredPos ||| TPIsDBVar) }
  let handle := { handle with properties := DelProp handle.properties TPOutputFlag }
  let handle := { handle with f_code := source.f_code }
  let handle := { handle with type := source.type }
  let handle := if source.arity ≠ 0 then { handle with arity := source.arity } else handle
  handle

/-- The function `TermTopCopy()`: the loop copies the argument pointers. -/
def TermTopCopy (source : TermCell) : TermCell :=
  let handle := TermTopCopyWithoutArgs source
  (List.range source.arity).foldl
    (fun handle i => { handle with args := handle.args.set i (source.args.getD i none) }) handle

/-! ## Formula cells of one symbol -/

/-- The cells stored for the symbol `op` are the ones the formula layer
builds: each shared cell with code `op` is boolean-typed and has `TPPredPos`
exactly when `op` is a predicate symbol.  The lookup of the bank does not
compare types or properties, so this is what a found cell is known by. -/
def TB.OpCellsWF (bank : TB) (op : FunCode) : Prop :=
  ∀ c ∈ bank.cells, TermIsShared c = true → c.f_code = op →
    c.type = some bank.sig.type_bank.bool_type ∧
    QueryProp c.properties TPPredPos = SigIsPredicate bank.sig op

instance (bank : TB) (op : FunCode) : Decidable (bank.OpCellsWF op) := by
  unfold TB.OpCellsWF
  infer_instance

/-- The bank holds a shared node with the symbol `op`, the arity `arity` and
the children `args`: what the lookup of the bank compares. -/
def TB.holdsNode (bank : TB) (op : FunCode) (arity : Nat) (args : List (Option TermRef)) :
    Prop :=
  ∃ c ∈ bank.cells, TermIsShared c = true ∧ c.f_code = op ∧ c.arity = arity ∧ c.args = args

instance (bank : TB) (op : FunCode) (arity : Nat) (args : List (Option TermRef)) :
    Decidable (bank.holdsNode op arity args) := by
  unfold TB.holdsNode
  infer_instance

/-! ## Definitions of formulas (`CLAUSES/ccl_tformulae.c`) -/

/-- Modelled from the spec: `TermCollectVariables` (module `cte_termfunc`, not
part of the sources at hand) adds the variables that occur in a term to the
tree; the definition is closed "over the atom's free variables".  A variable
is stored, an application hands the tree through its arguments. -/
def TermCollectVariables : Nat → TB → TermRef → PTree → Option PTree
  | 0, _, _, _ => none
  | fuel + 1, bank, term, tree =>
    if TermIsVar (bank.cell term) then some (PTreeStore tree term)
    else
      (bank.cell term).args.foldl
        (fun (acc : Option PTree) a =>
          match acc, a with
          | some tree1, some r => TermCollectVariables fuel bank r tree1
          | _, _ => none)
        (some tree)

/-- The function `TFormulaCreateDef()`.  An illegal polarity (the failing
`assert` of the `default` branch) has no result. -/
def TFormulaCreateDef (fuel : Nat) (bank : TB) (def_atom defined : TermRef) (polarity : Int) :
    Option (TB × TermRef) :=
  let res : Option (TB × TermRef) :=
    if polarity = -1 then
      some (TFormulaFCodeAlloc bank bank.sig.impl_code defined (some def_atom))
    else if polarity = 0 then
      some (TFormulaFCodeAlloc bank bank.sig.equiv_code def_atom (some defined))
    else if polarity = 1 then
      some (TFormulaFCodeAlloc bank bank.sig.impl_code def_atom (some defined))
    else none
  match res with
  | none => none
  | some (bank1, res) =>
    match TermCollectVariables fuel bank1 def_atom [] with
    | none => none
    | some vars => some (TFormulaAddQuantors bank1 res true vars)

/-- The variable `v` occurs in the term `t`: a variable node is an occurrence
of itself, an application passes on the occurrences in its arguments. -/
inductive VarOcc (bank : TB) (v : TermRef) : TermRef → Prop where
  | var : TermIsVar (bank.cell v) = true → VarOcc bank v v
  | arg (term a : TermRef) :
      TermIsVar (bank.cell term) = false → some a ∈ (bank.cell term).args →
      VarOcc bank v a → VarOcc bank v term

/-! ## Printing formulas (`CLAUSES/ccl_tformulae.c`) -/

/-- Modelled from the spec: the macro `TFormulaIsUnary` (header
`ccl_tformulae.h`, not part of the sources at hand); the connectives have
"the declared arity (1 for negation, 2 otherwise)". -/
def TFormulaIsUnary (form : TermCell) : Bool := form.arity == 1

/-- The printers of literals, terms and types that `TFormulaTPTPPrint()` calls.
They are defined in modules that are not part of the sources at hand and are
parameters here; each one returns the text it writes to the stream. -/
structure TermPrinters where
  EqnFOFPrint : TB → Eqn → Bool → Bool → Bool → String
  TermPrint : TB → TermRef → DerefType → String
  TypePrintTSTP : TB → Option Type_p → String
  TypeIsIndividual : Option Type_p → Bool

/-- The statements of `TFormulaTPTPPrint()` that print the variable bound by the
quantifier node `form` (they occur before and inside its `while` loop): the
variable, followed by `:` and its type in higher-order mode or when the type
is not the type of individuals. -/
def TFormulaTPTPPrint_var (P : TermPrinters) (problemType : ProblemType) (bank : TB)
    (form : TermRef) : Option String :=
  match bank.arg form 0 with
  | none => none
  | some v =>
    some (P.TermPrint bank v DEREF_NEVER ++
      (if problemType == ProblemType.PROBLEM_HO || !P.TypeIsIndividual (bank.cell v).type then
        ":" ++ P.TypePrintTSTP bank (bank.cell v).type
      else ""))

/-- The loop `while(form->args[1]->f_code == quantifier)` of
`TFormulaTPTPPrint()`: the last quantifier node reached and the text written
so far. -/
def TFormulaTPTPPrint_vars (P : TermPrinters) (problemType : ProblemType) (bank : TB)
    (quantifier : FunCode) : Nat → TermRef → String → Option (TermRef × String)
  | 0, form, out =>
    match bank.arg form 1 with
    | none => none
    | some a1 => if (bank.cell a1).f_code == quantifier then none else some (form, out)
  | fuel + 1, form, out =>
    match bank.arg form 1 with
    | none => none
    | some a1 =>
      if (bank.cell a1).f_code == quantifier then
        match TFormulaTPTPPrint_var P problemType bank a1 with
        | none => none
        | some s => TFormulaTPTPPrint_vars P problemType bank quantifier fuel a1 (out ++ ", " ++ s)
      else some (form, out)

mutual
/-- The function `tformula_print_or_chain()`; the result is the text written. -/
def tformula_print_or_chain (P : TermPrinters) (problemType : ProblemType) :
    Nat → TB → TermRef → Bool → Bool → Option String
  | 0, _, _, _, _ => none
  | fuel + 1, bank, form, fullterms, pcl =>
    if (bank.cell form).f_code ≠ bank.sig.or_code then
      TFormulaTPTPPrint P problemType fuel bank form fullterms pcl
    else
      match bank.arg form 0, bank.arg form 1 with
      | some a0, some a1 =>
        (tformula_print_or_chain P problemType fuel bank a0 fullterms pcl).bind fun s0 =>
        (TFormulaTPTPPrint P problemType fuel bank a1 fullterms pcl).bind fun s1 =>
        some (s0 ++ "|" ++ s1)
      | _, _ => none
/-- The function `TFormulaTPTPPrint()`; the result is the text written.  The
global `problemType` is passed explicitly. -/
def TFormulaTPTPPrint (P : TermPrinters) (problemType : ProblemType) :
    Nat → TB → TermRef → Bool → Bool → Option String
  | 0, _, _, _, _ => none
  | fuel + 1, bank, form, fullterms, pcl =>
    if TFormulaIsLiteral bank.sig (bank.cell form) then
      match bank.arg form 0, bank.arg form 1 with
      | some l, some r =>
        some (P.EqnFOFPrint bank (EqnAlloc l r true)
          ((bank.cell form).f_code == bank.sig.neqn_code) fullterms pcl)
      | _, _ => none
    else if TFormulaIsQuantified bank.sig (bank.cell form) then
      let quantifier := (bank.cell form).f_code
      let out := if (bank.cell form).f_code == bank.sig.qex_code then "?["
        else if (bank.cell form).f_code == bank.sig.qall_code then "!["
        else "^["
      match TFormulaTPTPPrint_var P problemType bank form with
      | none => none
      | some s =>
        match TFormulaTPTPPrint_vars P problemType bank quantifier fuel form (out ++ s) with
        | none => none
        | some (form1, out1) =>
          match bank.arg form1 1 with
          | none => none
          | some body =>
            (TFormulaTPTPPrint P problemType fuel bank body fullterms pcl).bind fun sb =>
            some (out1 ++ "]:" ++ sb)
    else if TFormulaIsUnary (bank.cell form) then
      match bank.arg form 0 with
      | none => none
      | some a0 =>
        (TFormulaTPTPPrint P problemType fuel bank a0 fullterms pcl).bind fun s =>
        some ("~(" ++ s ++ ")")
    else
      if (bank.cell form).f_code == bank.sig.or_code then
        (tformula_print_or_chain P problemType fuel bank form fullterms pcl).bind fun s =>
        some ("(" ++ s ++ ")")
      else
        match bank.arg form 0, bank.arg form 1 with
        | some a0, some a1 =>
          (TFormulaTPTPPrint P problemType fuel bank a0 fullterms pcl).bind fun s0 =>
          let oprep :=
            if (bank.cell form).f_code == bank.sig.and_code then "&"
            else if (bank.cell form).f_code == bank.sig.or_code then "|"
            else if (bank.cell form).f_code == bank.sig.impl_code then "=>"
            else if (bank.cell form).f_code == bank.sig.equiv_code then "<=>"
            else if (bank.cell form).f_code == bank.sig.nand_code then "~&"
            else if (bank.cell form).f_code == bank.sig.nor_code then "~|"
            else if (bank.cell form).f_code == bank.sig.bimpl_code then "<="
            else if (bank.cell form).f_code == bank.sig.xor_code then "<~>"
            else "XXX"
          (TFormulaTPTPPrint P problemType fuel bank a1 fullterms pcl).bind fun s1 =>
          some ("(" ++ s0 ++ oprep ++ s1 ++ ")")
        | _, _ => none
end

/-- The TPTP spelling of a binary connective other than disjunction, in the
words of the specification. -/
def tptpOperator (sig : Sig) (op : FunCode) : Option String :=
  if op = sig.and_code then some "&"
  else if op = sig.impl_code then some "=>"
  else if op = sig.equiv_code then some "<=>"
  else if op = sig.nand_code then some "~&"
  else if op = sig.nor_code then some "~|"
  else if op = sig.bimpl_code then some "<="
  else if op = sig.xor_code then some "<~>"
  else none

/-- The text of a bound variable in a quantifier list: its name, with `:` and
its type in higher-order mode or for a type other than individuals. -/
def tptpVarText (P : TermPrinters) (problemType : ProblemType) (bank : TB) (x : TermRef) :
    String :=
  P.TermPrint bank x DEREF_NEVER ++
    (if problemType == ProblemType.PROBLEM_HO || !P.TypeIsIndividual (bank.cell x).type then
      ":" ++ P.TypePrintTSTP bank (bank.cell x).type
    else "")

/-- The TPTP text of a formula node, in the words of the specification.
`TPTPText false form s`: the formula `form` is written as `s`.
`TPTPText true form s`: `s` is the flat text of the disjunction chain `form`,
without the enclosing parentheses. -/
inductive TPTPText (P : TermPrinters) (problemType : ProblemType) (bank : TB)
    (fullterms pcl : Bool) : Bool → TermRef → String → Prop where
  | literal (form l r : TermRef) :
      TFormulaIsLiteral bank.sig (bank.cell form) = true →
      (bank.cell form).args = [some l, some r] →
      TPTPText P problemType bank fullterms pcl false form
        (P.EqnFOFPrint bank ⟨l, r, true⟩ ((bank.cell form).f_code == bank.sig.neqn_code)
          fullterms pcl)
  | binary (form a b : TermRef) (s sa sb : String) :
      tptpOperator bank.sig (bank.cell form).f_code = some s →
      (bank.cell form).arity = 2 → (bank.cell form).args = [some a, some b] →
      TPTPText P problemType bank fullterms pcl false a sa →
      TPTPText P problemType bank fullterms pcl false b sb →
      TPTPText P problemType bank fullterms pcl false form ("(" ++ sa ++ s ++ sb ++ ")")
  | disjunction (form a b : TermRef) (sa sb : String) :
      (bank.cell form).f_code = bank.sig.or_code →
      (bank.cell form).arity = 2 → (bank.cell form).args = [some a, some b] →
      TPTPText P problemType bank fullterms pcl true a sa →
      TPTPText P problemType bank fullterms pcl false b sb →
      TPTPText P problemType bank fullterms pcl false form ("(" ++ (sa ++ "|" ++ sb) ++ ")")
  | chain_end (form : TermRef) (s : String) :
      (bank.cell form).f_code ≠ bank.sig.or_code →
      TPTPText P problemType bank fullterms pcl false form s →
      TPTPText P problemType bank fullterms pcl true form s
  | chain_or (form a b : TermRef) (sa sb : String) :
      (bank.cell form).f_code = bank.sig.or_code →
      (bank.cell form).args = [some a, some b] →
      TPTPText P problemType bank fullterms pcl true a sa →
      TPTPText P problemType bank fullterms pcl false b sb →
      TPTPText P problemType bank fullterms pcl true form (sa ++ "|" ++ sb)
  | negation (form a : TermRef) (s : String) :
      (bank.cell form).f_code = bank.sig.not_code →
      (bank.cell form).arity = 1 → (bank.cell form).args = [some a] →
      TPTPText P problemType bank fullterms pcl false a s →
      TPTPText P problemType bank fullterms pcl false form ("~(" ++ s ++ ")")
  | quantified (form : TermRef) (q : FunCode) (x : TermRef) (xs : List TermRef)
      (body : TermRef) (sb : String) :
      q = bank.sig.qall_code ∨ q = bank.sig.qex_code →
      QuantChain bank q (x :: xs) body form → (bank.cell body).f_code ≠ q →
      TPTPText P problemType bank fullterms pcl false body sb →
      TPTPText P problemType bank fullterms pcl false form
        (xs.foldl (fun out y => out ++ ", " ++ tptpVarText P problemType bank y)
            ((if q = bank.sig.qall_code then "![" else "?[") ++
              tptpVarText P problemType bank x) ++
          "]:" ++ sb)

/-! ## The minimum heap (`BASICS/clb_min_heap.c`) -/

/-- The union `IntOrP`: one machine word, read as `i_val` or as `p_val`. -/
abbrev IntOrP := Int

/-- The type `PStackPointer`, a `long`. -/
abbrev PStackPointer := Int

/-- Modelled from the spec: the pointer stack of `clb_pstacks.h`, an external
collaborator that is not part of the sources at hand; it is modelled by the
way `clb_min_heap.c` uses it.  `stack` is the backing array with all the
memory the stack ever uses, including the slots at and above the stack
pointer `current`, whose contents C leaves as they are (uninitialised after
the allocation, stale after a pop). -/
structure PStack where
  stack : List IntOrP
  current : Nat
deriving DecidableEq, Repr

/-- Modelled from the spec: `PStackAlloc`, the empty stack; `mem` is what the
freshly allocated memory happens to hold. -/
def PStackAlloc (mem : List IntOrP) : PStack := { stack := mem, current := 0 }

/-- Modelled from the spec: `PStackGetSP`, the stack pointer (the number of
elements). -/
def PStackGetSP (s : PStack) : PStackPointer := s.current

/-- Modelled from the spec: `push` stores the value at the stack pointer and
increments it; there is no result when the memory is exhausted. -/
def push (s : PStack) (val : IntOrP) : Option PStack :=
  if s.current < s.stack.length then
    some { stack := s.stack.set s.current val, current := s.current + 1 }
  else none

/-- Modelled from the spec: `PStackPop` decrements the stack pointer and
returns the slot it then points to; popping the empty stack has no result. -/
def PStackPop (s : PStack) : Option (PStack × IntOrP) :=
  match s.current with
  | 0 => none
  | n + 1 =>
    match s.stack[n]? with
    | none => none
    | some v => some ({ s with current := n }, v)

/-- Modelled from the spec: reading `*PStackElementRef(stack, pos)`.  The bound
`pos < current` is an assertion of the header only, so a slot above the stack
pointer is read as it is; an address outside the array has no result. -/
def PStackElementRef (s : PStack) (pos : PStackPointer) : Option IntOrP :=
  if 0 ≤ pos then s.stack[pos.toNat]? else none

/-- Modelled from the spec: the assignment `*PStackElementRef(stack, pos) = val`. -/
def PStackElementAssign (s : PStack) (pos : PStackPointer) (val : IntOrP) : Option PStack :=
  if 0 ≤ pos ∧ pos.toNat < s.stack.length then
    some { s with stack := s.stack.set pos.toNat val }
  else none

/-- The structure `struct MinHeap`.  `setter` says whether a setter function
is installed (it is NULL otherwise); `calls` records the calls made to it,
each with the element and the index passed. -/
structure MinHeap where
  arr : PStack
  cmp : IntOrP → IntOrP → Int
  setter : Bool
  calls : List (IntOrP × PStackPointer)

/-- The macro `CALL_SETTER(h, el, idx)`. -/
def CALL_SETTER (h : MinHeap) (el : IntOrP) (idx : PStackPointer) : MinHeap :=
  if h.setter then { h with calls := h.calls ++ [(el, idx)] } else h

/-- The macro `PARENT(idx)`; `/` of C truncates. -/
def PARENT (idx : PStackPointer) : PStackPointer := Int.tdiv (idx - 1) 2

/-- The macro `IS_ROOT(idx)`. -/
def IS_ROOT (idx : PStackPointer) : Bool := decide (idx ≤ 0)

/-- The macro `LEFT(idx)`. -/
def LEFT (idx : PStackPointer) : PStackPointer := 2 * idx + 1

/-- The macro `RIGHT(idx)`. -/
def RIGHT (idx : PStackPointer) : PStackPointer := LEFT idx + 1

/-- The macro `IS_LEAF(idx, size)`. -/
def IS_LEAF (idx size : PStackPointer) : Bool := decide (LEFT idx ≥ size)

/-- The statement `SWAP(*a_ref, *b_ref)` on two slots of the array. -/
def SWAP (s : PStack) (a b : PStackPointer) : Option PStack :=
  match PStackElementRef s a, PStackElementRef s b with
  | some va, some vb => (PStackElementAssign s a vb).bind (fun s1 => PStackElementAssign s1 b va)
  | _, _ => none

/-- The function `bubble_up()`; one unit of fuel per iteration of the loop. -/
def bubble_up : Nat → MinHeap → PStackPointer → Option MinHeap
  | 0, h, child_idx => if IS_ROOT child_idx then some h else none
  | fuel + 1, h, child_idx =>
    if IS_ROOT child_idx then some h
    else
      let parent_idx := PARENT child_idx
      match PStackElementRef h.arr child_idx, PStackElementRef h.arr parent_idx with
      | some child, some parent =>
        if h.cmp child parent < 0 then
          match SWAP h.arr child_idx parent_idx with
          | none => none
          | some arr =>
            let h := { h with arr := arr }
            let h := CALL_SETTER h parent parent_idx
            let h := CALL_SETTER h child child_idx
            bubble_up fuel h parent_idx
        else bubble_up fuel h 0
      | _, _ => none

/-- The function `drop_down()`; one unit of fuel per iteration of the loop.
The assignment `min_c_idx = size` of the last branch changes a variable that
is set anew at the start of the next iteration, so the loop goes on from the
same state. -/
def drop_down_loop (size : PStackPointer) : Nat → MinHeap → PStackPointer → Option MinHeap
  | 0, h, curr_idx => if IS_LEAF curr_idx size then some h else none
  | fuel + 1, h, curr_idx =>
    if IS_LEAF curr_idx size then some h
    else
      let l := LEFT curr_idx
      let r := RIGHT curr_idx
      match PStackElementRef h.arr curr_idx, PStackElementRef h.arr l with
      | some vc, some vl =>
        let min_c_idx : Option PStackPointer :=
          if h.cmp vc vl < 0 then some l
          else if r < size then
            match PStackElementRef h.arr r with
            | some vr => if h.cmp vc vr < 0 then some r else some curr_idx
            | none => none
          else some curr_idx
        match min_c_idx with
        | none => none
        | some min_c_idx =>
          if min_c_idx ≠ curr_idx then
            match PStackElementRef h.arr min_c_idx, SWAP h.arr min_c_idx curr_idx with
            | some vchild, some arr =>
              let h := { h with arr := arr }
              let h := CALL_SETTER h vchild min_c_idx
              let h := CALL_SETTER h vc curr_idx
              drop_down_loop size fuel h min_c_idx
            | _, _ => none
          else drop_down_loop size fuel h curr_idx
      | _, _ => none

/-- The function `drop_down()`. -/
def drop_down (fuel : Nat) (h : MinHeap) (curr_idx : PStackPointer) : Option MinHeap :=
  drop_down_loop (PStackGetSP h.arr) fuel h curr_idx

/-- The function `add()`. -/
def add (fuel : Nat) (h : MinHeap) (key : IntOrP) : Option MinHeap :=
  match push h.arr key with
  | none => none
  | some arr =>
    let h := { h with arr := arr }
    let h := CALL_SETTER h key (PStackGetSP h.arr)
    bubble_up fuel h (PStackGetSP h.arr)

/-- The function `MinHeapAllocWithIndex()`; `mem` is the content of the memory
that the new stack gets. -/
def MinHeapAllocWithIndex (mem : List IntOrP) (cmp : IntOrP → IntOrP → Int) (setter : Bool) :
    MinHeap :=
  { arr := PStackAlloc mem, cmp := cmp, setter := setter, calls := [] }

/-- The macro `MinHeapAlloc(f)`. -/
def MinHeapAlloc (mem : List IntOrP) (f : IntOrP → IntOrP → Int) : MinHeap :=
  MinHeapAllocWithIndex mem f false

/-- The function `MinHeapSize()`. -/
def MinHeapSize (h : MinHeap) : Int := PStackGetSP h.arr

/-- The function `MinHeapAddP()`. -/
def MinHeapAddP (fuel : Nat) (h : MinHeap) (p : IntOrP) : Option MinHeap := add fuel h p

/-- The function `MinHeapAddInt()`. -/
def MinHeapAddInt (fuel : Nat) (h : MinHeap) (i : IntOrP) : Option MinHeap := add fuel h i

/-- The function `MinHeapPopMax()`: the heap after the call and the value
returned. -/
def MinHeapPopMax (fuel : Nat) (h : MinHeap) : Option (MinHeap × IntOrP) :=
  match PStackPop h.arr with
  | none => none
  | some (arr, ret_val) =>
    let h := { h with arr := arr }
    let h1 : Option MinHeap :=
      if MinHeapSize h ≠ 0 then
        (PStackElementAssign h.arr 0 ret_val).map (fun arr => { h with arr := arr })
      else some h
    match h1 with
    | none => none
    | some h => (drop_down fuel h 0).map (fun h => (h, ret_val))

/-- The function `MinHeapDecrKey()`. -/
def MinHeapDecrKey (fuel : Nat) (h : MinHeap) (idx : PStackPointer) : Option MinHeap :=
  drop_down fuel h idx

/-- The function `MinHeapIncrKey()`. -/
def MinHeapIncrKey (fuel : Nat) (h : MinHeap) (idx : PStackPointer) : Option MinHeap :=
  bubble_up fuel h idx

/-- The elements stored in the heap: the slots below the stack pointer. -/
def MinHeap.elements (h : MinHeap) : List IntOrP := h.arr.stack.take h.arr.current

/-- The smallest value of a `long`. -/
def LONG_MIN : Int := -9223372036854775808

/-- A comparison function for heaps of integers: negative, zero or positive as
the first `i_val` is smaller than, equal to or greater than the second. -/
def IntOrPCmpInt (a b : IntOrP) : Int := if a < b then -1 else if b < a then 1 else 0

/-! ## Precedence generation methods (`HEURISTICS/che_to_precgen.c`) -/

/-- The table `TOPrecGenNames`; the terminating NULL is the end of the list. -/
def TOPrecGenNames : List String :=
  ["none", "unary_first", "unary_freq", "arity", "invarity", "const_max", "const_min", "freq",
   "invfreq", "invconjfreq", "invfreqconjmax", "invfreqconjmin", "invfreqconstmin",
   "invfreqhack", "arrayopt", "orient_axioms"]

/-- Modelled from the spec: the enumeration `TOPrecGenMethod` of the header
`che_to_precgen.h` (not part of the sources at hand), an integer type. -/
abbrev TOPrecGenMethod := Int

/-- Modelled from the spec: the enumerator `PNoMethod`, the first one, as the
comments of the table `TOPrecGenNames` list them. -/
def PNoMethod : TOPrecGenMethod := 0

/-- Modelled from the spec: the loop of `StringIndex` (module `clb_simple_stuff`,
not part of the sources at hand) from position `i` on. -/
def StringIndex_loop (key : String) : List String → Int → Int
  | [], _ => -1
  | s :: rest, i => if key = s then i else StringIndex_loop key rest (i + 1)

/-- Modelled from the spec: `StringIndex(key, list)` returns the position of the
first entry of the NULL-terminated array that equals `key`, and `-1` when
there is none (the value that `TOTranslatePrecGenMethod` tests for). -/
def StringIndex (key : String) (list : List String) : Int := StringIndex_loop key list 0

/-- The function `TOTranslatePrecGenMethod()`. -/
def TOTranslatePrecGenMethod (name : String) : TOPrecGenMethod :=
  let method := StringIndex name TOPrecGenNames
  if method = -1 then PNoMethod else method

/-! ## Subformulas visited by the polarity scan -/

/-- The node `x` is `form` or a subformula of `form` that is reached from it
through first arguments of conjunctions, disjunctions, negations, implications
and equivalences and through second arguments of conjunctions, disjunctions,
implications, equivalences and quantifiers, never passing through a
literal. -/
inductive PolarityReach (bank : TB) : TermRef → TermRef → Prop where
  | root (form : TermRef) : PolarityReach bank form form
  | arg0 (form a x : TermRef) :
      TFormulaIsLiteral bank.sig (bank.cell form) = false →
      (bank.cell form).f_code ∈ [bank.sig.and_code, bank.sig.or_code, bank.sig.not_code,
        bank.sig.impl_code, bank.sig.equiv_code] →
      bank.arg form 0 = some a → PolarityReach bank a x → PolarityReach bank form x
  | arg1 (form a x : TermRef) :
      TFormulaIsLiteral bank.sig (bank.cell form) = false →
      (bank.cell form).f_code ∈ [bank.sig.and_code, bank.sig.or_code, bank.sig.impl_code,
        bank.sig.qex_code, bank.sig.qall_code, bank.sig.equiv_code] →
      bank.arg form 1 = some a → PolarityReach bank a x → PolarityReach bank form x

/-! ## The named property flags -/

/-- The named values of `enum TermProperties` other than `TPIgnoreProps`, in
the order of their declaration. -/
def TermPropertiesFlags : List TermProperties :=
  [TPRestricted, TPTopPos, TPIsGround, TPPredPos, TPIsRewritable, TPIsRRewritable,
   TPIsSOSRewritten, TPSpecialFlag, TPOpFlag, TPCheckFlag, TPOutputFlag, TPIsSpecialVar,
   TPIsRewritten, TPIsRRewritten, TPIsShared, TPGarbageFlag, TPIsFreeVar, TPPotentialParamod,
   TPPosPolarity, TPNegPolarity, TPIsDerefedAppVar, TPIsBetaReducible, TPIsEtaReducible,
   TPIsDBVar, TPHasLambdaSubterm, TPHasEtaExpandableSubterm, TPHasDBSubterm,
   TPHasNonPatternVar, TPHasAppVar, TPHasEqNeqSym, TPHasBoolSubterm]

/-! ## Negation of formulas (`CLAUSES/ccl_tformulae.c`) -/

/-- Modelled from the spec: the macro `SigGetOtherEqnCode` (header
`cte_signature.h`, not part of the sources at hand) returns the reserved code
of the other equation symbol: the equation code for the negated-equation
code, and the negated-equation code otherwise. -/
def SigGetOtherEqnCode (sig : Sig) (f_code : FunCode) : FunCode :=
  if f_code = sig.neqn_code then sig.eqn_code else sig.neqn_code

/-- The function `TFormulaNegate()`.  Following a NULL first argument pointer of
a literal fails. -/
def TFormulaNegate (form : TermRef) (terms : TB) : Option (TB × TermRef) :=
  if TFormulaIsLiteral terms.sig (terms.cell form) then
    let f_code := SigGetOtherEqnCode terms.sig (terms.cell form).f_code
    match terms.arg form 0 with
    | none => none
    | some a0 => some (TFormulaFCodeAlloc terms f_code a0 (terms.arg form 1))
  else
    some (TFormulaFCodeAlloc terms terms.sig.not_code form none)

/-! ## Internal equation codes -/

/-- The two equation codes are internal symbols of the signature: not
negative, at most `internal_symbols`, and different from the codes of
`$true`, of `$false` and of the application marker. -/
def Sig.EqnCodesInternal (sig : Sig) : Prop :=
  ∀ c ∈ [sig.eqn_code, sig.neqn_code],
    0 ≤ c ∧ c ≤ sig.internal_symbols ∧ c ≠ sig.SIG_TRUE_CODE ∧ c ≠ sig.SIG_FALSE_CODE ∧
      c ≠ sig.SIG_PHONY_APP_CODE

instance (sig : Sig) : Decidable sig.EqnCodesInternal := by
  unfold Sig.EqnCodesInternal; infer_instance

/-! ## Sort keys of the precedence generators (`HEURISTICS/che_to_precgen.c`) -/

/-- Modelled from the spec: one cell of the array behind `FCodeFeatureArray_p`
(header `che_fcode_featurearrays.h`, not part of the sources at hand), with
the fields that the precedence generators read and write: the three sort
keys, the number of occurrences of the symbol in the specification and in
the conjectures, and the symbol. -/
structure FCodeFeatureSortCell where
  key1 : Int
  key2 : Int
  key3 : Int
  freq : Int
  conjfreq : Int
  symbol : FunCode
deriving DecidableEq, Repr, Inhabited

/-- The loop `for(i=1; i<= ocb->sig->f_count; i++)` of the precedence
generators: `body i` is applied to `array->array[i]`. -/
def forSymbols (f_count : Nat) (body : Nat → FCodeFeatureSortCell → FCodeFeatureSortCell)
    (array : List FCodeFeatureSortCell) : List FCodeFeatureSortCell :=
  (List.range f_count).foldl
    (fun array k => array.set (k + 1) (body (k + 1) (array.getD (k + 1) default))) array

/-- The function `generate_invfreq_conjmax_precedence()` up to the call of
`FCodeFeatureArraySort`: the keys it gives to the array that
`FCodeFeatureArrayAlloc` returned.  `f_count` is `ocb->sig->f_count`. -/
def generate_invfreq_conjmax_precedence (sig : Sig) (f_count : Nat)
    (array : List FCodeFeatureSortCell) : List FCodeFeatureSortCell :=
  forSymbols f_count
    (fun i c => { c with
      key1 := if c.conjfreq ≠ 0 then 1 else 0
      key2 := -c.freq
      key3 := SigFindArity sig i }) array

/-- The function `generate_invfreq_conjmin_precedence()` up to the call of
`FCodeFeatureArraySort`: the keys it gives to the array that
`FCodeFeatureArrayAlloc` returned.  `f_count` is `ocb->sig->f_count`. -/
def generate_invfreq_conjmin_precedence (sig : Sig) (f_count : Nat)
    (array : List FCodeFeatureSortCell) : List FCodeFeatureSortCell :=
  forSymbols f_count
    (fun i c => { c with
      key1 := if c.conjfreq ≠ 0 then 0 else 1
      key2 := -c.freq
      key3 := SigFindArity sig i }) array

/-! ## Parsing heads and applications (`CLAUSES/ccl_tformulae.c`) -/

/-- Modelled from the spec: the error classes of `clb_error.h` (not part of the
sources at hand) that the sources at hand pass to `Error`. -/
inductive ErrorCodes where
  | SYNTAX_ERROR
  | OTHER_ERROR
deriving DecidableEq, Repr

/-- Modelled from the spec: what a call of `Error(message, code)` reports.  The
call does not return ("fatal to the current parse"); a function that may
call it returns `Except SysError`. -/
structure SysError where
  message : String
  code : ErrorCodes
deriving DecidableEq, Repr

/-- The function `make_head()`.  `SigFindFCode` and `SigGetType` belong to the
module `cte_signature`, which is not part of the sources at hand, and are
parameters. -/
def make_head (SigFindFCode : Sig → String → FunCode)
    (SigGetType : Sig → FunCode → Option Type_p) (sig : Sig) (f_name : String) :
    Except SysError TermCell :=
  let head := TermDefaultCellAlloc
  let head := { head with f_code := SigFindFCode sig f_name }
  if head.f_code = 0 then
    Except.error
      ⟨"Function symbol " ++ f_name ++ " has not been defined previously.",
        ErrorCodes.SYNTAX_ERROR⟩
  else
    let head := { head with arity := 0 }
    let head := { head with type := SigGetType sig head.f_code }
    Except.ok head

/-- The scanner and the functions of other modules that
`applied_tform_tstp_parse()` calls; none of them is part of the sources at
hand, they are parameters.  `TestInpTok s` is `TestInpTok(in, Application)`
and `AcceptInpTok s` is `AcceptInpTok(in, Application)`, which is only called
after the test succeeded.  `literal_tform_tstp_parse` is the parser of one
argument, which reads from the scanner and may report an error;
`SigQueryFuncProp` is the query for the property `FPFOFOp`. -/
structure TermParsers (Scanner : Type) where
  TestInpTok : Scanner → Bool
  AcceptInpTok : Scanner → Scanner
  literal_tform_tstp_parse : Scanner → TB → Except SysError (Scanner × TB × TermRef)
  GetHeadType : TB → TermRef → Option Type_p
  TypeGetMaxArity : Option Type_p → Int
  SigQueryFuncProp : Sig → FunCode → Bool

/-- The loop `for(i = 0; i < n; i++) args[off + i] = src[i]`. -/
def copyArgs (n off : Nat) (src : Nat → Option TermRef) (args : List (Option TermRef)) :
    List (Option TermRef) :=
  (List.range n).foldl (fun args i => args.set (off + i) (src i)) args

/-- The function `normalize_head()`.  `rest_args` is the array of the applied
arguments, of which the first `rest_arity` slots are filled; a slot outside
the array reads as NULL.  A cell that is not handed to the bank gets a fresh
address of its own. -/
def normalize_head (ENABLE_LFHO : Bool) (head : TermRef) (rest_args : List (Option TermRef))
    (rest_arity : Nat) (bank : TB) : TB × TermRef :=
  let hc := bank.cell head
  if rest_arity = 0 then
    if !TermIsVar hc && !TermIsShared hc then TBTermTopInsert bank hc else (bank, head)
  else
    let total_arity := (if TermIsLambda ENABLE_LFHO bank.sig hc then 0 else hc.arity) + rest_arity
    let res : TermCell :=
      if TermIsVar hc || TermIsLambda ENABLE_LFHO bank.sig hc then
        let total_arity := total_arity + 1
        let res := TermDefaultCellArityAlloc total_arity
        let res := { res with f_code := bank.sig.SIG_PHONY_APP_CODE }
        let res := { res with args := res.args.set 0 (some head) }
        { res with args := copyArgs (total_arity - 1) 1 (fun i => rest_args.getD i none) res.args }
      else
        let res := TermDefaultCellArityAlloc total_arity
        let res := { res with f_code := hc.f_code }
        let res := { res with args := copyArgs hc.arity 0 (fun i => hc.args.getD i none) res.args }
        { res with
          args := copyArgs rest_arity hc.arity (fun i => rest_args.getD i none) res.args }
    if !TermIsVar res && !TermIsShared res then TBTermTopInsert bank res
    else ({ bank with cells := bank.cells ++ [res] }, bank.cells.length)

/-- The `while(TestInpTok(in, Application))` loop of
`applied_tform_tstp_parse()`; one unit of fuel per iteration.  The state is the
scanner, the bank, the array `args` and the counter `i`. -/
def applied_tform_tstp_parse_loop {Scanner : Type} (P : TermParsers Scanner)
    (problemType : ProblemType) (max_args : Int) (head_is_logical : Bool) :
    Nat → Scanner → TB → List (Option TermRef) → Nat →
      Option (Except SysError (Scanner × TB × List (Option TermRef) × Nat))
  | 0, inp, terms, args, i =>
    if P.TestInpTok inp then none else some (Except.ok (inp, terms, args, i))
  | fuel + 1, inp, terms, args, i =>
    if P.TestInpTok inp then
      if (i : Int) ≥ max_args then
        some (Except.error ⟨" Too many arguments applied to the symbol",
          ErrorCodes.SYNTAX_ERROR⟩)
      else
        match P.literal_tform_tstp_parse (P.AcceptInpTok inp) terms with
        | Except.error e => some (Except.error e)
        | Except.ok (inp1, terms1, arg) =>
          let enc := if head_is_logical then EncodePredicateAsEqn problemType terms1 arg
            else (terms1, arg)
          applied_tform_tstp_parse_loop P problemType max_args head_is_logical fuel inp1 enc.1
            (args.set i (some enc.2)) (i + 1)
    else some (Except.ok (inp, terms, args, i))

/-- The function `applied_tform_tstp_parse()`: the scanner and the bank after
the call and the node returned, or the error reported. -/
def applied_tform_tstp_parse {Scanner : Type} (P : TermParsers Scanner) (ENABLE_LFHO : Bool)
    (problemType : ProblemType) (fuel : Nat) (inp : Scanner) (terms : TB) (head : TermRef) :
    Option (Except SysError (Scanner × TB × TermRef)) :=
  let hd_type := P.GetHeadType terms head
  let max_args := P.TypeGetMaxArity hd_type
  let args : List (Option TermRef) := List.replicate max_args.toNat none
  let head_is_logical :=
    !TermIsVar (terms.cell head) && P.SigQueryFuncProp terms.sig (terms.cell head).f_code
  match applied_tform_tstp_parse_loop P problemType max_args head_is_logical fuel inp terms
      args 0 with
  | none => none
  | some (Except.error e) => some (Except.error e)
  | some (Except.ok (inp1, terms1, args1, i)) =>
    let res := normalize_head ENABLE_LFHO head args1 i terms1
    let res := EncodePredicateAsEqn problemType res.1 res.2
    some (Except.ok (inp1, res.1, res.2))

/-- The input, in the words of the claim: the scanner `inp` stands before the
`@`-applied arguments listed, each of which the argument parser accepts, and
no further `@` follows.  The list holds the nodes stored for the arguments
(encoded as equations when the head is a logical symbol); `inp2` and `terms2`
are the scanner and the bank after the last argument. -/
inductive AppliedArgs {Scanner : Type} (P : TermParsers Scanner) (problemType : ProblemType)
    (head_is_logical : Bool) : Scanner → TB → List TermRef → Scanner → TB → Prop where
  | done (inp : Scanner) (terms : TB) :
      P.TestInpTok inp = false → AppliedArgs P problemType head_is_logical inp terms [] inp terms
  | next (inp : Scanner) (terms : TB) (inp1 : Scanner) (terms1 : TB) (arg : TermRef)
      (rest : List TermRef) (inp2 : Scanner) (terms2 : TB) :
      P.TestInpTok inp = true →
      P.literal_tform_tstp_parse (P.AcceptInpTok inp) terms = Except.ok (inp1, terms1, arg) →
      AppliedArgs P problemType head_is_logical inp1
        (if head_is_logical then EncodePredicateAsEqn problemType terms1 arg
          else (terms1, arg)).1 rest inp2 terms2 →
      AppliedArgs P problemType head_is_logical inp terms
        ((if head_is_logical then EncodePredicateAsEqn problemType terms1 arg
          else (terms1, arg)).2 :: rest) inp2 terms2

/-- The array `args` after the nodes listed have been stored from index `i`
upwards. -/
def storeArgs : List (Option TermRef) → Nat → List TermRef → List (Option TermRef)
  | args, _, [] => args
  | args, i, a :: rest => storeArgs (args.set i (some a)) (i + 1) rest

/-! ## Flattened quantifier prefixes -/

/-- The flattened prefix of a chain of quantifiers with the code `q`, in the
words of the claim: `![` for the universal and `?[` for the existential
quantifier, then the bound variables `x`, `xs` in outer-to-inner order,
separated by `, `. -/
def tptpPrefix (P : TermPrinters) (problemType : ProblemType) (bank : TB) (q : FunCode)
    (x : TermRef) (xs : List TermRef) : String :=
  xs.foldl (fun out y => out ++ ", " ++ tptpVarText P problemType bank y)
    ((if q = bank.sig.qall_code then "![" else "?[") ++ tptpVarText P problemType bank x)

/-! ## Testing one variable for freeness (`CLAUSES/ccl_tformulae.c`) -/

/-- The loop `for(i=0; i<arity; i++) { res = f(args[i]); if(res) break; }`
over the argument slots listed; following a NULL pointer fails. -/
def anyArg (f : TermRef → Option Bool) : List (Option TermRef) → Option Bool
  | [] => some false
  | none :: _ => none
  | some a :: rest =>
    match f a with
    | none => none
    | some true => some true
    | some false => anyArg f rest

/-- Modelled from the spec: `TBTermIsSubterm(super, term)` (module
`cte_termbanks`, not part of the sources at hand) tells whether the shared
node `term` is `super` or occurs in one of its arguments, by identity of
nodes. -/
def TBTermIsSubterm : Nat → TB → TermRef → TermRef → Option Bool
  | 0, _, _, _ => none
  | fuel + 1, bank, super, term =>
    if super = term then some true
    else
      anyArg (fun a => TBTermIsSubterm fuel bank a term)
        ((bank.cell super).args.take (bank.cell super).arity)

/-- The function `TFormulaVarIsFree()`. -/
def TFormulaVarIsFree : Nat → TB → TermRef → TermRef → Option Bool
  | 0, _, _, _ => none
  | fuel + 1, bank, form, var =>
    if (bank.cell form).v_count = 0 then some false
    else if TFormulaIsLiteral bank.sig (bank.cell form) then
      TBTermIsSubterm fuel bank form var
    else if (bank.cell form).f_code == bank.sig.qex_code ||
        (bank.cell form).f_code == bank.sig.qall_code then
      if bank.arg form 0 = some var then some false
      else
        match bank.arg form 1 with
        | none => none
        | some a1 => TFormulaVarIsFree fuel bank a1 var
    else
      anyArg (fun a => TFormulaVarIsFree fuel bank a var)
        ((bank.cell form).args.take (bank.cell form).arity)

/-- The codes reserved for the equation symbols, the connectives and the
quantifiers. -/
def Sig.logicalCodes (sig : Sig) : List FunCode :=
  [sig.eqn_code, sig.neqn_code, sig.not_code, sig.and_code, sig.or_code, sig.impl_code,
   sig.bimpl_code, sig.equiv_code, sig.xor_code, sig.nand_code, sig.nor_code, sig.qex_code,
   sig.qall_code]

/-- A formula node: a cell with one of the reserved logical codes. -/
def Sig.isLogical (sig : Sig) (c : TermCell) : Bool := decide (c.f_code ∈ sig.logicalCodes)

/-- A first-order cell, in the words of the amended claim: a variable has no
arguments and counts itself; a cell whose cached variable count is zero has no
argument with variables; no cell is a lambda term; the arguments of a
connective are formula nodes, as is the body of a quantifier; the arguments of
an equation and of a function symbol are terms (no formula nodes). -/
def TermCell.FirstOrder (bank : TB) (c : TermCell) : Prop :=
  (TermIsVar c = true → c.arity = 0 ∧ c.v_count ≠ 0) ∧
  (c.v_count = 0 → ∀ a ∈ c.args, (bank.cellAt a).v_count = 0) ∧
  c.f_code ≠ bank.sig.SIG_NAMED_LAMBDA_CODE ∧ c.f_code ≠ bank.sig.SIG_DB_LAMBDA_CODE ∧
  (if bank.sig.isLogical c && !TFormulaIsLiteral bank.sig c then
    (if TFormulaIsQuantified bank.sig c then
      bank.sig.isLogical (bank.cellAt (c.args.getD 1 none)) = true
    else ∀ a ∈ c.args, bank.sig.isLogical (bank.cellAt a) = true)
  else ∀ a ∈ c.args, bank.sig.isLogical (bank.cellAt a) = false)

instance (bank : TB) (c : TermCell) : Decidable (TermCell.FirstOrder bank c) := by
  unfold TermCell.FirstOrder; infer_instance

/-- A first-order bank: the reserved logical codes are symbol codes (not
negative) and every cell is a first-order cell. -/
def TB.FirstOrder (bank : TB) : Prop :=
  (∀ c ∈ bank.sig.logicalCodes, 0 ≤ c) ∧
  ∀ i, i < bank.cells.length → TermCell.FirstOrder bank (bank.cell i)

instance (bank : TB) : Decidable (TB.FirstOrder bank) := by
  unfold TB.FirstOrder; infer_instance

/-! ## Worked examples

A small signature and bank used to evaluate the definitions.  Symbol codes:
`1` is `$true`, `2` is `$false`, `3`/`4` the equation symbols, `5` to `13` the
connectives, `14`/`15` the quantifiers, `16` to `18` the application and lambda
markers; the user symbols are `p` (`19`), `q` (`20`), the constant `a` (`21`)
and the function symbol `f` (`22`). -/

def demoSig : Sig :=
  { f_info := [⟨0, false⟩, ⟨0, true⟩, ⟨0, true⟩, ⟨2, true⟩, ⟨2, true⟩, ⟨1, false⟩,
               ⟨2, false⟩, ⟨2, false⟩, ⟨2, false⟩, ⟨2, false⟩, ⟨2, false⟩, ⟨2, false⟩,
               ⟨2, false⟩, ⟨2, false⟩, ⟨2, false⟩, ⟨2, false⟩, ⟨0, false⟩, ⟨2, false⟩,
               ⟨2, false⟩, ⟨1, true⟩, ⟨1, true⟩, ⟨0, false⟩, ⟨1, false⟩],
    internal_symbols := 18,
    SIG_TRUE_CODE := 1, SIG_FALSE_CODE := 2,
    eqn_code := 3, neqn_code := 4, not_code := 5, and_code := 6, or_code := 7,
    impl_code := 8, bimpl_code := 9, equiv_code := 10, xor_code := 11,
    nand_code := 12, nor_code := 13, qex_code := 14, qall_code := 15,
    SIG_PHONY_APP_CODE := 16, SIG_NAMED_LAMBDA_CODE := 17, SIG_DB_LAMBDA_CODE := 18,
    type_bank := ⟨1⟩ }

/-- A variable cell as the variable bank hands it out. -/
def demoVar (f_code : FunCode) : TermCell :=
  { TermDefaultCellAlloc with
    f_code := f_code, properties := TPIsShared, type := some 2,
    weight := DEFAULT_VWEIGHT, v_count := 1 }

/-- A shared constant cell. -/
def demoConst (f_code : FunCode) (type : Type_p) : TermCell :=
  { TermDefaultCellAlloc with
    f_code := f_code, properties := TPIsShared, type := some type,
    weight := DEFAULT_FWEIGHT, f_count := 1 }

/-- The bank holding the variables `X` (address 0) and `Y` (address 1), the
constants `$true` (2), `$false` (3) and `a` (4). -/
def demoBank : TB :=
  { sig := demoSig,
    cells := [demoVar (-2), demoVar (-4), demoConst 1 1, demoConst 2 1, demoConst 21 2],
    vars := [0, 1], true_term := 2, false_term := 3 }

/-- A transient cell for the application of a unary symbol to one argument. -/
def demoApp (f_code : FunCode) (type : Type_p) (arg : TermRef) : TermCell :=
  { TermTopAlloc f_code 1 with type := some type, args := [some arg] }

/-- The bank after inserting the atoms `p(X)` (address 5) and `q(Y)` (address 6). -/
def demoAtoms : TB :=
  (TBTermTopInsert (TBTermTopInsert demoBank (demoApp 19 1 0)).1 (demoApp 20 1 1)).1

/-- The bank after encoding both atoms as equations: `p(X) = $true` (address 7)
and `q(Y) = $true` (address 8). -/
def demoLits : TB :=
  (EncodePredicateAsEqn ProblemType.PROBLEM_HO
    (EncodePredicateAsEqn ProblemType.PROBLEM_HO demoAtoms 5).1 6).1

/-- The bank after building the conjunction `p(X) & q(Y)` (address 9). -/
def demoAnd : TB := (TFormulaFCodeAlloc demoLits 6 7 (some 8)).1

/-- The bank after building `![X]: (p(X) & q(Y))` (address 10). -/
def demoQuant : TB := (TFormulaFCodeAlloc demoAnd 15 0 (some 9)).1

/-- The bank after building the implication `(p(X) = $true) => (q(Y) = $true)`
between two literals (address 9). -/
def demoImplLits : TB := (TFormulaFCodeAlloc demoLits 8 7 (some 8)).1

/-- The bank after building the negations `~(p(X) = $true)` (address 9) and
`~(q(Y) = $true)` (address 10), the implication between them (address 11),
the implication of the first one by itself (address 12) and the equivalence
between the two (address 13). -/
def demoImpl : TB :=
  (TFormulaFCodeAlloc (TFormulaFCodeAlloc (TFormulaFCodeAlloc (TFormulaFCodeAlloc
    (TFormulaFCodeAlloc demoLits 5 7 none).1 5 8 none).1 8 9 (some 10)).1 8 9 (some 9)).1
      10 9 (some 10)).1

/-- The bank after building the equivalence `(p(X) = $true) <=> (q(Y) = $true)`
between two literals (address 9). -/
def demoEquivLits : TB := (TFormulaFCodeAlloc demoLits 10 7 (some 8)).1

/-- The clause `p(X) != $true | q(Y) = $true | a = a` over the terms of
`demoAtoms`. -/
def demoClause : Clause := ⟨[⟨5, 2, false⟩, ⟨6, 2, true⟩, ⟨4, 4, true⟩]⟩

/-- The signature `demoSig` extended by the binary function symbol `g` (`23`). -/
def demoSigG : Sig := { demoSig with f_info := demoSig.f_info ++ [⟨2, false⟩] }

/-- A bank with bindings: `X` (address 0) is bound to `g(X, Y)` (address 5),
`Y` (address 1) is bound to `X`; address 6 holds the applied variable
`X a Y`, a phony application with head `X`. -/
def demoBindings : TB :=
  { sig := demoSigG,
    cells := [{ demoVar (-2) with binding := some 5 }, { demoVar (-4) with binding := some 0 },
              demoConst 1 1, demoConst 2 1, demoConst 21 2,
              { TermTopAlloc 23 2 with properties := TPIsShared, type := some 2,
                                       args := [some 0, some 1] },
              { TermTopAlloc 16 3 with properties := TPIsShared, type := some 2,
                                       args := [some 0, some 4, some 1] }],
    vars := [0, 1], true_term := 2, false_term := 3 }

/-- A stand-in for `applied_var_deref` that returns its argument. -/
def demoAppliedVarDeref (bank : TB) (orig : TermRef) : TB × TermRef := (bank, orig)

/-- A shared, ground, bound atom cell `p(X)` in predicate position, used to
evaluate `TermTopCopy`. -/
def demoCopySource : TermCell :=
  { TermTopAlloc 19 1 with
    properties := TPIsShared ||| TPPredPos ||| TPIsGround ||| TPOutputFlag,
    binding := some 4, binding_cache := some 4, type := some 1, args := [some 0] }

/-- The bank after building, over the literals of `demoLits`, the disjunctions
`p(X) | q(Y)` (address 9) and `(p(X) | q(Y)) | p(X)` (address 10), the negation
of the latter (address 11), the implication of `q(Y)` by it (address 12) and
the quantified formulas `![Y]: ...` (address 13) and `![X]: ![Y]: ...`
(address 14). -/
def demoPrint : TB :=
  (TFormulaFCodeAlloc (TFormulaFCodeAlloc (TFormulaFCodeAlloc (TFormulaFCodeAlloc
    (TFormulaFCodeAlloc (TFormulaFCodeAlloc demoLits 7 7 (some 8)).1 7 9 (some 7)).1
      5 10 none).1 8 11 (some 8)).1 15 1 (some 12)).1 15 0 (some 13)).1

/-- Stand-ins for the printers of terms, literals and types. -/
def demoPrinters : TermPrinters :=
  { EqnFOFPrint := fun _ e negated _ _ =>
      (if negated then "~" else "") ++ (if e.lterm = 5 then "p(X)" else "q(Y)"),
    TermPrint := fun _ v _ => if v = 0 then "X" else "Y",
    TypePrintTSTP := fun _ _ => "$i",
    TypeIsIndividual := fun t => t == some 2 }

/-- The bank after building, over `demoLits`, the atom `q(X)` (address 9), its
literal `q(X) = $true` (address 10), the quantified formula
`![X]: (p(X) = $true)` (address 11) and the conjunction
`(![X]: p(X)) & q(X)` (address 12). -/
def demoSibling : TB :=
  (TFormulaFCodeAlloc (TFormulaFCodeAlloc
    (EncodePredicateAsEqn ProblemType.PROBLEM_HO
      (TBTermTopInsert demoLits (demoApp 20 1 0)).1 9).1 15 0 (some 7)).1 6 11 (some 10)).1

/-- The heap property of the array, in the words of the claims: no stored
element compares less than its parent under `cmp`. -/
def MinHeap.heapProperty (h : MinHeap) : Bool :=
  (List.range h.arr.current).all (fun i =>
    i == 0 ||
      match h.arr.stack[i]?, h.arr.stack[(i - 1) / 2]? with
      | some c, some p => !decide (h.cmp c p < 0)
      | _, _ => false)

/-- The index that the setter was last called with for the element `el`, if it
was called for it at all. -/
def MinHeap.lastReported (h : MinHeap) (el : IntOrP) : Option PStackPointer :=
  (h.calls.reverse.find? (fun c => c.1 == el)).map (fun c => c.2)

/-- The heap `[LONG_MIN, LONG_MIN, 7, 3]` with the integer comparison, as four
calls of `MinHeapAddInt` leave it; one more slot of memory holds `9`. -/
def demoHeap : MinHeap :=
  { arr := { stack := [LONG_MIN, LONG_MIN, 7, 3, 9], current := 4 },
    cmp := IntOrPCmpInt, setter := false, calls := [] }

/-- The bank `demoImpl` with one more node (address 14): the binary connective
`op` over the negations `~(p(X) = $true)` (address 9) and `~(q(Y) = $true)`
(address 10). -/
def demoBin (op : FunCode) : TB := (TFormulaFCodeAlloc demoImpl op 9 (some 10)).1

/-- The heap `[5, 5]` with the integer comparison: two equal keys. -/
def demoHeapPair : MinHeap := ⟨⟨[5, 5], 2⟩, IntOrPCmpInt, false, []⟩

/-- A feature array for the symbols `1` and `2` (slot `0` is not used): symbol
`1` occurs five times, three of them in conjectures; symbol `2` occurs four
times and in no conjecture. -/
def demoFeatures : List FCodeFeatureSortCell :=
  [⟨0, 0, 0, 0, 0, 0⟩, ⟨0, 0, 0, 5, 3, 1⟩, ⟨0, 0, 0, 4, 0, 2⟩]

/-- A symbol table for the demonstration signature: `p` has the code `19`, `q`
the code `20`; every other name is undeclared. -/
def demoFindFCode (_ : Sig) (name : String) : FunCode :=
  if name = "p" then 19 else if name = "q" then 20 else 0

/-- The declared types of the demonstration signature: every symbol has the
boolean type. -/
def demoGetType (sig : Sig) (_ : FunCode) : Option Type_p := some sig.type_bank.bool_type

/-- A scanner for demonstrations: the nodes of the `@`-applied arguments that
are still to be read. -/
abbrev DemoScanner := List TermRef

/-- Parsers over the demonstration scanner: an `@` is next while arguments are
left, the argument parser takes the next node, and every head type admits two
arguments. -/
def demoParsers : TermParsers DemoScanner where
  TestInpTok := fun s => !s.isEmpty
  AcceptInpTok := fun s => s
  literal_tform_tstp_parse := fun s terms =>
    match s with
    | [] => Except.error ⟨"term expected", ErrorCodes.SYNTAX_ERROR⟩
    | a :: rest => Except.ok (rest, terms, a)
  GetHeadType := fun terms head => (terms.cell head).type
  TypeGetMaxArity := fun _ => 2
  SigQueryFuncProp := fun _ _ => false

/-- The bank `demoPrint` with the formula `?[Y]: ![X]: ![Y]: ...` (address 15)
built over the formula at address 14. -/
def demoMixed : TB := (TFormulaFCodeAlloc demoPrint demoPrint.sig.qex_code 1 (some 14)).1

/-- The bank after building, over `demoLits`, the quantified formula
`![X]: (p(X) = $true)` (address 9), the atom `q(![X]: p(X))` that has this
formula as its argument (address 10) and the literal
`q(![X]: p(X)) = $true` (address 11). -/
def demoNested : TB :=
  (EncodePredicateAsEqn ProblemType.PROBLEM_HO
    (TBTermTopInsert (TFormulaFCodeAlloc demoLits 15 0 (some 7)).1 (demoApp 20 1 9)).1 10).1

/-- The bank `demoLits` with the head cell of the conjunction symbol (code `6`,
no arguments) stored at address 9, as `parse_ho_atom` stores the head that
`make_head` builds. -/
def demoAndHead : TB :=
  (TBTermTopInsert demoLits { TermDefaultCellAlloc with f_code := 6, type := some 1 }).1

/-- The bank after `normalize_head` has applied the conjunction head to the
literals at the addresses 7 and 8: the node `&(p(X) = $true, q(Y) = $true)` at
address 10, stored without a type and without `TPPredPos`. -/
def demoApplied : TB := (normalize_head true 9 [some 7, some 8] 2 demoAndHead).1

/-- The bank `demoApplied` under a signature that declares the conjunction
symbol as a predicate symbol. -/
def demoAppliedPred : TB :=
  { demoApplied with sig := { demoSig with f_info := demoSig.f_info.set 6 ⟨2, true⟩ } }

/-! # Properties -/

/-! ## Property words -/

theorem QueryProp_SetProp_self (props prop : TermProperties) :
    QueryProp (SetProp props prop) prop = true := by
  unfold QueryProp SetProp
  rw [beq_iff_eq]
  apply Nat.eq_of_testBit_eq
  intro i
  simp only [Nat.testBit_land, Nat.testBit_lor]
  cases props.testBit i <;> cases prop.testBit i <;> rfl

/-! ## Insertion into the term bank -/

theorem TermTopCompare_congr (c t u : TermCell)
    (h : t.f_code = u.f_code ∧ t.arity = u.arity ∧ t.args = u.args) :
    TermTopCompare c t = TermTopCompare c u := by
  unfold TermTopCompare
  rw [h.1, h.2.1, h.2.2]

theorem TermCellStoreFind_congr (t u : TermCell)
    (h : t.f_code = u.f_code ∧ t.arity = u.arity ∧ t.args = u.args) (cs : List TermCell) :
    TermCellStoreFind t cs = TermCellStoreFind u cs := by
  induction cs with
  | nil => rfl
  | cons c cs ih => simp only [TermCellStoreFind, TermTopCompare_congr c t u h, ih]

theorem TermCellStoreFind_some (t : TermCell) (cs : List TermCell) (r : TermRef)
    (h : TermCellStoreFind t cs = some r) :
    r < cs.length ∧ TermTopCompare (cs.getD r default) t = true := by
  induction cs generalizing r with
  | nil => simp [TermCellStoreFind] at h
  | cons c cs ih =>
    simp only [TermCellStoreFind] at h
    by_cases hc : TermTopCompare c t = true
    · rw [if_pos hc] at h
      cases h
      simpa using hc
    · rw [if_neg hc] at h
      cases hf : TermCellStoreFind t cs with
      | none => rw [hf] at h; cases h
      | some q =>
        rw [hf] at h
        cases h
        obtain ⟨h1, h2⟩ := ih q hf
        exact ⟨by simpa using h1, by simpa using h2⟩

theorem TermCellStoreFind_append_some (t : TermCell) (cs ds : List TermCell) (r : TermRef)
    (h : TermCellStoreFind t cs = some r) : TermCellStoreFind t (cs ++ ds) = some r := by
  induction cs generalizing r with
  | nil => simp [TermCellStoreFind] at h
  | cons c cs ih =>
    rw [List.cons_append]
    simp only [TermCellStoreFind] at h ⊢
    by_cases hc : TermTopCompare c t = true
    · rw [if_pos hc] at h ⊢
      exact h
    · rw [if_neg hc] at h ⊢
      cases hf : TermCellStoreFind t cs with
      | none => rw [hf] at h; cases h
      | some q => rw [ih q hf, ← hf]; exact h

theorem TermCellStoreFind_append_none (t d : TermCell) (cs : List TermCell)
    (h : TermCellStoreFind t cs = none) (hd : TermTopCompare d t = true) :
    TermCellStoreFind t (cs ++ [d]) = some cs.length := by
  induction cs with
  | nil => simp [TermCellStoreFind, hd]
  | cons c cs ih =>
    rw [List.cons_append]
    simp only [TermCellStoreFind] at h ⊢
    by_cases hc : TermTopCompare c t = true
    · rw [if_pos hc] at h
      cases h
    · rw [if_neg hc] at h ⊢
      cases hf : TermCellStoreFind t cs with
      | none => rw [ih hf]; rfl
      | some q => rw [hf] at h; cases h

theorem TBTermTopInsert_sig (bank : TB) (t : TermCell) :
    (TBTermTopInsert bank t).1.sig = bank.sig := by
  unfold TBTermTopInsert
  cases TermCellStoreFind t bank.cells <;> rfl

theorem TBTermTopInsert_again (bank : TB) (a b : TermCell)
    (h : a.f_code = b.f_code ∧ a.arity = b.arity ∧ a.args = b.args) :
    TBTermTopInsert (TBTermTopInsert bank a).1 b = TBTermTopInsert bank a := by
  cases hf : TermCellStoreFind a bank.cells with
  | some r =>
    have h1 : TBTermTopInsert bank a = (bank, r) := by simp only [TBTermTopInsert, hf]
    rw [h1]
    have hb : TermCellStoreFind b bank.cells = some r := by
      rw [← TermCellStoreFind_congr a b h]; exact hf
    simp only [TBTermTopInsert, hb]
  | none =>
    have hb : TermCellStoreFind b bank.cells = none := by
      rw [← TermCellStoreFind_congr a b h]; exact hf
    simp only [TBTermTopInsert, hf]
    rw [TermCellStoreFind_append_none b _ bank.cells hb]
    unfold TermTopCompare TermIsShared
    simp only [QueryProp_SetProp_self, h.1, h.2.1, h.2.2, beq_self_eq_true, Bool.and_self]

theorem TBTermTopInsert_cell (bank : TB) (t : TermCell) :
    ((TBTermTopInsert bank t).1.cell (TBTermTopInsert bank t).2).f_code = t.f_code ∧
    ((TBTermTopInsert bank t).1.cell (TBTermTopInsert bank t).2).arity = t.arity ∧
    ((TBTermTopInsert bank t).1.cell (TBTermTopInsert bank t).2).args = t.args ∧
    TermIsShared ((TBTermTopInsert bank t).1.cell (TBTermTopInsert bank t).2) = true := by
  cases hf : TermCellStoreFind t bank.cells with
  | some r =>
    have h1 : TBTermTopInsert bank t = (bank, r) := by simp only [TBTermTopInsert, hf]
    rw [h1]
    have h2 := (TermCellStoreFind_some t bank.cells r hf).2
    unfold TermTopCompare at h2
    simp only [Bool.and_eq_true, beq_iff_eq] at h2
    exact ⟨h2.2.1, h2.2.2.1, h2.2.2.2, h2.1⟩
  | none =>
    simp only [TBTermTopInsert, hf, TB.cell]
    rw [List.getD_eq_getElem?_getD, List.getElem?_append_right (le_refl _)]
    simp [TermIsShared, QueryProp_SetProp_self]

/-- C1: hash-consing as seen through the encoder.  A second call of
`TFormulaFCodeAlloc` with the same operator and arguments returns the same
node and leaves the bank as it is; inserting two transient cells with the
same symbol, arity and children, one after the other or from the same bank
state, yields the same shared node; inserting the cell of an inserted node
again returns that node. -/
theorem TBTermTopInsert_hash_consing (bank : TB) (op : FunCode) (a1 : TermRef)
    (a2 : Option TermRef) (a b : TermCell)
    (h : a.f_code = b.f_code ∧ a.arity = b.arity ∧ a.args = b.args) :
    TFormulaFCodeAlloc (TFormulaFCodeAlloc bank op a1 a2).1 op a1 a2
        = TFormulaFCodeAlloc bank op a1 a2 ∧
    (TBTermTopInsert (TBTermTopInsert bank a).1 b).2 = (TBTermTopInsert bank a).2 ∧
    (TBTermTopInsert bank b).2 = (TBTermTopInsert bank a).2 ∧
    TBTermTopInsert (TBTermTopInsert bank a).1
        ((TBTermTopInsert bank a).1.cell (TBTermTopInsert bank a).2)
      = TBTermTopInsert bank a := by
  refine ⟨?_, ?_, ?_, ?_⟩
  · unfold TFormulaFCodeAlloc
    simp only [TBTermTopInsert_sig]
    exact TBTermTopInsert_again bank _ _ ⟨rfl, rfl, rfl⟩
  · rw [TBTermTopInsert_again bank a b h]
  · unfold TBTermTopInsert
    rw [← TermCellStoreFind_congr a b h]
    cases TermCellStoreFind a bank.cells <;> rfl
  · have hc := TBTermTopInsert_cell bank a
    exact TBTermTopInsert_again bank a _ ⟨hc.1.symm, hc.2.1.symm, hc.2.2.1.symm⟩

theorem TBTermTopInsert_hash_consing_witness :
    ((demoApp 19 1 0).f_code = (demoApp 19 2 0).f_code ∧
      (demoApp 19 1 0).arity = (demoApp 19 2 0).arity ∧
      (demoApp 19 1 0).args = (demoApp 19 2 0).args) ∧
    (TFormulaFCodeAlloc (TFormulaFCodeAlloc demoLits 6 7 (some 8)).1 6 7 (some 8)
        = TFormulaFCodeAlloc demoLits 6 7 (some 8) ∧
    (TBTermTopInsert (TBTermTopInsert demoLits (demoApp 19 1 0)).1 (demoApp 19 2 0)).2
        = (TBTermTopInsert demoLits (demoApp 19 1 0)).2 ∧
    (TBTermTopInsert demoLits (demoApp 19 2 0)).2
        = (TBTermTopInsert demoLits (demoApp 19 1 0)).2 ∧
    TBTermTopInsert (TBTermTopInsert demoLits (demoApp 19 1 0)).1
        ((TBTermTopInsert demoLits (demoApp 19 1 0)).1.cell
          (TBTermTopInsert demoLits (demoApp 19 1 0)).2)
      = TBTermTopInsert demoLits (demoApp 19 1 0)) :=
  ⟨⟨rfl, rfl, rfl⟩,
   TBTermTopInsert_hash_consing demoLits 6 7 (some 8) (demoApp 19 1 0) (demoApp 19 2 0)
     ⟨rfl, rfl, rfl⟩⟩

theorem TBTermTopInsert_cell_old (bank : TB) (t : TermCell) (i : TermRef)
    (hi : i < bank.cells.length) : (TBTermTopInsert bank t).1.cell i = bank.cell i := by
  unfold TBTermTopInsert
  cases TermCellStoreFind t bank.cells with
  | some r => rfl
  | none =>
    simp only [TB.cell]
    rw [List.getD_eq_getElem?_getD, List.getD_eq_getElem?_getD, List.getElem?_append_left hi]

theorem TBTermTopInsert_true_term (bank : TB) (t : TermCell) :
    (TBTermTopInsert bank t).1.true_term = bank.true_term := by
  unfold TBTermTopInsert
  cases TermCellStoreFind t bank.cells <;> rfl

theorem EqnTermsTBTermEncode_cell (bank : TB) (l r : TermRef) (positive : Bool) :
    ((EqnTermsTBTermEncode bank l r positive).1.cell
        (EqnTermsTBTermEncode bank l r positive).2).f_code = SigGetEqnCode bank.sig positive ∧
    ((EqnTermsTBTermEncode bank l r positive).1.cell
        (EqnTermsTBTermEncode bank l r positive).2).arity = 2 ∧
    ((EqnTermsTBTermEncode bank l r positive).1.cell
        (EqnTermsTBTermEncode bank l r positive).2).args = [some l, some r] := by
  unfold EqnTermsTBTermEncode
  have h := TBTermTopInsert_cell bank
    { TermTopAlloc (SigGetEqnCode bank.sig positive) 2 with
      type := some bank.sig.type_bank.bool_type, args := [some l, some r] }
  exact ⟨h.1, h.2.1, h.2.2.1⟩

/-- C2: in higher-order mode a predicate atom, that is a boolean-typed node
whose head is a user symbol (code above `sig->internal_symbols`), is encoded
as the positive equation node with the atom itself as first and the true term
of the bank as second argument. -/
theorem EncodePredicateAsEqn_atom (bank : TB) (f : TermRef)
    (huser : (bank.cell f).f_code > bank.sig.internal_symbols)
    (hbool : (bank.cell f).type = some bank.sig.type_bank.bool_type)
    (hfalse : bank.sig.SIG_FALSE_CODE ≤ bank.sig.internal_symbols) :
    ((EncodePredicateAsEqn ProblemType.PROBLEM_HO bank f).1.cell
        (EncodePredicateAsEqn ProblemType.PROBLEM_HO bank f).2).f_code = bank.sig.eqn_code ∧
    ((EncodePredicateAsEqn ProblemType.PROBLEM_HO bank f).1.cell
        (EncodePredicateAsEqn ProblemType.PROBLEM_HO bank f).2).arity = 2 ∧
    ((EncodePredicateAsEqn ProblemType.PROBLEM_HO bank f).1.cell
        (EncodePredicateAsEqn ProblemType.PROBLEM_HO bank f).2).args
      = [some f, some bank.true_term] := by
  have hne : (bank.cell f).f_code ≠ bank.sig.SIG_FALSE_CODE := by
    intro h
    rw [h] at huser
    exact absurd huser (not_lt.mpr hfalse)
  have hE : EncodePredicateAsEqn ProblemType.PROBLEM_HO bank f
      = EqnTermsTBTermEncode bank f bank.true_term true := by
    have hb : ((bank.cell f).f_code != bank.sig.SIG_FALSE_CODE) = true := by
      rw [bne_iff_ne]; exact hne
    unfold EncodePredicateAsEqn
    simp [huser, hbool, hne, hb]
  rw [hE]
  exact EqnTermsTBTermEncode_cell bank f bank.true_term true

theorem EncodePredicateAsEqn_atom_witness :
    ((demoAtoms.cell 5).f_code > demoAtoms.sig.internal_symbols ∧
      (demoAtoms.cell 5).type = some demoAtoms.sig.type_bank.bool_type ∧
      demoAtoms.sig.SIG_FALSE_CODE ≤ demoAtoms.sig.internal_symbols) ∧
    (((EncodePredicateAsEqn ProblemType.PROBLEM_HO demoAtoms 5).1.cell
        (EncodePredicateAsEqn ProblemType.PROBLEM_HO demoAtoms 5).2).f_code
        = demoAtoms.sig.eqn_code ∧
    ((EncodePredicateAsEqn ProblemType.PROBLEM_HO demoAtoms 5).1.cell
        (EncodePredicateAsEqn ProblemType.PROBLEM_HO demoAtoms 5).2).arity = 2 ∧
    ((EncodePredicateAsEqn ProblemType.PROBLEM_HO demoAtoms 5).1.cell
        (EncodePredicateAsEqn ProblemType.PROBLEM_HO demoAtoms 5).2).args
      = [some 5, some demoAtoms.true_term]) :=
  ⟨⟨by decide, by decide, by decide⟩,
   EncodePredicateAsEqn_atom demoAtoms 5 (by decide) (by decide) (by decide)⟩

/-- C3: in higher-order mode the boolean-false constant is encoded as the
negated equation between the true term and itself; the result is the
propositional constant false and not the propositional constant true. -/
theorem EncodePredicateAsEqn_false (bank : TB) (f : TermRef)
    (hf : (bank.cell f).f_code = bank.sig.SIG_FALSE_CODE)
    (hbool : (bank.cell f).type = some bank.sig.type_bank.bool_type)
    (htrue : (bank.cell bank.true_term).f_code = bank.sig.SIG_TRUE_CODE)
    (hvalid : bank.true_term < bank.cells.length)
    (hcodes : bank.sig.eqn_code ≠ bank.sig.neqn_code) :
    ((EncodePredicateAsEqn ProblemType.PROBLEM_HO bank f).1.cell
        (EncodePredicateAsEqn ProblemType.PROBLEM_HO bank f).2).f_code = bank.sig.neqn_code ∧
    ((EncodePredicateAsEqn ProblemType.PROBLEM_HO bank f).1.cell
        (EncodePredicateAsEqn ProblemType.PROBLEM_HO bank f).2).args
      = [some bank.true_term, some bank.true_term] ∧
    TFormulaIsPropConst (EncodePredicateAsEqn ProblemType.PROBLEM_HO bank f).1 bank.sig
        (EncodePredicateAsEqn ProblemType.PROBLEM_HO bank f).2 false = true ∧
    TFormulaIsPropConst (EncodePredicateAsEqn ProblemType.PROBLEM_HO bank f).1 bank.sig
        (EncodePredicateAsEqn ProblemType.PROBLEM_HO bank f).2 true = false := by
  have hE : EncodePredicateAsEqn ProblemType.PROBLEM_HO bank f
      = EqnTermsTBTermEncode bank bank.true_term bank.true_term false := by
    unfold EncodePredicateAsEqn
    simp [hf, hbool]
  rw [hE]
  obtain ⟨h1, _, h3⟩ := EqnTermsTBTermEncode_cell bank bank.true_term bank.true_term false
  have h4 : (EqnTermsTBTermEncode bank bank.true_term bank.true_term false).1.cell
      bank.true_term = bank.cell bank.true_term := by
    unfold EqnTermsTBTermEncode
    exact TBTermTopInsert_cell_old bank _ _ hvalid
  have h1' : ((EqnTermsTBTermEncode bank bank.true_term bank.true_term false).1.cell
      (EqnTermsTBTermEncode bank bank.true_term bank.true_term false).2).f_code
      = bank.sig.neqn_code := by
    rw [h1]; simp [SigGetEqnCode]
  refine ⟨h1', h3, ?_, ?_⟩
  · unfold TFormulaIsPropConst
    simp [TB.arg, TB.cellAt, h1', h3, h4, htrue, SigGetEqnCode]
  · unfold TFormulaIsPropConst
    simp [h1', SigGetEqnCode, Ne.symm hcodes]

theorem EncodePredicateAsEqn_false_witness :
    ((demoBank.cell 3).f_code = demoBank.sig.SIG_FALSE_CODE ∧
      (demoBank.cell 3).type = some demoBank.sig.type_bank.bool_type ∧
      (demoBank.cell demoBank.true_term).f_code = demoBank.sig.SIG_TRUE_CODE ∧
      demoBank.true_term < demoBank.cells.length ∧
      demoBank.sig.eqn_code ≠ demoBank.sig.neqn_code) ∧
    (((EncodePredicateAsEqn ProblemType.PROBLEM_HO demoBank 3).1.cell
        (EncodePredicateAsEqn ProblemType.PROBLEM_HO demoBank 3).2).f_code
        = demoBank.sig.neqn_code ∧
    ((EncodePredicateAsEqn ProblemType.PROBLEM_HO demoBank 3).1.cell
        (EncodePredicateAsEqn ProblemType.PROBLEM_HO demoBank 3).2).args
      = [some demoBank.true_term, some demoBank.true_term] ∧
    TFormulaIsPropConst (EncodePredicateAsEqn ProblemType.PROBLEM_HO demoBank 3).1 demoBank.sig
        (EncodePredicateAsEqn ProblemType.PROBLEM_HO demoBank 3).2 false = true ∧
    TFormulaIsPropConst (EncodePredicateAsEqn ProblemType.PROBLEM_HO demoBank 3).1 demoBank.sig
        (EncodePredicateAsEqn ProblemType.PROBLEM_HO demoBank 3).2 true = false) :=
  ⟨⟨by decide, by decide, by decide, by decide, by decide⟩,
   EncodePredicateAsEqn_false demoBank 3 (by decide) (by decide) (by decide) (by decide)
     (by decide)⟩

/-- C4 (as stated, refuted): the conjunction `p(X) & q(Y)` is boolean-typed and
is neither an equation nor a negated equation, yet in higher-order mode
`EncodePredicateAsEqn` returns it unchanged instead of an equation node; in
first-order mode the boolean-typed atom `p(X)` is returned unchanged too. -/
theorem EncodePredicateAsEqn_connective_unchanged :
    ((demoAnd.cell 9).type = some demoAnd.sig.type_bank.bool_type ∧
      (demoAnd.cell 9).f_code ≠ demoAnd.sig.eqn_code ∧
      (demoAnd.cell 9).f_code ≠ demoAnd.sig.neqn_code ∧
      (EncodePredicateAsEqn ProblemType.PROBLEM_HO demoAnd 9).2 = 9 ∧
      ((EncodePredicateAsEqn ProblemType.PROBLEM_HO demoAnd 9).1.cell
        (EncodePredicateAsEqn ProblemType.PROBLEM_HO demoAnd 9).2).f_code
          ≠ demoAnd.sig.eqn_code) ∧
    ((demoAtoms.cell 5).type = some demoAtoms.sig.type_bank.bool_type ∧
      (demoAtoms.cell 5).f_code ≠ demoAtoms.sig.eqn_code ∧
      (demoAtoms.cell 5).f_code ≠ demoAtoms.sig.neqn_code ∧
      (EncodePredicateAsEqn ProblemType.PROBLEM_FO demoAtoms 5).2 = 5 ∧
      ((EncodePredicateAsEqn ProblemType.PROBLEM_FO demoAtoms 5).1.cell
        (EncodePredicateAsEqn ProblemType.PROBLEM_FO demoAtoms 5).2).f_code
          ≠ demoAtoms.sig.eqn_code) := by
  decide

/-- C4 (amended): `EncodePredicateAsEqn` rewrites a node exactly when the
problem is higher-order, the node is boolean-typed and its head is a user
symbol, `$true`, `$false`, a variable or the application marker.  Then the
result is the equation node `f = true`, or `true != true` when `f` is the
boolean-false constant.  Every other node is returned unchanged, and so is
the bank. -/
theorem EncodePredicateAsEqn_cases (problemType : ProblemType) (bank : TB) (f : TermRef) :
    ((problemType = ProblemType.PROBLEM_HO ∧
        ((bank.cell f).f_code > bank.sig.internal_symbols ∨
         (bank.cell f).f_code = bank.sig.SIG_TRUE_CODE ∨
         TermIsVar (bank.cell f) = true ∨
         TermIsPhonyApp bank.sig (bank.cell f) = true) ∧
        (bank.cell f).f_code ≠ bank.sig.SIG_FALSE_CODE ∧
        (bank.cell f).type = some bank.sig.type_bank.bool_type) →
      ((EncodePredicateAsEqn problemType bank f).1.cell
          (EncodePredicateAsEqn problemType bank f).2).f_code = bank.sig.eqn_code ∧
      ((EncodePredicateAsEqn problemType bank f).1.cell
          (EncodePredicateAsEqn problemType bank f).2).args
        = [some f, some bank.true_term]) ∧
    ((problemType = ProblemType.PROBLEM_HO ∧
        (bank.cell f).f_code = bank.sig.SIG_FALSE_CODE ∧
        (bank.cell f).type = some bank.sig.type_bank.bool_type) →
      ((EncodePredicateAsEqn problemType bank f).1.cell
          (EncodePredicateAsEqn problemType bank f).2).f_code = bank.sig.neqn_code ∧
      ((EncodePredicateAsEqn problemType bank f).1.cell
          (EncodePredicateAsEqn problemType bank f).2).args
        = [some bank.true_term, some bank.true_term]) ∧
    (¬ (problemType = ProblemType.PROBLEM_HO ∧
        ((bank.cell f).f_code > bank.sig.internal_symbols ∨
         (bank.cell f).f_code = bank.sig.SIG_TRUE_CODE ∨
         (bank.cell f).f_code = bank.sig.SIG_FALSE_CODE ∨
         TermIsVar (bank.cell f) = true ∨
         TermIsPhonyApp bank.sig (bank.cell f) = true) ∧
        (bank.cell f).type = some bank.sig.type_bank.bool_type) →
      EncodePredicateAsEqn problemType bank f = (bank, f)) := by
  refine ⟨?_, ?_, ?_⟩
  · rintro ⟨hpt, hhead, hne, hbool⟩
    have hb : ((bank.cell f).f_code != bank.sig.SIG_FALSE_CODE) = true := by
      rw [bne_iff_ne]; exact hne
    have hg : (decide ((bank.cell f).f_code > bank.sig.internal_symbols) ||
        (bank.cell f).f_code == bank.sig.SIG_TRUE_CODE ||
        (bank.cell f).f_code == bank.sig.SIG_FALSE_CODE ||
        TermIsVar (bank.cell f) || TermIsPhonyApp bank.sig (bank.cell f)) = true := by
      rcases hhead with h | h | h | h <;> simp [h]
    have hE : EncodePredicateAsEqn problemType bank f
        = EqnTermsTBTermEncode bank f bank.true_term true := by
      unfold EncodePredicateAsEqn
      simp only [hpt, hg, hbool, hb, beq_self_eq_true, Bool.and_self, if_true]
      simp [hne]
    rw [hE]
    have h := EqnTermsTBTermEncode_cell bank f bank.true_term true
    exact ⟨h.1, h.2.2⟩
  · rintro ⟨hpt, hf, hbool⟩
    have hE : EncodePredicateAsEqn problemType bank f
        = EqnTermsTBTermEncode bank bank.true_term bank.true_term false := by
      unfold EncodePredicateAsEqn
      simp [hpt, hf, hbool]
    rw [hE]
    have h := EqnTermsTBTermEncode_cell bank bank.true_term bank.true_term false
    exact ⟨by rw [h.1]; simp [SigGetEqnCode], h.2.2⟩
  · intro hn
    unfold EncodePredicateAsEqn
    rw [if_neg]
    intro hg
    apply hn
    simp only [Bool.and_eq_true, Bool.or_eq_true, beq_iff_eq, decide_eq_true_eq] at hg
    obtain ⟨⟨hpt, hhead⟩, hbool⟩ := hg
    refine ⟨hpt, ?_, hbool⟩
    rcases hhead with (((h | h) | h) | h) | h
    · exact Or.inl h
    · exact Or.inr (Or.inl h)
    · exact Or.inr (Or.inr (Or.inl h))
    · exact Or.inr (Or.inr (Or.inr (Or.inl h)))
    · exact Or.inr (Or.inr (Or.inr (Or.inr h)))

theorem EncodePredicateAsEqn_cases_witness :
    ((ProblemType.PROBLEM_HO = ProblemType.PROBLEM_HO ∧
        ((demoAtoms.cell 5).f_code > demoAtoms.sig.internal_symbols ∨
         (demoAtoms.cell 5).f_code = demoAtoms.sig.SIG_TRUE_CODE ∨
         TermIsVar (demoAtoms.cell 5) = true ∨
         TermIsPhonyApp demoAtoms.sig (demoAtoms.cell 5) = true) ∧
        (demoAtoms.cell 5).f_code ≠ demoAtoms.sig.SIG_FALSE_CODE ∧
        (demoAtoms.cell 5).type = some demoAtoms.sig.type_bank.bool_type) ∧
      ((EncodePredicateAsEqn ProblemType.PROBLEM_HO demoAtoms 5).1.cell
          (EncodePredicateAsEqn ProblemType.PROBLEM_HO demoAtoms 5).2).f_code
        = demoAtoms.sig.eqn_code ∧
      ((EncodePredicateAsEqn ProblemType.PROBLEM_HO demoAtoms 5).1.cell
          (EncodePredicateAsEqn ProblemType.PROBLEM_HO demoAtoms 5).2).args
        = [some 5, some demoAtoms.true_term]) ∧
    ((ProblemType.PROBLEM_HO = ProblemType.PROBLEM_HO ∧
        (demoBank.cell 3).f_code = demoBank.sig.SIG_FALSE_CODE ∧
        (demoBank.cell 3).type = some demoBank.sig.type_bank.bool_type) ∧
      ((EncodePredicateAsEqn ProblemType.PROBLEM_HO demoBank 3).1.cell
          (EncodePredicateAsEqn ProblemType.PROBLEM_HO demoBank 3).2).f_code
        = demoBank.sig.neqn_code ∧
      ((EncodePredicateAsEqn ProblemType.PROBLEM_HO demoBank 3).1.cell
          (EncodePredicateAsEqn ProblemType.PROBLEM_HO demoBank 3).2).args
        = [some demoBank.true_term, some demoBank.true_term]) ∧
    ((¬ (ProblemType.PROBLEM_HO = ProblemType.PROBLEM_HO ∧
        ((demoAnd.cell 9).f_code > demoAnd.sig.internal_symbols ∨
         (demoAnd.cell 9).f_code = demoAnd.sig.SIG_TRUE_CODE ∨
         (demoAnd.cell 9).f_code = demoAnd.sig.SIG_FALSE_CODE ∨
         TermIsVar (demoAnd.cell 9) = true ∨
         TermIsPhonyApp demoAnd.sig (demoAnd.cell 9) = true) ∧
        (demoAnd.cell 9).type = some demoAnd.sig.type_bank.bool_type)) ∧
      EncodePredicateAsEqn ProblemType.PROBLEM_HO demoAnd 9 = (demoAnd, 9)) :=
  ⟨⟨by decide,
    (EncodePredicateAsEqn_cases ProblemType.PROBLEM_HO demoAtoms 5).1 (by decide)⟩,
   ⟨by decide,
    (EncodePredicateAsEqn_cases ProblemType.PROBLEM_HO demoBank 3).2.1 (by decide)⟩,
   ⟨by decide,
    (EncodePredicateAsEqn_cases ProblemType.PROBLEM_HO demoAnd 9).2.2 (by decide)⟩⟩

/-! ## Reading and writing cells -/

theorem list_set_getD_self {α : Type} (l : List α) (i : Nat) (d : α) :
    l.set i (l.getD i d) = l := by
  induction l generalizing i with
  | nil => rfl
  | cons a l ih =>
    cases i with
    | zero => rfl
    | succ i => simp only [List.set_cons_succ, List.getD_cons_succ, ih]

theorem list_getD_set {α : Type} (l : List α) (i j : Nat) (a d : α) :
    (l.set i a).getD j d = if i = j ∧ i < l.length then a else l.getD j d := by
  rw [List.getD_eq_getElem?_getD, List.getD_eq_getElem?_getD, List.getElem?_set]
  by_cases hij : i = j
  · subst hij
    by_cases hl : i < l.length
    · simp [hl]
    · simp [hl, List.getElem?_eq_none (not_lt.mp hl)]
  · simp [hij]

theorem TB.cell_setProperties (bank : TB) (t : TermRef) (p : TermProperties) (i : TermRef) :
    (bank.setProperties t p).cell i
      = if t = i ∧ t < bank.cells.length then { bank.cell t with properties := p }
        else bank.cell i := by
  unfold TB.setProperties TB.cell
  exact list_getD_set _ _ _ _ _

theorem TB.setProperties_restore (bank : TB) (t : TermRef) (p q : TermProperties)
    (h : q = (bank.cell t).properties) :
    (bank.setProperties t p).setProperties t q = bank := by
  have hc : { (bank.setProperties t p).cell t with properties := q } = bank.cell t := by
    rw [TB.cell_setProperties]
    by_cases ht : t = t ∧ t < bank.cells.length
    · rw [if_pos ht, h]
    · rw [if_neg ht, h]
  unfold TB.setProperties at hc ⊢
  simp only [List.set_set]
  rw [hc]
  unfold TB.cell
  rw [list_set_getD_self]

theorem DelProp_restore (props prop : TermProperties) :
    SetProp (DelProp props prop) (GiveProps props prop) = props := by
  unfold SetProp DelProp GiveProps
  apply Nat.eq_of_testBit_eq
  intro i
  simp only [Nat.testBit_lor, Nat.testBit_xor, Nat.testBit_land]
  cases props.testBit i <;> cases prop.testBit i <;> rfl

theorem QueryProp_DelProp (props : TermProperties) :
    QueryProp (DelProp props TPIsFreeVar) TPIsFreeVar = false := by
  unfold QueryProp DelProp
  have h : (props ^^^ (props &&& TPIsFreeVar)) &&& TPIsFreeVar = 0 := by
    apply Nat.eq_of_testBit_eq
    intro i
    simp only [Nat.testBit_lor, Nat.testBit_xor, Nat.testBit_land, Nat.zero_testBit]
    cases props.testBit i <;> cases TPIsFreeVar.testBit i <;> rfl
  rw [h]
  decide

theorem TermCellSetProp_DelProp_restore (bank : TB) (t : TermRef) (prop : TermProperties) :
    TermCellSetProp (TermCellDelProp bank t prop) t (TermCellGiveProps bank t prop) = bank := by
  unfold TermCellSetProp TermCellDelProp TermCellGiveProps
  apply TB.setProperties_restore
  rw [TB.cell_setProperties]
  by_cases ht : t = t ∧ t < bank.cells.length
  · rw [if_pos ht]
    exact DelProp_restore _ _
  · rw [if_neg ht]
    unfold SetProp GiveProps
    apply Nat.eq_of_testBit_eq
    intro i
    simp only [Nat.testBit_lor, Nat.testBit_land]
    cases (bank.cell t).properties.testBit i <;> cases prop.testBit i <;> rfl

/-! ## Banks of the same shape -/

theorem ShapeExt.shape_refl (b : TB) : ShapeExt b b :=
  ⟨rfl, rfl, le_refl _, fun _ _ => ⟨rfl, rfl, rfl⟩⟩

theorem ShapeExt.trans {b b1 b2 : TB} (h1 : ShapeExt b b1) (h2 : ShapeExt b1 b2) :
    ShapeExt b b2 := by
  obtain ⟨s1, v1, l1, c1⟩ := h1
  obtain ⟨s2, v2, l2, c2⟩ := h2
  refine ⟨s2.trans s1, v2.trans v1, le_trans l1 l2, fun i hi => ?_⟩
  obtain ⟨a1, a2, a3⟩ := c1 i hi
  obtain ⟨d1, d2, d3⟩ := c2 i (lt_of_lt_of_le hi l1)
  exact ⟨d1.trans a1, d2.trans a2, d3.trans a3⟩

theorem TB.length_setProperties (bank : TB) (t : TermRef) (p : TermProperties) :
    (bank.setProperties t p).cells.length = bank.cells.length := by
  unfold TB.setProperties
  simp only [List.length_set]

theorem ShapeExt.setProperties (bank : TB) (t : TermRef) (p : TermProperties) :
    ShapeExt bank (bank.setProperties t p) := by
  refine ⟨rfl, rfl, le_of_eq (TB.length_setProperties bank t p).symm, fun i _ => ?_⟩
  rw [TB.cell_setProperties]
  by_cases ht : t = i ∧ t < bank.cells.length
  · rw [if_pos ht, ht.1]
    exact ⟨rfl, rfl, rfl⟩
  · rw [if_neg ht]
    exact ⟨rfl, rfl, rfl⟩

theorem ShapeExt.setProperties_back (bank : TB) (t : TermRef) (p : TermProperties) :
    ShapeExt (bank.setProperties t p) bank := by
  refine ⟨rfl, rfl, le_of_eq (TB.length_setProperties bank t p), fun i _ => ?_⟩
  rw [TB.cell_setProperties]
  by_cases ht : t = i ∧ t < bank.cells.length
  · rw [if_pos ht, ht.1]
    exact ⟨rfl, rfl, rfl⟩
  · rw [if_neg ht]
    exact ⟨rfl, rfl, rfl⟩

theorem VarBankVarsSetProp_shape (bank : TB) (prop : TermProperties) :
    ShapeExt bank (VarBankVarsSetProp bank prop) ∧
    ShapeExt (VarBankVarsSetProp bank prop) bank ∧
    (VarBankVarsSetProp bank prop).cells.length = bank.cells.length := by
  unfold VarBankVarsSetProp
  generalize bank.vars = vs
  induction vs generalizing bank with
  | nil => exact ⟨ShapeExt.shape_refl _, ShapeExt.shape_refl _, rfl⟩
  | cons v vs ih =>
    rw [List.foldl_cons]
    obtain ⟨h1, h2, h3⟩ := ih (TermCellSetProp bank v prop)
    refine ⟨(ShapeExt.setProperties bank v _).trans h1,
      h2.trans (ShapeExt.setProperties_back bank v _), ?_⟩
    rw [h3]
    exact TB.length_setProperties bank v _

theorem TermCell.WF_congr (sig : Sig) (vars : List TermRef) (i : TermRef) (c d : TermCell)
    (h : d.f_code = c.f_code ∧ d.arity = c.arity ∧ d.args = c.args)
    (hc : TermCell.WF sig vars i c) : TermCell.WF sig vars i d := by
  unfold TermCell.WF TFormulaIsQuantified TermIsVar at hc ⊢
  rw [h.1, h.2.1, h.2.2]
  exact hc

theorem TB.WF_of_shape {b b1 : TB} (h : ShapeExt b b1) (hlen : b1.cells.length = b.cells.length)
    (hwf : b.WF) : b1.WF := by
  obtain ⟨hs, hv, _, hc⟩ := h
  obtain ⟨w1, w2, w3, w4, w5⟩ := hwf
  unfold TB.WF
  rw [hs, hv, hlen]
  exact ⟨w1, w2, w3, w4, fun i hi => TermCell.WF_congr _ _ _ _ _ (hc i hi) (w5 i hi)⟩

/-! ## Free occurrences -/

theorem TB.WF.arg_lt {b : TB} (hwf : b.WF) {f a : TermRef} {i : Nat} (hf : f < b.cells.length)
    (h : b.arg f i = some a) : a < f := by
  have hc := (hwf.2.2.2.2 f hf).2.1
  unfold TB.arg at h
  rw [List.getD_eq_getElem?_getD] at h
  cases hg : (b.cell f).args[i]? with
  | none => rw [hg] at h; cases h
  | some x =>
    rw [hg] at h
    simp only [Option.getD_some] at h
    subst h
    have hm : (some a : Option TermRef) ∈ (b.cell f).args := List.getElem?_mem hg
    have := hc _ hm
    simpa [argBelow] using this

theorem ShapeExt.arg_eq {b b1 : TB} (h : ShapeExt b b1) {f : TermRef} (hf : f < b.cells.length)
    (i : Nat) : b1.arg f i = b.arg f i := by
  unfold TB.arg
  rw [(h.2.2.2 f hf).2.2]

theorem ShapeExt.isVar_eq {b b1 : TB} (h : ShapeExt b b1) {f : TermRef}
    (hf : f < b.cells.length) : TermIsVar (b1.cell f) = TermIsVar (b.cell f) := by
  unfold TermIsVar
  rw [(h.2.2.2 f hf).1]

theorem ShapeExt.isQuantified_eq {b b1 : TB} (h : ShapeExt b b1) {f : TermRef}
    (hf : f < b.cells.length) :
    TFormulaIsQuantified b1.sig (b1.cell f) = TFormulaIsQuantified b.sig (b.cell f) := by
  unfold TFormulaIsQuantified
  rw [(h.2.2.2 f hf).1, h.1]

theorem FreeOcc.freeOcc_of_shape {b b1 : TB} (h : ShapeExt b b1) (hwf : b.WF) {v f : TermRef}
    (hocc : FreeOcc b v f) : f < b.cells.length → FreeOcc b1 v f := by
  induction hocc with
  | var hv =>
    intro hf
    exact FreeOcc.var (by rw [h.isVar_eq hf]; exact hv)
  | quant form a0 a1 hq h0 h1 hne _ ih =>
    intro hf
    exact FreeOcc.quant form a0 a1 (by rw [h.isQuantified_eq hf]; exact hq)
      (by rw [h.arg_eq hf]; exact h0) (by rw [h.arg_eq hf]; exact h1) hne
      (ih (lt_trans (hwf.arg_lt hf h1) hf))
  | arg form i a hq hv hi ha _ ih =>
    intro hf
    exact FreeOcc.arg form i a (by rw [h.isQuantified_eq hf]; exact hq)
      (by rw [h.isVar_eq hf]; exact hv) (by rw [(h.2.2.2 form hf).2.1]; exact hi)
      (by rw [h.arg_eq hf]; exact ha) (ih (lt_trans (hwf.arg_lt hf ha) hf))

theorem FreeOcc.to_shape {b b1 : TB} (h : ShapeExt b b1) (hwf : b.WF) {v f : TermRef}
    (hocc : FreeOcc b1 v f) : f < b.cells.length → FreeOcc b v f := by
  induction hocc with
  | var hv =>
    intro hf
    exact FreeOcc.var (by rw [← h.isVar_eq hf]; exact hv)
  | quant form a0 a1 hq h0 h1 hne _ ih =>
    intro hf
    rw [h.arg_eq hf] at h0 h1
    exact FreeOcc.quant form a0 a1 (by rw [← h.isQuantified_eq hf]; exact hq)
      h0 h1 hne (ih (lt_trans (hwf.arg_lt hf h1) hf))
  | arg form i a hq hv hi ha _ ih =>
    intro hf
    rw [h.arg_eq hf] at ha
    exact FreeOcc.arg form i a (by rw [← h.isQuantified_eq hf]; exact hq)
      (by rw [← h.isVar_eq hf]; exact hv) (by rw [← (h.2.2.2 form hf).2.1]; exact hi)
      ha (ih (lt_trans (hwf.arg_lt hf ha) hf))

theorem FreeOcc.shape_iff {b b1 : TB} (h : ShapeExt b b1) (hwf : b.WF) {v f : TermRef}
    (hf : f < b.cells.length) : FreeOcc b1 v f ↔ FreeOcc b v f :=
  ⟨fun ho => ho.to_shape h hwf hf, fun ho => ho.freeOcc_of_shape h hwf hf⟩

theorem TB.WF.quantified_not_var {b : TB} (hwf : b.WF) {f : TermRef}
    (hq : TFormulaIsQuantified b.sig (b.cell f) = true) : TermIsVar (b.cell f) = false := by
  unfold TFormulaIsQuantified at hq
  unfold TermIsVar
  simp only [Bool.or_eq_true, beq_iff_eq] at hq
  rw [decide_eq_false_iff_not, not_lt]
  rcases hq with hq | hq
  · rw [hq]; exact hwf.1
  · rw [hq]; exact hwf.2.1

theorem FreeOcc.quant_iff {b : TB} (hwf : b.WF) {v f a0 a1 : TermRef}
    (hq : TFormulaIsQuantified b.sig (b.cell f) = true)
    (h0 : b.arg f 0 = some a0) (h1 : b.arg f 1 = some a1) :
    FreeOcc b v f ↔ a0 ≠ v ∧ FreeOcc b v a1 := by
  constructor
  · intro ho
    cases ho with
    | var hv => rw [hwf.quantified_not_var hq] at hv; cases hv
    | quant _ b0 b1 _ g0 g1 hne ho1 =>
      rw [h0] at g0; rw [h1] at g1
      cases g0; cases g1
      exact ⟨hne, ho1⟩
    | arg _ i a hq1 _ _ _ _ => rw [hq] at hq1; cases hq1
  · rintro ⟨hne, ho⟩
    exact FreeOcc.quant f a0 a1 hq h0 h1 hne ho

theorem FreeOcc.var_iff {b : TB} {v f : TermRef}
    (hq : TFormulaIsQuantified b.sig (b.cell f) = false) (hv : TermIsVar (b.cell f) = true) :
    FreeOcc b v f ↔ v = f := by
  constructor
  · intro ho
    cases ho with
    | var _ => rfl
    | quant _ b0 b1 hq1 _ _ _ _ => rw [hq] at hq1; cases hq1
    | arg _ i a _ hv1 _ _ _ => rw [hv] at hv1; cases hv1
  · rintro rfl
    exact FreeOcc.var hv

theorem FreeOcc.arg_iff {b : TB} {v f : TermRef}
    (hq : TFormulaIsQuantified b.sig (b.cell f) = false) (hv : TermIsVar (b.cell f) = false) :
    FreeOcc b v f ↔ ∃ i a, i < (b.cell f).arity ∧ b.arg f i = some a ∧ FreeOcc b v a := by
  constructor
  · intro ho
    cases ho with
    | var hv1 => rw [hv] at hv1; cases hv1
    | quant _ b0 b1 hq1 _ _ _ _ => rw [hq] at hq1; cases hq1
    | arg _ i a _ _ hi ha ho1 => exact ⟨i, a, hi, ha, ho1⟩
  · rintro ⟨i, a, hi, ha, ho⟩
    exact FreeOcc.arg f i a hq hv hi ha ho

theorem mem_PTreeStore (vars : PTree) (x v : TermRef) :
    v ∈ PTreeStore vars x ↔ v ∈ vars ∨ v = x := by
  unfold PTreeStore
  by_cases h : x ∈ vars
  · rw [if_pos h]
    constructor
    · exact Or.inl
    · rintro (h1 | rfl)
      · exact h1
      · exact h
  · rw [if_neg h]
    simp

theorem nodup_PTreeStore (vars : PTree) (x : TermRef) (h : vars.Nodup) :
    (PTreeStore vars x).Nodup := by
  unfold PTreeStore
  by_cases hx : x ∈ vars
  · rw [if_pos hx]; exact h
  · rw [if_neg hx]
    exact List.Nodup.append h (List.nodup_singleton x) (by simpa using hx)

theorem TB.WF.arg_some {b : TB} (hwf : b.WF) {f : TermRef} {i : Nat} (hf : f < b.cells.length)
    (hi : i < (b.cell f).arity) : ∃ a, b.arg f i = some a := by
  obtain ⟨hlen, hc, _, _⟩ := hwf.2.2.2.2 f hf
  rw [← hlen] at hi
  have hg : (b.cell f).args[i]? = some ((b.cell f).args[i]) := List.getElem?_eq_getElem hi
  have hm := hc _ (List.getElem?_mem hg)
  unfold TB.arg
  rw [List.getD_eq_getElem?_getD, hg]
  cases hx : (b.cell f).args[i] with
  | none => rw [hx] at hm; simp [argBelow] at hm
  | some a => exact ⟨a, rfl⟩

theorem TermCellQueryProp_DelProp (bank : TB) (a0 v : TermRef) (ha : a0 < bank.cells.length) :
    TermCellQueryProp (TermCellDelProp bank a0 TPIsFreeVar) v TPIsFreeVar = true ↔
      a0 ≠ v ∧ TermCellQueryProp bank v TPIsFreeVar = true := by
  unfold TermCellQueryProp TermCellDelProp
  rw [TB.cell_setProperties]
  by_cases hv : a0 = v
  · subst hv
    rw [if_pos ⟨rfl, ha⟩]
    simp [QueryProp_DelProp]
  · rw [if_neg (fun h => hv h.1)]
    simp [hv]

theorem tformula_collect_freevars_loop (fuel : Nat) (bank : TB) (form : TermRef)
    (hwf : bank.WF) (hf : form < bank.cells.length) (hfuel : form < fuel + 1)
    (ih : ∀ (a : TermRef) (vars : PTree), a < bank.cells.length → a < fuel →
      ∃ vars1, tformula_collect_freevars fuel bank a vars = some (bank, vars1) ∧
        (∀ v, v ∈ vars1 ↔ v ∈ vars ∨
          (FreeOcc bank v a ∧ TermCellQueryProp bank v TPIsFreeVar = true)) ∧
        (vars.Nodup → vars1.Nodup)) :
    ∀ (n i : Nat) (vars : PTree), i + n = (bank.cell form).arity →
      ∃ vars1, forLoop (fun i (st : TB × PTree) =>
          match st.1.arg form i with
          | none => none
          | some a =>
            if TermIsVar (st.1.cell a) && TermCellQueryProp st.1 a TPIsFreeVar then
              some (st.1, PTreeStore st.2 a)
            else
              tformula_collect_freevars fuel st.1 a st.2) n i (bank, vars)
          = some (bank, vars1) ∧
        (∀ v, v ∈ vars1 ↔ v ∈ vars ∨
          ∃ j a, i ≤ j ∧ j < (bank.cell form).arity ∧ bank.arg form j = some a ∧
            FreeOcc bank v a ∧ TermCellQueryProp bank v TPIsFreeVar = true) ∧
        (vars.Nodup → vars1.Nodup) := by
  intro n
  induction n with
  | zero =>
    intro i vars hi
    refine ⟨vars, rfl, fun v => ⟨Or.inl, ?_⟩, id⟩
    rintro (h | ⟨j, a, h1, h2, _⟩)
    · exact h
    · omega
  | succ n ihn =>
    intro i vars hi
    have hlt : i < (bank.cell form).arity := by omega
    obtain ⟨a, ha⟩ := hwf.arg_some hf hlt
    have halt : a < form := hwf.arg_lt hf ha
    have step : ∃ vars0, (match bank.arg form i with
          | none => none
          | some a =>
            if TermIsVar (bank.cell a) && TermCellQueryProp bank a TPIsFreeVar then
              some (bank, PTreeStore vars a)
            else
              tformula_collect_freevars fuel bank a vars) = some (bank, vars0) ∧
        (∀ v, v ∈ vars0 ↔ v ∈ vars ∨
          (FreeOcc bank v a ∧ TermCellQueryProp bank v TPIsFreeVar = true)) ∧
        (vars.Nodup → vars0.Nodup) := by
      rw [ha]
      by_cases hc : (TermIsVar (bank.cell a) && TermCellQueryProp bank a TPIsFreeVar) = true
      · refine ⟨PTreeStore vars a, by simp only [hc, if_true], fun v => ?_,
          nodup_PTreeStore vars a⟩
        rw [Bool.and_eq_true] at hc
        have hq : TFormulaIsQuantified bank.sig (bank.cell a) = false := by
          cases hqq : TFormulaIsQuantified bank.sig (bank.cell a) with
          | false => rfl
          | true => rw [hwf.quantified_not_var hqq] at hc; exact absurd hc.1 (by simp)
        rw [mem_PTreeStore, FreeOcc.var_iff hq hc.1]
        constructor
        · rintro (h | rfl)
          · exact Or.inl h
          · exact Or.inr ⟨rfl, hc.2⟩
        · rintro (h | ⟨h, _⟩)
          · exact Or.inl h
          · exact Or.inr h
      · obtain ⟨vars0, h1, h2, h3⟩ := ih a vars (lt_trans halt hf)
          (Nat.lt_of_lt_of_le halt (Nat.lt_succ_iff.mp hfuel))
        exact ⟨vars0, by simp only [hc]; exact h1, h2, h3⟩
    obtain ⟨vars0, s1, s2, s3⟩ := step
    obtain ⟨vars1, l1, l2, l3⟩ := ihn (i + 1) vars0 (by omega)
    refine ⟨vars1, ?_, fun v => ?_, fun hn => l3 (s3 hn)⟩
    · rw [forLoop]
      simp only []
      rw [s1]
      exact l1
    · rw [l2, s2]
      constructor
      · rintro ((h | ⟨h1, h2⟩) | ⟨j, b, h1, h2, h3, h4, h5⟩)
        · exact Or.inl h
        · exact Or.inr ⟨i, a, le_refl _, hlt, ha, h1, h2⟩
        · exact Or.inr ⟨j, b, by omega, h2, h3, h4, h5⟩
      · rintro (h | ⟨j, b, h1, h2, h3, h4, h5⟩)
        · exact Or.inl (Or.inl h)
        · by_cases hji : j = i
          · subst hji
            rw [ha] at h3
            cases h3
            exact Or.inl (Or.inr ⟨h4, h5⟩)
          · exact Or.inr ⟨j, b, by omega, h2, h3, h4, h5⟩

theorem tformula_collect_freevars_spec (fuel : Nat) :
    ∀ (bank : TB) (form : TermRef) (vars : PTree), bank.WF → form < bank.cells.length →
      form < fuel →
      ∃ vars1, tformula_collect_freevars fuel bank form vars = some (bank, vars1) ∧
        (∀ v, v ∈ vars1 ↔ v ∈ vars ∨
          (FreeOcc bank v form ∧ TermCellQueryProp bank v TPIsFreeVar = true)) ∧
        (vars.Nodup → vars1.Nodup) := by
  induction fuel with
  | zero => intro bank form vars _ _ h; exact absurd h (Nat.not_lt_zero _)
  | succ fuel ih =>
    intro bank form vars hwf hf hfuel
    rw [tformula_collect_freevars]
    by_cases hq : TFormulaIsQuantified bank.sig (bank.cell form) = true
    · rw [if_pos hq]
      have har : (bank.cell form).arity = 2 := (hwf.2.2.2.2 form hf).2.2.1 hq
      obtain ⟨a0, h0⟩ := hwf.arg_some hf (show 0 < (bank.cell form).arity by rw [har]; decide)
      obtain ⟨a1, h1⟩ := hwf.arg_some hf (show 1 < (bank.cell form).arity by rw [har]; decide)
      have ha0 : a0 < bank.cells.length := lt_trans (hwf.arg_lt hf h0) hf
      have ha1 : a1 < form := hwf.arg_lt hf h1
      have hsh : ShapeExt bank (TermCellDelProp bank a0 TPIsFreeVar) :=
        ShapeExt.setProperties bank a0 _
      have hlen : (TermCellDelProp bank a0 TPIsFreeVar).cells.length = bank.cells.length :=
        TB.length_setProperties bank a0 _
      obtain ⟨vars1, r1, r2, r3⟩ := ih (TermCellDelProp bank a0 TPIsFreeVar) a1 vars
        (TB.WF_of_shape hsh hlen hwf) (by rw [hlen]; exact lt_trans ha1 hf)
        (Nat.lt_of_lt_of_le ha1 (Nat.lt_succ_iff.mp hfuel))
      refine ⟨vars1, ?_, fun v => ?_, r3⟩
      · simp only [h0, h1, r1, hsh.arg_eq hf, TermCellSetProp_DelProp_restore]
      · rw [r2, FreeOcc.shape_iff hsh hwf (lt_trans ha1 hf), TermCellQueryProp_DelProp bank a0 v ha0,
          FreeOcc.quant_iff hwf hq h0 h1]
        constructor
        · rintro (h | ⟨h1, h2, h3⟩)
          · exact Or.inl h
          · exact Or.inr ⟨⟨h2, h1⟩, h3⟩
        · rintro (h | ⟨⟨h1, h2⟩, h3⟩)
          · exact Or.inl h
          · exact Or.inr ⟨h2, h1, h3⟩
    · rw [if_neg hq]
      have hq' : TFormulaIsQuantified bank.sig (bank.cell form) = false := by
        simpa using hq
      by_cases hv : TermIsVar (bank.cell form) = true
      · rw [if_pos hv]
        by_cases hm : TermCellQueryProp bank form TPIsFreeVar = true
        · rw [if_pos hm]
          refine ⟨PTreeStore vars form, rfl, fun v => ?_, nodup_PTreeStore vars form⟩
          rw [mem_PTreeStore, FreeOcc.var_iff hq' hv]
          constructor
          · rintro (h | rfl)
            · exact Or.inl h
            · exact Or.inr ⟨rfl, hm⟩
          · rintro (h | ⟨h, _⟩)
            · exact Or.inl h
            · exact Or.inr h
        · rw [if_neg hm]
          refine ⟨vars, rfl, fun v => ⟨Or.inl, ?_⟩, id⟩
          rw [FreeOcc.var_iff hq' hv]
          rintro (h | ⟨rfl, h⟩)
          · exact h
          · exact absurd h hm
      · rw [if_neg hv]
        have hv' : TermIsVar (bank.cell form) = false := by simpa using hv
        obtain ⟨vars1, l1, l2, l3⟩ := tformula_collect_freevars_loop fuel bank form hwf hf hfuel
          (fun a vs ha hfa => ih bank a vs hwf ha hfa) (bank.cell form).arity 0 vars
          (Nat.zero_add _)
        refine ⟨vars1, l1, fun v => ?_, l3⟩
        rw [l2, FreeOcc.arg_iff hq' hv']
        constructor
        · rintro (h | ⟨j, a, _, h2, h3, h4, h5⟩)
          · exact Or.inl h
          · exact Or.inr ⟨⟨j, a, h2, h3, h4⟩, h5⟩
        · rintro (h | ⟨⟨j, a, h2, h3, h4⟩, h5⟩)
          · exact Or.inl h
          · exact Or.inr ⟨j, a, Nat.zero_le _, h2, h3, h4, h5⟩

theorem QueryProp_SetProp_mono (props prop q : TermProperties)
    (h : QueryProp props q = true) : QueryProp (SetProp props prop) q = true := by
  unfold QueryProp SetProp at *
  rw [beq_iff_eq] at h ⊢
  apply Nat.eq_of_testBit_eq
  intro i
  have hi := congrArg (fun x => Nat.testBit x i) h
  simp only [Nat.testBit_land, Nat.testBit_lor] at hi ⊢
  cases hp : props.testBit i <;> cases hq : q.testBit i <;> cases prop.testBit i <;>
    simp_all

theorem TermCellQueryProp_SetProp (bank : TB) (t v : TermRef) (prop : TermProperties)
    (h : (t = v ∧ t < bank.cells.length) ∨ TermCellQueryProp bank v prop = true) :
    TermCellQueryProp (TermCellSetProp bank t prop) v prop = true := by
  unfold TermCellQueryProp TermCellSetProp at *
  rw [TB.cell_setProperties]
  by_cases ht : t = v ∧ t < bank.cells.length
  · rw [if_pos ht]
    exact QueryProp_SetProp_self _ _
  · rw [if_neg ht]
    rcases h with h | h
    · exact absurd h ht
    · exact h

theorem VarBankVarsSetProp_marks (bank : TB) (prop : TermProperties) (v : TermRef)
    (hv : v ∈ bank.vars) (hlen : v < bank.cells.length) :
    TermCellQueryProp (VarBankVarsSetProp bank prop) v prop = true := by
  unfold VarBankVarsSetProp
  have key : ∀ (vs : List TermRef) (b : TB), b.cells.length = bank.cells.length →
      (v ∈ vs ∨ TermCellQueryProp b v prop = true) →
      TermCellQueryProp (vs.foldl (fun b v => TermCellSetProp b v prop) b) v prop = true := by
    intro vs
    induction vs with
    | nil =>
      intro b _ h
      rcases h with h | h
      · cases h
      · exact h
    | cons x xs ih =>
      intro b hb h
      rw [List.foldl_cons]
      apply ih _ ((TB.length_setProperties b x _).trans hb)
      rcases h with h | h
      · rcases List.mem_cons.mp h with rfl | h
        · exact Or.inr (TermCellQueryProp_SetProp b v v prop (Or.inl ⟨rfl, by rw [hb]; exact hlen⟩))
        · exact Or.inl h
      · exact Or.inr (TermCellQueryProp_SetProp b x v prop (Or.inr h))
  exact key bank.vars bank rfl (Or.inl hv)

theorem FreeOcc.isVar {b : TB} (hwf : b.WF) {v f : TermRef} (hocc : FreeOcc b v f) :
    f < b.cells.length → TermIsVar (b.cell v) = true ∧ v < b.cells.length := by
  induction hocc with
  | var hv => intro hf; exact ⟨hv, hf⟩
  | quant form a0 a1 _ _ h1 _ _ ih => intro hf; exact ih (lt_trans (hwf.arg_lt hf h1) hf)
  | arg form i a _ _ _ ha _ ih => intro hf; exact ih (lt_trans (hwf.arg_lt hf ha) hf)

/-- C5: started with an empty variable set on a formula of a well-formed bank,
`TFormulaCollectFreeVars` returns (with any fuel above the address of the
formula) and stores exactly the variables that have an occurrence not inside
the scope of a quantifier binding that same variable, each of them once; the
bank it leaves behind is the bank with `TPIsFreeVar` set in all variables. -/
theorem TFormulaCollectFreeVars_exact (bank : TB) (form : TermRef) (fuel : Nat)
    (hwf : bank.WF) (hform : form < bank.cells.length) (hfuel : form < fuel) :
    ∃ vars, TFormulaCollectFreeVars fuel bank form []
        = some (VarBankVarsSetProp bank TPIsFreeVar, vars) ∧
      vars.Nodup ∧ ∀ v, v ∈ vars ↔ FreeOcc bank v form := by
  obtain ⟨s1, s2, s3⟩ := VarBankVarsSetProp_shape bank TPIsFreeVar
  have hwf1 : (VarBankVarsSetProp bank TPIsFreeVar).WF := TB.WF_of_shape s1 s3 hwf
  obtain ⟨vars, r1, r2, r3⟩ := tformula_collect_freevars_spec fuel
    (VarBankVarsSetProp bank TPIsFreeVar) form [] hwf1 (by rw [s3]; exact hform) hfuel
  refine ⟨vars, r1, r3 List.nodup_nil, fun v => ?_⟩
  rw [r2, FreeOcc.shape_iff s1 hwf hform]
  constructor
  · rintro (h | ⟨h, _⟩)
    · cases h
    · exact h
  · intro h
    obtain ⟨hv, hl⟩ := h.isVar hwf hform
    exact Or.inr ⟨h, VarBankVarsSetProp_marks bank TPIsFreeVar v
      ((hwf.2.2.2.2 v hl).2.2.2 hv) hl⟩

theorem TFormulaCollectFreeVars_exact_witness :
    (demoQuant.WF ∧ 10 < demoQuant.cells.length ∧ 10 < 11) ∧
    (TFormulaCollectFreeVars 11 demoQuant 10 []).map Prod.snd = some [1] ∧
    ∃ vars, TFormulaCollectFreeVars 11 demoQuant 10 []
        = some (VarBankVarsSetProp demoQuant TPIsFreeVar, vars) ∧
      vars.Nodup ∧ ∀ v, v ∈ vars ↔ FreeOcc demoQuant v 10 :=
  ⟨⟨by decide, by decide, by decide⟩, by decide,
   TFormulaCollectFreeVars_exact demoQuant 10 11 (by decide) (by decide) (by decide)⟩

/-! ## Closure -/

theorem TFormulaCollectFreeVars_spec (bank : TB) (form : TermRef) (fuel : Nat)
    (hwf : bank.WF) (hform : form < bank.cells.length) (hfuel : form < fuel) :
    ∃ vars, tformula_collect_freevars fuel (VarBankVarsSetProp bank TPIsFreeVar) form []
        = some (VarBankVarsSetProp bank TPIsFreeVar, vars) ∧
      vars.Nodup ∧ (∀ v, v ∈ vars ↔ FreeOcc bank v form) ∧
      ∀ v, v ∈ vars → v < bank.cells.length := by
  obtain ⟨s1, s2, s3⟩ := VarBankVarsSetProp_shape bank TPIsFreeVar
  obtain ⟨vars, r1, r2, r3⟩ := tformula_collect_freevars_spec fuel
    (VarBankVarsSetProp bank TPIsFreeVar) form [] (TB.WF_of_shape s1 s3 hwf)
    (by rw [s3]; exact hform) hfuel
  have hiff : ∀ v, v ∈ vars ↔ FreeOcc bank v form := by
    intro v
    rw [r2, FreeOcc.shape_iff s1 hwf hform]
    constructor
    · rintro (h | ⟨h, _⟩)
      · cases h
      · exact h
    · intro h
      obtain ⟨hv, hl⟩ := h.isVar hwf hform
      exact Or.inr ⟨h, VarBankVarsSetProp_marks bank TPIsFreeVar v
        ((hwf.2.2.2.2 v hl).2.2.2 hv) hl⟩
  exact ⟨vars, r1, r3 List.nodup_nil, hiff, fun v hv => (((hiff v).mp hv).isVar hwf hform).2⟩

theorem TBTermTopInsert_ext (bank : TB) (t : TermCell) :
    ShapeExt bank (TBTermTopInsert bank t).1 ∧
    (TBTermTopInsert bank t).2 < (TBTermTopInsert bank t).1.cells.length := by
  cases hf : TermCellStoreFind t bank.cells with
  | some r =>
    have h1 : TBTermTopInsert bank t = (bank, r) := by simp only [TBTermTopInsert, hf]
    rw [h1]
    exact ⟨ShapeExt.shape_refl bank, (TermCellStoreFind_some t bank.cells r hf).1⟩
  | none =>
    refine ⟨⟨TBTermTopInsert_sig bank t, ?_, ?_, fun i hi => ?_⟩, ?_⟩
    · simp only [TBTermTopInsert, hf]
    · simp only [TBTermTopInsert, hf, List.length_append]
      exact Nat.le_add_right _ _
    · rw [TBTermTopInsert_cell_old bank t i hi]
      exact ⟨rfl, rfl, rfl⟩
    · simp only [TBTermTopInsert, hf, List.length_append, List.length_singleton]
      exact Nat.lt_succ_self _

theorem TermCell.WF_mono (sig : Sig) (vars : List TermRef) (i : TermRef) (c : TermCell)
    (hc : TermCell.WF sig vars i c) (hv : TermIsVar c = false) (j : TermRef) (hij : i ≤ j) :
    TermCell.WF sig vars j c := by
  obtain ⟨h1, h2, h3, _⟩ := hc
  refine ⟨h1, fun a ha => ?_, h3, fun h => by rw [hv] at h; cases h⟩
  have := h2 a ha
  cases a with
  | none => simp [argBelow] at this
  | some r =>
    simp only [argBelow, decide_eq_true_eq] at this ⊢
    exact lt_of_lt_of_le this hij

theorem TBTermTopInsert_WF (bank : TB) (t : TermCell) (hwf : bank.WF)
    (ht : TermCell.WF bank.sig bank.vars bank.cells.length t) :
    (TBTermTopInsert bank t).1.WF := by
  cases hf : TermCellStoreFind t bank.cells with
  | some r =>
    have h1 : TBTermTopInsert bank t = (bank, r) := by simp only [TBTermTopInsert, hf]
    rw [h1]
    exact hwf
  | none =>
    obtain ⟨w1, w2, w3, w4, w5⟩ := hwf
    have hcell := TBTermTopInsert_cell bank t
    have hold := TBTermTopInsert_cell_old bank t
    simp only [TBTermTopInsert, hf] at hcell hold ⊢
    refine ⟨w1, w2, w3, w4, fun i hi => ?_⟩
    simp only [List.length_append, List.length_singleton] at hi
    by_cases hlt : i < bank.cells.length
    · rw [hold i hlt]
      exact w5 i hlt
    · have hi' : i = bank.cells.length := by omega
      subst hi'
      exact TermCell.WF_congr _ _ _ t _ ⟨hcell.1, hcell.2.1, hcell.2.2.1⟩ ht

theorem TFormulaFCodeAlloc_top (bank : TB) (op : FunCode) (arg1 : TermRef)
    (arg2 : Option TermRef) :
    ∃ t : TermCell, TFormulaFCodeAlloc bank op arg1 arg2 = TBTermTopInsert bank t ∧
      t.f_code = op ∧ t.arity = SigFindArity bank.sig op ∧
      t.args = (if SigFindArity bank.sig op > 0 then
          (if SigFindArity bank.sig op > 1 then
            ((List.replicate (SigFindArity bank.sig op) none).set 0 (some arg1)).set 1 arg2
           else (List.replicate (SigFindArity bank.sig op) none).set 0 (some arg1))
        else List.replicate (SigFindArity bank.sig op) none) := by
  unfold TFormulaFCodeAlloc
  dsimp only
  split_ifs <;> exact ⟨_, rfl, rfl, rfl, rfl⟩

theorem TFormulaAddQuantor_spec (bank : TB) (form : TermRef) (universal : Bool) (var : TermRef)
    (hwf : bank.WF) (hform : form < bank.cells.length) (hvar : var < bank.cells.length) :
    (TFormulaAddQuantor bank form universal var).1.WF ∧
    ShapeExt bank (TFormulaAddQuantor bank form universal var).1 ∧
    (TFormulaAddQuantor bank form universal var).2
      < (TFormulaAddQuantor bank form universal var).1.cells.length ∧
    ((TFormulaAddQuantor bank form universal var).1.cell
        (TFormulaAddQuantor bank form universal var).2).f_code
      = (if universal then bank.sig.qall_code else bank.sig.qex_code) ∧
    ((TFormulaAddQuantor bank form universal var).1.cell
        (TFormulaAddQuantor bank form universal var).2).arity = 2 ∧
    ((TFormulaAddQuantor bank form universal var).1.cell
        (TFormulaAddQuantor bank form universal var).2).args = [some var, some form] := by
  have har : SigFindArity bank.sig (if universal then bank.sig.qall_code else bank.sig.qex_code)
      = 2 := by
    cases universal
    · exact hwf.2.2.1
    · exact hwf.2.2.2.1
  have hnn : 0 ≤ (if universal then bank.sig.qall_code else bank.sig.qex_code) := by
    cases universal
    · exact hwf.1
    · exact hwf.2.1
  unfold TFormulaAddQuantor
  obtain ⟨t, ht, h1, h2, h3⟩ := TFormulaFCodeAlloc_top bank
    (if universal then bank.sig.qall_code else bank.sig.qex_code) var (some form)
  simp only [] at ht ⊢
  rw [ht]
  rw [har] at h2 h3
  have h3' : t.args = [some var, some form] := by rw [h3]; rfl
  have hc := TBTermTopInsert_cell bank t
  have he := TBTermTopInsert_ext bank t
  refine ⟨TBTermTopInsert_WF bank t hwf ?_, he.1, he.2, hc.1.trans h1, hc.2.1.trans h2,
    hc.2.2.1.trans h3'⟩
  refine ⟨by rw [h3', h2]; rfl, ?_, fun _ => h2, ?_⟩
  · intro a ha
    rw [h3'] at ha
    simp only [List.mem_cons, List.mem_singleton, List.not_mem_nil, or_false] at ha
    rcases ha with rfl | rfl
    · simpa [argBelow] using hvar
    · simpa [argBelow] using hform
  · intro hv
    unfold TermIsVar at hv
    rw [h1, decide_eq_true_eq] at hv
    exact absurd hv (not_lt.mpr hnn)

theorem QuantChain.chain_of_shape {b b1 : TB} (h : ShapeExt b b1) (hwf : b.WF) (q : FunCode)
    (xs : List TermRef) (f : TermRef) :
    ∀ r, r < b.cells.length → QuantChain b q xs f r → QuantChain b1 q xs f r := by
  induction xs with
  | nil => intro r _ hc; exact hc
  | cons x xs ih =>
    intro r hr hc
    obtain ⟨c1, c2, r1, c3, c4⟩ := hc
    obtain ⟨s1, s2, s3⟩ := h.2.2.2 r hr
    have hr1 : r1 < r := hwf.arg_lt hr (i := 1) (by unfold TB.arg; rw [c3]; rfl)
    exact ⟨s1.trans c1, s2.trans c2, r1, s3.trans c3, ih r1 (lt_trans hr1 hr) c4⟩

theorem QuantChain.snoc {b : TB} (q : FunCode) (x f g : TermRef)
    (hg : QuantChain b q [x] f g) (xs : List TermRef) :
    ∀ r, QuantChain b q xs g r → QuantChain b q (xs ++ [x]) f r := by
  induction xs with
  | nil => intro r hc; cases hc; exact hg
  | cons y ys ih =>
    intro r hc
    obtain ⟨c1, c2, r1, c3, c4⟩ := hc
    exact ⟨c1, c2, r1, c3, ih r1 c4⟩

theorem QuantChain.freeOcc {b : TB} (hwf : b.WF) (q : FunCode)
    (hq : q = b.sig.qall_code ∨ q = b.sig.qex_code) (v f : TermRef) (xs : List TermRef) :
    ∀ r, QuantChain b q xs f r → FreeOcc b v r → v ∉ xs ∧ FreeOcc b v f := by
  induction xs with
  | nil => intro r hc ho; cases hc; exact ⟨List.not_mem_nil v, ho⟩
  | cons x xs ih =>
    intro r hc ho
    obtain ⟨c1, _, r1, c3, c4⟩ := hc
    have hqu : TFormulaIsQuantified b.sig (b.cell r) = true := by
      unfold TFormulaIsQuantified
      rw [c1]
      rcases hq with rfl | rfl <;> simp
    have h0 : b.arg r 0 = some x := by unfold TB.arg; rw [c3]; rfl
    have h1 : b.arg r 1 = some r1 := by unfold TB.arg; rw [c3]; rfl
    obtain ⟨hne, ho1⟩ := (FreeOcc.quant_iff hwf hqu h0 h1).mp ho
    obtain ⟨hn, hf⟩ := ih r1 c4 ho1
    exact ⟨fun hm => by
      rcases List.mem_cons.mp hm with rfl | hm
      · exact hne rfl
      · exact hn hm, hf⟩

theorem TFormulaAddQuantors_spec (universal : Bool) (vars : PTree) :
    ∀ (bank : TB) (form : TermRef), bank.WF → form < bank.cells.length →
      (∀ v, v ∈ vars → v < bank.cells.length) →
      (TFormulaAddQuantors bank form universal vars).1.WF ∧
      ShapeExt bank (TFormulaAddQuantors bank form universal vars).1 ∧
      (TFormulaAddQuantors bank form universal vars).2
        < (TFormulaAddQuantors bank form universal vars).1.cells.length ∧
      QuantChain (TFormulaAddQuantors bank form universal vars).1
        (if universal then bank.sig.qall_code else bank.sig.qex_code) vars.reverse form
        (TFormulaAddQuantors bank form universal vars).2 := by
  induction vars with
  | nil =>
    intro bank form hwf hform _
    exact ⟨hwf, ShapeExt.shape_refl bank, hform, rfl⟩
  | cons x xs ih =>
    intro bank form hwf hform hvars
    obtain ⟨a1, a2, a3, a4, a5, a6⟩ := TFormulaAddQuantor_spec bank form universal x hwf hform
      (hvars x (List.mem_cons_self x xs))
    have hstep : TFormulaAddQuantors bank form universal (x :: xs)
        = TFormulaAddQuantors (TFormulaAddQuantor bank form universal x).1
            (TFormulaAddQuantor bank form universal x).2 universal xs := rfl
    rw [hstep]
    obtain ⟨b1, b2, b3, b4⟩ := ih (TFormulaAddQuantor bank form universal x).1
      (TFormulaAddQuantor bank form universal x).2 a1 a3
      (fun v hv => lt_of_lt_of_le (hvars v (List.mem_cons_of_mem x hv)) a2.2.2.1)
    rw [a2.1] at b4
    refine ⟨b1, a2.trans b2, b3, ?_⟩
    rw [List.reverse_cons]
    apply QuantChain.snoc _ x form _ _ xs.reverse _ b4
    apply QuantChain.chain_of_shape b2 a1 _ [x] form _ a3
    exact ⟨a4, a5, form, a6, rfl⟩

theorem TFormulaClosure_spec (bank : TB) (form : TermRef) (universal : Bool) (fuel : Nat)
    (hwf : bank.WF) (hform : form < bank.cells.length) (hfuel : form < fuel) :
    ∃ bank1 r xs, TFormulaClosure fuel bank form universal = some (bank1, r) ∧
      bank1.WF ∧ ShapeExt bank bank1 ∧ r < bank1.cells.length ∧
      xs.Nodup ∧ (∀ v, v ∈ xs ↔ FreeOcc bank v form) ∧
      QuantChain bank1 (if universal then bank.sig.qall_code else bank.sig.qex_code) xs form r := by
  obtain ⟨s1, s2, s3⟩ := VarBankVarsSetProp_shape bank TPIsFreeVar
  have hwf0 : (VarBankVarsSetProp bank TPIsFreeVar).WF := TB.WF_of_shape s1 s3 hwf
  obtain ⟨vars, c1, c2, c3, c4⟩ := TFormulaCollectFreeVars_spec
    (VarBankVarsSetProp bank TPIsFreeVar) form fuel hwf0 (by rw [s3]; exact hform) hfuel
  obtain ⟨u1, u2, u3⟩ := VarBankVarsSetProp_shape (VarBankVarsSetProp bank TPIsFreeVar)
    TPIsFreeVar
  have hwf1 := TB.WF_of_shape u1 u3 hwf0
  obtain ⟨d1, d2, d3, d4⟩ := TFormulaAddQuantors_spec universal vars
    (VarBankVarsSetProp (VarBankVarsSetProp bank TPIsFreeVar) TPIsFreeVar) form hwf1
    (by rw [u3, s3]; exact hform) (fun v hv => by rw [u3]; exact c4 v hv)
  refine ⟨_, _, vars.reverse, ?_, d1, (s1.trans u1).trans d2, d3, List.nodup_reverse.mpr c2,
    fun v => ?_, ?_⟩
  · unfold TFormulaClosure TFormulaCollectFreeVars
    rw [c1]
  · rw [List.mem_reverse, c3, FreeOcc.shape_iff s1 hwf hform]
  · rw [u1.1, s1.1] at d4
    exact d4

/-- C6: the closure of a formula of a well-formed bank is closed, for both
values of the flag: `TFormulaClosure` returns (with any fuel above the
address of the formula), and `TFormulaIsClosed` on its result returns true
(with any fuel above the address of the result). -/
theorem TFormulaClosure_closed (bank : TB) (form : TermRef) (universal : Bool) (fuel : Nat)
    (hwf : bank.WF) (hform : form < bank.cells.length) (hfuel : form < fuel) :
    ∃ bank1 r, TFormulaClosure fuel bank form universal = some (bank1, r) ∧
      ∀ fuel1, r < fuel1 → ∃ bank2, TFormulaIsClosed fuel1 bank1 r = some (bank2, true) := by
  obtain ⟨bank1, r, xs, h1, h2, h3, h4, _, h6, h7⟩ :=
    TFormulaClosure_spec bank form universal fuel hwf hform hfuel
  refine ⟨bank1, r, h1, fun fuel1 hf1 => ?_⟩
  obtain ⟨vars, c1, _, c3, _⟩ := TFormulaCollectFreeVars_spec bank1 r fuel1 h2 h4 hf1
  have hempty : vars = [] := by
    apply List.eq_nil_iff_forall_not_mem.mpr
    intro v hv
    have ho := (c3 v).mp hv
    have hq : (if universal then bank.sig.qall_code else bank.sig.qex_code) = bank1.sig.qall_code ∨
        (if universal then bank.sig.qall_code else bank.sig.qex_code) = bank1.sig.qex_code := by
      rw [h3.1]
      cases universal
      · exact Or.inr rfl
      · exact Or.inl rfl
    obtain ⟨hn, hf⟩ := QuantChain.freeOcc h2 _ hq v form xs r h7 ho
    exact hn ((h6 v).mpr (hf.to_shape h3 hwf hform))
  refine ⟨VarBankVarsSetProp bank1 TPIsFreeVar, ?_⟩
  unfold TFormulaIsClosed TFormulaCollectFreeVars
  rw [c1, hempty]
  rfl

theorem TFormulaClosure_closed_witness :
    (demoAnd.WF ∧ 9 < demoAnd.cells.length ∧ 9 < 10) ∧
    ∃ bank1 r, TFormulaClosure 10 demoAnd 9 false = some (bank1, r) ∧
      ∀ fuel1, r < fuel1 → ∃ bank2, TFormulaIsClosed fuel1 bank1 r = some (bank2, true) :=
  ⟨⟨by decide, by decide, by decide⟩,
   TFormulaClosure_closed demoAnd 9 false 10 (by decide) (by decide) (by decide)⟩

/-- C7: for a formula with `n` distinct free variables the closure is a chain
of exactly `n` nested quantifier nodes, all with the universal code when
`universal` is set and the existential code otherwise, binding the free
variables of the formula one each (the list of bound variables has no
repetition and holds exactly the free variables), with the formula itself as
body of the innermost quantifier; without free variables the result is the
formula. -/
theorem TFormulaClosure_chain (bank : TB) (form : TermRef) (universal : Bool) (fuel : Nat)
    (hwf : bank.WF) (hform : form < bank.cells.length) (hfuel : form < fuel) :
    ∃ bank1 r xs, TFormulaClosure fuel bank form universal = some (bank1, r) ∧
      xs.Nodup ∧ (∀ v, v ∈ xs ↔ FreeOcc bank v form) ∧
      QuantChain bank1 (if universal then bank.sig.qall_code else bank.sig.qex_code) xs form r ∧
      (xs = [] → r = form) := by
  obtain ⟨bank1, r, xs, h1, _, _, _, h5, h6, h7⟩ :=
    TFormulaClosure_spec bank form universal fuel hwf hform hfuel
  refine ⟨bank1, r, xs, h1, h5, h6, h7, fun hx => ?_⟩
  rw [hx] at h7
  exact h7

theorem TFormulaClosure_chain_witness :
    (demoAnd.WF ∧ 9 < demoAnd.cells.length ∧ 9 < 10) ∧
    (TFormulaClosure 10 demoAnd 9 true).map
        (fun st => (st.2, (st.1.cell 11).f_code, (st.1.cell 11).args,
          (st.1.cell 10).f_code, (st.1.cell 10).args))
      = some (11, 15, [some 1, some 10], 15, [some 0, some 9]) ∧
    ∃ bank1 r xs, TFormulaClosure 10 demoAnd 9 true = some (bank1, r) ∧
      xs.Nodup ∧ (∀ v, v ∈ xs ↔ FreeOcc demoAnd v 9) ∧
      QuantChain bank1 (if true then demoAnd.sig.qall_code else demoAnd.sig.qex_code) xs 9 r ∧
      (xs = [] → r = 9) :=
  ⟨⟨by decide, by decide, by decide⟩, by decide,
   TFormulaClosure_chain demoAnd 9 true 10 (by decide) (by decide) (by decide)⟩

/-! ## Polarity -/

theorem QueryProp_iff (props q : TermProperties) :
    QueryProp props q = true ↔ ∀ i, q.testBit i = true → props.testBit i = true := by
  unfold QueryProp
  rw [beq_iff_eq]
  constructor
  · intro h i hq
    have hi := congrArg (fun x => Nat.testBit x i) h
    simp only [Nat.testBit_land, hq, Bool.and_true] at hi
    exact hi
  · intro h
    apply Nat.eq_of_testBit_eq
    intro i
    rw [Nat.testBit_land]
    cases hq : q.testBit i with
    | false => simp
    | true => simp [h i hq]

theorem testBit_TPPosPolarity (i : Nat) : TPPosPolarity.testBit i = decide (18 = i) := by
  unfold TPPosPolarity
  rw [Nat.one_shiftLeft, Nat.testBit_two_pow]

theorem testBit_TPNegPolarity (i : Nat) : TPNegPolarity.testBit i = decide (19 = i) := by
  unfold TPNegPolarity
  rw [Nat.one_shiftLeft, Nat.testBit_two_pow]

theorem QueryProp_pos (props : TermProperties) :
    QueryProp props TPPosPolarity = props.testBit 18 := by
  rw [Bool.eq_iff_iff, QueryProp_iff]
  simp only [testBit_TPPosPolarity, decide_eq_true_eq]
  exact ⟨fun h => h 18 rfl, fun h i hi => hi ▸ h⟩

theorem QueryProp_neg (props : TermProperties) :
    QueryProp props TPNegPolarity = props.testBit 19 := by
  rw [Bool.eq_iff_iff, QueryProp_iff]
  simp only [testBit_TPNegPolarity, decide_eq_true_eq]
  exact ⟨fun h => h 19 rfl, fun h i hi => hi ▸ h⟩

theorem QueryProp_both (props : TermProperties) :
    QueryProp props (TPPosPolarity ||| TPNegPolarity)
      = (props.testBit 18 && props.testBit 19) := by
  rw [Bool.eq_iff_iff, QueryProp_iff]
  simp only [Nat.testBit_lor, testBit_TPPosPolarity, testBit_TPNegPolarity, Bool.or_eq_true,
    decide_eq_true_eq, Bool.and_eq_true]
  constructor
  · intro h
    exact ⟨h 18 (Or.inl rfl), h 19 (Or.inr rfl)⟩
  · rintro ⟨h1, h2⟩ i (hi | hi)
    · exact hi ▸ h1
    · exact hi ▸ h2

theorem list_any_congr {α : Type} (l : List α) (p q : α → Bool) (h : ∀ a ∈ l, p a = q a) :
    l.any p = l.any q := by
  induction l with
  | nil => rfl
  | cons a l ih =>
    simp only [List.any_cons]
    rw [h a (List.mem_cons_self a l), ih (fun b hb => h b (List.mem_cons_of_mem a hb))]

theorem TB.WF.args_lt {b : TB} (hwf : b.WF) {t : TermRef} (ht : t < b.cells.length) :
    ∀ a ∈ (b.cell t).args, ∃ r, a = some r ∧ r < t := by
  intro a ha
  have := (hwf.2.2.2.2 t ht).2.1 a ha
  cases a with
  | none => simp [argBelow] at this
  | some r => exact ⟨r, rfl, by simpa [argBelow] using this⟩

theorem occursIn_le {b : TB} (hwf : b.WF) (x : TermRef) (fuel : Nat) :
    ∀ t, t < b.cells.length → occursIn fuel b x t = true → x ≤ t := by
  induction fuel with
  | zero => intro t _ h; simp [occursIn] at h
  | succ fuel ih =>
    intro t ht h
    rw [occursIn, Bool.or_eq_true, List.any_eq_true] at h
    rcases h with h | ⟨a, ha, h⟩
    · rw [beq_iff_eq] at h
      exact le_of_eq h.symm
    · obtain ⟨r, rfl, hr⟩ := hwf.args_lt ht a ha
      exact le_trans (ih r (lt_trans hr ht) h) (le_of_lt hr)

theorem occursIn_fuel {b : TB} (hwf : b.WF) (x : TermRef) (f1 : Nat) :
    ∀ f2 t, t < b.cells.length → t < f1 → t < f2 →
      occursIn f1 b x t = occursIn f2 b x t := by
  induction f1 with
  | zero => intro f2 t _ h; exact absurd h (Nat.not_lt_zero _)
  | succ f1 ih =>
    intro f2 t ht h1 h2
    cases f2 with
    | zero => exact absurd h2 (Nat.not_lt_zero _)
    | succ f2 =>
      rw [occursIn, occursIn]
      congr 1
      apply list_any_congr
      intro a ha
      obtain ⟨r, rfl, hr⟩ := hwf.args_lt ht a ha
      exact ih f2 r (lt_trans hr ht) (Nat.lt_of_lt_of_le hr (Nat.lt_succ_iff.mp h1))
        (Nat.lt_of_lt_of_le hr (Nat.lt_succ_iff.mp h2))

theorem occursIn_shape {b b1 : TB} (h : ShapeExt b b1) (hwf : b.WF) (x : TermRef) (fuel : Nat) :
    ∀ t, t < b.cells.length → occursIn fuel b1 x t = occursIn fuel b x t := by
  induction fuel with
  | zero => intro t _; rfl
  | succ fuel ih =>
    intro t ht
    rw [occursIn, occursIn, (h.2.2.2 t ht).2.2]
    congr 1
    apply list_any_congr
    intro a ha
    obtain ⟨r, rfl, hr⟩ := hwf.args_lt ht a ha
    exact ih r (lt_trans hr ht)

theorem occursIn_self (b : TB) (fuel : Nat) (t : TermRef) : occursIn (fuel + 1) b t t = true := by
  rw [occursIn, beq_self_eq_true, Bool.true_or]

theorem occursIn_arg_false {b : TB} (hwf : b.WF) {x t a : TermRef} {i : Nat}
    (ht : t < b.cells.length) (ha : b.arg t i = some a)
    (h : occursIn (t + 1) b x t = false) : occursIn (a + 1) b x a = false := by
  have hat : a < t := hwf.arg_lt ht ha
  rw [occursIn, Bool.or_eq_false_iff] at h
  have hmem : (some a : Option TermRef) ∈ (b.cell t).args := by
    unfold TB.arg at ha
    rw [List.getD_eq_getElem?_getD] at ha
    cases hg : (b.cell t).args[i]? with
    | none => rw [hg] at ha; cases ha
    | some y =>
      rw [hg] at ha
      simp only [Option.getD_some] at ha
      subst ha
      exact List.getElem?_mem hg
  have h2 := h.2
  rw [List.any_eq_false] at h2
  have h3 := h2 _ hmem
  simp only [Bool.not_eq_true] at h3
  rw [occursIn_fuel hwf x (a + 1) t a (lt_trans hat ht) (Nat.lt_succ_self a) hat]
  exact h3

theorem TermCellSetProp_other (bank : TB) (t x : TermRef) (prop : TermProperties)
    (hx : x ≠ t) : (TermCellSetProp bank t prop).cell x = bank.cell x := by
  unfold TermCellSetProp
  rw [TB.cell_setProperties, if_neg (fun h => hx h.1.symm)]

theorem TermCellSetProp_self (bank : TB) (t : TermRef) (prop : TermProperties)
    (ht : t < bank.cells.length) :
    ((TermCellSetProp bank t prop).cell t).properties = SetProp (bank.cell t).properties prop := by
  unfold TermCellSetProp
  rw [TB.cell_setProperties, if_pos ⟨rfl, ht⟩]

theorem TermCellSetProp_mono (bank : TB) (t x : TermRef) (prop q : TermProperties)
    (h : TermCellQueryProp bank x q = true) :
    TermCellQueryProp (TermCellSetProp bank t prop) x q = true := by
  unfold TermCellQueryProp TermCellSetProp at *
  rw [TB.cell_setProperties]
  by_cases ht : t = x ∧ t < bank.cells.length
  · rw [if_pos ht]
    rw [ht.1]
    exact QueryProp_SetProp_mono _ _ _ h
  · rw [if_neg ht]
    exact h

theorem TermCellSetProp_ignore (bank : TB) (t : TermRef) :
    TermCellSetProp bank t TPIgnoreProps = bank := by
  unfold TermCellSetProp TB.setProperties SetProp TPIgnoreProps
  have h : { bank.cell t with properties := (bank.cell t).properties ||| 0 } = bank.cell t := by
    rw [Nat.or_zero]
  rw [h]
  unfold TB.cell
  rw [list_set_getD_self]

theorem markRoot_eq (bank : TB) (form : TermRef) (polarity : Int) :
    (if polarity = -1 then TermCellSetProp bank form TPNegPolarity
      else if polarity = 0 then TermCellSetProp bank form (TPPosPolarity ||| TPNegPolarity)
      else if polarity = 1 then TermCellSetProp bank form TPPosPolarity
      else bank) = TermCellSetProp bank form (polarityFlags polarity) := by
  unfold polarityFlags
  split_ifs
  · rfl
  · rfl
  · rfl
  · exact (TermCellSetProp_ignore bank form).symm

theorem TB.PolarityWF_of_shape {b b1 : TB} (h : ShapeExt b b1)
    (hlen : b1.cells.length = b.cells.length) (hpw : b.PolarityWF) : b1.PolarityWF := by
  intro i hi
  rw [hlen] at hi
  obtain ⟨c1, c2, _⟩ := h.2.2.2 i hi
  rw [c1, c2, h.1]
  exact hpw i hi

theorem ShapeExt.isLiteral_eq {b b1 : TB} (h : ShapeExt b b1) {x : TermRef}
    (hx : x < b.cells.length) :
    TFormulaIsLiteral b1.sig (b1.cell x) = TFormulaIsLiteral b.sig (b.cell x) := by
  unfold TFormulaIsLiteral
  rw [(h.2.2.2 x hx).1, h.1]

theorem ShapeExt.of_length_eq {b b1 : TB} (h : ShapeExt b b1)
    (hlen : b1.cells.length = b.cells.length) : ShapeExt b1 b := by
  refine ⟨h.1.symm, h.2.1.symm, le_of_eq hlen, fun i hi => ?_⟩
  rw [hlen] at hi
  obtain ⟨c1, c2, c3⟩ := h.2.2.2 i hi
  exact ⟨c1.symm, c2.symm, c3.symm⟩

theorem PolarityStep.step_refl (bank : TB) (form : TermRef) (b : TB) : PolarityStep bank form b b :=
  ⟨ShapeExt.shape_refl b, rfl, fun _ _ _ => rfl, fun _ _ _ => rfl, fun _ _ h => h⟩

theorem markPolarity_phase (fuel : Nat) (ih : MarkPolaritySpec fuel) (bank b : TB)
    (form a : TermRef) (i : Nat) (polarity : Int) (hwf : bank.WF) (hpw : bank.PolarityWF)
    (hform : form < bank.cells.length) (hfuel : form < fuel + 1)
    (hs : ShapeExt bank b) (hl : b.cells.length = bank.cells.length)
    (ha : bank.arg form i = some a) :
    ∃ b1, (b.arg form i).bind (fun a => TFormulaMarkPolarity fuel b a polarity) = some b1 ∧
      PolarityStep bank form b b1 := by
  have hat : a < form := hwf.arg_lt hform ha
  have hwfb : b.WF := TB.WF_of_shape hs hl hwf
  have halen : a < b.cells.length := by rw [hl]; exact lt_trans hat hform
  obtain ⟨b1, h1, h2, h3, h4, h5, h6, _⟩ := ih b a polarity hwfb
    (TB.PolarityWF_of_shape hs hl hpw) halen
    (Nat.lt_of_lt_of_le hat (Nat.lt_succ_iff.mp hfuel))
  refine ⟨b1, by rw [hs.arg_eq hform, ha]; exact h1, h2, h3, fun x hx hc => ?_,
    fun x hx hc => ?_, h6⟩
  · apply h4 x (by rw [hl]; exact hx)
    rw [occursIn_shape hs hwf x (a + 1) a (lt_trans hat hform)]
    rcases hc with rfl | hc
    · cases ho : occursIn (a + 1) bank x a with
      | false => rfl
      | true => exact absurd (occursIn_le hwf x (a + 1) a (lt_trans hat hform) ho) (not_le.mpr hat)
    · exact occursIn_arg_false hwf hform ha hc
  · apply h5 x (by rw [hl]; exact hx)
    rw [hs.isLiteral_eq hx]
    exact hc

theorem markPolarity_args0 (fuel : Nat) (ih : MarkPolaritySpec fuel) (bank b : TB)
    (form : TermRef) (polarity : Int) (hwf : bank.WF) (hpw : bank.PolarityWF)
    (hform : form < bank.cells.length) (hfuel : form < fuel + 1)
    (hs : ShapeExt bank b) (hl : b.cells.length = bank.cells.length) :
    ∃ b1, (if (b.cell form).f_code == b.sig.and_code ||
              (b.cell form).f_code == b.sig.or_code then
            (b.arg form 0).bind (fun a => TFormulaMarkPolarity fuel b a polarity)
          else if (b.cell form).f_code == b.sig.not_code ||
              (b.cell form).f_code == b.sig.impl_code then
            (b.arg form 0).bind (fun a => TFormulaMarkPolarity fuel b a (-polarity))
          else if (b.cell form).f_code == b.sig.equiv_code then
            (b.arg form 0).bind (fun a => TFormulaMarkPolarity fuel b a 0)
          else some b) = some b1 ∧ PolarityStep bank form b b1 := by
  have hc : (b.cell form).f_code = (bank.cell form).f_code := (hs.2.2.2 form hform).1
  have harg : (bank.cell form).f_code ∈ [bank.sig.and_code, bank.sig.or_code,
      bank.sig.not_code, bank.sig.impl_code, bank.sig.equiv_code] →
      ∃ a, bank.arg form 0 = some a := fun hm =>
    hwf.arg_some hform (Nat.lt_of_lt_of_le Nat.zero_lt_one ((hpw form hform).1 hm))
  rw [hc, hs.1]
  split_ifs with h1 h2 h3
  · obtain ⟨a, ha⟩ := harg (by
      simp only [Bool.or_eq_true, beq_iff_eq] at h1
      rcases h1 with h | h <;> simp [h])
    exact markPolarity_phase fuel ih bank b form a 0 polarity hwf hpw hform hfuel hs hl ha
  · obtain ⟨a, ha⟩ := harg (by
      simp only [Bool.or_eq_true, beq_iff_eq] at h2
      rcases h2 with h | h <;> simp [h])
    exact markPolarity_phase fuel ih bank b form a 0 (-polarity) hwf hpw hform hfuel hs hl ha
  · obtain ⟨a, ha⟩ := harg (by
      simp only [beq_iff_eq] at h3
      simp [h3])
    exact markPolarity_phase fuel ih bank b form a 0 0 hwf hpw hform hfuel hs hl ha
  · exact ⟨b, rfl, PolarityStep.step_refl bank form b⟩

theorem markPolarity_args1 (fuel : Nat) (ih : MarkPolaritySpec fuel) (bank b : TB)
    (form : TermRef) (polarity : Int) (hwf : bank.WF) (hpw : bank.PolarityWF)
    (hform : form < bank.cells.length) (hfuel : form < fuel + 1)
    (hs : ShapeExt bank b) (hl : b.cells.length = bank.cells.length) :
    ∃ b1, (if (b.cell form).f_code == b.sig.and_code ||
              (b.cell form).f_code == b.sig.or_code ||
              (b.cell form).f_code == b.sig.impl_code ||
              (b.cell form).f_code == b.sig.qex_code ||
              (b.cell form).f_code == b.sig.qall_code then
            (b.arg form 1).bind (fun a => TFormulaMarkPolarity fuel b a polarity)
          else if (b.cell form).f_code == b.sig.equiv_code then
            (b.arg form 1).bind (fun a => TFormulaMarkPolarity fuel b a 0)
          else some b) = some b1 ∧ PolarityStep bank form b b1 := by
  have hc : (b.cell form).f_code = (bank.cell form).f_code := (hs.2.2.2 form hform).1
  have harg : (bank.cell form).f_code ∈ [bank.sig.and_code, bank.sig.or_code,
      bank.sig.impl_code, bank.sig.qex_code, bank.sig.qall_code, bank.sig.equiv_code] →
      ∃ a, bank.arg form 1 = some a := fun hm =>
    hwf.arg_some hform (Nat.lt_of_lt_of_le Nat.one_lt_two ((hpw form hform).2 hm))
  rw [hc, hs.1]
  split_ifs with h1 h2
  · obtain ⟨a, ha⟩ := harg (by
      simp only [Bool.or_eq_true, beq_iff_eq] at h1
      rcases h1 with (((h | h) | h) | h) | h <;> simp [h])
    exact markPolarity_phase fuel ih bank b form a 1 polarity hwf hpw hform hfuel hs hl ha
  · obtain ⟨a, ha⟩ := harg (by
      simp only [beq_iff_eq] at h2
      simp [h2])
    exact markPolarity_phase fuel ih bank b form a 1 0 hwf hpw hform hfuel hs hl ha
  · exact ⟨b, rfl, PolarityStep.step_refl bank form b⟩

theorem TFormulaMarkPolarity_spec (fuel : Nat) : MarkPolaritySpec fuel := by
  induction fuel with
  | zero => intro bank form polarity _ _ _ h; exact absurd h (Nat.not_lt_zero _)
  | succ fuel ih =>
    intro bank form polarity hwf hpw hform hfuel
    rw [TFormulaMarkPolarity]
    by_cases hlit : TFormulaIsLiteral bank.sig (bank.cell form) = true
    · rw [if_pos hlit]
      exact ⟨bank, rfl, ShapeExt.shape_refl bank, rfl, fun _ _ _ => rfl, fun _ _ _ => rfl,
        fun _ _ h => h, fun h => by rw [hlit] at h; cases h⟩
    · rw [if_neg hlit]
      simp only []
      rw [markRoot_eq]
      have hsa : ShapeExt bank (TermCellSetProp bank form (polarityFlags polarity)) :=
        ShapeExt.setProperties bank form _
      have hla : (TermCellSetProp bank form (polarityFlags polarity)).cells.length
          = bank.cells.length := TB.length_setProperties bank form _
      obtain ⟨bb, hb, sb1, sb2, sb3, sb4, sb5⟩ := markPolarity_args0 fuel ih bank
        (TermCellSetProp bank form (polarityFlags polarity)) form polarity hwf hpw hform hfuel
        hsa hla
      rw [hb, Option.some_bind]
      obtain ⟨bc, hc, sc1, sc2, sc3, sc4, sc5⟩ := markPolarity_args1 fuel ih bank bb form
        polarity hwf hpw hform hfuel (hsa.trans sb1) (sb2.trans hla)
      refine ⟨bc, hc, (hsa.trans sb1).trans sc1, (sc2.trans sb2).trans hla,
        fun x hx ho => ?_, fun x hx hx1 => ?_, fun x prop hq => ?_, fun _ => ?_⟩
      · have hne : x ≠ form := by
          rintro rfl
          rw [occursIn_self] at ho
          cases ho
        rw [sc3 x hx (Or.inr ho), sb3 x hx (Or.inr ho)]
        exact TermCellSetProp_other bank form x _ hne
      · have hne : x ≠ form := by
          rintro rfl
          exact hlit hx1
        rw [sc4 x hx hx1, sb4 x hx hx1]
        exact TermCellSetProp_other bank form x _ hne
      · exact sc5 x prop (sb5 x prop (TermCellSetProp_mono bank form x _ prop hq))
      · rw [sc3 form hform (Or.inl rfl), sb3 form hform (Or.inl rfl)]
        exact TermCellSetProp_self bank form _ hform

theorem markPolarity_two_calls (bank ba : TB) (form p q : TermRef) (pol0 pol1 : Int)
    (fuel : Nat) (hwf : bank.WF) (hpw : bank.PolarityWF) (hform : form < bank.cells.length)
    (hfuel : form < fuel + 1) (hp : bank.arg form 0 = some p) (hq : bank.arg form 1 = some q)
    (hs : ShapeExt bank ba) (hl : ba.cells.length = bank.cells.length)
    (hframe : ∀ x, x ≠ form → ba.cell x = bank.cell x) :
    ∃ bb bc, TFormulaMarkPolarity fuel ba p pol0 = some bb ∧
      TFormulaMarkPolarity fuel bb q pol1 = some bc ∧
      ShapeExt bank bb ∧ bb.cells.length = bank.cells.length ∧
      (TFormulaIsLiteral bank.sig (bank.cell p) = false →
        TermCellQueryProp bc p (polarityFlags pol0) = true) ∧
      (TFormulaIsLiteral bank.sig (bank.cell q) = false →
        TermCellQueryProp bc q (polarityFlags pol1) = true) ∧
      (TFormulaIsLiteral bank.sig (bank.cell p) = true → bc.cell p = bank.cell p) ∧
      (TFormulaIsLiteral bank.sig (bank.cell q) = true → bc.cell q = bank.cell q) ∧
      (TFormulaIsLiteral bank.sig (bank.cell p) = false →
        TFormulaIsLiteral bank.sig (bank.cell q) = false →
        occursIn (q + 1) bank p q = false → occursIn (p + 1) bank q p = false →
        (bc.cell p).properties = SetProp (bank.cell p).properties (polarityFlags pol0) ∧
        (bc.cell q).properties = SetProp (bank.cell q).properties (polarityFlags pol1)) := by
  have hpf : p < form := hwf.arg_lt hform hp
  have hqf : q < form := hwf.arg_lt hform hq
  have hpl : p < bank.cells.length := lt_trans hpf hform
  have hql : q < bank.cells.length := lt_trans hqf hform
  have hpfu : p < fuel := Nat.lt_of_lt_of_le hpf (Nat.lt_succ_iff.mp hfuel)
  have hqfu : q < fuel := Nat.lt_of_lt_of_le hqf (Nat.lt_succ_iff.mp hfuel)
  have hwfa : ba.WF := TB.WF_of_shape hs hl hwf
  obtain ⟨bb, b1, b2, b3, b4, b5, b6, b7⟩ := TFormulaMarkPolarity_spec fuel ba p pol0 hwfa
    (TB.PolarityWF_of_shape hs hl hpw) (by rw [hl]; exact hpl) hpfu
  have hsb : ShapeExt bank bb := hs.trans b2
  have hlb : bb.cells.length = bank.cells.length := b3.trans hl
  have hwfb : bb.WF := TB.WF_of_shape hsb hlb hwf
  obtain ⟨bc, c1, c2, c3, c4, c5, c6, c7⟩ := TFormulaMarkPolarity_spec fuel bb q pol1 hwfb
    (TB.PolarityWF_of_shape hsb hlb hpw) (by rw [hlb]; exact hql) hqfu
  have hpa : ba.cell p = bank.cell p := hframe p (ne_of_lt hpf)
  have hqa : ba.cell q = bank.cell q := hframe q (ne_of_lt hqf)
  have hlitb : ∀ x, x < bank.cells.length →
      TFormulaIsLiteral bb.sig (bb.cell x) = TFormulaIsLiteral bank.sig (bank.cell x) :=
    fun x hx => hsb.isLiteral_eq hx
  have hlita : ∀ x, x < bank.cells.length →
      TFormulaIsLiteral ba.sig (ba.cell x) = TFormulaIsLiteral bank.sig (bank.cell x) :=
    fun x hx => hs.isLiteral_eq hx
  refine ⟨bb, bc, b1, c1, hsb, hlb, fun hlp => ?_, fun hlq => ?_, fun hlp => ?_,
    fun hlq => ?_, fun hlp hlq hpq hqp => ⟨?_, ?_⟩⟩
  · apply c6
    unfold TermCellQueryProp
    rw [b7 (by rw [hlita p hpl]; exact hlp)]
    exact QueryProp_SetProp_self _ _
  · unfold TermCellQueryProp
    rw [c7 (by rw [hlitb q hql]; exact hlq)]
    exact QueryProp_SetProp_self _ _
  · rw [c5 p (by rw [hlb]; exact hpl) (by rw [hlitb p hpl]; exact hlp),
      b5 p (by rw [hl]; exact hpl) (by rw [hlita p hpl]; exact hlp), hpa]
  · rw [c5 q (by rw [hlb]; exact hql) (by rw [hlitb q hql]; exact hlq),
      b5 q (by rw [hl]; exact hql) (by rw [hlita q hql]; exact hlq), hqa]
  · rw [c4 p (by rw [hlb]; exact hpl) (by rw [occursIn_shape hsb hwf p (q + 1) q hql]; exact hpq),
      b7 (by rw [hlita p hpl]; exact hlp), hpa]
  · rw [c7 (by rw [hlitb q hql]; exact hlq),
      b4 q (by rw [hl]; exact hql) (by rw [occursIn_shape hs hwf q (p + 1) p hpl]; exact hqp),
      hqa]

theorem TFormulaDecodePolarity_bits (bank : TB) (x : TermRef) :
    TFormulaDecodePolarity bank x
      = if ((bank.cell x).properties.testBit 18 && (bank.cell x).properties.testBit 19) = true
        then 0
        else if (bank.cell x).properties.testBit 18 = true then 1
        else if (bank.cell x).properties.testBit 19 = true then -1
        else 0 := by
  unfold TFormulaDecodePolarity TermCellQueryProp
  rw [QueryProp_both, QueryProp_pos, QueryProp_neg]

theorem cleared_bits (props : TermProperties)
    (h : IsAnyPropSet props (TPPosPolarity ||| TPNegPolarity) = false) :
    props.testBit 18 = false ∧ props.testBit 19 = false := by
  unfold IsAnyPropSet at h
  have h0 : props &&& (TPPosPolarity ||| TPNegPolarity) = 0 := by
    simpa using h
  have h18 := congrArg (fun x => Nat.testBit x 18) h0
  have h19 := congrArg (fun x => Nat.testBit x 19) h0
  simp only [Nat.testBit_land, Nat.testBit_lor, testBit_TPPosPolarity, testBit_TPNegPolarity,
    Nat.zero_testBit] at h18 h19
  constructor
  · simpa using h18
  · simpa using h19

theorem Sig.CodesDistinct.impl {sig : Sig} (h : sig.CodesDistinct) :
    sig.impl_code ≠ sig.eqn_code ∧ sig.impl_code ≠ sig.neqn_code ∧
    sig.impl_code ≠ sig.and_code ∧ sig.impl_code ≠ sig.or_code := by
  unfold Sig.CodesDistinct at h
  simp only [List.nodup_cons, List.mem_cons, List.mem_singleton, not_or] at h
  refine ⟨?_, ?_, ?_, ?_⟩ <;> intro he <;> simp_all

theorem Sig.CodesDistinct.equiv {sig : Sig} (h : sig.CodesDistinct) :
    sig.equiv_code ≠ sig.eqn_code ∧ sig.equiv_code ≠ sig.neqn_code ∧
    sig.equiv_code ≠ sig.and_code ∧ sig.equiv_code ≠ sig.or_code ∧
    sig.equiv_code ≠ sig.not_code ∧ sig.equiv_code ≠ sig.impl_code ∧
    sig.equiv_code ≠ sig.qex_code ∧ sig.equiv_code ≠ sig.qall_code := by
  unfold Sig.CodesDistinct at h
  simp only [List.nodup_cons, List.mem_cons, List.mem_singleton, not_or] at h
  refine ⟨?_, ?_, ?_, ?_, ?_, ?_, ?_, ?_⟩ <;> intro he <;> simp_all

theorem markPolarity_run_impl (bank bb bc : TB) (form p q : TermRef) (polarity : Int)
    (n : Nat) (hsig : bank.sig.CodesDistinct) (hform : form < bank.cells.length)
    (hcode : (bank.cell form).f_code = bank.sig.impl_code)
    (hp : bank.arg form 0 = some p) (hq : bank.arg form 1 = some q)
    (e1 : TFormulaMarkPolarity n (TermCellSetProp bank form (polarityFlags polarity)) p
      (-polarity) = some bb)
    (e2 : TFormulaMarkPolarity n bb q polarity = some bc) (hsb : ShapeExt bank bb) :
    TFormulaMarkPolarity (n + 1) bank form polarity = some bc := by
  obtain ⟨d1, d2, d3, d4⟩ := hsig.impl
  have hlit : ¬ TFormulaIsLiteral bank.sig (bank.cell form) = true := by
    unfold TFormulaIsLiteral
    rw [hcode]
    simp [d1, d2]
  have hsa : ShapeExt bank (TermCellSetProp bank form (polarityFlags polarity)) :=
    ShapeExt.setProperties bank form _
  rw [TFormulaMarkPolarity, if_neg hlit]
  simp only []
  rw [markRoot_eq]
  have hca : ((TermCellSetProp bank form (polarityFlags polarity)).cell form).f_code
      = bank.sig.impl_code := ((hsa.2.2.2 form hform).1).trans hcode
  have hcb : (bb.cell form).f_code = bank.sig.impl_code :=
    ((hsb.2.2.2 form hform).1).trans hcode
  have hsiga : (TermCellSetProp bank form (polarityFlags polarity)).sig = bank.sig := rfl
  have b3 : (bank.sig.impl_code == bank.sig.and_code) = false := beq_eq_false_iff_ne.mpr d3
  have b4 : (bank.sig.impl_code == bank.sig.or_code) = false := beq_eq_false_iff_ne.mpr d4
  rw [hca, hsiga, hsa.arg_eq hform, hp]
  simp only [b3, b4, beq_self_eq_true, Bool.or_true, Bool.or_false, if_true, if_false,
    Option.some_bind, Bool.false_eq_true, Bool.or_self]
  rw [e1, Option.some_bind, hcb, hsb.1, hsb.arg_eq hform, hq]
  simp only [beq_self_eq_true, Bool.or_true, Bool.true_or, if_true, Option.some_bind]
  exact e2

theorem markPolarity_run_equiv (bank bb bc : TB) (form p q : TermRef) (polarity : Int)
    (n : Nat) (hsig : bank.sig.CodesDistinct) (hform : form < bank.cells.length)
    (hcode : (bank.cell form).f_code = bank.sig.equiv_code)
    (hp : bank.arg form 0 = some p) (hq : bank.arg form 1 = some q)
    (e1 : TFormulaMarkPolarity n (TermCellSetProp bank form (polarityFlags polarity)) p 0
      = some bb)
    (e2 : TFormulaMarkPolarity n bb q 0 = some bc) (hsb : ShapeExt bank bb) :
    TFormulaMarkPolarity (n + 1) bank form polarity = some bc := by
  obtain ⟨d1, d2, d3, d4, d5, d6, d7, d8⟩ := hsig.equiv
  have hlit : ¬ TFormulaIsLiteral bank.sig (bank.cell form) = true := by
    unfold TFormulaIsLiteral
    rw [hcode]
    simp [d1, d2]
  have hsa : ShapeExt bank (TermCellSetProp bank form (polarityFlags polarity)) :=
    ShapeExt.setProperties bank form _
  rw [TFormulaMarkPolarity, if_neg hlit]
  simp only []
  rw [markRoot_eq]
  have hca : ((TermCellSetProp bank form (polarityFlags polarity)).cell form).f_code
      = bank.sig.equiv_code := ((hsa.2.2.2 form hform).1).trans hcode
  have hcb : (bb.cell form).f_code = bank.sig.equiv_code :=
    ((hsb.2.2.2 form hform).1).trans hcode
  have hsiga : (TermCellSetProp bank form (polarityFlags polarity)).sig = bank.sig := rfl
  have b3 : (bank.sig.equiv_code == bank.sig.and_code) = false := beq_eq_false_iff_ne.mpr d3
  have b4 : (bank.sig.equiv_code == bank.sig.or_code) = false := beq_eq_false_iff_ne.mpr d4
  have b5 : (bank.sig.equiv_code == bank.sig.not_code) = false := beq_eq_false_iff_ne.mpr d5
  have b6 : (bank.sig.equiv_code == bank.sig.impl_code) = false := beq_eq_false_iff_ne.mpr d6
  have b7 : (bank.sig.equiv_code == bank.sig.qex_code) = false := beq_eq_false_iff_ne.mpr d7
  have b8 : (bank.sig.equiv_code == bank.sig.qall_code) = false := beq_eq_false_iff_ne.mpr d8
  rw [hca, hsiga, hsa.arg_eq hform, hp]
  simp only [b3, b4, b5, b6, beq_self_eq_true, Bool.or_true, Bool.or_false, if_true, if_false,
    Option.some_bind, Bool.false_eq_true, Bool.or_self]
  rw [e1, Option.some_bind, hcb, hsb.1, hsb.arg_eq hform, hq]
  simp only [b3, b4, b6, b7, b8, beq_self_eq_true, Bool.or_true, Bool.or_false, if_true,
    if_false, Option.some_bind, Bool.false_eq_true, Bool.or_self]
  exact e2

/-- C8 (as stated, refuted): in `(p(X) = $true) => (q(Y) = $true)` both sides
are literals; `TFormulaMarkPolarity` with polarity `+1` leaves them untagged
and `TFormulaDecodePolarity` returns `0` for both.  In `~p => ~p` the
antecedent and the consequent are one shared node, which ends up tagged with
both polarities and decodes to `0` as well. -/
theorem TFormulaMarkPolarity_impl_literals :
    ((demoImplLits.cell 9).f_code = demoImplLits.sig.impl_code ∧
      (demoImplLits.cell 9).args = [some 7, some 8] ∧
      (demoImplLits.cells.all
        (fun c => !IsAnyPropSet c.properties (TPPosPolarity ||| TPNegPolarity))) = true ∧
      (TFormulaMarkPolarity 10 demoImplLits 9 1).map
          (fun b => (TFormulaDecodePolarity b 7, TFormulaDecodePolarity b 8,
            TermCellQueryProp b 7 TPNegPolarity, TermCellQueryProp b 8 TPPosPolarity))
        = some (0, 0, false, false)) ∧
    ((demoImpl.cell 12).f_code = demoImpl.sig.impl_code ∧
      (demoImpl.cell 12).args = [some 9, some 9] ∧
      (demoImpl.cells.all
        (fun c => !IsAnyPropSet c.properties (TPPosPolarity ||| TPNegPolarity))) = true ∧
      (TFormulaMarkPolarity 13 demoImpl 12 1).map (fun b => TFormulaDecodePolarity b 9)
        = some 0) := by
  decide

/-- C8 (amended): after `TFormulaMarkPolarity(bank, form, +1)` on an implication
node `form = (p => q)` the call returns (with any fuel above the address of
`form`); an antecedent that is not a literal carries `TPNegPolarity`, a
consequent that is not a literal carries `TPPosPolarity`, and a literal side
is left exactly as it was.  When neither side is a literal, neither occurs
in the other and their polarity flags are initially cleared,
`TFormulaDecodePolarity` returns `-1` for `p` and `+1` for `q`. -/
theorem TFormulaMarkPolarity_impl (bank : TB) (form p q : TermRef) (fuel : Nat)
    (hwf : bank.WF) (hpw : bank.PolarityWF) (hsig : bank.sig.CodesDistinct)
    (hform : form < bank.cells.length) (hfuel : form < fuel)
    (hcode : (bank.cell form).f_code = bank.sig.impl_code)
    (hargs : (bank.cell form).args = [some p, some q]) :
    ∃ bank1, TFormulaMarkPolarity fuel bank form 1 = some bank1 ∧
      (TFormulaIsLiteral bank.sig (bank.cell p) = false →
        TermCellQueryProp bank1 p TPNegPolarity = true) ∧
      (TFormulaIsLiteral bank.sig (bank.cell q) = false →
        TermCellQueryProp bank1 q TPPosPolarity = true) ∧
      (TFormulaIsLiteral bank.sig (bank.cell p) = true → bank1.cell p = bank.cell p) ∧
      (TFormulaIsLiteral bank.sig (bank.cell q) = true → bank1.cell q = bank.cell q) ∧
      (TFormulaIsLiteral bank.sig (bank.cell p) = false →
        TFormulaIsLiteral bank.sig (bank.cell q) = false →
        occursIn (q + 1) bank p q = false → occursIn (p + 1) bank q p = false →
        IsAnyPropSet (bank.cell p).properties (TPPosPolarity ||| TPNegPolarity) = false →
        IsAnyPropSet (bank.cell q).properties (TPPosPolarity ||| TPNegPolarity) = false →
        TFormulaDecodePolarity bank1 p = -1 ∧ TFormulaDecodePolarity bank1 q = 1) := by
  cases fuel with
  | zero => exact absurd hfuel (Nat.not_lt_zero _)
  | succ n =>
    have hp : bank.arg form 0 = some p := by unfold TB.arg; rw [hargs]; rfl
    have hq : bank.arg form 1 = some q := by unfold TB.arg; rw [hargs]; rfl
    obtain ⟨bb, bc, e1, e2, hsb, _, f1, f2, f3, f4, f5⟩ := markPolarity_two_calls bank
      (TermCellSetProp bank form (polarityFlags 1)) form p q (-1) 1 n hwf hpw hform hfuel hp hq
      (ShapeExt.setProperties bank form _) (TB.length_setProperties bank form _)
      (fun x hx => TermCellSetProp_other bank form x _ hx)
    have hrun : TFormulaMarkPolarity (n + 1) bank form 1 = some bc :=
      markPolarity_run_impl bank bb bc form p q 1 n hsig hform hcode hp hq e1 e2 hsb
    refine ⟨bc, hrun, f1, f2, f3, f4, fun hlp hlq hpq hqp hcp hcq => ?_⟩
    obtain ⟨g1, g2⟩ := f5 hlp hlq hpq hqp
    obtain ⟨p18, p19⟩ := cleared_bits _ hcp
    obtain ⟨q18, q19⟩ := cleared_bits _ hcq
    rw [TFormulaDecodePolarity_bits, TFormulaDecodePolarity_bits, g1, g2]
    unfold SetProp polarityFlags
    simp [Nat.testBit_lor, testBit_TPPosPolarity, testBit_TPNegPolarity, p18, p19, q18, q19]

theorem TFormulaMarkPolarity_impl_witness :
    (demoImpl.WF ∧ demoImpl.PolarityWF ∧ demoImpl.sig.CodesDistinct ∧
      11 < demoImpl.cells.length ∧ 11 < 12 ∧
      (demoImpl.cell 11).f_code = demoImpl.sig.impl_code ∧
      (demoImpl.cell 11).args = [some 9, some 10]) ∧
    (TFormulaIsLiteral demoImpl.sig (demoImpl.cell 9) = false ∧
      TFormulaIsLiteral demoImpl.sig (demoImpl.cell 10) = false ∧
      occursIn (10 + 1) demoImpl 9 10 = false ∧ occursIn (9 + 1) demoImpl 10 9 = false ∧
      IsAnyPropSet (demoImpl.cell 9).properties (TPPosPolarity ||| TPNegPolarity) = false ∧
      IsAnyPropSet (demoImpl.cell 10).properties (TPPosPolarity ||| TPNegPolarity) = false) ∧
    (TFormulaMarkPolarity 12 demoImpl 11 1).map
        (fun b => (TFormulaDecodePolarity b 9, TFormulaDecodePolarity b 10)) = some (-1, 1) ∧
    ∃ bank1, TFormulaMarkPolarity 12 demoImpl 11 1 = some bank1 ∧
      (TFormulaIsLiteral demoImpl.sig (demoImpl.cell 9) = false →
        TermCellQueryProp bank1 9 TPNegPolarity = true) ∧
      (TFormulaIsLiteral demoImpl.sig (demoImpl.cell 10) = false →
        TermCellQueryProp bank1 10 TPPosPolarity = true) ∧
      (TFormulaIsLiteral demoImpl.sig (demoImpl.cell 9) = true →
        bank1.cell 9 = demoImpl.cell 9) ∧
      (TFormulaIsLiteral demoImpl.sig (demoImpl.cell 10) = true →
        bank1.cell 10 = demoImpl.cell 10) ∧
      (TFormulaIsLiteral demoImpl.sig (demoImpl.cell 9) = false →
        TFormulaIsLiteral demoImpl.sig (demoImpl.cell 10) = false →
        occursIn (10 + 1) demoImpl 9 10 = false → occursIn (9 + 1) demoImpl 10 9 = false →
        IsAnyPropSet (demoImpl.cell 9).properties (TPPosPolarity ||| TPNegPolarity) = false →
        IsAnyPropSet (demoImpl.cell 10).properties (TPPosPolarity ||| TPNegPolarity) = false →
        TFormulaDecodePolarity bank1 9 = -1 ∧ TFormulaDecodePolarity bank1 10 = 1) :=
  ⟨⟨by decide, by decide, by decide, by decide, by decide, by decide, by decide⟩,
   ⟨by decide, by decide, by decide, by decide, by decide, by decide⟩, by decide,
   TFormulaMarkPolarity_impl demoImpl 11 9 10 12 (by decide) (by decide) (by decide)
     (by decide) (by decide) (by decide) (by decide)⟩

/-- C9 (as stated, refuted): in `(p(X) = $true) <=> (q(Y) = $true)` both sides
are literals; after `TFormulaMarkPolarity`, for each polarity, neither of them
carries `TPPosPolarity` or `TPNegPolarity`. -/
theorem TFormulaMarkPolarity_equiv_literals :
    (demoEquivLits.cell 9).f_code = demoEquivLits.sig.equiv_code ∧
    (demoEquivLits.cell 9).args = [some 7, some 8] ∧
    (TFormulaMarkPolarity 10 demoEquivLits 9 (-1)).map
        (fun b => (TermCellQueryProp b 7 TPPosPolarity, TermCellQueryProp b 7 TPNegPolarity,
          TermCellQueryProp b 8 TPPosPolarity, TermCellQueryProp b 8 TPNegPolarity))
      = some (false, false, false, false) ∧
    (TFormulaMarkPolarity 10 demoEquivLits 9 0).map
        (fun b => (TermCellQueryProp b 7 TPPosPolarity, TermCellQueryProp b 7 TPNegPolarity,
          TermCellQueryProp b 8 TPPosPolarity, TermCellQueryProp b 8 TPNegPolarity))
      = some (false, false, false, false) ∧
    (TFormulaMarkPolarity 10 demoEquivLits 9 1).map
        (fun b => (TermCellQueryProp b 7 TPPosPolarity, TermCellQueryProp b 7 TPNegPolarity,
          TermCellQueryProp b 8 TPPosPolarity, TermCellQueryProp b 8 TPNegPolarity))
      = some (false, false, false, false) := by
  decide

/-- C9 (amended): after `TFormulaMarkPolarity(bank, form, polarity)` on an
equivalence node `form = (p <=> q)`, for every polarity, the call returns
(with any fuel above the address of `form`); each side that is not a literal
carries both `TPPosPolarity` and `TPNegPolarity`, so that
`TFormulaDecodePolarity` returns `0` for it; a side that is a literal is left
exactly as it was. -/
theorem TFormulaMarkPolarity_equiv (bank : TB) (form p q : TermRef) (polarity : Int)
    (fuel : Nat) (hwf : bank.WF) (hpw : bank.PolarityWF) (hsig : bank.sig.CodesDistinct)
    (hform : form < bank.cells.length) (hfuel : form < fuel)
    (hcode : (bank.cell form).f_code = bank.sig.equiv_code)
    (hargs : (bank.cell form).args = [some p, some q]) :
    ∃ bank1, TFormulaMarkPolarity fuel bank form polarity = some bank1 ∧
      (TFormulaIsLiteral bank.sig (bank.cell p) = false →
        TermCellQueryProp bank1 p TPPosPolarity = true ∧
        TermCellQueryProp bank1 p TPNegPolarity = true ∧
        TFormulaDecodePolarity bank1 p = 0) ∧
      (TFormulaIsLiteral bank.sig (bank.cell q) = false →
        TermCellQueryProp bank1 q TPPosPolarity = true ∧
        TermCellQueryProp bank1 q TPNegPolarity = true ∧
        TFormulaDecodePolarity bank1 q = 0) ∧
      (TFormulaIsLiteral bank.sig (bank.cell p) = true → bank1.cell p = bank.cell p) ∧
      (TFormulaIsLiteral bank.sig (bank.cell q) = true → bank1.cell q = bank.cell q) := by
  cases fuel with
  | zero => exact absurd hfuel (Nat.not_lt_zero _)
  | succ n =>
    have hp : bank.arg form 0 = some p := by unfold TB.arg; rw [hargs]; rfl
    have hq : bank.arg form 1 = some q := by unfold TB.arg; rw [hargs]; rfl
    obtain ⟨bb, bc, e1, e2, hsb, _, f1, f2, f3, f4, _⟩ := markPolarity_two_calls bank
      (TermCellSetProp bank form (polarityFlags polarity)) form p q 0 0 n hwf hpw hform hfuel
      hp hq (ShapeExt.setProperties bank form _) (TB.length_setProperties bank form _)
      (fun x hx => TermCellSetProp_other bank form x _ hx)
    have hrun : TFormulaMarkPolarity (n + 1) bank form polarity = some bc :=
      markPolarity_run_equiv bank bb bc form p q polarity n hsig hform hcode hp hq e1 e2 hsb
    have hboth : ∀ x, TermCellQueryProp bc x (polarityFlags 0) = true →
        TermCellQueryProp bc x TPPosPolarity = true ∧
        TermCellQueryProp bc x TPNegPolarity = true ∧ TFormulaDecodePolarity bc x = 0 := by
      intro x hx
      have hx' : TermCellQueryProp bc x (TPPosPolarity ||| TPNegPolarity) = true := hx
      unfold TermCellQueryProp at hx'
      rw [QueryProp_both, Bool.and_eq_true] at hx'
      refine ⟨?_, ?_, ?_⟩
      · unfold TermCellQueryProp; rw [QueryProp_pos]; exact hx'.1
      · unfold TermCellQueryProp; rw [QueryProp_neg]; exact hx'.2
      · rw [TFormulaDecodePolarity_bits, hx'.1, hx'.2]; rfl
    exact ⟨bc, hrun, fun h => hboth p (f1 h), fun h => hboth q (f2 h), f3, f4⟩

theorem TFormulaMarkPolarity_equiv_witness :
    (demoImpl.WF ∧ demoImpl.PolarityWF ∧ demoImpl.sig.CodesDistinct ∧
      13 < demoImpl.cells.length ∧ 13 < 14 ∧
      (demoImpl.cell 13).f_code = demoImpl.sig.equiv_code ∧
      (demoImpl.cell 13).args = [some 9, some 10]) ∧
    (TFormulaIsLiteral demoImpl.sig (demoImpl.cell 9) = false ∧
      TFormulaIsLiteral demoImpl.sig (demoImpl.cell 10) = false) ∧
    ∃ bank1, TFormulaMarkPolarity 14 demoImpl 13 (-1) = some bank1 ∧
      (TFormulaIsLiteral demoImpl.sig (demoImpl.cell 9) = false →
        TermCellQueryProp bank1 9 TPPosPolarity = true ∧
        TermCellQueryProp bank1 9 TPNegPolarity = true ∧
        TFormulaDecodePolarity bank1 9 = 0) ∧
      (TFormulaIsLiteral demoImpl.sig (demoImpl.cell 10) = false →
        TermCellQueryProp bank1 10 TPPosPolarity = true ∧
        TermCellQueryProp bank1 10 TPNegPolarity = true ∧
        TFormulaDecodePolarity bank1 10 = 0) ∧
      (TFormulaIsLiteral demoImpl.sig (demoImpl.cell 9) = true →
        bank1.cell 9 = demoImpl.cell 9) ∧
      (TFormulaIsLiteral demoImpl.sig (demoImpl.cell 10) = true →
        bank1.cell 10 = demoImpl.cell 10) :=
  ⟨⟨by decide, by decide, by decide, by decide, by decide, by decide, by decide⟩,
   ⟨by decide, by decide⟩,
   TFormulaMarkPolarity_equiv demoImpl 13 9 10 (-1) 14 (by decide) (by decide) (by decide)
     (by decide) (by decide) (by decide) (by decide)⟩

/-! ## Clause round trip -/

theorem IsLitNode.lit_of_shape {b b1 : TB} (h : ShapeExt b b1) {f : TermRef} {lit : Eqn}
    (hl : IsLitNode b f lit) : IsLitNode b1 f lit := by
  obtain ⟨h1, h2, h3⟩ := hl
  obtain ⟨c1, _, c3⟩ := h.2.2.2 f h1
  exact ⟨lt_of_lt_of_le h1 h.2.2.1, by rw [c1, h.1]; exact h2, c3.trans h3⟩

theorem OrChainRev.orChain_of_shape {b b1 : TB} (h : ShapeExt b b1) (revl : List Eqn) :
    ∀ f, OrChainRev b f revl → OrChainRev b1 f revl := by
  induction revl with
  | nil => intro f hc; exact hc
  | cons lit rest ih =>
    intro f hc
    cases rest with
    | nil => exact IsLitNode.lit_of_shape h hc
    | cons lit1 rest1 =>
      obtain ⟨h1, h2, g, k, h3, h4, h5⟩ := hc
      obtain ⟨c1, _, c3⟩ := h.2.2.2 f h1
      exact ⟨lt_of_lt_of_le h1 h.2.2.1, by rw [c1, h.1]; exact h2, g, k, c3.trans h3,
        IsLitNode.lit_of_shape h h4, ih g h5⟩

theorem TFormulaLitAlloc_spec (b : TB) (lit : Eqn) :
    ShapeExt b (TFormulaLitAlloc b lit).1 ∧
    IsLitNode (TFormulaLitAlloc b lit).1 (TFormulaLitAlloc b lit).2 lit := by
  have hc := EqnTermsTBTermEncode_cell b lit.lterm lit.rterm lit.positive
  unfold TFormulaLitAlloc EqnIsPositive
  have he : ShapeExt b (EqnTermsTBTermEncode b lit.lterm lit.rterm lit.positive).1 ∧
      (EqnTermsTBTermEncode b lit.lterm lit.rterm lit.positive).2
        < (EqnTermsTBTermEncode b lit.lterm lit.rterm lit.positive).1.cells.length := by
    unfold EqnTermsTBTermEncode
    exact TBTermTopInsert_ext b _
  exact ⟨he.1, he.2, by rw [he.1.1]; exact hc.1, hc.2.2⟩

theorem TFormulaFCodeAlloc_or (b : TB) (g h : TermRef)
    (har : SigFindArity b.sig b.sig.or_code = 2) :
    ShapeExt b (TFormulaFCodeAlloc b b.sig.or_code g (some h)).1 ∧
    (TFormulaFCodeAlloc b b.sig.or_code g (some h)).2
      < (TFormulaFCodeAlloc b b.sig.or_code g (some h)).1.cells.length ∧
    ((TFormulaFCodeAlloc b b.sig.or_code g (some h)).1.cell
      (TFormulaFCodeAlloc b b.sig.or_code g (some h)).2).f_code = b.sig.or_code ∧
    ((TFormulaFCodeAlloc b b.sig.or_code g (some h)).1.cell
      (TFormulaFCodeAlloc b b.sig.or_code g (some h)).2).args = [some g, some h] := by
  obtain ⟨t, ht, h1, _, h3⟩ := TFormulaFCodeAlloc_top b b.sig.or_code g (some h)
  rw [ht]
  rw [har] at h3
  have h3' : t.args = [some g, some h] := by rw [h3]; rfl
  have hc := TBTermTopInsert_cell b t
  have he := TBTermTopInsert_ext b t
  exact ⟨he.1, he.2, hc.1.trans h1, hc.2.2.1.trans h3'⟩

theorem TFormulaClauseEncode_fold (sig : Sig) (har : SigFindArity sig sig.or_code = 2)
    (rest : List Eqn) :
    ∀ (st : TB × TermRef) (acc : List Eqn), st.1.sig = sig → OrChainRev st.1 st.2 acc →
      OrChainRev
        (rest.foldl (fun (st : TB × TermRef) handle =>
          TFormulaFCodeAlloc (TFormulaLitAlloc st.1 handle).1 st.1.sig.or_code st.2
            (some (TFormulaLitAlloc st.1 handle).2)) st).1
        (rest.foldl (fun (st : TB × TermRef) handle =>
          TFormulaFCodeAlloc (TFormulaLitAlloc st.1 handle).1 st.1.sig.or_code st.2
            (some (TFormulaLitAlloc st.1 handle).2)) st).2
        (rest.reverse ++ acc) := by
  induction rest with
  | nil => intro st acc _ hc; exact hc
  | cons lit rest ih =>
    intro st acc hsig hc
    rw [List.foldl_cons, List.reverse_cons, List.append_assoc]
    obtain ⟨l1, l2⟩ := TFormulaLitAlloc_spec st.1 lit
    have hsig1 : (TFormulaLitAlloc st.1 lit).1.sig = sig := l1.1.trans hsig
    have hor : st.1.sig.or_code = (TFormulaLitAlloc st.1 lit).1.sig.or_code := by
      rw [hsig1, hsig]
    rw [hor]
    obtain ⟨o1, o2, o3, o4⟩ := TFormulaFCodeAlloc_or (TFormulaLitAlloc st.1 lit).1 st.2
      (TFormulaLitAlloc st.1 lit).2 (by rw [hsig1]; exact har)
    apply ih _ _ (o1.1.trans hsig1)
    cases acc with
    | nil => exact absurd hc (by simp [OrChainRev])
    | cons lit1 acc1 =>
      exact ⟨o2, by rw [o3, o1.1], st.2, (TFormulaLitAlloc st.1 lit).2, o4,
        IsLitNode.lit_of_shape o1 l2, OrChainRev.orChain_of_shape (l1.trans o1) _ _ hc⟩

theorem EqnTBTermDecode_lit (b : TB) (f : TermRef) (lit : Eqn) (hl : IsLitNode b f lit)
    (hne : b.sig.eqn_code ≠ b.sig.neqn_code) : EqnTBTermDecode b f = some lit := by
  obtain ⟨_, h2, h3⟩ := hl
  unfold EqnTBTermDecode TB.arg
  rw [h3, h2]
  cases lit with
  | mk l r pos =>
    cases pos
    · simp [SigGetEqnCode, EqnAlloc, Ne.symm hne]
    · simp [SigGetEqnCode, EqnAlloc]

theorem TFormulaCollectClause_loop_lit (b : TB) (f : TermRef) (lit : Eqn)
    (hl : IsLitNode b f lit) (hne : b.sig.eqn_code ≠ b.sig.neqn_code)
    (ho1 : b.sig.or_code ≠ b.sig.eqn_code) (ho2 : b.sig.or_code ≠ b.sig.neqn_code)
    (fuel : Nat) (stack : List TermRef) (ls : List Eqn) :
    TFormulaCollectClause_loop (fuel + 1) b (f :: stack) ls
      = TFormulaCollectClause_loop fuel b stack (ls ++ [lit]) := by
  have hcode : ((b.cell f).f_code == b.sig.or_code) = false := by
    rw [beq_eq_false_iff_ne, hl.2.1]
    cases lit.positive
    · exact Ne.symm ho2
    · exact Ne.symm ho1
  rw [TFormulaCollectClause_loop, hcode, EqnTBTermDecode_lit b f lit hl hne]
  simp

theorem TFormulaCollectClause_loop_chain (b : TB) (hne : b.sig.eqn_code ≠ b.sig.neqn_code)
    (ho1 : b.sig.or_code ≠ b.sig.eqn_code) (ho2 : b.sig.or_code ≠ b.sig.neqn_code)
    (revl : List Eqn) :
    ∀ (f : TermRef) (fuel : Nat) (stack : List TermRef) (ls : List Eqn),
      OrChainRev b f revl →
      TFormulaCollectClause_loop (fuel + (2 * revl.length - 1)) b (f :: stack) ls
        = TFormulaCollectClause_loop fuel b stack (ls ++ revl) := by
  induction revl with
  | nil => intro f fuel stack ls hc; exact absurd hc (by simp [OrChainRev])
  | cons lit rest ih =>
    intro f fuel stack ls hc
    cases rest with
    | nil => exact TFormulaCollectClause_loop_lit b f lit hc hne ho1 ho2 fuel stack ls
    | cons lit1 rest1 =>
      obtain ⟨_, h2, g, k, h3, h4, h5⟩ := hc
      have hfuel : fuel + (2 * (lit :: lit1 :: rest1).length - 1)
          = ((fuel + (2 * (lit1 :: rest1).length - 1)) + 1) + 1 := by
        simp only [List.length_cons]
        omega
      have hcode : ((b.cell f).f_code == b.sig.or_code) = true := by
        rw [h2]; exact beq_self_eq_true _
      have ha0 : b.arg f 0 = some g := by unfold TB.arg; rw [h3]; rfl
      have ha1 : b.arg f 1 = some k := by unfold TB.arg; rw [h3]; rfl
      rw [hfuel, TFormulaCollectClause_loop, hcode, ha0, ha1]
      simp only [if_true, Option.some_bind]
      rw [TFormulaCollectClause_loop_lit b k lit h4 hne ho1 ho2, ih g _ _ _ h5]
      simp

theorem Sig.CodesDistinct.or {sig : Sig} (h : sig.CodesDistinct) :
    sig.eqn_code ≠ sig.neqn_code ∧ sig.or_code ≠ sig.eqn_code ∧
    sig.or_code ≠ sig.neqn_code := by
  unfold Sig.CodesDistinct at h
  simp only [List.nodup_cons, List.mem_cons, List.mem_singleton, not_or] at h
  refine ⟨?_, ?_, ?_⟩ <;> intro he <;> simp_all

/-- C10: for a non-empty clause, `TFormulaCollectClause` (called without fresh
variables) on the formula built by `TFormulaClauseEncode` returns, with any
fuel from twice the number of literals minus one, a clause with the same
literals, with the same sides and signs, in the same order. -/
theorem TFormulaClauseEncode_roundtrip (bank : TB) (clause : Clause) (fuel : Nat)
    (hne : clause.literals ≠ []) (hsig : bank.sig.CodesDistinct)
    (har : SigFindArity bank.sig bank.sig.or_code = 2)
    (hfuel : 2 * clause.literals.length - 1 ≤ fuel) :
    TFormulaCollectClause fuel (TFormulaClauseEncode bank clause).2
      (TFormulaClauseEncode bank clause).1 = some clause := by
  obtain ⟨d1, d2, d3⟩ := hsig.or
  cases clause with
  | mk lits =>
    cases lits with
    | nil => exact absurd rfl hne
    | cons first rest =>
      obtain ⟨l1, l2⟩ := TFormulaLitAlloc_spec bank first
      have hchain := TFormulaClauseEncode_fold bank.sig har rest (TFormulaLitAlloc bank first)
        [first] l1.1 l2
      have hshape : (TFormulaClauseEncode bank ⟨first :: rest⟩).1.sig = bank.sig := by
        unfold TFormulaClauseEncode
        simp only []
        generalize TFormulaLitAlloc bank first = st0 at l1 ⊢
        have key : ∀ (rs : List Eqn) (st : TB × TermRef), st.1.sig = bank.sig →
            (rs.foldl (fun (st : TB × TermRef) handle =>
              TFormulaFCodeAlloc (TFormulaLitAlloc st.1 handle).1 st.1.sig.or_code st.2
                (some (TFormulaLitAlloc st.1 handle).2)) st).1.sig = bank.sig := by
          intro rs
          induction rs with
          | nil => intro st h; exact h
          | cons r rs ih =>
            intro st h
            rw [List.foldl_cons]
            apply ih
            obtain ⟨t, ht, _⟩ := TFormulaFCodeAlloc_top (TFormulaLitAlloc st.1 r).1
              st.1.sig.or_code st.2 (some (TFormulaLitAlloc st.1 r).2)
            rw [ht, TBTermTopInsert_sig]
            exact (TFormulaLitAlloc_spec st.1 r).1.1.trans h
        exact key rest st0 l1.1
      have hloop := TFormulaCollectClause_loop_chain (TFormulaClauseEncode bank ⟨first :: rest⟩).1
        (by rw [hshape]; exact d1) (by rw [hshape]; exact d2) (by rw [hshape]; exact d3)
        (rest.reverse ++ [first]) (TFormulaClauseEncode bank ⟨first :: rest⟩).2
        (fuel - (2 * (rest.reverse ++ [first]).length - 1)) [] [] hchain
      have hf : fuel - (2 * (rest.reverse ++ [first]).length - 1)
          + (2 * (rest.reverse ++ [first]).length - 1) = fuel := by
        simp only [List.length_append, List.length_reverse, List.length_singleton,
          List.length_cons, List.length_nil] at hfuel ⊢
        omega
      rw [hf] at hloop
      unfold TFormulaCollectClause
      rw [hloop]
      have hnil : TFormulaCollectClause_loop
          (fuel - (2 * (rest.reverse ++ [first]).length - 1))
          (TFormulaClauseEncode bank ⟨first :: rest⟩).1 [] ([] ++ (rest.reverse ++ [first]))
          = some (rest.reverse ++ [first]) := by
        cases (fuel - (2 * (rest.reverse ++ [first]).length - 1)) <;> rfl
      rw [hnil, Option.some_bind]
      have hrev : ∀ (xs acc : List Eqn),
          xs.foldl (fun lit_list lit => lit :: lit_list) acc = xs.reverse ++ acc := by
        intro xs
        induction xs with
        | nil => intro acc; rfl
        | cons x xs ih => intro acc; rw [List.foldl_cons, ih, List.reverse_cons,
            List.append_assoc]; rfl
      rw [hrev]
      simp [ClauseAlloc]

theorem TFormulaClauseEncode_roundtrip_witness :
    (demoClause.literals ≠ [] ∧ demoAtoms.sig.CodesDistinct ∧
      SigFindArity demoAtoms.sig demoAtoms.sig.or_code = 2 ∧
      2 * demoClause.literals.length - 1 ≤ 5) ∧
    TFormulaCollectClause 5 (TFormulaClauseEncode demoAtoms demoClause).2
      (TFormulaClauseEncode demoAtoms demoClause).1 = some demoClause :=
  ⟨⟨by decide, by decide, by decide, by decide⟩,
   TFormulaClauseEncode_roundtrip demoAtoms demoClause 5 (by decide) (by decide) (by decide)
     (by decide)⟩

/-! ## Dereferencing -/

theorem TermDerefAlways_of_not_CAN_DEREF (lfho : Bool)
    (avd : TB → TermRef → TB × TermRef) (fuel : Nat) (bank : TB) (t : TermRef)
    (h : CAN_DEREF lfho bank t = false) :
    TermDerefAlways lfho avd fuel bank t = some (bank, t) := by
  cases fuel <;> simp [TermDerefAlways, h]

theorem TermDeref_loop_of_not_CAN_DEREF (lfho : Bool)
    (avd : TB → TermRef → TB × TermRef) (fuel : Nat) (bank : TB) (t : TermRef)
    (d : DerefType) (h : CAN_DEREF lfho bank t = false) :
    TermDeref_loop lfho avd fuel bank t d = some (bank, t, d) := by
  cases fuel <;> simp [TermDeref_loop, h]

/-- Claim C11: dereferencing a node with no binding is the identity.  When
`CAN_DEREF(t)` is false, `TermDeref(t, &d)` returns `t` and leaves `d` (and
the bank) unchanged for each of the three modes, and `TermDerefAlways(t)`
returns `t`; this holds in both builds, for every fuel and whatever
`applied_var_deref` does. -/
theorem TermDeref_no_binding (lfho : Bool) (avd : TB → TermRef → TB × TermRef)
    (fuel : Nat) (bank : TB) (t : TermRef) (d : DerefType)
    (h : CAN_DEREF lfho bank t = false)
    (hd : d = DEREF_NEVER ∨ d = DEREF_ONCE ∨ d = DEREF_ALWAYS) :
    TermDeref lfho avd fuel bank t d = some (bank, t, d) ∧
    TermDerefAlways lfho avd fuel bank t = some (bank, t) := by
  refine ⟨?_, TermDerefAlways_of_not_CAN_DEREF lfho avd fuel bank t h⟩
  unfold TermDeref
  rcases hd with hd | hd | hd <;> subst hd
  · simp [DEREF_NEVER, DEREF_ALWAYS, TermDeref_loop_of_not_CAN_DEREF lfho avd fuel bank t _ h]
  · simp [DEREF_ONCE, DEREF_ALWAYS, TermDeref_loop_of_not_CAN_DEREF lfho avd fuel bank t _ h]
  · simp [TermDerefAlways_of_not_CAN_DEREF lfho avd fuel bank t h]

theorem TermDeref_no_binding_witness :
    CAN_DEREF true demoBindings 5 = false ∧
    TermDeref true demoAppliedVarDeref 0 demoBindings 5 DEREF_ONCE
      = some (demoBindings, 5, DEREF_ONCE) ∧
    TermDerefAlways true demoAppliedVarDeref 0 demoBindings 5 = some (demoBindings, 5) :=
  ⟨by decide, TermDeref_no_binding true demoAppliedVarDeref 0 demoBindings 5 DEREF_ONCE
    (by decide) (Or.inr (Or.inl rfl))⟩
theorem TermIsAppliedFreeVar_of_var (lfho : Bool) (bank : TB) (X : TermRef)
    (hX : TermIsFreeVar (bank.cell X) = true) (hsig : 0 ≤ bank.sig.SIG_PHONY_APP_CODE) :
    TermIsAppliedFreeVar lfho bank X = false := by
  unfold TermIsFreeVar at hX
  have hlt : (bank.cell X).f_code < 0 := of_decide_eq_true hX
  have hne : ((bank.cell X).f_code == bank.sig.SIG_PHONY_APP_CODE) = false := by
    rw [beq_eq_false_iff_ne]
    intro h
    rw [h] at hlt
    exact absurd hsig (not_le.mpr hlt)
  unfold TermIsAppliedFreeVar
  rw [hne]
  simp

theorem CAN_DEREF_of_bound_var (lfho : Bool) (bank : TB) (X t : TermRef)
    (hX : TermIsFreeVar (bank.cell X) = true) (hb : (bank.cell X).binding = some t) :
    CAN_DEREF lfho bank X = true := by
  unfold CAN_DEREF
  cases lfho <;> simp [hX, hb]

theorem deref_step_of_var (lfho : Bool) (avd : TB → TermRef → TB × TermRef) (bank : TB)
    (X : TermRef) (hX : TermIsFreeVar (bank.cell X) = true) :
    deref_step lfho avd bank X = (bank, (bank.cell X).binding) := by
  unfold deref_step
  cases lfho <;> simp [hX]

theorem TermDeref_once_of_bound_var (lfho : Bool) (avd : TB → TermRef → TB × TermRef)
    (fuel : Nat) (bank : TB) (X t : TermRef)
    (hX : TermIsFreeVar (bank.cell X) = true) (hb : (bank.cell X).binding = some t)
    (hsig : 0 ≤ bank.sig.SIG_PHONY_APP_CODE) :
    TermDeref lfho avd (fuel + 1) bank X DEREF_ONCE = some (bank, t, DEREF_NEVER) := by
  have hcan := CAN_DEREF_of_bound_var lfho bank X t hX hb
  have happ := TermIsAppliedFreeVar_of_var lfho bank X hX hsig
  have hstep := deref_step_of_var lfho avd bank X hX
  rw [hb] at hstep
  have hd : (DEREF_ONCE == DEREF_ALWAYS) = false := by decide
  have hnz : (DEREF_ONCE != 0) = true := by decide
  have hrest : TermDeref_loop lfho avd fuel bank t (DEREF_ONCE - 1) = some (bank, t, DEREF_NEVER) := by
    cases fuel <;> simp [TermDeref_loop, DEREF_ONCE, DEREF_NEVER]
  unfold TermDeref
  rw [hd]
  simp only [Bool.false_eq_true, if_false]
  rw [TermDeref_loop]
  simp only [hnz, hcan, Bool.and_self, if_true, hstep, happ, Bool.and_false,
    Bool.false_eq_true, if_false]
  exact hrest

/-- Claim C13: for a free variable `X` bound to `t`, `TermDeref(X, &d)` with
`d = DEREF_ONCE` returns exactly `t`, whatever `t` is, and leaves
`d = DEREF_NEVER`; the bank (so `X`, its binding and `t`) is unchanged, and a
second call with a fresh `d = DEREF_ONCE` on the resulting bank returns the same
`t`.  One unit of fuel suffices.  The code of the application marker is not
negative. -/
theorem TermDeref_once_returns_binding (lfho : Bool) (avd : TB → TermRef → TB × TermRef)
    (fuel : Nat) (bank : TB) (X t : TermRef)
    (hX : TermIsFreeVar (bank.cell X) = true) (hb : (bank.cell X).binding = some t)
    (hsig : 0 ≤ bank.sig.SIG_PHONY_APP_CODE) :
    TermDeref lfho avd (fuel + 1) bank X DEREF_ONCE = some (bank, t, DEREF_NEVER) ∧
    ((TermDeref lfho avd (fuel + 1) bank X DEREF_ONCE).bind
      (fun r => TermDeref lfho avd (fuel + 1) r.1 X DEREF_ONCE))
      = some (bank, t, DEREF_NEVER) := by
  have h := TermDeref_once_of_bound_var lfho avd fuel bank X t hX hb hsig
  refine ⟨h, ?_⟩
  rw [h]
  exact h

theorem TermDeref_once_returns_binding_witness :
    TermIsFreeVar (demoBindings.cell 1) = true ∧ (demoBindings.cell 1).binding = some 0 ∧
    CAN_DEREF true demoBindings 0 = true ∧
    (TermDeref true demoAppliedVarDeref 1 demoBindings 1 DEREF_ONCE
        = some (demoBindings, 0, DEREF_NEVER) ∧
      ((TermDeref true demoAppliedVarDeref 1 demoBindings 1 DEREF_ONCE).bind
        (fun r => TermDeref true demoAppliedVarDeref 1 r.1 1 DEREF_ONCE))
        = some (demoBindings, 0, DEREF_NEVER)) :=
  ⟨by decide, by decide, by decide,
    TermDeref_once_returns_binding true demoAppliedVarDeref 0 demoBindings 1 0
      (by decide) (by decide) (by decide)⟩
/-- Claim C14: the one-step dereference asymmetry.  For an applied free
variable `t` whose head variable is bound to `b`, `DEREF_LIMIT(t, DEREF_ONCE)`
is the arity of `b` (`1` when `b` is a lambda) plus `1` when `b` is itself a
free variable, and `CONVERT_DEREF(i, limit, DEREF_ONCE)` is `DEREF_NEVER` for
`i < limit` and `DEREF_ONCE` for `i >= limit`.  For an unbound head, a term
that is not an applied variable, or a mode other than `DEREF_ONCE`, the limit
is `0` and `CONVERT_DEREF` returns the mode unchanged.  Without `ENABLE_LFHO`
the limit is always `0` and the mode is never converted. -/
theorem DEREF_LIMIT_CONVERT_DEREF (bank : TB) (t b : TermRef)
    (happ : TermIsAppliedFreeVar true bank t = true)
    (hb : (bank.cellAt (bank.arg t 0)).binding = some b) :
    DEREF_LIMIT true bank t DEREF_ONCE
        = (if TermIsLambda true bank.sig (bank.cell b) then 1 else (bank.cell b).arity)
          + (if TermIsFreeVar (bank.cell b) then 1 else 0) ∧
    (∀ i, CONVERT_DEREF true i (DEREF_LIMIT true bank t DEREF_ONCE) DEREF_ONCE
        = if i < DEREF_LIMIT true bank t DEREF_ONCE then DEREF_NEVER else DEREF_ONCE) ∧
    (∀ (u : TermRef) (d : DerefType),
        TermIsAppliedFreeVar true bank u = false ∨
          (bank.cellAt (bank.arg u 0)).binding = none ∨ d ≠ DEREF_ONCE →
        DEREF_LIMIT true bank u d = 0 ∧
        ∀ i, CONVERT_DEREF true i (DEREF_LIMIT true bank u d) d = d) ∧
    (∀ (u : TermRef) (d : DerefType) (i l : Nat),
        DEREF_LIMIT false bank u d = 0 ∧ CONVERT_DEREF false i l d = d) := by
  refine ⟨?_, ?_, ?_, ?_⟩
  · have hcell : bank.cellAt (some b) = bank.cell b := rfl
    unfold DEREF_LIMIT
    simp only [happ, hb, hcell, Option.isSome_some, Bool.and_self, beq_self_eq_true, if_true]
  · intro i
    unfold CONVERT_DEREF
    by_cases h : i < DEREF_LIMIT true bank t DEREF_ONCE <;> simp [h]
  · intro u d h
    have h0 : DEREF_LIMIT true bank u d = 0 := by
      unfold DEREF_LIMIT
      rcases h with h | h | h
      · simp [h]
      · simp [h]
      · have hd : (d == DEREF_ONCE) = false := beq_eq_false_iff_ne.mpr h
        simp [hd]
    refine ⟨h0, ?_⟩
    intro i
    rw [h0]
    simp [CONVERT_DEREF]
  · intro u d i l
    simp [DEREF_LIMIT, CONVERT_DEREF]

theorem DEREF_LIMIT_CONVERT_DEREF_witness :
    TermIsAppliedFreeVar true demoBindings 6 = true ∧
    (demoBindings.cellAt (demoBindings.arg 6 0)).binding = some 5 ∧
    DEREF_LIMIT true demoBindings 6 DEREF_ONCE = 2 ∧
    (DEREF_LIMIT true demoBindings 6 DEREF_ONCE
        = (if TermIsLambda true demoBindings.sig (demoBindings.cell 5) then 1
            else (demoBindings.cell 5).arity)
          + (if TermIsFreeVar (demoBindings.cell 5) then 1 else 0) ∧
    (∀ i, CONVERT_DEREF true i (DEREF_LIMIT true demoBindings 6 DEREF_ONCE) DEREF_ONCE
        = if i < DEREF_LIMIT true demoBindings 6 DEREF_ONCE then DEREF_NEVER
          else DEREF_ONCE) ∧
    (∀ (u : TermRef) (d : DerefType),
        TermIsAppliedFreeVar true demoBindings u = false ∨
          (demoBindings.cellAt (demoBindings.arg u 0)).binding = none ∨ d ≠ DEREF_ONCE →
        DEREF_LIMIT true demoBindings u d = 0 ∧
        ∀ i, CONVERT_DEREF true i (DEREF_LIMIT true demoBindings u d) d = d) ∧
    (∀ (u : TermRef) (d : DerefType) (i l : Nat),
        DEREF_LIMIT false demoBindings u d = 0 ∧ CONVERT_DEREF false i l d = d)) :=
  ⟨by decide, by decide, by decide,
    DEREF_LIMIT_CONVERT_DEREF demoBindings 6 5 (by decide) (by decide)⟩
theorem TB.cell_of_length_le (bank : TB) (t : TermRef) (h : bank.cells.length ≤ t) :
    bank.cell t = default := by
  unfold TB.cell
  exact List.getD_eq_default _ _ h

theorem CAN_DEREF_binding (lfho : Bool) (bank : TB) (t : TermRef)
    (hcan : CAN_DEREF lfho bank t = true)
    (happ : TermIsAppliedFreeVar lfho bank t = false) :
    (bank.cell t).binding.isSome = true ∧ (lfho = true → TermIsFreeVar (bank.cell t) = true) := by
  unfold CAN_DEREF at hcan
  cases lfho with
  | false =>
    simp only [Bool.false_eq_true, if_false] at hcan
    exact ⟨hcan, fun h => absurd h (by decide)⟩
  | true =>
    simp only [if_true, happ, Bool.false_and, Bool.or_false, Bool.and_eq_true] at hcan
    exact ⟨hcan.2, fun _ => hcan.1⟩

theorem CAN_DEREF_lt_length (lfho : Bool) (bank : TB) (t : TermRef)
    (hcan : CAN_DEREF lfho bank t = true)
    (happ : TermIsAppliedFreeVar lfho bank t = false) : t < bank.cells.length := by
  by_contra hlt
  have hb := (CAN_DEREF_binding lfho bank t hcan happ).1
  rw [TB.cell_of_length_le bank t (not_lt.mp hlt)] at hb
  exact absurd hb (by decide)

theorem bindingChain_stay (lfho : Bool) (bank : TB) (x : TermRef) (k : Nat)
    (h : CAN_DEREF lfho bank (bindingChain lfho bank x k) = false) (d : Nat) :
    bindingChain lfho bank x (k + d) = bindingChain lfho bank x k := by
  induction d with
  | zero => rfl
  | succ d ih =>
    show bindingChain lfho bank x (k + d + 1) = _
    rw [bindingChain]
    simp only [ih, h, Bool.false_eq_true, if_false]

theorem deref_step_bindingChain (lfho : Bool) (avd : TB → TermRef → TB × TermRef)
    (bank : TB) (x : TermRef) (k : Nat)
    (hcan : CAN_DEREF lfho bank (bindingChain lfho bank x k) = true)
    (happ : TermIsAppliedFreeVar lfho bank (bindingChain lfho bank x k) = false) :
    deref_step lfho avd bank (bindingChain lfho bank x k)
      = (bank, some (bindingChain lfho bank x (k + 1))) := by
  obtain ⟨hb, hv⟩ := CAN_DEREF_binding lfho bank _ hcan happ
  obtain ⟨t, ht⟩ := Option.isSome_iff_exists.mp hb
  have hnext : bindingChain lfho bank x (k + 1) = t := by
    rw [bindingChain]
    simp only [hcan, if_true, ht, Option.getD_some]
  rw [hnext, ← ht]
  unfold deref_step
  cases lfho with
  | false => simp
  | true => simp [hv rfl]

theorem TermDerefAlways_bindingChain (lfho : Bool) (avd : TB → TermRef → TB × TermRef)
    (bank : TB) (x : TermRef)
    (hvars : ∀ k, CAN_DEREF lfho bank (bindingChain lfho bank x k) = true →
      TermIsAppliedFreeVar lfho bank (bindingChain lfho bank x k) = false) :
    ∀ (d k : Nat), CAN_DEREF lfho bank (bindingChain lfho bank x (k + d)) = false →
      ∀ fuel, d ≤ fuel →
        TermDerefAlways lfho avd fuel bank (bindingChain lfho bank x k)
          = some (bank, bindingChain lfho bank x (k + d)) := by
  intro d
  induction d with
  | zero =>
    intro k hend fuel _
    cases fuel <;> simp only [TermDerefAlways, Nat.add_zero] at * <;> simp [hend]
  | succ d ih =>
    intro k hend fuel hfuel
    by_cases hcan : CAN_DEREF lfho bank (bindingChain lfho bank x k) = true
    · obtain ⟨fuel, rfl⟩ : ∃ f, fuel = f + 1 := ⟨fuel - 1, by omega⟩
      rw [TermDerefAlways]
      simp only [hcan, if_true, deref_step_bindingChain lfho avd bank x k hcan (hvars k hcan)]
      have hend1 : CAN_DEREF lfho bank (bindingChain lfho bank x (k + 1 + d)) = false := by
        rw [show k + 1 + d = k + (d + 1) by omega]
        exact hend
      rw [ih (k + 1) hend1 fuel (by omega), show k + 1 + d = k + (d + 1) by omega]
    · have hcan : CAN_DEREF lfho bank (bindingChain lfho bank x k) = false := by
        simpa using hcan
      rw [bindingChain_stay lfho bank x k hcan (d + 1)]
      cases fuel <;> simp [TermDerefAlways, hcan]

theorem bindingChain_end_exists (lfho : Bool) (bank : TB) (x : TermRef)
    (hvars : ∀ k, CAN_DEREF lfho bank (bindingChain lfho bank x k) = true →
      TermIsAppliedFreeVar lfho bank (bindingChain lfho bank x k) = false)
    (hacyc : ∀ i j, i < j → CAN_DEREF lfho bank (bindingChain lfho bank x i) = true →
      bindingChain lfho bank x i ≠ bindingChain lfho bank x j) :
    ∃ n, n ≤ bank.cells.length ∧ CAN_DEREF lfho bank (bindingChain lfho bank x n) = false := by
  by_contra hno
  have hall : ∀ n, n ≤ bank.cells.length →
      CAN_DEREF lfho bank (bindingChain lfho bank x n) = true := by
    intro n hn
    by_contra hc
    exact hno ⟨n, hn, by simpa using hc⟩
  let f : Fin (bank.cells.length + 1) → Fin bank.cells.length := fun i =>
    ⟨bindingChain lfho bank x i.1,
      CAN_DEREF_lt_length lfho bank _ (hall i.1 (Nat.lt_succ_iff.mp i.2))
        (hvars i.1 (hall i.1 (Nat.lt_succ_iff.mp i.2)))⟩
  obtain ⟨a, b, hab, hf⟩ := Fintype.exists_ne_map_eq_of_card_lt f (by simp)
  have hval : bindingChain lfho bank x a.1 = bindingChain lfho bank x b.1 :=
    congrArg Fin.val hf
  have hne : a.1 ≠ b.1 := fun h => hab (Fin.ext h)
  rcases Nat.lt_or_gt_of_ne hne with hlt | hgt
  · exact hacyc a.1 b.1 hlt (hall a.1 (Nat.lt_succ_iff.mp a.2)) hval
  · exact hacyc b.1 a.1 hgt (hall b.1 (Nat.lt_succ_iff.mp b.2)) hval.symm

/-- Claim C12: `TermDerefAlways` on an acyclic chain of bindings.  Let the
chain from `x` consist of plain variables as long as it can be dereferenced
(`hvars`) and never come back to a node it has left (`hacyc`).  Then the chain
ends after at most as many steps as the bank has cells: there is an `n` such
that each of the first `n` nodes can be dereferenced and `deref_step` leads
from it to the next one without changing the bank, node `n` cannot be
dereferenced, and `TermDerefAlways` returns node `n` for every fuel that is at
least the number of cells. -/
theorem TermDerefAlways_acyclic (lfho : Bool) (avd : TB → TermRef → TB × TermRef)
    (bank : TB) (x : TermRef)
    (hvars : ∀ k, CAN_DEREF lfho bank (bindingChain lfho bank x k) = true →
      TermIsAppliedFreeVar lfho bank (bindingChain lfho bank x k) = false)
    (hacyc : ∀ i j, i < j → CAN_DEREF lfho bank (bindingChain lfho bank x i) = true →
      bindingChain lfho bank x i ≠ bindingChain lfho bank x j) :
    ∃ n, n ≤ bank.cells.length ∧
      (∀ k, k < n → CAN_DEREF lfho bank (bindingChain lfho bank x k) = true ∧
        deref_step lfho avd bank (bindingChain lfho bank x k)
          = (bank, some (bindingChain lfho bank x (k + 1)))) ∧
      CAN_DEREF lfho bank (bindingChain lfho bank x n) = false ∧
      ∀ fuel, bank.cells.length ≤ fuel →
        TermDerefAlways lfho avd fuel bank x = some (bank, bindingChain lfho bank x n) := by
  classical
  obtain ⟨m, hm, hend⟩ := bindingChain_end_exists lfho bank x hvars hacyc
  have hex : ∃ n, CAN_DEREF lfho bank (bindingChain lfho bank x n) = false := ⟨m, hend⟩
  have hle : Nat.find hex ≤ bank.cells.length := le_trans (Nat.find_min' hex hend) hm
  refine ⟨Nat.find hex, hle, ?_, Nat.find_spec hex, ?_⟩
  · intro k hk
    have hcan : CAN_DEREF lfho bank (bindingChain lfho bank x k) = true := by
      simpa using Nat.find_min hex hk
    exact ⟨hcan, deref_step_bindingChain lfho avd bank x k hcan (hvars k hcan)⟩
  · intro fuel hfuel
    have h := TermDerefAlways_bindingChain lfho avd bank x hvars (Nat.find hex) 0
      (by rw [Nat.zero_add]; exact Nat.find_spec hex) fuel (le_trans hle hfuel)
    rw [Nat.zero_add] at h
    exact h
theorem demoBindings_chain (k : Nat) : bindingChain true demoBindings 1 (k + 2) = 5 := by
  rw [Nat.add_comm, bindingChain_stay true demoBindings 1 2 (by decide) k]
  decide

theorem demoBindings_chain_vars (k : Nat)
    (_h : CAN_DEREF true demoBindings (bindingChain true demoBindings 1 k) = true) :
    TermIsAppliedFreeVar true demoBindings (bindingChain true demoBindings 1 k) = false := by
  match k with
  | 0 => decide
  | 1 => decide
  | k + 2 => rw [demoBindings_chain k]; decide

theorem demoBindings_chain_acyclic (i j : Nat) (hij : i < j)
    (h : CAN_DEREF true demoBindings (bindingChain true demoBindings 1 i) = true) :
    bindingChain true demoBindings 1 i ≠ bindingChain true demoBindings 1 j := by
  match i, j with
  | 0, 1 => decide
  | 0, j + 2 => rw [demoBindings_chain j]; decide
  | 1, j + 2 => rw [demoBindings_chain j]; decide
  | i + 2, _ =>
    rw [demoBindings_chain i] at h
    exact absurd h (by decide)
  | 1, 1 => exact absurd hij (by decide)
  | 1, 0 => exact absurd hij (by decide)
  | 0, 0 => exact absurd hij (by decide)

theorem TermDerefAlways_acyclic_witness :
    ((TermDerefAlways true demoAppliedVarDeref 7 demoBindings 1).map (fun r => r.2) = some 5) ∧
    ∃ n, n ≤ demoBindings.cells.length ∧
      (∀ k, k < n → CAN_DEREF true demoBindings (bindingChain true demoBindings 1 k) = true ∧
        deref_step true demoAppliedVarDeref demoBindings (bindingChain true demoBindings 1 k)
          = (demoBindings, some (bindingChain true demoBindings 1 (k + 1)))) ∧
      CAN_DEREF true demoBindings (bindingChain true demoBindings 1 n) = false ∧
      ∀ fuel, demoBindings.cells.length ≤ fuel →
        TermDerefAlways true demoAppliedVarDeref fuel demoBindings 1
          = some (demoBindings, bindingChain true demoBindings 1 n) :=
  ⟨by decide, TermDerefAlways_acyclic true demoAppliedVarDeref demoBindings 1
    demoBindings_chain_vars demoBindings_chain_acyclic⟩
/-! ## Copying a top cell -/

theorem TermTopCopy_fold_args (src : List (Option TermRef)) (k : Nat) (h0 : TermCell) :
    (List.range k).foldl
        (fun handle i => { handle with args := handle.args.set i (src.getD i none) }) h0
      = { h0 with args := (List.range k).foldl (fun a i => a.set i (src.getD i none)) h0.args } := by
  induction k with
  | zero => rfl
  | succ k ih => rw [List.range_succ, List.foldl_append, List.foldl_append, ih]; rfl

theorem copy_args_length (src a0 : List (Option TermRef)) (k : Nat) :
    ((List.range k).foldl (fun a i => a.set i (src.getD i none)) a0).length = a0.length := by
  induction k with
  | zero => rfl
  | succ k ih =>
    rw [List.range_succ, List.foldl_append]
    simp only [List.foldl_cons, List.foldl_nil, List.length_set]
    exact ih

theorem copy_args_getD (src a0 : List (Option TermRef)) (k j : Nat) :
    ((List.range k).foldl (fun a i => a.set i (src.getD i none)) a0).getD j none
      = if j < k ∧ j < a0.length then src.getD j none else a0.getD j none := by
  induction k with
  | zero => simp
  | succ k ih =>
    rw [List.range_succ, List.foldl_append]
    simp only [List.foldl_cons, List.foldl_nil]
    by_cases hjk : j = k
    · subst hjk
      by_cases hlen : j < a0.length
      · rw [List.getD_eq_getElem?_getD, List.getElem?_set_self]
        · simp [hlen]
        · rw [copy_args_length]; exact hlen
      · rw [List.getD_eq_default _ _ (by rw [List.length_set, copy_args_length]; omega)]
        rw [if_neg (fun h => hlen h.2), List.getD_eq_default _ _ (by omega)]
    · rw [List.getD_eq_getElem?_getD, List.getElem?_set_ne (Ne.symm hjk),
        ← List.getD_eq_getElem?_getD, ih]
      have hiff : (j < k + 1 ∧ j < a0.length) ↔ (j < k ∧ j < a0.length) := by
        constructor
        · intro h; exact ⟨by omega, h.2⟩
        · intro h; exact ⟨by omega, h.2⟩
      simp only [hiff]

theorem copy_args_eq (src : List (Option TermRef)) :
    (List.range src.length).foldl (fun a i => a.set i (src.getD i none))
      (List.replicate src.length none) = src := by
  apply List.ext_getElem
  · rw [copy_args_length, List.length_replicate]
  · intro j h1 h2
    have h := copy_args_getD src (List.replicate src.length none) src.length j
    rw [List.length_replicate, if_pos ⟨h2, h2⟩] at h
    rw [List.getD_eq_getElem?_getD, List.getD_eq_getElem?_getD,
      List.getElem?_eq_getElem h1, List.getElem?_eq_getElem h2] at h
    simpa using h

theorem TermTopCopyWithoutArgs_properties (source : TermCell) :
    (TermTopCopyWithoutArgs source).properties
      = source.properties &&& (TPPredPos ||| TPIsDBVar) := by
  have hmask : (TPPredPos ||| TPIsDBVar) &&& TPOutputFlag = 0 := by decide
  have h : DelProp (source.properties &&& (TPPredPos ||| TPIsDBVar)) TPOutputFlag
      = source.properties &&& (TPPredPos ||| TPIsDBVar) := by
    unfold DelProp
    rw [Nat.land_assoc, hmask, Nat.and_zero, Nat.xor_zero]
  unfold TermTopCopyWithoutArgs
  by_cases ha : source.arity = 0
  · simp only [ha, ne_eq, not_true_eq_false, if_false]
    exact h
  · simp only [ha, ne_eq, not_false_eq_true, if_true]
    exact h

theorem TermTopCopyWithoutArgs_fields (source : TermCell) :
    (TermTopCopyWithoutArgs source).f_code = source.f_code ∧
    (TermTopCopyWithoutArgs source).type = source.type ∧
    (TermTopCopyWithoutArgs source).arity = source.arity ∧
    (TermTopCopyWithoutArgs source).binding = none ∧
    (TermTopCopyWithoutArgs source).binding_cache = none ∧
    (TermTopCopyWithoutArgs source).args = List.replicate source.arity none := by
  unfold TermTopCopyWithoutArgs
  by_cases ha : source.arity = 0
  · simp [ha, TermDefaultCellAlloc]
  · simp [ha, TermDefaultCellArityAlloc]

theorem QueryProp_copy_mask (props prop : TermProperties)
    (h : (TPPredPos ||| TPIsDBVar) &&& prop = 0) (hp : prop ≠ 0) :
    QueryProp (props &&& (TPPredPos ||| TPIsDBVar)) prop = false := by
  unfold QueryProp
  rw [Nat.land_assoc, h, Nat.and_zero]
  exact beq_eq_false_iff_ne.mpr (Ne.symm hp)

theorem QueryProp_copy_kept (props prop : TermProperties)
    (h : (TPPredPos ||| TPIsDBVar) &&& prop = prop) :
    QueryProp (props &&& (TPPredPos ||| TPIsDBVar)) prop = QueryProp props prop := by
  unfold QueryProp
  rw [Nat.land_assoc, h]

/-- Claim C19: `TermTopCopy(source)` returns a cell with the f_code, type and
arity of `source` and the very same argument references, with empty binding
and binding cache, whose property word is the one of `source` restricted to
`TPPredPos` and `TPIsDBVar`: these two flags are as in `source`, every
property word disjoint from them is absent, and in particular the copy is
not marked shared, rewritten or ground.  The argument array of `source` has
`arity` slots. -/
theorem TermTopCopy_spec (source : TermCell) (hargs : source.args.length = source.arity) :
    (TermTopCopy source).f_code = source.f_code ∧
    (TermTopCopy source).type = source.type ∧
    (TermTopCopy source).arity = source.arity ∧
    (TermTopCopy source).args = source.args ∧
    (TermTopCopy source).binding = none ∧
    (TermTopCopy source).binding_cache = none ∧
    (TermTopCopy source).properties = source.properties &&& (TPPredPos ||| TPIsDBVar) ∧
    QueryProp (TermTopCopy source).properties TPPredPos = QueryProp source.properties TPPredPos ∧
    QueryProp (TermTopCopy source).properties TPIsDBVar = QueryProp source.properties TPIsDBVar ∧
    (∀ prop, (TPPredPos ||| TPIsDBVar) &&& prop = 0 → prop ≠ 0 →
      QueryProp (TermTopCopy source).properties prop = false) ∧
    TermIsShared (TermTopCopy source) = false ∧
    QueryProp (TermTopCopy source).properties TPIsRewritten = false ∧
    QueryProp (TermTopCopy source).properties TPIsGround = false := by
  obtain ⟨hf, ht, ha, hb, hc, hargs0⟩ := TermTopCopyWithoutArgs_fields source
  have hp := TermTopCopyWithoutArgs_properties source
  have hcopy : TermTopCopy source = { TermTopCopyWithoutArgs source with args := source.args } := by
    unfold TermTopCopy
    simp only []
    rw [TermTopCopy_fold_args, hargs0, ← hargs, copy_args_eq]
  rw [hcopy]
  simp only [hf, ht, ha, hb, hc, hp, TermIsShared, true_and]
  refine ⟨QueryProp_copy_kept _ _ (by decide), QueryProp_copy_kept _ _ (by decide), ?_,
    QueryProp_copy_mask _ _ (by decide) (by decide),
    QueryProp_copy_mask _ _ (by decide) (by decide),
    QueryProp_copy_mask _ _ (by decide) (by decide)⟩
  intro prop h hne
  exact QueryProp_copy_mask _ _ h hne
theorem TermTopCopy_spec_witness :
    demoCopySource.args.length = demoCopySource.arity ∧
    (TermTopCopy demoCopySource).properties = TPPredPos ∧
    ((TermTopCopy demoCopySource).f_code = demoCopySource.f_code ∧
    (TermTopCopy demoCopySource).type = demoCopySource.type ∧
    (TermTopCopy demoCopySource).arity = demoCopySource.arity ∧
    (TermTopCopy demoCopySource).args = demoCopySource.args ∧
    (TermTopCopy demoCopySource).binding = none ∧
    (TermTopCopy demoCopySource).binding_cache = none ∧
    (TermTopCopy demoCopySource).properties
      = demoCopySource.properties &&& (TPPredPos ||| TPIsDBVar) ∧
    QueryProp (TermTopCopy demoCopySource).properties TPPredPos
      = QueryProp demoCopySource.properties TPPredPos ∧
    QueryProp (TermTopCopy demoCopySource).properties TPIsDBVar
      = QueryProp demoCopySource.properties TPIsDBVar ∧
    (∀ prop, (TPPredPos ||| TPIsDBVar) &&& prop = 0 → prop ≠ 0 →
      QueryProp (TermTopCopy demoCopySource).properties prop = false) ∧
    TermIsShared (TermTopCopy demoCopySource) = false ∧
    QueryProp (TermTopCopy demoCopySource).properties TPIsRewritten = false ∧
    QueryProp (TermTopCopy demoCopySource).properties TPIsGround = false) :=
  ⟨by decide, by decide, TermTopCopy_spec demoCopySource (by decide)⟩

/-! ## Connective nodes -/

theorem TBTermTopInsert_cases (bank : TB) (t : TermCell) :
    (∃ r, TBTermTopInsert bank t = (bank, r) ∧ r < bank.cells.length ∧
      TermTopCompare (bank.cell r) t = true) ∨
    (∃ t1 : TermCell,
      TBTermTopInsert bank t = ({ bank with cells := bank.cells ++ [t1] }, bank.cells.length) ∧
      t1.f_code = t.f_code ∧ t1.type = t.type ∧
      t1.properties = SetProp t.properties TPIsShared ∧
      t1.arity = t.arity ∧ t1.args = t.args) := by
  cases hf : TermCellStoreFind t bank.cells with
  | some r =>
    left
    refine ⟨r, by simp only [TBTermTopInsert, hf], ?_⟩
    exact TermCellStoreFind_some t bank.cells r hf
  | none =>
    right
    refine ⟨{ t with
        properties := SetProp t.properties TPIsShared
        weight := DEFAULT_FWEIGHT + ((t.args.map bank.cellAt).map (·.weight)).sum
        v_count := ((t.args.map bank.cellAt).map (·.v_count)).sum
        f_count := 1 + ((t.args.map bank.cellAt).map (·.f_count)).sum }, ?_, rfl, rfl, rfl, rfl, rfl⟩
    simp only [TBTermTopInsert, hf]

theorem TFormulaFCodeAlloc_top_cell (bank : TB) (op : FunCode) (arg1 : TermRef)
    (arg2 : Option TermRef) (hop : op ≠ bank.sig.SIG_NAMED_LAMBDA_CODE) :
    ∃ t : TermCell, TFormulaFCodeAlloc bank op arg1 arg2 = TBTermTopInsert bank t ∧
      t.f_code = op ∧ t.type = some bank.sig.type_bank.bool_type ∧
      t.properties = (if SigIsPredicate bank.sig op then SetProp TPIgnoreProps TPPredPos
        else TPIgnoreProps) := by
  unfold TFormulaFCodeAlloc
  dsimp only
  rw [if_pos hop]
  split_ifs <;> exact ⟨_, rfl, rfl, rfl, rfl⟩

theorem TFormulaFCodeAlloc_args (bank : TB) (op : FunCode) (arg1 : TermRef)
    (arg2 : Option TermRef)
    (harity : SigFindArity bank.sig op = 1 ∨ SigFindArity bank.sig op = 2) :
    ((TFormulaFCodeAlloc bank op arg1 arg2).1.cell (TFormulaFCodeAlloc bank op arg1 arg2).2).args
      = some arg1 :: (if SigFindArity bank.sig op = 2 then [arg2] else []) := by
  obtain ⟨t, ht, _, _, hargs⟩ := TFormulaFCodeAlloc_top bank op arg1 arg2
  rw [ht, (TBTermTopInsert_cell bank t).2.2.1, hargs]
  rcases harity with h | h <;> rw [h] <;> simp

theorem TB.cell_append_length (bank : TB) (t1 : TermCell) :
    ({ bank with cells := bank.cells ++ [t1] } : TB).cell bank.cells.length = t1 := by
  simp [TB.cell]

theorem TermCellStoreFind_none (t : TermCell) (cs : List TermCell)
    (h : TermCellStoreFind t cs = none) : ∀ c ∈ cs, TermTopCompare c t = false := by
  induction cs with
  | nil => intro c hc; cases hc
  | cons d cs ih =>
    simp only [TermCellStoreFind] at h
    by_cases hd : TermTopCompare d t = true
    · rw [if_pos hd] at h
      cases h
    · rw [if_neg hd] at h
      intro c hc
      rcases List.mem_cons.mp hc with e | hc
      · rw [e]
        exact Bool.eq_false_iff.mpr hd
      · apply ih _ c hc
        cases hf : TermCellStoreFind t cs with
        | none => rfl
        | some r => rw [hf] at h; cases h

theorem TFormulaFCodeAlloc_transient (bank : TB) (op : FunCode) (arg1 : TermRef)
    (arg2 : Option TermRef) (hop : op ≠ bank.sig.SIG_NAMED_LAMBDA_CODE)
    (harity : SigFindArity bank.sig op = 1 ∨ SigFindArity bank.sig op = 2) :
    ∃ t : TermCell, TFormulaFCodeAlloc bank op arg1 arg2 = TBTermTopInsert bank t ∧
      t.f_code = op ∧ t.arity = SigFindArity bank.sig op ∧
      t.args = some arg1 :: (if SigFindArity bank.sig op = 2 then [arg2] else []) ∧
      t.type = some bank.sig.type_bank.bool_type ∧
      t.properties = (if SigIsPredicate bank.sig op then SetProp TPIgnoreProps TPPredPos
        else TPIgnoreProps) := by
  unfold TFormulaFCodeAlloc
  dsimp only
  rw [if_pos hop]
  rcases harity with h | h
  · rw [h]
    by_cases hp : SigIsPredicate bank.sig op = true
    · simp only [hp, if_true]
      exact ⟨_, rfl, rfl, rfl, rfl, rfl, rfl⟩
    · simp only [hp, if_false, Bool.false_eq_true]
      exact ⟨_, rfl, rfl, rfl, rfl, rfl, rfl⟩
  · rw [h]
    by_cases hp : SigIsPredicate bank.sig op = true
    · simp only [hp, if_true]
      exact ⟨_, rfl, rfl, rfl, rfl, rfl, rfl⟩
    · simp only [hp, if_false, Bool.false_eq_true]
      exact ⟨_, rfl, rfl, rfl, rfl, rfl, rfl⟩

theorem VarOcc.occ_var_iff {b : TB} {v f : TermRef} (hv : TermIsVar (b.cell f) = true) :
    VarOcc b v f ↔ v = f := by
  constructor
  · intro h
    cases h with
    | var _ => rfl
    | arg _ a hn _ _ => rw [hv] at hn; cases hn
  · rintro rfl
    exact VarOcc.var hv

theorem VarOcc.occ_arg_iff {b : TB} {v f : TermRef} (hv : TermIsVar (b.cell f) = false) :
    VarOcc b v f ↔ ∃ a, some a ∈ (b.cell f).args ∧ VarOcc b v a := by
  constructor
  · intro h
    cases h with
    | var h1 => rw [hv] at h1; cases h1
    | arg _ a _ hm ho => exact ⟨a, hm, ho⟩
  · rintro ⟨a, hm, ho⟩
    exact VarOcc.arg f a hv hm ho

theorem VarOcc.occ_of_shape {b b1 : TB} (h : ShapeExt b b1) (hwf : b.WF) {v f : TermRef}
    (hocc : VarOcc b v f) : f < b.cells.length → VarOcc b1 v f := by
  induction hocc with
  | var hv =>
    intro hf
    exact VarOcc.var (by rw [h.isVar_eq hf]; exact hv)
  | arg term a hn hm _ ih =>
    intro hf
    obtain ⟨r, hr, hlt⟩ := hwf.args_lt hf _ hm
    cases hr
    exact VarOcc.arg term a (by rw [h.isVar_eq hf]; exact hn)
      (by rw [(h.2.2.2 term hf).2.2]; exact hm) (ih (lt_trans hlt hf))

theorem VarOcc.occ_to_shape {b b1 : TB} (h : ShapeExt b b1) (hwf : b.WF) {v f : TermRef}
    (hocc : VarOcc b1 v f) : f < b.cells.length → VarOcc b v f := by
  induction hocc with
  | var hv =>
    intro hf
    exact VarOcc.var (by rw [← h.isVar_eq hf]; exact hv)
  | arg term a hn hm _ ih =>
    intro hf
    rw [(h.2.2.2 term hf).2.2] at hm
    obtain ⟨r, hr, hlt⟩ := hwf.args_lt hf _ hm
    cases hr
    exact VarOcc.arg term a (by rw [← h.isVar_eq hf]; exact hn) hm (ih (lt_trans hlt hf))

theorem TermCollectVariables_args (fuel : Nat) (bank : TB)
    (ih : ∀ (a : TermRef) (tree : PTree), a < bank.cells.length → a < fuel →
      ∃ tree1, TermCollectVariables fuel bank a tree = some tree1 ∧
        (∀ v, v ∈ tree1 ↔ v ∈ tree ∨ VarOcc bank v a) ∧ (tree.Nodup → tree1.Nodup)) :
    ∀ (as : List (Option TermRef)),
      (∀ a ∈ as, ∃ r, a = some r ∧ r < bank.cells.length ∧ r < fuel) →
      ∀ tree : PTree, ∃ tree1,
        as.foldl
          (fun (acc : Option PTree) a =>
            match acc, a with
            | some tree1, some r => TermCollectVariables fuel bank r tree1
            | _, _ => none)
          (some tree) = some tree1 ∧
        (∀ v, v ∈ tree1 ↔ v ∈ tree ∨ ∃ r, some r ∈ as ∧ VarOcc bank v r) ∧
        (tree.Nodup → tree1.Nodup) := by
  intro as
  induction as with
  | nil =>
    intro _ tree
    exact ⟨tree, rfl, fun v => ⟨Or.inl, fun h => h.elim id (fun ⟨_, hm, _⟩ => by cases hm)⟩, id⟩
  | cons a as ihl =>
    intro hall tree
    obtain ⟨r, rfl, hr1, hr2⟩ := hall a (List.mem_cons_self a as)
    obtain ⟨t1, e1, m1, n1⟩ := ih r tree hr1 hr2
    obtain ⟨t2, e2, m2, n2⟩ := ihl (fun x hx => hall x (List.mem_cons_of_mem _ hx)) t1
    refine ⟨t2, ?_, fun v => ?_, fun hn => n2 (n1 hn)⟩
    · rw [List.foldl_cons]
      simp only [e1]
      exact e2
    · rw [m2, m1]
      constructor
      · rintro ((h | h) | ⟨x, hx, h⟩)
        · exact Or.inl h
        · exact Or.inr ⟨r, List.mem_cons_self _ _, h⟩
        · exact Or.inr ⟨x, List.mem_cons_of_mem _ hx, h⟩
      · rintro (h | ⟨x, hx, h⟩)
        · exact Or.inl (Or.inl h)
        · rw [List.mem_cons] at hx
          rcases hx with hx | hx
          · cases hx
            exact Or.inl (Or.inr h)
          · exact Or.inr ⟨x, hx, h⟩

theorem TermCollectVariables_spec (fuel : Nat) (bank : TB) (hwf : bank.WF) :
    ∀ (term : TermRef) (tree : PTree), term < bank.cells.length → term < fuel →
      ∃ tree1, TermCollectVariables fuel bank term tree = some tree1 ∧
        (∀ v, v ∈ tree1 ↔ v ∈ tree ∨ VarOcc bank v term) ∧ (tree.Nodup → tree1.Nodup) := by
  induction fuel with
  | zero => intro term tree _ h; exact absurd h (Nat.not_lt_zero _)
  | succ fuel ih =>
    intro term tree ht hfuel
    rw [TermCollectVariables]
    by_cases hv : TermIsVar (bank.cell term) = true
    · rw [if_pos hv]
      refine ⟨PTreeStore tree term, rfl, fun v => ?_, nodup_PTreeStore tree term⟩
      rw [mem_PTreeStore, VarOcc.occ_var_iff hv]
    · rw [if_neg hv]
      have hv' : TermIsVar (bank.cell term) = false := by simpa using hv
      obtain ⟨t1, e1, m1, n1⟩ := TermCollectVariables_args fuel bank ih (bank.cell term).args
        (fun a ha => by
          obtain ⟨r, hr, hlt⟩ := hwf.args_lt ht a ha
          exact ⟨r, hr, lt_trans hlt ht, Nat.lt_of_lt_of_le hlt (Nat.lt_succ_iff.mp hfuel)⟩)
        tree
      refine ⟨t1, e1, fun v => ?_, n1⟩
      rw [m1, VarOcc.occ_arg_iff hv']
theorem VarOcc.occ_lt {b : TB} {v f : TermRef} (h : VarOcc b v f) : v < b.cells.length := by
  induction h with
  | var hvar =>
    by_contra hlt
    rw [TB.cell_of_length_le b v (not_lt.mp hlt)] at hvar
    exact absurd hvar (by decide)
  | arg term a _ _ _ ih => exact ih

theorem TFormulaFCodeAlloc_binary (bank : TB) (op : FunCode) (a b : TermRef)
    (hwf : bank.WF) (ha : a < bank.cells.length) (hb : b < bank.cells.length)
    (har : SigFindArity bank.sig op = 2) (hnn : 0 ≤ op) :
    (TFormulaFCodeAlloc bank op a (some b)).1.WF ∧
    ShapeExt bank (TFormulaFCodeAlloc bank op a (some b)).1 ∧
    (TFormulaFCodeAlloc bank op a (some b)).2
      < (TFormulaFCodeAlloc bank op a (some b)).1.cells.length ∧
    ((TFormulaFCodeAlloc bank op a (some b)).1.cell
      (TFormulaFCodeAlloc bank op a (some b)).2).f_code = op ∧
    ((TFormulaFCodeAlloc bank op a (some b)).1.cell
      (TFormulaFCodeAlloc bank op a (some b)).2).args = [some a, some b] := by
  obtain ⟨t, ht, h1, h2, h3⟩ := TFormulaFCodeAlloc_top bank op a (some b)
  rw [ht]
  rw [har] at h2 h3
  have h3' : t.args = [some a, some b] := by rw [h3]; rfl
  have hc := TBTermTopInsert_cell bank t
  have he := TBTermTopInsert_ext bank t
  refine ⟨TBTermTopInsert_WF bank t hwf ?_, he.1, he.2, hc.1.trans h1, hc.2.2.1.trans h3'⟩
  refine ⟨by rw [h3', h2]; rfl, ?_, fun _ => h2, ?_⟩
  · intro x hx
    rw [h3'] at hx
    simp only [List.mem_cons, List.mem_singleton, List.not_mem_nil, or_false] at hx
    rcases hx with rfl | rfl
    · simpa [argBelow] using ha
    · simpa [argBelow] using hb
  · intro hv
    unfold TermIsVar at hv
    rw [h1, decide_eq_true_eq] at hv
    exact absurd hv (not_lt.mpr hnn)

theorem TFormulaCreateDef_core (fuel : Nat) (bank bank1 : TB) (def_atom defined core : TermRef)
    (polarity : Int) (hwf : bank.WF) (hwf1 : bank1.WF) (hsh : ShapeExt bank bank1)
    (hcore : core < bank1.cells.length)
    (hatom : def_atom < bank.cells.length) (hfuel : def_atom < fuel)
    (hres : (if polarity = -1 then
        some (TFormulaFCodeAlloc bank bank.sig.impl_code defined (some def_atom))
      else if polarity = 0 then
        some (TFormulaFCodeAlloc bank bank.sig.equiv_code def_atom (some defined))
      else if polarity = 1 then
        some (TFormulaFCodeAlloc bank bank.sig.impl_code def_atom (some defined))
      else none) = some (bank1, core)) :
    ∃ bank2 r xs, TFormulaCreateDef fuel bank def_atom defined polarity = some (bank2, r) ∧
      ShapeExt bank1 bank2 ∧ bank2.WF ∧
      QuantChain bank2 bank.sig.qall_code xs core r ∧ xs.Nodup ∧
      (∀ v, v ∈ xs ↔ VarOcc bank v def_atom) := by
  have hatom1 : def_atom < bank1.cells.length := lt_of_lt_of_le hatom hsh.2.2.1
  obtain ⟨vars, e1, m1, n1⟩ := TermCollectVariables_spec fuel bank1 hwf1 def_atom [] hatom1 hfuel
  have hvars : ∀ v, v ∈ vars → v < bank1.cells.length := by
    intro v hv
    rcases (m1 v).mp hv with h | h
    · cases h
    · exact h.occ_lt
  obtain ⟨q1, q2, _, q4⟩ := TFormulaAddQuantors_spec true vars bank1 core hwf1 hcore hvars
  refine ⟨(TFormulaAddQuantors bank1 core true vars).1,
    (TFormulaAddQuantors bank1 core true vars).2, vars.reverse, ?_, q2, q1, ?_,
    List.nodup_reverse.mpr (n1 List.nodup_nil), fun v => ?_⟩
  · unfold TFormulaCreateDef
    simp only [hres, e1]
  · simp only [if_true] at q4
    rw [← hsh.1]
    exact q4
  · rw [List.mem_reverse, m1]
    constructor
    · rintro (h | h)
      · cases h
      · exact VarOcc.occ_to_shape hsh hwf h hatom
    · intro h
      exact Or.inr (VarOcc.occ_of_shape hsh hwf h hatom)
/-- Claim C16: `TFormulaCreateDef(bank, def_atom, defined, polarity)` returns,
for enough fuel, a chain of universal quantifiers around a core node that is
`impl(defined, def_atom)` for polarity `-1`, `equiv(def_atom, defined)` for
polarity `0` and `impl(def_atom, defined)` for polarity `+1`.  The quantified
variables are pairwise different and are exactly the variables that occur in
`def_atom`; so a variable that occurs only in `defined` is not bound.  The
bank is well formed and the implication and equivalence codes are binary
symbol codes. -/
theorem TFormulaCreateDef_spec (fuel : Nat) (bank : TB) (def_atom defined : TermRef)
    (polarity : Int) (hwf : bank.WF)
    (himpl : 0 ≤ bank.sig.impl_code ∧ SigFindArity bank.sig bank.sig.impl_code = 2)
    (hequiv : 0 ≤ bank.sig.equiv_code ∧ SigFindArity bank.sig bank.sig.equiv_code = 2)
    (hatom : def_atom < bank.cells.length) (hdefined : defined < bank.cells.length)
    (hfuel : def_atom < fuel)
    (hpol : polarity = -1 ∨ polarity = 0 ∨ polarity = 1) :
    ∃ bank2 r core xs,
      TFormulaCreateDef fuel bank def_atom defined polarity = some (bank2, r) ∧
      ShapeExt bank bank2 ∧
      QuantChain bank2 bank.sig.qall_code xs core r ∧ xs.Nodup ∧
      (∀ v, v ∈ xs ↔ VarOcc bank v def_atom) ∧
      (bank2.cell core).f_code
        = (if polarity = 0 then bank.sig.equiv_code else bank.sig.impl_code) ∧
      (bank2.cell core).args
        = (if polarity = -1 then [some defined, some def_atom]
           else [some def_atom, some defined]) := by
  rcases hpol with hp | hp | hp <;> subst hp
  · obtain ⟨a1, a2, a3, a4, a5⟩ := TFormulaFCodeAlloc_binary bank bank.sig.impl_code defined
      def_atom hwf hdefined hatom himpl.2 himpl.1
    obtain ⟨bank2, r, xs, e, s, _, q, n, m⟩ := TFormulaCreateDef_core fuel bank _ def_atom defined
      _ (-1) hwf a1 a2 a3 hatom hfuel (by simp)
    obtain ⟨c1, _, c3⟩ := s.2.2.2 _ a3
    exact ⟨bank2, r, _, xs, e, a2.trans s, q, n, m, by rw [c1, a4]; simp,
      by rw [c3, a5]; simp⟩
  · obtain ⟨a1, a2, a3, a4, a5⟩ := TFormulaFCodeAlloc_binary bank bank.sig.equiv_code def_atom
      defined hwf hatom hdefined hequiv.2 hequiv.1
    obtain ⟨bank2, r, xs, e, s, _, q, n, m⟩ := TFormulaCreateDef_core fuel bank _ def_atom defined
      _ 0 hwf a1 a2 a3 hatom hfuel (by simp)
    obtain ⟨c1, _, c3⟩ := s.2.2.2 _ a3
    exact ⟨bank2, r, _, xs, e, a2.trans s, q, n, m, by rw [c1, a4]; simp,
      by rw [c3, a5]; simp⟩
  · obtain ⟨a1, a2, a3, a4, a5⟩ := TFormulaFCodeAlloc_binary bank bank.sig.impl_code def_atom
      defined hwf hatom hdefined himpl.2 himpl.1
    obtain ⟨bank2, r, xs, e, s, _, q, n, m⟩ := TFormulaCreateDef_core fuel bank _ def_atom defined
      _ 1 hwf a1 a2 a3 hatom hfuel (by simp)
    obtain ⟨c1, _, c3⟩ := s.2.2.2 _ a3
    exact ⟨bank2, r, _, xs, e, a2.trans s, q, n, m, by rw [c1, a4]; simp,
      by rw [c3, a5]; simp⟩

theorem TFormulaCreateDef_spec_witness :
    (TFormulaCreateDef 6 demoLits 5 8 1).map (fun r => r.2) = some 10 ∧
    ∃ bank2 r core xs,
      TFormulaCreateDef 6 demoLits 5 8 1 = some (bank2, r) ∧
      ShapeExt demoLits bank2 ∧
      QuantChain bank2 demoLits.sig.qall_code xs core r ∧ xs.Nodup ∧
      (∀ v, v ∈ xs ↔ VarOcc demoLits v 5) ∧
      (bank2.cell core).f_code
        = (if (1 : Int) = 0 then demoLits.sig.equiv_code else demoLits.sig.impl_code) ∧
      (bank2.cell core).args
        = (if (1 : Int) = -1 then [some 8, some 5] else [some 5, some 8]) :=
  ⟨by decide, TFormulaCreateDef_spec 6 demoLits 5 8 1 (by decide) (by decide) (by decide)
    (by decide) (by decide) (by decide) (by decide)⟩

/-! ## Printing formulas -/

theorem Sig.CodesDistinct.get_ne {sig : Sig} (h : sig.CodesDistinct) (i j : Fin 13)
    (hij : i ≠ j) :
    [sig.eqn_code, sig.neqn_code, sig.not_code, sig.and_code, sig.or_code, sig.impl_code,
      sig.bimpl_code, sig.equiv_code, sig.xor_code, sig.nand_code, sig.nor_code, sig.qex_code,
      sig.qall_code].get i ≠
    [sig.eqn_code, sig.neqn_code, sig.not_code, sig.and_code, sig.or_code, sig.impl_code,
      sig.bimpl_code, sig.equiv_code, sig.xor_code, sig.nand_code, sig.nor_code, sig.qex_code,
      sig.qall_code].get j :=
  fun he => hij ((List.Nodup.get_inj_iff h).mp he)

theorem oprep_and {sig : Sig} (hcd : sig.CodesDistinct) :
    (sig.and_code == sig.eqn_code || sig.and_code == sig.neqn_code) = false ∧
    (sig.and_code == sig.qex_code || sig.and_code == sig.qall_code) = false ∧
    (sig.and_code == sig.or_code) = false ∧
    (if sig.and_code == sig.and_code then "&"
      else if sig.and_code == sig.or_code then "|"
      else if sig.and_code == sig.impl_code then "=>"
      else if sig.and_code == sig.equiv_code then "<=>"
      else if sig.and_code == sig.nand_code then "~&"
      else if sig.and_code == sig.nor_code then "~|"
      else if sig.and_code == sig.bimpl_code then "<="
      else if sig.and_code == sig.xor_code then "<~>"
      else "XXX") = "&" := by
  have h_eqn : sig.and_code ≠ sig.eqn_code :=
    hcd.get_ne ⟨3, by decide⟩ ⟨0, by decide⟩ (by decide)
  have h_neqn : sig.and_code ≠ sig.neqn_code :=
    hcd.get_ne ⟨3, by decide⟩ ⟨1, by decide⟩ (by decide)
  have h_qex : sig.and_code ≠ sig.qex_code :=
    hcd.get_ne ⟨3, by decide⟩ ⟨11, by decide⟩ (by decide)
  have h_qall : sig.and_code ≠ sig.qall_code :=
    hcd.get_ne ⟨3, by decide⟩ ⟨12, by decide⟩ (by decide)
  have h_or : sig.and_code ≠ sig.or_code :=
    hcd.get_ne ⟨3, by decide⟩ ⟨4, by decide⟩ (by decide)
  clear hcd
  simp [h_eqn, h_neqn, h_qex, h_qall, h_or]

theorem oprep_impl {sig : Sig} (hcd : sig.CodesDistinct) :
    (sig.impl_code == sig.eqn_code || sig.impl_code == sig.neqn_code) = false ∧
    (sig.impl_code == sig.qex_code || sig.impl_code == sig.qall_code) = false ∧
    (sig.impl_code == sig.or_code) = false ∧
    (if sig.impl_code == sig.and_code then "&"
      else if sig.impl_code == sig.or_code then "|"
      else if sig.impl_code == sig.impl_code then "=>"
      else if sig.impl_code == sig.equiv_code then "<=>"
      else if sig.impl_code == sig.nand_code then "~&"
      else if sig.impl_code == sig.nor_code then "~|"
      else if sig.impl_code == sig.bimpl_code then "<="
      else if sig.impl_code == sig.xor_code then "<~>"
      else "XXX") = "=>" := by
  have h_eqn : sig.impl_code ≠ sig.eqn_code :=
    hcd.get_ne ⟨5, by decide⟩ ⟨0, by decide⟩ (by decide)
  have h_neqn : sig.impl_code ≠ sig.neqn_code :=
    hcd.get_ne ⟨5, by decide⟩ ⟨1, by decide⟩ (by decide)
  have h_qex : sig.impl_code ≠ sig.qex_code :=
    hcd.get_ne ⟨5, by decide⟩ ⟨11, by decide⟩ (by decide)
  have h_qall : sig.impl_code ≠ sig.qall_code :=
    hcd.get_ne ⟨5, by decide⟩ ⟨12, by decide⟩ (by decide)
  have h_and : sig.impl_code ≠ sig.and_code :=
    hcd.get_ne ⟨5, by decide⟩ ⟨3, by decide⟩ (by decide)
  have h_or : sig.impl_code ≠ sig.or_code :=
    hcd.get_ne ⟨5, by decide⟩ ⟨4, by decide⟩ (by decide)
  clear hcd
  simp [h_eqn, h_neqn, h_qex, h_qall, h_and, h_or]

theorem oprep_equiv {sig : Sig} (hcd : sig.CodesDistinct) :
    (sig.equiv_code == sig.eqn_code || sig.equiv_code == sig.neqn_code) = false ∧
    (sig.equiv_code == sig.qex_code || sig.equiv_code == sig.qall_code) = false ∧
    (sig.equiv_code == sig.or_code) = false ∧
    (if sig.equiv_code == sig.and_code then "&"
      else if sig.equiv_code == sig.or_code then "|"
      else if sig.equiv_code == sig.impl_code then "=>"
      else if sig.equiv_code == sig.equiv_code then "<=>"
      else if sig.equiv_code == sig.nand_code then "~&"
      else if sig.equiv_code == sig.nor_code then "~|"
      else if sig.equiv_code == sig.bimpl_code then "<="
      else if sig.equiv_code == sig.xor_code then "<~>"
      else "XXX") = "<=>" := by
  have h_eqn : sig.equiv_code ≠ sig.eqn_code :=
    hcd.get_ne ⟨7, by decide⟩ ⟨0, by decide⟩ (by decide)
  have h_neqn : sig.equiv_code ≠ sig.neqn_code :=
    hcd.get_ne ⟨7, by decide⟩ ⟨1, by decide⟩ (by decide)
  have h_qex : sig.equiv_code ≠ sig.qex_code :=
    hcd.get_ne ⟨7, by decide⟩ ⟨11, by decide⟩ (by decide)
  have h_qall : sig.equiv_code ≠ sig.qall_code :=
    hcd.get_ne ⟨7, by decide⟩ ⟨12, by decide⟩ (by decide)
  have h_and : sig.equiv_code ≠ sig.and_code :=
    hcd.get_ne ⟨7, by decide⟩ ⟨3, by decide⟩ (by decide)
  have h_or : sig.equiv_code ≠ sig.or_code :=
    hcd.get_ne ⟨7, by decide⟩ ⟨4, by decide⟩ (by decide)
  have h_impl : sig.equiv_code ≠ sig.impl_code :=
    hcd.get_ne ⟨7, by decide⟩ ⟨5, by decide⟩ (by decide)
  clear hcd
  simp [h_eqn, h_neqn, h_qex, h_qall, h_and, h_or, h_impl]

theorem oprep_nand {sig : Sig} (hcd : sig.CodesDistinct) :
    (sig.nand_code == sig.eqn_code || sig.nand_code == sig.neqn_code) = false ∧
    (sig.nand_code == sig.qex_code || sig.nand_code == sig.qall_code) = false ∧
    (sig.nand_code == sig.or_code) = false ∧
    (if sig.nand_code == sig.and_code then "&"
      else if sig.nand_code == sig.or_code then "|"
      else if sig.nand_code == sig.impl_code then "=>"
      else if sig.nand_code == sig.equiv_code then "<=>"
      else if sig.nand_code == sig.nand_code then "~&"
      else if sig.nand_code == sig.nor_code then "~|"
      else if sig.nand_code == sig.bimpl_code then "<="
      else if sig.nand_code == sig.xor_code then "<~>"
      else "XXX") = "~&" := by
  have h_eqn : sig.nand_code ≠ sig.eqn_code :=
    hcd.get_ne ⟨9, by decide⟩ ⟨0, by decide⟩ (by decide)
  have h_neqn : sig.nand_code ≠ sig.neqn_code :=
    hcd.get_ne ⟨9, by decide⟩ ⟨1, by decide⟩ (by decide)
  have h_qex : sig.nand_code ≠ sig.qex_code :=
    hcd.get_ne ⟨9, by decide⟩ ⟨11, by decide⟩ (by decide)
  have h_qall : sig.nand_code ≠ sig.qall_code :=
    hcd.get_ne ⟨9, by decide⟩ ⟨12, by decide⟩ (by decide)
  have h_and : sig.nand_code ≠ sig.and_code :=
    hcd.get_ne ⟨9, by decide⟩ ⟨3, by decide⟩ (by decide)
  have h_or : sig.nand_code ≠ sig.or_code :=
    hcd.get_ne ⟨9, by decide⟩ ⟨4, by decide⟩ (by decide)
  have h_impl : sig.nand_code ≠ sig.impl_code :=
    hcd.get_ne ⟨9, by decide⟩ ⟨5, by decide⟩ (by decide)
  have h_equiv : sig.nand_code ≠ sig.equiv_code :=
    hcd.get_ne ⟨9, by decide⟩ ⟨7, by decide⟩ (by decide)
  clear hcd
  simp [h_eqn, h_neqn, h_qex, h_qall, h_and, h_or, h_impl, h_equiv]

theorem oprep_nor {sig : Sig} (hcd : sig.CodesDistinct) :
    (sig.nor_code == sig.eqn_code || sig.nor_code == sig.neqn_code) = false ∧
    (sig.nor_code == sig.qex_code || sig.nor_code == sig.qall_code) = false ∧
    (sig.nor_code == sig.or_code) = false ∧
    (if sig.nor_code == sig.and_code then "&"
      else if sig.nor_code == sig.or_code then "|"
      else if sig.nor_code == sig.impl_code then "=>"
      else if sig.nor_code == sig.equiv_code then "<=>"
      else if sig.nor_code == sig.nand_code then "~&"
      else if sig.nor_code == sig.nor_code then "~|"
      else if sig.nor_code == sig.bimpl_code then "<="
      else if sig.nor_code == sig.xor_code then "<~>"
      else "XXX") = "~|" := by
  have h_eqn : sig.nor_code ≠ sig.eqn_code :=
    hcd.get_ne ⟨10, by decide⟩ ⟨0, by decide⟩ (by decide)
  have h_neqn : sig.nor_code ≠ sig.neqn_code :=
    hcd.get_ne ⟨10, by decide⟩ ⟨1, by decide⟩ (by decide)
  have h_qex : sig.nor_code ≠ sig.qex_code :=
    hcd.get_ne ⟨10, by decide⟩ ⟨11, by decide⟩ (by decide)
  have h_qall : sig.nor_code ≠ sig.qall_code :=
    hcd.get_ne ⟨10, by decide⟩ ⟨12, by decide⟩ (by decide)
  have h_and : sig.nor_code ≠ sig.and_code :=
    hcd.get_ne ⟨10, by decide⟩ ⟨3, by decide⟩ (by decide)
  have h_or : sig.nor_code ≠ sig.or_code :=
    hcd.get_ne ⟨10, by decide⟩ ⟨4, by decide⟩ (by decide)
  have h_impl : sig.nor_code ≠ sig.impl_code :=
    hcd.get_ne ⟨10, by decide⟩ ⟨5, by decide⟩ (by decide)
  have h_equiv : sig.nor_code ≠ sig.equiv_code :=
    hcd.get_ne ⟨10, by decide⟩ ⟨7, by decide⟩ (by decide)
  have h_nand : sig.nor_code ≠ sig.nand_code :=
    hcd.get_ne ⟨10, by decide⟩ ⟨9, by decide⟩ (by decide)
  clear hcd
  simp [h_eqn, h_neqn, h_qex, h_qall, h_and, h_or, h_impl, h_equiv, h_nand]

theorem oprep_bimpl {sig : Sig} (hcd : sig.CodesDistinct) :
    (sig.bimpl_code == sig.eqn_code || sig.bimpl_code == sig.neqn_code) = false ∧
    (sig.bimpl_code == sig.qex_code || sig.bimpl_code == sig.qall_code) = false ∧
    (sig.bimpl_code == sig.or_code) = false ∧
    (if sig.bimpl_code == sig.and_code then "&"
      else if sig.bimpl_code == sig.or_code then "|"
      else if sig.bimpl_code == sig.impl_code then "=>"
      else if sig.bimpl_code == sig.equiv_code then "<=>"
      else if sig.bimpl_code == sig.nand_code then "~&"
      else if sig.bimpl_code == sig.nor_code then "~|"
      else if sig.bimpl_code == sig.bimpl_code then "<="
      else if sig.bimpl_code == sig.xor_code then "<~>"
      else "XXX") = "<=" := by
  have h_eqn : sig.bimpl_code ≠ sig.eqn_code :=
    hcd.get_ne ⟨6, by decide⟩ ⟨0, by decide⟩ (by decide)
  have h_neqn : sig.bimpl_code ≠ sig.neqn_code :=
    hcd.get_ne ⟨6, by decide⟩ ⟨1, by decide⟩ (by decide)
  have h_qex : sig.bimpl_code ≠ sig.qex_code :=
    hcd.get_ne ⟨6, by decide⟩ ⟨11, by decide⟩ (by decide)
  have h_qall : sig.bimpl_code ≠ sig.qall_code :=
    hcd.get_ne ⟨6, by decide⟩ ⟨12, by decide⟩ (by decide)
  have h_and : sig.bimpl_code ≠ sig.and_code :=
    hcd.get_ne ⟨6, by decide⟩ ⟨3, by decide⟩ (by decide)
  have h_or : sig.bimpl_code ≠ sig.or_code :=
    hcd.get_ne ⟨6, by decide⟩ ⟨4, by decide⟩ (by decide)
  have h_impl : sig.bimpl_code ≠ sig.impl_code :=
    hcd.get_ne ⟨6, by decide⟩ ⟨5, by decide⟩ (by decide)
  have h_equiv : sig.bimpl_code ≠ sig.equiv_code :=
    hcd.get_ne ⟨6, by decide⟩ ⟨7, by decide⟩ (by decide)
  have h_nand : sig.bimpl_code ≠ sig.nand_code :=
    hcd.get_ne ⟨6, by decide⟩ ⟨9, by decide⟩ (by decide)
  have h_nor : sig.bimpl_code ≠ sig.nor_code :=
    hcd.get_ne ⟨6, by decide⟩ ⟨10, by decide⟩ (by decide)
  clear hcd
  simp [h_eqn, h_neqn, h_qex, h_qall, h_and, h_or, h_impl, h_equiv, h_nand, h_nor]

theorem oprep_xor {sig : Sig} (hcd : sig.CodesDistinct) :
    (sig.xor_code == sig.eqn_code || sig.xor_code == sig.neqn_code) = false ∧
    (sig.xor_code == sig.qex_code || sig.xor_code == sig.qall_code) = false ∧
    (sig.xor_code == sig.or_code) = false ∧
    (if sig.xor_code == sig.and_code then "&"
      else if sig.xor_code == sig.or_code then "|"
      else if sig.xor_code == sig.impl_code then "=>"
      else if sig.xor_code == sig.equiv_code then "<=>"
      else if sig.xor_code == sig.nand_code then "~&"
      else if sig.xor_code == sig.nor_code then "~|"
      else if sig.xor_code == sig.bimpl_code then "<="
      else if sig.xor_code == sig.xor_code then "<~>"
      else "XXX") = "<~>" := by
  have h_eqn : sig.xor_code ≠ sig.eqn_code :=
    hcd.get_ne ⟨8, by decide⟩ ⟨0, by decide⟩ (by decide)
  have h_neqn : sig.xor_code ≠ sig.neqn_code :=
    hcd.get_ne ⟨8, by decide⟩ ⟨1, by decide⟩ (by decide)
  have h_qex : sig.xor_code ≠ sig.qex_code :=
    hcd.get_ne ⟨8, by decide⟩ ⟨11, by decide⟩ (by decide)
  have h_qall : sig.xor_code ≠ sig.qall_code :=
    hcd.get_ne ⟨8, by decide⟩ ⟨12, by decide⟩ (by decide)
  have h_and : sig.xor_code ≠ sig.and_code :=
    hcd.get_ne ⟨8, by decide⟩ ⟨3, by decide⟩ (by decide)
  have h_or : sig.xor_code ≠ sig.or_code :=
    hcd.get_ne ⟨8, by decide⟩ ⟨4, by decide⟩ (by decide)
  have h_impl : sig.xor_code ≠ sig.impl_code :=
    hcd.get_ne ⟨8, by decide⟩ ⟨5, by decide⟩ (by decide)
  have h_equiv : sig.xor_code ≠ sig.equiv_code :=
    hcd.get_ne ⟨8, by decide⟩ ⟨7, by decide⟩ (by decide)
  have h_nand : sig.xor_code ≠ sig.nand_code :=
    hcd.get_ne ⟨8, by decide⟩ ⟨9, by decide⟩ (by decide)
  have h_nor : sig.xor_code ≠ sig.nor_code :=
    hcd.get_ne ⟨8, by decide⟩ ⟨10, by decide⟩ (by decide)
  have h_bimpl : sig.xor_code ≠ sig.bimpl_code :=
    hcd.get_ne ⟨8, by decide⟩ ⟨6, by decide⟩ (by decide)
  clear hcd
  simp [h_eqn, h_neqn, h_qex, h_qall, h_and, h_or, h_impl, h_equiv, h_nand, h_nor, h_bimpl]

theorem tptpOperator_oprep {sig : Sig} (hcd : sig.CodesDistinct) {op : FunCode} {s : String}
    (h : tptpOperator sig op = some s) :
    (op == sig.eqn_code || op == sig.neqn_code) = false ∧
    (op == sig.qex_code || op == sig.qall_code) = false ∧
    (op == sig.or_code) = false ∧
    (if op == sig.and_code then "&"
      else if op == sig.or_code then "|"
      else if op == sig.impl_code then "=>"
      else if op == sig.equiv_code then "<=>"
      else if op == sig.nand_code then "~&"
      else if op == sig.nor_code then "~|"
      else if op == sig.bimpl_code then "<="
      else if op == sig.xor_code then "<~>"
      else "XXX") = s := by
  unfold tptpOperator at h
  split_ifs at h with h1 h2 h3 h4 h5 h6 h7
  · cases h; subst h1; exact oprep_and hcd
  · cases h; subst h2; exact oprep_impl hcd
  · cases h; subst h3; exact oprep_equiv hcd
  · cases h; subst h4; exact oprep_nand hcd
  · cases h; subst h5; exact oprep_nor hcd
  · cases h; subst h6; exact oprep_bimpl hcd
  · cases h; subst h7; exact oprep_xor hcd
theorem TB.arg_of_args (bank : TB) (form : TermRef) (l : List (Option TermRef)) (i : Nat)
    (h : (bank.cell form).args = l) : bank.arg form i = l.getD i none := by
  unfold TB.arg
  rw [h]

theorem TFormulaTPTPPrint_var_eq (P : TermPrinters) (problemType : ProblemType) (bank : TB)
    (form x : TermRef) (h : bank.arg form 0 = some x) :
    TFormulaTPTPPrint_var P problemType bank form = some (tptpVarText P problemType bank x) := by
  unfold TFormulaTPTPPrint_var tptpVarText
  rw [h]

theorem QuantChain.body_lt {bank : TB} (hwf : bank.WF) (q : FunCode) (body : TermRef) :
    ∀ (xs : List TermRef) (x form : TermRef), form < bank.cells.length →
      QuantChain bank q (x :: xs) body form → body < form := by
  intro xs
  induction xs with
  | nil =>
    intro x form hf hc
    obtain ⟨_, _, r1, c3, c4⟩ := hc
    have hr : r1 = body := c4
    subst hr
    exact hwf.arg_lt hf (i := 1) (by rw [TB.arg_of_args bank form _ 1 c3]; rfl)
  | cons y ys ih =>
    intro x form hf hc
    obtain ⟨_, _, r1, c3, c4⟩ := hc
    have hr1 : r1 < form := hwf.arg_lt hf (i := 1) (by rw [TB.arg_of_args bank form _ 1 c3]; rfl)
    exact lt_trans (ih y r1 (lt_trans hr1 hf) c4) hr1

theorem TFormulaTPTPPrint_vars_chain (P : TermPrinters) (problemType : ProblemType) (bank : TB)
    (hwf : bank.WF) (q : FunCode) (body : TermRef) (hbody : (bank.cell body).f_code ≠ q) :
    ∀ (xs : List TermRef) (x form : TermRef) (out : String) (fuel : Nat),
      form < bank.cells.length → form ≤ fuel → QuantChain bank q (x :: xs) body form →
      ∃ last, TFormulaTPTPPrint_vars P problemType bank q fuel form out
          = some (last, xs.foldl (fun out y => out ++ ", " ++ tptpVarText P problemType bank y) out) ∧
        bank.arg last 1 = some body := by
  intro xs
  induction xs with
  | nil =>
    intro x form out fuel hf _ hc
    obtain ⟨_, _, r1, c3, c4⟩ := hc
    have hr : r1 = body := c4
    subst hr
    have h1 : bank.arg form 1 = some r1 := by rw [TB.arg_of_args bank form _ 1 c3]; rfl
    have hb : ((bank.cell r1).f_code == q) = false := beq_eq_false_iff_ne.mpr hbody
    refine ⟨form, ?_, h1⟩
    cases fuel <;> simp [TFormulaTPTPPrint_vars, h1, hb]
  | cons y ys ih =>
    intro x form out fuel hf hfuel hc
    obtain ⟨_, _, r1, c3, c4⟩ := hc
    have h1 : bank.arg form 1 = some r1 := by rw [TB.arg_of_args bank form _ 1 c3]; rfl
    have hr1 : r1 < form := hwf.arg_lt hf h1
    obtain ⟨d1, _, r2, d3, _⟩ := id c4
    have h0 : bank.arg r1 0 = some y := by rw [TB.arg_of_args bank r1 _ 0 d3]; rfl
    have hb : ((bank.cell r1).f_code == q) = true := by rw [d1]; exact beq_self_eq_true q
    cases fuel with
    | zero => exact absurd (lt_of_lt_of_le hr1 hfuel) (Nat.not_lt_zero _)
    | succ fuel =>
      obtain ⟨last, e, hl⟩ := ih y r1 (out ++ ", " ++ tptpVarText P problemType bank y) fuel
        (lt_trans hr1 hf) (Nat.lt_succ_iff.mp (lt_of_lt_of_le hr1 hfuel)) c4
      refine ⟨last, ?_, hl⟩
      rw [TFormulaTPTPPrint_vars]
      simp only [h1, hb, if_true, TFormulaTPTPPrint_var_eq P problemType bank r1 y h0]
      rw [e]
      rfl
theorem fuel_succ {n fuel : Nat} (h : 3 * n + 1 ≤ fuel) : ∃ f, fuel = f + 1 ∧ 3 * n ≤ f :=
  ⟨fuel - 1, by omega, by omega⟩

theorem fuel_succ_succ {a n fuel : Nat} (ha : a < n) (h : 3 * n + 1 ≤ fuel) :
    ∃ g, fuel = g + 1 + 1 ∧ 3 * n ≤ g + 1 :=
  ⟨fuel - 2, by omega, by omega⟩

theorem fuel_succ_chain {n fuel : Nat} (h : 3 * n + 2 ≤ fuel) :
    ∃ f, fuel = f + 1 ∧ 3 * n + 1 ≤ f ∧ 3 * n ≤ f :=
  ⟨fuel - 1, by omega, by omega, by omega⟩

theorem fuel_child {a n f : Nat} (ha : a < n) (h : 3 * n ≤ f) :
    3 * a + 2 ≤ f ∧ 3 * a + 1 ≤ f ∧ n ≤ f :=
  ⟨by omega, by omega, by omega⟩

theorem fuel_grandchild {a n g : Nat} (ha : a < n) (h : 3 * n ≤ g + 1) :
    3 * a + 2 ≤ g ∧ 3 * a + 1 ≤ g :=
  ⟨by omega, by omega⟩

theorem TFormulaTPTPPrint_text_aux (P : TermPrinters) (problemType : ProblemType) (bank : TB)
    (fullterms pcl : Bool) (hwf : bank.WF) (hcd : bank.sig.CodesDistinct)
    {c : Bool} {form : TermRef} {s : String}
    (h : TPTPText P problemType bank fullterms pcl c form s) :
    form < bank.cells.length → ∀ fuel : Nat,
      (c = false → 3 * form + 1 ≤ fuel →
        TFormulaTPTPPrint P problemType fuel bank form fullterms pcl = some s) ∧
      (c = true → 3 * form + 2 ≤ fuel →
        tformula_print_or_chain P problemType fuel bank form fullterms pcl = some s) := by
  induction h with
  | literal form l r hlit hargs =>
    intro _ fuel
    refine ⟨fun _ hfuel => ?_, fun hc => by cases hc⟩
    obtain ⟨fuel, rfl, _⟩ := fuel_succ hfuel
    rw [TFormulaTPTPPrint]
    simp only [hlit, if_true, TB.arg_of_args bank form _ 0 hargs,
      TB.arg_of_args bank form _ 1 hargs]
    rfl
  | binary form a b s sa sb hop har hargs _ _ iha ihb =>
    intro hf fuel
    refine ⟨fun _ hfuel => ?_, fun hc => by cases hc⟩
    have h0 : bank.arg form 0 = some a := by rw [TB.arg_of_args bank form _ 0 hargs]; rfl
    have h1 : bank.arg form 1 = some b := by rw [TB.arg_of_args bank form _ 1 hargs]; rfl
    have ha : a < form := hwf.arg_lt hf h0
    have hb : b < form := hwf.arg_lt hf h1
    obtain ⟨f, rfl, hf3⟩ := fuel_succ hfuel
    have fa := (fuel_child ha hf3).2.1
    have fb := (fuel_child hb hf3).2.1
    obtain ⟨o1, o2, o3, o4⟩ := tptpOperator_oprep hcd hop
    have hun : TFormulaIsUnary (bank.cell form) = false := by
      unfold TFormulaIsUnary; rw [har]; rfl
    rw [TFormulaTPTPPrint]
    simp only [TFormulaIsLiteral, TFormulaIsQuantified, o1, o2, hun, Bool.false_eq_true,
      if_false, h0, h1, (iha (lt_trans ha hf) f).1 rfl fa, (ihb (lt_trans hb hf) f).1 rfl fb,
      Option.some_bind, o4]
    simp only [o3, Bool.false_eq_true, if_false]
  | disjunction form a b sa sb hop har hargs _ _ iha ihb =>
    intro hf fuel
    refine ⟨fun _ hfuel => ?_, fun hc => by cases hc⟩
    have h0 : bank.arg form 0 = some a := by rw [TB.arg_of_args bank form _ 0 hargs]; rfl
    have h1 : bank.arg form 1 = some b := by rw [TB.arg_of_args bank form _ 1 hargs]; rfl
    have ha : a < form := hwf.arg_lt hf h0
    have hb : b < form := hwf.arg_lt hf h1
    obtain ⟨g2, rfl, hg3⟩ := fuel_succ_succ ha hfuel
    have ga := (fuel_grandchild ha hg3).1
    have gb := (fuel_grandchild hb hg3).2
    have n1 : bank.sig.or_code ≠ bank.sig.eqn_code :=
      hcd.get_ne ⟨4, by decide⟩ ⟨0, by decide⟩ (by decide)
    have n2 : bank.sig.or_code ≠ bank.sig.neqn_code :=
      hcd.get_ne ⟨4, by decide⟩ ⟨1, by decide⟩ (by decide)
    have n3 : bank.sig.or_code ≠ bank.sig.qex_code :=
      hcd.get_ne ⟨4, by decide⟩ ⟨11, by decide⟩ (by decide)
    have n4 : bank.sig.or_code ≠ bank.sig.qall_code :=
      hcd.get_ne ⟨4, by decide⟩ ⟨12, by decide⟩ (by decide)
    have hun : TFormulaIsUnary (bank.cell form) = false := by
      unfold TFormulaIsUnary; rw [har]; rfl
    rw [TFormulaTPTPPrint, tformula_print_or_chain]
    simp only [TFormulaIsLiteral, TFormulaIsQuantified, hop, hun, n1, n2, n3, n4,
      beq_self_eq_true, beq_eq_false_iff_ne.mpr n1, beq_eq_false_iff_ne.mpr n2,
      beq_eq_false_iff_ne.mpr n3, beq_eq_false_iff_ne.mpr n4, Bool.or_self, Bool.false_eq_true,
      if_false, if_true, ne_eq, not_true_eq_false, h0, h1,
      (iha (lt_trans ha hf) g2).2 rfl ga, (ihb (lt_trans hb hf) g2).1 rfl gb, Option.some_bind]
  | chain_end form s hop _ ih =>
    intro hf fuel
    refine ⟨fun hc => (by cases hc), fun _ hfuel => ?_⟩
    obtain ⟨fuel, rfl, hf1, _⟩ := fuel_succ_chain hfuel
    rw [tformula_print_or_chain]
    simp only [ne_eq, hop, not_false_eq_true, if_true]
    exact (ih hf fuel).1 rfl hf1
  | chain_or form a b sa sb hop hargs _ _ iha ihb =>
    intro hf fuel
    refine ⟨fun hc => (by cases hc), fun _ hfuel => ?_⟩
    have h0 : bank.arg form 0 = some a := by rw [TB.arg_of_args bank form _ 0 hargs]; rfl
    have h1 : bank.arg form 1 = some b := by rw [TB.arg_of_args bank form _ 1 hargs]; rfl
    have ha : a < form := hwf.arg_lt hf h0
    have hb : b < form := hwf.arg_lt hf h1
    obtain ⟨f, rfl, _, hf3⟩ := fuel_succ_chain hfuel
    have fa := (fuel_child ha hf3).1
    have fb := (fuel_child hb hf3).2.1
    rw [tformula_print_or_chain]
    simp only [ne_eq, hop, not_true_eq_false, if_false, h0, h1,
      (iha (lt_trans ha hf) f).2 rfl fa, (ihb (lt_trans hb hf) f).1 rfl fb, Option.some_bind]
  | negation form a s hop har hargs _ ih =>
    intro hf fuel
    refine ⟨fun _ hfuel => ?_, fun hc => by cases hc⟩
    have h0 : bank.arg form 0 = some a := by rw [TB.arg_of_args bank form _ 0 hargs]; rfl
    have ha : a < form := hwf.arg_lt hf h0
    obtain ⟨f, rfl, hf3⟩ := fuel_succ hfuel
    have fa := (fuel_child ha hf3).2.1
    have n1 : bank.sig.not_code ≠ bank.sig.eqn_code :=
      hcd.get_ne ⟨2, by decide⟩ ⟨0, by decide⟩ (by decide)
    have n2 : bank.sig.not_code ≠ bank.sig.neqn_code :=
      hcd.get_ne ⟨2, by decide⟩ ⟨1, by decide⟩ (by decide)
    have n3 : bank.sig.not_code ≠ bank.sig.qex_code :=
      hcd.get_ne ⟨2, by decide⟩ ⟨11, by decide⟩ (by decide)
    have n4 : bank.sig.not_code ≠ bank.sig.qall_code :=
      hcd.get_ne ⟨2, by decide⟩ ⟨12, by decide⟩ (by decide)
    have hun : TFormulaIsUnary (bank.cell form) = true := by
      unfold TFormulaIsUnary; rw [har]; rfl
    rw [TFormulaTPTPPrint]
    simp only [TFormulaIsLiteral, TFormulaIsQuantified, hop, hun,
      beq_eq_false_iff_ne.mpr n1, beq_eq_false_iff_ne.mpr n2,
      beq_eq_false_iff_ne.mpr n3, beq_eq_false_iff_ne.mpr n4, Bool.or_self, Bool.false_eq_true,
      if_false, if_true, h0, (ih (lt_trans ha hf) f).1 rfl fa, Option.some_bind]
  | quantified form q x xs body sb hq hchain hbody _ ih =>
    intro hf fuel
    refine ⟨fun _ hfuel => ?_, fun hc => by cases hc⟩
    have hbl : body < form := QuantChain.body_lt hwf q body xs x form hf hchain
    obtain ⟨f, rfl, hf3⟩ := fuel_succ hfuel
    have fb := (fuel_child hbl hf3).2.1
    have ff := (fuel_child hbl hf3).2.2
    obtain ⟨last, e, hl⟩ := TFormulaTPTPPrint_vars_chain P problemType bank hwf q body hbody xs x
      form ((if q = bank.sig.qall_code then "![" else "?[") ++ tptpVarText P problemType bank x)
      f hf ff hchain
    obtain ⟨c1, _, r1, c3, _⟩ := id hchain
    have h0 : bank.arg form 0 = some x := by rw [TB.arg_of_args bank form _ 0 c3]; rfl
    have n5 : bank.sig.qex_code ≠ bank.sig.qall_code :=
      hcd.get_ne ⟨11, by decide⟩ ⟨12, by decide⟩ (by decide)
    have m1 : bank.sig.qall_code ≠ bank.sig.eqn_code :=
      hcd.get_ne ⟨12, by decide⟩ ⟨0, by decide⟩ (by decide)
    have m2 : bank.sig.qall_code ≠ bank.sig.neqn_code :=
      hcd.get_ne ⟨12, by decide⟩ ⟨1, by decide⟩ (by decide)
    have m3 : bank.sig.qex_code ≠ bank.sig.eqn_code :=
      hcd.get_ne ⟨11, by decide⟩ ⟨0, by decide⟩ (by decide)
    have m4 : bank.sig.qex_code ≠ bank.sig.neqn_code :=
      hcd.get_ne ⟨11, by decide⟩ ⟨1, by decide⟩ (by decide)
    have hlit : TFormulaIsLiteral bank.sig (bank.cell form) = false := by
      unfold TFormulaIsLiteral
      rw [c1]
      rcases hq with rfl | rfl
      · rw [beq_eq_false_iff_ne.mpr m1, beq_eq_false_iff_ne.mpr m2]
        rfl
      · rw [beq_eq_false_iff_ne.mpr m3, beq_eq_false_iff_ne.mpr m4]
        rfl
    have hqu : TFormulaIsQuantified bank.sig (bank.cell form) = true := by
      unfold TFormulaIsQuantified
      rw [c1]
      rcases hq with rfl | rfl <;> simp
    have hout : (if q == bank.sig.qex_code then "?["
        else if q == bank.sig.qall_code then "![" else "^[")
        = (if q = bank.sig.qall_code then "![" else "?[") := by
      rcases hq with rfl | rfl
      · simp [Ne.symm n5]
      · simp [n5]
    rw [TFormulaTPTPPrint]
    simp only [hlit, hqu, Bool.false_eq_true, if_false, if_true, c1, hout,
      TFormulaTPTPPrint_var_eq P problemType bank form x h0, e, hl,
      (ih (lt_trans hbl hf) f).1 rfl fb, Option.some_bind]
/-- Claim C18: `TFormulaTPTPPrint` writes the TPTP spellings.  `TPTPText` is
the text of the specification: a binary node other than a disjunction is
`(` A s B `)` with s one of `&`, `=>`, `<=>`, `~&`, `~|`, `<=`, `<~>`; a
disjunction is its flattened chain with `|` in parentheses; a negation is
`~(` A `)`; a chain of universal (existential) quantifiers is `![` (`?[`), the
variables separated by `, `, then `]:` and the body; a literal is what the
literal printer writes.  For a node with such a text in a well-formed bank
with pairwise distinct reserved codes, the function returns exactly this text
for every fuel from `3 * form + 1`. -/
theorem TFormulaTPTPPrint_spellings (P : TermPrinters) (problemType : ProblemType) (bank : TB)
    (fullterms pcl : Bool) (form : TermRef) (s : String) (fuel : Nat)
    (hwf : bank.WF) (hcd : bank.sig.CodesDistinct)
    (htext : TPTPText P problemType bank fullterms pcl false form s)
    (hform : form < bank.cells.length) (hfuel : 3 * form + 1 ≤ fuel) :
    TFormulaTPTPPrint P problemType fuel bank form fullterms pcl = some s :=
  (TFormulaTPTPPrint_text_aux P problemType bank fullterms pcl hwf hcd htext hform fuel).1 rfl hfuel

theorem demoPrint_literal (form l : TermRef)
    (hlit : TFormulaIsLiteral demoPrint.sig (demoPrint.cell form) = true)
    (hargs : (demoPrint.cell form).args = [some l, some 2])
    (hcode : (demoPrint.cell form).f_code = 3) :
    TPTPText demoPrinters ProblemType.PROBLEM_FO demoPrint true false false form
      (if l = 5 then "p(X)" else "q(Y)") := by
  have h := @TPTPText.literal demoPrinters ProblemType.PROBLEM_FO demoPrint true false
    form l 2 hlit hargs
  rw [hcode] at h
  exact h

theorem demoPrint_text :
    TPTPText demoPrinters ProblemType.PROBLEM_FO demoPrint true false false 14
      "![X, Y]:(~((p(X)|q(Y)|p(X)))=>q(Y))" := by
  have l7 := demoPrint_literal 7 5 (by decide) (by decide) (by decide)
  have l8 := demoPrint_literal 8 6 (by decide) (by decide) (by decide)
  have c9 := TPTPText.chain_or 9 7 8 _ _ (by decide) (by decide)
    (TPTPText.chain_end 7 _ (by decide) l7) l8
  have d10 := TPTPText.disjunction 10 9 7 _ _ (by decide) (by decide) (by decide) c9 l7
  have n11 := TPTPText.negation 11 10 _ (by decide) (by decide) (by decide) d10
  have i12 := TPTPText.binary 12 11 8 "=>" _ _ (by decide) (by decide) (by decide) n11 l8
  exact TPTPText.quantified 14 15 0 [1] 12 _ (by decide)
    ⟨by decide, by decide, 13, by decide, by decide, by decide, 12, by decide, rfl⟩
    (by decide) i12

theorem TFormulaTPTPPrint_spellings_witness :
    TFormulaTPTPPrint demoPrinters ProblemType.PROBLEM_FO 43 demoPrint 14 true false
      = some "![X, Y]:(~((p(X)|q(Y)|p(X)))=>q(Y))" :=
  TFormulaTPTPPrint_spellings demoPrinters ProblemType.PROBLEM_FO demoPrint true false 14 _ 43
    (by decide) (by decide) demoPrint_text (by decide) (by decide)

/-! ## The minimum heap -/

theorem bubble_up_root (fuel : Nat) (h : MinHeap) : bubble_up fuel h 0 = some h := by
  cases fuel <;> simp [bubble_up, IS_ROOT]

theorem bubble_up_no_swap (fuel : Nat) (h : MinHeap) (idx : PStackPointer)
    (child parent : IntOrP) (hc : PStackElementRef h.arr idx = some child)
    (hp : PStackElementRef h.arr (PARENT idx) = some parent)
    (hcmp : ¬ h.cmp child parent < 0) : bubble_up (fuel + 1) h idx = some h := by
  rw [bubble_up]
  by_cases hr : IS_ROOT idx = true
  · rw [if_pos hr]
  · rw [if_neg hr]
    simp only [hc, hp, hcmp, if_false]
    exact bubble_up_root fuel h

theorem add_no_swap (fuel : Nat) (h : MinHeap) (key child parent : IntOrP) (arr1 : PStack)
    (hs : h.setter = false) (hpush : push h.arr key = some arr1)
    (hc : PStackElementRef arr1 (PStackGetSP arr1) = some child)
    (hp : PStackElementRef arr1 (PARENT (PStackGetSP arr1)) = some parent)
    (hcmp : ¬ h.cmp child parent < 0) :
    add (fuel + 1) h key = some { h with arr := arr1 } := by
  obtain ⟨arr, cmp, setter, calls⟩ := h
  simp only at hs hpush hcmp
  subst hs
  unfold add
  simp only [hpush, CALL_SETTER, Bool.false_eq_true, if_false]
  exact bubble_up_no_swap fuel ⟨arr1, cmp, false, calls⟩ _ child parent hc hp hcmp

theorem IntOrPCmpInt_LONG_MIN (g : IntOrP) (hg : LONG_MIN ≤ g) :
    ¬ IntOrPCmpInt g LONG_MIN < 0 := by
  unfold IntOrPCmpInt
  rw [if_neg (not_lt.mpr hg)]
  split_ifs <;> decide

/-- Claim C20 does not hold of the code: `MinHeapPopMax` returns the last slot
of the array, not the top of the heap.  On a fresh heap with the integer
comparison, whatever the fresh memory holds (`g0` to `g4` and `rest`, each a
`long`), the calls `MinHeapAddInt` with `LONG_MIN`, `LONG_MIN`, `7`, `3` leave
the elements `[LONG_MIN, LONG_MIN, 7, 3]`, and `MinHeapPopMax` then returns
`3`, although the stored `LONG_MIN` compares strictly less than `3` and `3`
compares strictly less than the stored `7`; afterwards the heap holds
`[7, LONG_MIN, 3]`: the returned `3` is still in it and one `LONG_MIN` is
lost. -/
theorem MinHeapPopMax_returns_last (g0 g1 g2 g3 g4 : IntOrP) (rest : List IntOrP)
    (h1 : LONG_MIN ≤ g1) (h2 : LONG_MIN ≤ g2) (h3 : LONG_MIN ≤ g3) (h4 : LONG_MIN ≤ g4) :
    ∃ h hp : MinHeap,
      ((((MinHeapAddInt 1 (MinHeapAlloc (g0 :: g1 :: g2 :: g3 :: g4 :: rest) IntOrPCmpInt)
          LONG_MIN).bind
        (fun h => MinHeapAddInt 1 h LONG_MIN)).bind
        (fun h => MinHeapAddInt 1 h 7)).bind
        (fun h => MinHeapAddInt 1 h 3)) = some h ∧
      h.elements = [LONG_MIN, LONG_MIN, 7, 3] ∧
      MinHeapPopMax 1 h = some (hp, 3) ∧
      LONG_MIN ∈ h.elements ∧ h.cmp LONG_MIN 3 < 0 ∧
      7 ∈ h.elements ∧ h.cmp 3 7 < 0 ∧
      hp.elements = [7, LONG_MIN, 3] := by
  have t1 : Int.tdiv 1 2 = 0 := by decide
  have t3 : Int.tdiv 3 2 = 1 := by decide
  have a1 : MinHeapAddInt 1 (MinHeapAlloc (g0 :: g1 :: g2 :: g3 :: g4 :: rest) IntOrPCmpInt)
      LONG_MIN
      = some ⟨⟨LONG_MIN :: g1 :: g2 :: g3 :: g4 :: rest, 1⟩, IntOrPCmpInt, false, []⟩ :=
    add_no_swap 0 _ LONG_MIN g1 LONG_MIN _ rfl rfl (by simp [PStackElementRef, PStackGetSP]) (by simp [PStackElementRef, PStackGetSP, PARENT, t1, t3]) (IntOrPCmpInt_LONG_MIN g1 h1)
  have a2 : MinHeapAddInt 1
      ⟨⟨LONG_MIN :: g1 :: g2 :: g3 :: g4 :: rest, 1⟩, IntOrPCmpInt, false, []⟩ LONG_MIN
      = some ⟨⟨LONG_MIN :: LONG_MIN :: g2 :: g3 :: g4 :: rest, 2⟩, IntOrPCmpInt, false, []⟩ :=
    add_no_swap 0 _ LONG_MIN g2 LONG_MIN _ rfl rfl (by simp [PStackElementRef, PStackGetSP]) (by simp [PStackElementRef, PStackGetSP, PARENT, t1, t3]) (IntOrPCmpInt_LONG_MIN g2 h2)
  have a3 : MinHeapAddInt 1
      ⟨⟨LONG_MIN :: LONG_MIN :: g2 :: g3 :: g4 :: rest, 2⟩, IntOrPCmpInt, false, []⟩ 7
      = some ⟨⟨LONG_MIN :: LONG_MIN :: 7 :: g3 :: g4 :: rest, 3⟩, IntOrPCmpInt, false, []⟩ :=
    add_no_swap 0 _ 7 g3 LONG_MIN _ rfl rfl (by simp [PStackElementRef, PStackGetSP]) (by simp [PStackElementRef, PStackGetSP, PARENT, t1, t3]) (IntOrPCmpInt_LONG_MIN g3 h3)
  have a4 : MinHeapAddInt 1
      ⟨⟨LONG_MIN :: LONG_MIN :: 7 :: g3 :: g4 :: rest, 3⟩, IntOrPCmpInt, false, []⟩ 3
      = some ⟨⟨LONG_MIN :: LONG_MIN :: 7 :: 3 :: g4 :: rest, 4⟩, IntOrPCmpInt, false, []⟩ :=
    add_no_swap 0 _ 3 g4 LONG_MIN _ rfl rfl (by simp [PStackElementRef, PStackGetSP]) (by simp [PStackElementRef, PStackGetSP, PARENT, t1, t3]) (IntOrPCmpInt_LONG_MIN g4 h4)
  refine ⟨⟨⟨LONG_MIN :: LONG_MIN :: 7 :: 3 :: g4 :: rest, 4⟩, IntOrPCmpInt, false, []⟩,
    ⟨⟨7 :: LONG_MIN :: 3 :: 3 :: g4 :: rest, 3⟩, IntOrPCmpInt, false, []⟩, ?_, rfl, ?_,
    by simp [MinHeap.elements], (by show IntOrPCmpInt LONG_MIN 3 < 0; decide),
    by simp [MinHeap.elements], (by show IntOrPCmpInt 3 7 < 0; decide), rfl⟩
  · rw [a1, Option.some_bind, a2, Option.some_bind, a3, Option.some_bind, a4]
  · rfl

theorem MinHeapPopMax_returns_last_witness :
    ∃ h hp : MinHeap,
      ((((MinHeapAddInt 1 (MinHeapAlloc (9 :: 9 :: 9 :: 9 :: 9 :: []) IntOrPCmpInt)
          LONG_MIN).bind
        (fun h => MinHeapAddInt 1 h LONG_MIN)).bind
        (fun h => MinHeapAddInt 1 h 7)).bind
        (fun h => MinHeapAddInt 1 h 3)) = some h ∧
      h.elements = [LONG_MIN, LONG_MIN, 7, 3] ∧
      MinHeapPopMax 1 h = some (hp, 3) ∧
      LONG_MIN ∈ h.elements ∧ h.cmp LONG_MIN 3 < 0 ∧
      7 ∈ h.elements ∧ h.cmp 3 7 < 0 ∧
      hp.elements = [7, LONG_MIN, 3] :=
  MinHeapPopMax_returns_last 9 9 9 9 9 [] (by decide) (by decide) (by decide) (by decide)

theorem drop_down_loop_stuck (size : PStackPointer) (h : MinHeap) (curr : PStackPointer)
    (vc vl : IntOrP) (hleaf : IS_LEAF curr size = false)
    (hc : PStackElementRef h.arr curr = some vc)
    (hl : PStackElementRef h.arr (LEFT curr) = some vl) (hcl : ¬ h.cmp vc vl < 0)
    (hr : ¬ RIGHT curr < size ∨
      ∃ vr, PStackElementRef h.arr (RIGHT curr) = some vr ∧ ¬ h.cmp vc vr < 0) :
    ∀ fuel, drop_down_loop size fuel h curr = none := by
  intro fuel
  induction fuel with
  | zero => simp [drop_down_loop, hleaf]
  | succ fuel ih =>
    rw [drop_down_loop]
    simp only [hleaf, Bool.false_eq_true, if_false, hc, hl, hcl]
    rcases hr with hr | ⟨vr, hvr, hcr⟩
    · simp only [hr, if_false, ne_eq, not_true_eq_false]
      exact ih
    · by_cases hrs : RIGHT curr < size
      · simp only [hrs, if_true, hvr, hcr, if_false, ne_eq, not_true_eq_false]
        exact ih
      · simp only [hrs, if_false, ne_eq, not_true_eq_false]
        exact ih

/-- On the heap `[1, 2, 3]` the call `MinHeapPopMax` does not return: after the
root is overwritten with the popped `3`, no child compares greater, and the
loop of `drop_down` repeats from an unchanged state. -/
theorem MinHeapPopMax_no_return (fuel : Nat) :
    MinHeapPopMax fuel ⟨⟨[1, 2, 3], 3⟩, IntOrPCmpInt, false, []⟩ = none := by
  have h := drop_down_loop_stuck 2 ⟨⟨[3, 2, 3], 2⟩, IntOrPCmpInt, false, []⟩ 0 3 2
    (by decide) (by decide) (by decide) (by decide) (Or.inl (by decide)) fuel
  unfold MinHeapPopMax
  simp only [PStackPop, MinHeapSize, PStackGetSP, PStackElementAssign]
  simp [drop_down, PStackGetSP]
  exact h

/-! ## Dereferencing applied variables -/

theorem TermIsFreeVar_of_applied (bank : TB) (t : TermRef)
    (happ : TermIsAppliedFreeVar true bank t = true) (hsig : 0 ≤ bank.sig.SIG_PHONY_APP_CODE) :
    TermIsFreeVar (bank.cell t) = false := by
  unfold TermIsAppliedFreeVar at happ
  simp only [Bool.true_and, Bool.and_eq_true, beq_iff_eq] at happ
  unfold TermIsFreeVar
  rw [decide_eq_false_iff_not, not_lt, happ.2.1]
  exact hsig

/-- Claim C30: dereferencing an applied variable does not consume the
dereference budget.  For an applied free variable `t` whose head is bound
(build with `ENABLE_LFHO`), `TermDeref(t, &d)` with `d = DEREF_ONCE` performs
one step: it returns `deref_step(t)`, which is the result of
`applied_var_deref(t)` together with the bank that call leaves, and `d` is
still `DEREF_ONCE`; one unit of fuel suffices.  For a plain variable `X`
bound to `u` the same call returns `u` and leaves `d = DEREF_NEVER`.  The code
of the application marker is not negative. -/
theorem TermDeref_applied_var (avd : TB → TermRef → TB × TermRef) (fuel : Nat) (bank : TB)
    (t X u : TermRef) (hsig : 0 ≤ bank.sig.SIG_PHONY_APP_CODE)
    (happ : TermIsAppliedFreeVar true bank t = true)
    (hhead : (bank.cellAt (bank.arg t 0)).binding.isSome = true)
    (hX : TermIsFreeVar (bank.cell X) = true) (hb : (bank.cell X).binding = some u) :
    deref_step true avd bank t = ((avd bank t).1, some (avd bank t).2) ∧
    TermDeref true avd (fuel + 1) bank t DEREF_ONCE
      = some ((avd bank t).1, (avd bank t).2, DEREF_ONCE) ∧
    TermDeref true avd (fuel + 1) bank X DEREF_ONCE = some (bank, u, DEREF_NEVER) := by
  have hnv := TermIsFreeVar_of_applied bank t happ hsig
  have hstep : deref_step true avd bank t = ((avd bank t).1, some (avd bank t).2) := by
    unfold deref_step
    simp [hnv]
  have hcan : CAN_DEREF true bank t = true := by
    unfold CAN_DEREF
    simp [happ, hhead]
  refine ⟨hstep, ?_, TermDeref_once_of_bound_var true avd fuel bank X u hX hb hsig⟩
  have hd : (DEREF_ONCE == DEREF_ALWAYS) = false := by decide
  have hnz : (DEREF_ONCE != 0) = true := by decide
  unfold TermDeref
  rw [hd]
  simp only [Bool.false_eq_true, if_false]
  rw [TermDeref_loop]
  simp only [hnz, hcan, Bool.and_self, if_true, hstep, happ, beq_self_eq_true]

theorem TermDeref_applied_var_witness :
    (0 ≤ demoBindings.sig.SIG_PHONY_APP_CODE ∧ TermIsAppliedFreeVar true demoBindings 6 = true ∧
      (demoBindings.cellAt (demoBindings.arg 6 0)).binding.isSome = true ∧
      TermIsFreeVar (demoBindings.cell 0) = true ∧ (demoBindings.cell 0).binding = some 5) ∧
    (deref_step true demoAppliedVarDeref demoBindings 6
        = ((demoAppliedVarDeref demoBindings 6).1, some (demoAppliedVarDeref demoBindings 6).2) ∧
      TermDeref true demoAppliedVarDeref 1 demoBindings 6 DEREF_ONCE
        = some ((demoAppliedVarDeref demoBindings 6).1, (demoAppliedVarDeref demoBindings 6).2,
            DEREF_ONCE) ∧
      TermDeref true demoAppliedVarDeref 1 demoBindings 0 DEREF_ONCE
        = some (demoBindings, 5, DEREF_NEVER)) :=
  ⟨⟨by decide, by decide, by decide, by decide, by decide⟩,
    TermDeref_applied_var demoAppliedVarDeref 0 demoBindings 6 0 5 (by decide) (by decide)
      (by decide) (by decide) (by decide)⟩

/-! ## Precedence generation methods -/

theorem StringIndex_loop_not_mem (key : String) (list : List String) (i : Int)
    (h : key ∉ list) : StringIndex_loop key list i = -1 := by
  induction list generalizing i with
  | nil => rfl
  | cons s rest ih =>
    rw [List.mem_cons, not_or] at h
    rw [StringIndex_loop, if_neg h.1]
    exact ih (i + 1) h.2

/-- Claim C24: `TOTranslatePrecGenMethod` returns, for the name at each position
of the table `TOPrecGenNames`, that position; the names of the table are
pairwise distinct; and for every string that is not in the table it returns
`PNoMethod`. -/
theorem TOTranslatePrecGenMethod_table :
    (∀ i : Fin TOPrecGenNames.length,
      TOTranslatePrecGenMethod (TOPrecGenNames.get i) = (i.1 : Int)) ∧
    TOPrecGenNames.Nodup ∧
    (∀ name : String, name ∉ TOPrecGenNames → TOTranslatePrecGenMethod name = PNoMethod) := by
  refine ⟨by decide, by decide, fun name h => ?_⟩
  unfold TOTranslatePrecGenMethod StringIndex
  rw [StringIndex_loop_not_mem name TOPrecGenNames 0 h]
  rfl

/-! ## Scoped marks of the free-variable collection -/

/-- Claim C25: `TFormulaCollectFreeVars` restores every mark it clears.  On a
formula of a well-formed bank the call returns (with any fuel above the address
of the formula), and the bank it leaves is exactly the bank right after the
initial marking, in which every variable of the variable bank has
`TPIsFreeVar` set.  The variables added to the set are those with a free
occurrence; in particular a variable with a free occurrence in one argument
of a connective is collected whatever binds it in the other arguments. -/
theorem TFormulaCollectFreeVars_restores (bank : TB) (form : TermRef) (vars0 : PTree)
    (fuel : Nat) (hwf : bank.WF) (hform : form < bank.cells.length) (hfuel : form < fuel) :
    ∃ vars, TFormulaCollectFreeVars fuel bank form vars0
        = some (VarBankVarsSetProp bank TPIsFreeVar, vars) ∧
      (∀ v, v ∈ bank.vars → v < bank.cells.length →
        TermCellQueryProp (VarBankVarsSetProp bank TPIsFreeVar) v TPIsFreeVar = true) ∧
      (∀ v, v ∈ vars ↔ v ∈ vars0 ∨ FreeOcc bank v form) ∧
      (∀ v i a, TFormulaIsQuantified bank.sig (bank.cell form) = false →
        TermIsVar (bank.cell form) = false → i < (bank.cell form).arity →
        bank.arg form i = some a → FreeOcc bank v a → v ∈ vars) := by
  obtain ⟨s1, s2, s3⟩ := VarBankVarsSetProp_shape bank TPIsFreeVar
  have hwf1 : (VarBankVarsSetProp bank TPIsFreeVar).WF := TB.WF_of_shape s1 s3 hwf
  obtain ⟨vars, r1, r2, _⟩ := tformula_collect_freevars_spec fuel
    (VarBankVarsSetProp bank TPIsFreeVar) form vars0 hwf1 (by rw [s3]; exact hform) hfuel
  have hiff : ∀ v, v ∈ vars ↔ v ∈ vars0 ∨ FreeOcc bank v form := by
    intro v
    rw [r2, FreeOcc.shape_iff s1 hwf hform]
    constructor
    · rintro (h | ⟨h, _⟩)
      · exact Or.inl h
      · exact Or.inr h
    · rintro (h | h)
      · exact Or.inl h
      · obtain ⟨hv, hl⟩ := h.isVar hwf hform
        exact Or.inr ⟨h, VarBankVarsSetProp_marks bank TPIsFreeVar v
          ((hwf.2.2.2.2 v hl).2.2.2 hv) hl⟩
  refine ⟨vars, r1, fun v hv hl => VarBankVarsSetProp_marks bank TPIsFreeVar v hv hl, hiff,
    fun v i a hq hv hi ha ho => ?_⟩
  exact (hiff v).mpr (Or.inr (FreeOcc.arg form i a hq hv hi ha ho))

theorem TFormulaCollectFreeVars_restores_witness :
    (demoSibling.WF ∧ 12 < demoSibling.cells.length ∧ 12 < 13 ∧
      (demoSibling.cell 12).f_code = demoSibling.sig.and_code ∧
      (demoSibling.cell 12).args = [some 11, some 10] ∧
      (demoSibling.cell 11).f_code = demoSibling.sig.qall_code ∧
      (demoSibling.cell 11).args = [some 0, some 7] ∧
      (demoSibling.cell 7).args = [some 5, some 2] ∧ (demoSibling.cell 5).args = [some 0] ∧
      (demoSibling.cell 10).args = [some 9, some 2] ∧ (demoSibling.cell 9).args = [some 0]) ∧
    (TFormulaCollectFreeVars 13 demoSibling 12 []).map Prod.snd = some [0] ∧
    ∃ vars, TFormulaCollectFreeVars 13 demoSibling 12 []
        = some (VarBankVarsSetProp demoSibling TPIsFreeVar, vars) ∧
      (∀ v, v ∈ demoSibling.vars → v < demoSibling.cells.length →
        TermCellQueryProp (VarBankVarsSetProp demoSibling TPIsFreeVar) v TPIsFreeVar = true) ∧
      (∀ v, v ∈ vars ↔ v ∈ ([] : PTree) ∨ FreeOcc demoSibling v 12) ∧
      (∀ v i a, TFormulaIsQuantified demoSibling.sig (demoSibling.cell 12) = false →
        TermIsVar (demoSibling.cell 12) = false → i < (demoSibling.cell 12).arity →
        demoSibling.arg 12 i = some a → FreeOcc demoSibling v a → v ∈ vars) :=
  ⟨⟨by decide, by decide, by decide, by decide, by decide, by decide, by decide, by decide,
      by decide, by decide, by decide⟩, by decide,
    TFormulaCollectFreeVars_restores demoSibling 12 [] 13 (by decide) (by decide) (by decide)⟩

/-! ## The order of the quantifiers -/

/-- Claim C26 (as stated, refuted): called with the variable sequence `X, Y` on
`p(X) & q(Y)`, `TFormulaAddQuantors` returns the node `![Y]: (![X]: ...)`: the
outermost quantifier (address 11) binds the second variable `Y` and the inner
one (address 10) the first variable `X`.  `TFormulaClosure`, which collects
`X` before `Y`, returns the same node. -/
theorem TFormulaAddQuantors_first_innermost :
    (TFormulaAddQuantors demoAnd 9 true [0, 1]).2 = 11 ∧
    ((TFormulaAddQuantors demoAnd 9 true [0, 1]).1.cell 11).f_code = demoAnd.sig.qall_code ∧
    ((TFormulaAddQuantors demoAnd 9 true [0, 1]).1.cell 11).args = [some 1, some 10] ∧
    ((TFormulaAddQuantors demoAnd 9 true [0, 1]).1.cell 10).f_code = demoAnd.sig.qall_code ∧
    ((TFormulaAddQuantors demoAnd 9 true [0, 1]).1.cell 10).args = [some 0, some 9] ∧
    (TFormulaCollectFreeVars 10 demoAnd 9 []).map Prod.snd = some [0, 1] ∧
    (TFormulaClosure 10 demoAnd 9 true).map
        (fun r => (r.2, (r.1.cell r.2).args, (r.1.cell 10).args))
      = some (11, [some 1, some 10], [some 0, some 9]) := by
  decide

/-- Claim C26 (amended): `TFormulaAddQuantors`, given a formula `F` and the
variable sequence `X1, ..., Xn`, creates the chain
`Q Xn.( ... (Q X2.(Q X1. F)))`: the first variable is bound by the innermost
quantifier and the last one by the outermost.  `TFormulaClosure` returns the
result of `TFormulaAddQuantors` on the collected variables, so its quantifiers
stand in the reverse of the collection order. -/
theorem TFormulaAddQuantors_order (bank : TB) (form : TermRef) (universal : Bool)
    (vars : PTree) (fuel : Nat) (hwf : bank.WF) (hform : form < bank.cells.length)
    (hvars : ∀ v, v ∈ vars → v < bank.cells.length) (hfuel : form < fuel) :
    QuantChain (TFormulaAddQuantors bank form universal vars).1
      (if universal then bank.sig.qall_code else bank.sig.qex_code) vars.reverse form
      (TFormulaAddQuantors bank form universal vars).2 ∧
    ∃ bank1 collected,
      TFormulaCollectFreeVars fuel (VarBankVarsSetProp bank TPIsFreeVar) form []
        = some (bank1, collected) ∧
      TFormulaClosure fuel bank form universal
        = some (TFormulaAddQuantors bank1 form universal collected) ∧
      QuantChain (TFormulaAddQuantors bank1 form universal collected).1
        (if universal then bank.sig.qall_code else bank.sig.qex_code) collected.reverse form
        (TFormulaAddQuantors bank1 form universal collected).2 := by
  refine ⟨(TFormulaAddQuantors_spec universal vars bank form hwf hform hvars).2.2.2, ?_⟩
  obtain ⟨s1, s2, s3⟩ := VarBankVarsSetProp_shape bank TPIsFreeVar
  have hwf0 : (VarBankVarsSetProp bank TPIsFreeVar).WF := TB.WF_of_shape s1 s3 hwf
  obtain ⟨collected, c1, _, _, c4⟩ := TFormulaCollectFreeVars_spec
    (VarBankVarsSetProp bank TPIsFreeVar) form fuel hwf0 (by rw [s3]; exact hform) hfuel
  obtain ⟨u1, u2, u3⟩ := VarBankVarsSetProp_shape (VarBankVarsSetProp bank TPIsFreeVar)
    TPIsFreeVar
  have hwf1 := TB.WF_of_shape u1 u3 hwf0
  have hrun : TFormulaCollectFreeVars fuel (VarBankVarsSetProp bank TPIsFreeVar) form []
      = some (VarBankVarsSetProp (VarBankVarsSetProp bank TPIsFreeVar) TPIsFreeVar,
          collected) := c1
  refine ⟨_, collected, hrun, ?_, ?_⟩
  · unfold TFormulaClosure
    rw [hrun]
  · have h := (TFormulaAddQuantors_spec universal collected
      (VarBankVarsSetProp (VarBankVarsSetProp bank TPIsFreeVar) TPIsFreeVar) form hwf1
      (by rw [u3, s3]; exact hform) (fun v hv => by rw [u3]; exact c4 v hv)).2.2.2
    rw [u1.1, s1.1] at h
    exact h

theorem TFormulaAddQuantors_order_witness :
    (demoAnd.WF ∧ 9 < demoAnd.cells.length ∧ 9 < 10) ∧
    QuantChain (TFormulaAddQuantors demoAnd 9 true [0, 1]).1
      (if true then demoAnd.sig.qall_code else demoAnd.sig.qex_code) [0, 1].reverse 9
      (TFormulaAddQuantors demoAnd 9 true [0, 1]).2 ∧
    ∃ bank1 collected,
      TFormulaCollectFreeVars 10 (VarBankVarsSetProp demoAnd TPIsFreeVar) 9 []
        = some (bank1, collected) ∧
      TFormulaClosure 10 demoAnd 9 true
        = some (TFormulaAddQuantors bank1 9 true collected) ∧
      QuantChain (TFormulaAddQuantors bank1 9 true collected).1
        (if true then demoAnd.sig.qall_code else demoAnd.sig.qex_code) collected.reverse 9
        (TFormulaAddQuantors bank1 9 true collected).2 :=
  ⟨⟨by decide, by decide, by decide⟩,
    TFormulaAddQuantors_order demoAnd 9 true [0, 1] 10 (by decide) (by decide) (by decide)
      (by decide)⟩

/-! ## Literals under polarity marking -/

/-- Claim C27: `TFormulaMarkPolarity` leaves literals untagged.  On a formula
of a well-formed bank the call returns (with any fuel above the address of
the formula), and every literal node of the bank, whether it is the formula
itself or lies anywhere below it, has the same cell afterwards, so its
`TPPosPolarity` and `TPNegPolarity` flags are unchanged; when the formula
itself is a literal the bank is returned as it is.  This holds for every
polarity. -/
theorem TFormulaMarkPolarity_literals (bank : TB) (form : TermRef) (polarity : Int)
    (fuel : Nat) (hwf : bank.WF) (hpw : bank.PolarityWF) (hform : form < bank.cells.length)
    (hfuel : form < fuel) :
    ∃ bank1, TFormulaMarkPolarity fuel bank form polarity = some bank1 ∧
      (∀ x, x < bank.cells.length → TFormulaIsLiteral bank.sig (bank.cell x) = true →
        bank1.cell x = bank.cell x ∧
        TermCellQueryProp bank1 x TPPosPolarity = TermCellQueryProp bank x TPPosPolarity ∧
        TermCellQueryProp bank1 x TPNegPolarity = TermCellQueryProp bank x TPNegPolarity) ∧
      (TFormulaIsLiteral bank.sig (bank.cell form) = true →
        TFormulaMarkPolarity fuel bank form polarity = some bank) := by
  obtain ⟨bank1, h1, _, _, _, h5, _, _⟩ :=
    TFormulaMarkPolarity_spec fuel bank form polarity hwf hpw hform hfuel
  refine ⟨bank1, h1, fun x hx hl => ?_, fun hl => ?_⟩
  · have hc := h5 x hx hl
    unfold TermCellQueryProp
    rw [hc]
    exact ⟨rfl, rfl, rfl⟩
  · cases fuel with
    | zero => exact absurd hfuel (Nat.not_lt_zero _)
    | succ n => rw [TFormulaMarkPolarity, if_pos hl]

theorem TFormulaMarkPolarity_literals_witness :
    (demoImplLits.WF ∧ demoImplLits.PolarityWF ∧ 9 < demoImplLits.cells.length ∧ 9 < 10 ∧
      TFormulaIsLiteral demoImplLits.sig (demoImplLits.cell 7) = true ∧
      TFormulaIsLiteral demoImplLits.sig (demoImplLits.cell 8) = true ∧
      (demoImplLits.cell 9).args = [some 7, some 8]) ∧
    ∃ bank1, TFormulaMarkPolarity 10 demoImplLits 9 (-1) = some bank1 ∧
      (∀ x, x < demoImplLits.cells.length →
        TFormulaIsLiteral demoImplLits.sig (demoImplLits.cell x) = true →
        bank1.cell x = demoImplLits.cell x ∧
        TermCellQueryProp bank1 x TPPosPolarity
          = TermCellQueryProp demoImplLits x TPPosPolarity ∧
        TermCellQueryProp bank1 x TPNegPolarity
          = TermCellQueryProp demoImplLits x TPNegPolarity) ∧
      (TFormulaIsLiteral demoImplLits.sig (demoImplLits.cell 9) = true →
        TFormulaMarkPolarity 10 demoImplLits 9 (-1) = some demoImplLits) :=
  ⟨⟨by decide, by decide, by decide, by decide, by decide, by decide, by decide⟩,
    TFormulaMarkPolarity_literals demoImplLits 9 (-1) 10 (by decide) (by decide) (by decide)
      (by decide)⟩

/-! ## The shape of an encoded clause -/

/-- Claim C29 (as stated, refuted): for the clause
`p(X) != $true | q(Y) = $true | a = a` the node built by `TFormulaClauseEncode`
is `or(or(L1, L2), L3)`: its first argument is a disjunction node, whose
arguments are the first two literals, and its second argument is the node of
the last literal. -/
theorem TFormulaClauseEncode_left_nested :
    demoClause.literals = [⟨5, 2, false⟩, ⟨6, 2, true⟩, ⟨4, 4, true⟩] ∧
    (TFormulaClauseEncode demoAtoms demoClause).2 = 11 ∧
    ((TFormulaClauseEncode demoAtoms demoClause).1.cell 11).f_code = demoAtoms.sig.or_code ∧
    ((TFormulaClauseEncode demoAtoms demoClause).1.cell 11).args = [some 9, some 10] ∧
    ((TFormulaClauseEncode demoAtoms demoClause).1.cell 9).f_code = demoAtoms.sig.or_code ∧
    ((TFormulaClauseEncode demoAtoms demoClause).1.cell 9).args = [some 7, some 8] ∧
    ((TFormulaClauseEncode demoAtoms demoClause).1.cell 10).f_code = demoAtoms.sig.eqn_code ∧
    ((TFormulaClauseEncode demoAtoms demoClause).1.cell 10).args = [some 4, some 4] ∧
    ((TFormulaClauseEncode demoAtoms demoClause).1.cell 7).f_code = demoAtoms.sig.neqn_code ∧
    ((TFormulaClauseEncode demoAtoms demoClause).1.cell 7).args = [some 5, some 2] ∧
    ((TFormulaClauseEncode demoAtoms demoClause).1.cell 8).f_code = demoAtoms.sig.eqn_code ∧
    ((TFormulaClauseEncode demoAtoms demoClause).1.cell 8).args = [some 6, some 2] := by
  decide

/-- Claim C29 (amended): `TFormulaClauseEncode` of a clause with literals
`[L1, ..., Ln]`, `n >= 1`, builds the left-associated disjunction chain
`or(or( ... or(L1, L2) ..., Ln-1), Ln)`: the root is a disjunction node whose
second argument is the node of the last literal and whose first argument is
the chain over the literals before it; a single literal is its literal node.
The disjunction symbol is declared binary. -/
theorem TFormulaClauseEncode_chain (bank : TB) (clause : Clause)
    (hne : clause.literals ≠ []) (har : SigFindArity bank.sig bank.sig.or_code = 2) :
    OrChainRev (TFormulaClauseEncode bank clause).1 (TFormulaClauseEncode bank clause).2
      clause.literals.reverse := by
  cases clause with
  | mk lits =>
    cases lits with
    | nil => exact absurd rfl hne
    | cons first rest =>
      obtain ⟨l1, l2⟩ := TFormulaLitAlloc_spec bank first
      have hchain := TFormulaClauseEncode_fold bank.sig har rest (TFormulaLitAlloc bank first)
        [first] l1.1 l2
      rw [List.reverse_cons]
      exact hchain

theorem TFormulaClauseEncode_chain_witness :
    (demoClause.literals ≠ [] ∧ SigFindArity demoAtoms.sig demoAtoms.sig.or_code = 2) ∧
    OrChainRev (TFormulaClauseEncode demoAtoms demoClause).1
      (TFormulaClauseEncode demoAtoms demoClause).2 demoClause.literals.reverse :=
  ⟨⟨by decide, by decide⟩, TFormulaClauseEncode_chain demoAtoms demoClause (by decide) (by decide)⟩

/-! ## The heap after a pop, after an insertion, and the setter -/

/-- Claim C21 does not hold of the code.  The heap `[LONG_MIN, LONG_MIN, 7, 3]`
satisfies the heap property; `MinHeapPopMax` returns `3` and leaves
`[7, LONG_MIN, 3]`, of size `3`.  These are not the previous elements minus one
occurrence of the returned `3` (that would be `LONG_MIN, LONG_MIN, 7`): the
returned element is still stored and the root is lost.  The heap property is
not restored either: `LONG_MIN` at index `1` compares less than its parent
`7`. -/
theorem MinHeapPopMax_loses_root :
    demoHeap.elements = [LONG_MIN, LONG_MIN, 7, 3] ∧ demoHeap.heapProperty = true ∧
    ∃ hp : MinHeap, MinHeapPopMax 1 demoHeap = some (hp, 3) ∧
      hp.elements = [7, LONG_MIN, 3] ∧ MinHeapSize hp = 3 ∧
      ¬ List.Perm hp.elements (demoHeap.elements.erase 3) ∧
      hp.heapProperty = false ∧ hp.cmp LONG_MIN 7 < 0 := by
  refine ⟨by decide, by decide,
    ⟨⟨[7, LONG_MIN, 3, 3, 9], 3⟩, IntOrPCmpInt, false, []⟩, by rfl, by decide, by decide,
    by decide, by decide, by decide⟩

/-- Claim C22 does not hold of the code.  The heap `[2]` satisfies the heap
property.  `MinHeapAddInt` of the key `1` stores it at index `1` and then calls
`bubble_up` with the index `2`, one past the new element, so the slot above the
stack pointer (`g2`, whatever it holds) is compared with the root.  The size
becomes `2`, but either the array is `[2, 1]`, where the new element compares
less than its parent, or the root has been exchanged for `g2` and the heap no
longer holds the previous elements plus the key. -/
theorem MinHeapAddInt_breaks_heap (g1 g2 : IntOrP) (rest : List IntOrP) :
    (⟨⟨2 :: g1 :: g2 :: rest, 1⟩, IntOrPCmpInt, false, []⟩ : MinHeap).heapProperty = true ∧
    ∃ h1 : MinHeap,
      MinHeapAddInt 1 ⟨⟨2 :: g1 :: g2 :: rest, 1⟩, IntOrPCmpInt, false, []⟩ 1 = some h1 ∧
      MinHeapSize h1 = 2 ∧
      (h1.heapProperty = false ∨ ¬ List.Perm h1.elements [2, 1]) := by
  refine ⟨by rfl, ?_⟩
  have t1 : Int.tdiv 1 2 = 0 := by decide
  by_cases hlt : g2 < 2
  · refine ⟨⟨⟨g2 :: 1 :: 2 :: rest, 2⟩, IntOrPCmpInt, false, []⟩, ?_, rfl, Or.inr ?_⟩
    · simp [MinHeapAddInt, add, push, CALL_SETTER, PStackGetSP, bubble_up, IS_ROOT, PARENT,
        PStackElementRef, IntOrPCmpInt, hlt, SWAP, PStackElementAssign, t1]
    · intro hp
      have hm : (2 : IntOrP) ∈ [g2, 1] := hp.mem_iff.mpr (List.mem_cons_self 2 [1])
      simp only [List.mem_cons, List.mem_singleton, List.not_mem_nil, or_false] at hm
      rcases hm with hm | hm
      · rw [← hm] at hlt
        exact absurd hlt (lt_irrefl _)
      · exact absurd hm (by decide)
  · refine ⟨⟨⟨2 :: 1 :: g2 :: rest, 2⟩, IntOrPCmpInt, false, []⟩, ?_, rfl, Or.inl (by rfl)⟩
    have hcmp : ¬ IntOrPCmpInt g2 2 < 0 := by
      unfold IntOrPCmpInt
      rw [if_neg hlt]
      split_ifs <;> decide
    exact add_no_swap 0 _ 1 g2 2 _ rfl rfl (by simp [PStackElementRef, PStackGetSP])
      (by simp [PStackElementRef, PStackGetSP, PARENT, t1]) hcmp

/-- Claim C23 does not hold of the code.  On a fresh heap with a setter,
`MinHeapAddP` of a key `k` stores `k` at index `0` and calls the setter with the
index `1` (the stack pointer after the push); `bubble_up` is then called with
index `1` and compares the slot above the stack pointer (`g1`, whatever it
holds) with `k`.  In either outcome the element that ends up stored at index
`0` was last reported at index `1`. -/
theorem MinHeapAddP_reports_wrong_index (k g0 g1 : IntOrP) (rest : List IntOrP) :
    ∃ (h1 : MinHeap) (e : IntOrP),
      MinHeapAddP 1 (MinHeapAllocWithIndex (g0 :: g1 :: rest) IntOrPCmpInt true) k = some h1 ∧
      h1.calls.head? = some (k, 1) ∧
      h1.elements = [e] ∧ PStackElementRef h1.arr 0 = some e ∧
      h1.lastReported e = some 1 := by
  have t0 : Int.tdiv 0 2 = 0 := by decide
  by_cases hlt : g1 < k
  · refine ⟨⟨⟨g1 :: k :: rest, 1⟩, IntOrPCmpInt, true, [(k, 1), (k, 0), (g1, 1)]⟩, g1, ?_,
      rfl, rfl, rfl, ?_⟩
    · simp [MinHeapAddP, MinHeapAllocWithIndex, PStackAlloc, add, push, CALL_SETTER,
        PStackGetSP, bubble_up, IS_ROOT, PARENT, PStackElementRef, IntOrPCmpInt, hlt, SWAP,
        PStackElementAssign, t0]
    · simp [MinHeap.lastReported]
  · refine ⟨⟨⟨k :: g1 :: rest, 1⟩, IntOrPCmpInt, true, [(k, 1)]⟩, k, ?_, rfl, rfl, rfl, ?_⟩
    · simp [MinHeapAddP, MinHeapAllocWithIndex, PStackAlloc, add, push, CALL_SETTER,
        PStackGetSP, bubble_up, IS_ROOT, PARENT, PStackElementRef, IntOrPCmpInt, hlt,
        PStackElementAssign, t0]
      intro h1
      split_ifs at h1 <;> simp at h1
    · simp [MinHeap.lastReported]

/-! ## Subformulas visited by the polarity scan -/

theorem PolarityReach.reach_le {b : TB} (hwf : b.WF) {f x : TermRef}
    (h : PolarityReach b f x) : f < b.cells.length → x ≤ f := by
  induction h with
  | root form => intro _; exact le_refl _
  | arg0 form a x _ _ ha _ ih =>
    intro hf
    have hat : a < form := hwf.arg_lt hf ha
    exact le_trans (ih (lt_trans hat hf)) (le_of_lt hat)
  | arg1 form a x _ _ ha _ ih =>
    intro hf
    have hat : a < form := hwf.arg_lt hf ha
    exact le_trans (ih (lt_trans hat hf)) (le_of_lt hat)

theorem PolarityReach.reach_of_shape {b b1 : TB} (hs : ShapeExt b b1) (hwf : b.WF)
    {f x : TermRef} (h : PolarityReach b f x) : f < b.cells.length → PolarityReach b1 f x := by
  induction h with
  | root form => intro _; exact PolarityReach.root form
  | arg0 form a x hl hc ha _ ih =>
    intro hf
    have hat : a < form := hwf.arg_lt hf ha
    refine PolarityReach.arg0 form a x (by rw [hs.isLiteral_eq hf]; exact hl) ?_
      (by rw [hs.arg_eq hf]; exact ha) (ih (lt_trans hat hf))
    rw [(hs.2.2.2 form hf).1, hs.1]
    exact hc
  | arg1 form a x hl hc ha _ ih =>
    intro hf
    have hat : a < form := hwf.arg_lt hf ha
    refine PolarityReach.arg1 form a x (by rw [hs.isLiteral_eq hf]; exact hl) ?_
      (by rw [hs.arg_eq hf]; exact ha) (ih (lt_trans hat hf))
    rw [(hs.2.2.2 form hf).1, hs.1]
    exact hc

/-- The cell carries `TPPosPolarity` or `TPNegPolarity`. -/
theorem polarityFlags_tagged (props : TermProperties) (polarity : Int)
    (hpol : polarity = -1 ∨ polarity = 0 ∨ polarity = 1) :
    QueryProp (SetProp props (polarityFlags polarity)) TPPosPolarity = true ∨
    QueryProp (SetProp props (polarityFlags polarity)) TPNegPolarity = true := by
  rcases hpol with h | h | h <;> subst h
  · right
    exact QueryProp_SetProp_self props TPNegPolarity
  · right
    have h : polarityFlags 0 = TPPosPolarity ||| TPNegPolarity := rfl
    rw [h]
    unfold SetProp
    rw [← Nat.lor_assoc]
    exact QueryProp_SetProp_self (props ||| TPPosPolarity) TPNegPolarity
  · left
    exact QueryProp_SetProp_self props TPPosPolarity

theorem markPolarity_call0 (fuel : Nat) (bank b bb : TB) (form a : TermRef) (polarity : Int)
    (hform : form < bank.cells.length) (hs : ShapeExt bank b)
    (hpol : polarity = -1 ∨ polarity = 0 ∨ polarity = 1)
    (hcode : (bank.cell form).f_code ∈ [bank.sig.and_code, bank.sig.or_code,
      bank.sig.not_code, bank.sig.impl_code, bank.sig.equiv_code])
    (ha : bank.arg form 0 = some a)
    (hrun : (if (b.cell form).f_code == b.sig.and_code ||
              (b.cell form).f_code == b.sig.or_code then
            (b.arg form 0).bind (fun a => TFormulaMarkPolarity fuel b a polarity)
          else if (b.cell form).f_code == b.sig.not_code ||
              (b.cell form).f_code == b.sig.impl_code then
            (b.arg form 0).bind (fun a => TFormulaMarkPolarity fuel b a (-polarity))
          else if (b.cell form).f_code == b.sig.equiv_code then
            (b.arg form 0).bind (fun a => TFormulaMarkPolarity fuel b a 0)
          else some b) = some bb) :
    ∃ pol1 : Int, (pol1 = -1 ∨ pol1 = 0 ∨ pol1 = 1) ∧
      TFormulaMarkPolarity fuel b a pol1 = some bb := by
  have hc : (b.cell form).f_code = (bank.cell form).f_code := (hs.2.2.2 form hform).1
  have harg : b.arg form 0 = some a := by rw [hs.arg_eq hform]; exact ha
  rw [hc, hs.1, harg] at hrun
  simp only [Option.some_bind] at hrun
  split_ifs at hrun with h1 h2 h3
  · exact ⟨polarity, hpol, hrun⟩
  · refine ⟨-polarity, ?_, hrun⟩
    rcases hpol with h | h | h <;> subst h
    · exact Or.inr (Or.inr rfl)
    · exact Or.inr (Or.inl rfl)
    · exact Or.inl rfl
  · exact ⟨0, Or.inr (Or.inl rfl), hrun⟩
  · exfalso
    simp only [Bool.or_eq_true, beq_iff_eq, not_or] at h1 h2 h3
    simp only [List.mem_cons, List.mem_singleton, List.not_mem_nil, or_false] at hcode
    rcases hcode with h | h | h | h | h
    · exact h1.1 h
    · exact h1.2 h
    · exact h2.1 h
    · exact h2.2 h
    · exact h3 h

theorem markPolarity_call1 (fuel : Nat) (bank b bb : TB) (form a : TermRef) (polarity : Int)
    (hform : form < bank.cells.length) (hs : ShapeExt bank b)
    (hpol : polarity = -1 ∨ polarity = 0 ∨ polarity = 1)
    (hcode : (bank.cell form).f_code ∈ [bank.sig.and_code, bank.sig.or_code,
      bank.sig.impl_code, bank.sig.qex_code, bank.sig.qall_code, bank.sig.equiv_code])
    (ha : bank.arg form 1 = some a)
    (hrun : (if (b.cell form).f_code == b.sig.and_code ||
              (b.cell form).f_code == b.sig.or_code ||
              (b.cell form).f_code == b.sig.impl_code ||
              (b.cell form).f_code == b.sig.qex_code ||
              (b.cell form).f_code == b.sig.qall_code then
            (b.arg form 1).bind (fun a => TFormulaMarkPolarity fuel b a polarity)
          else if (b.cell form).f_code == b.sig.equiv_code then
            (b.arg form 1).bind (fun a => TFormulaMarkPolarity fuel b a 0)
          else some b) = some bb) :
    ∃ pol1 : Int, (pol1 = -1 ∨ pol1 = 0 ∨ pol1 = 1) ∧
      TFormulaMarkPolarity fuel b a pol1 = some bb := by
  have hc : (b.cell form).f_code = (bank.cell form).f_code := (hs.2.2.2 form hform).1
  have harg : b.arg form 1 = some a := by rw [hs.arg_eq hform]; exact ha
  rw [hc, hs.1, harg] at hrun
  simp only [Option.some_bind] at hrun
  split_ifs at hrun with h1 h2
  · exact ⟨polarity, hpol, hrun⟩
  · exact ⟨0, Or.inr (Or.inl rfl), hrun⟩
  · exfalso
    simp only [Bool.or_eq_true, beq_iff_eq, not_or] at h1 h2
    simp only [List.mem_cons, List.mem_singleton, List.not_mem_nil, or_false] at hcode
    rcases hcode with h | h | h | h | h | h
    · exact h1.1.1.1.1 h
    · exact h1.1.1.1.2 h
    · exact h1.1.1.2 h
    · exact h1.1.2 h
    · exact h1.2 h
    · exact h2 h

theorem markPolarity_tags (fuel : Nat) :
    ∀ (bank : TB) (form : TermRef) (polarity : Int) (bank1 : TB), bank.WF → bank.PolarityWF →
      form < bank.cells.length → form < fuel →
      (polarity = -1 ∨ polarity = 0 ∨ polarity = 1) →
      TFormulaMarkPolarity fuel bank form polarity = some bank1 →
      ∀ x, PolarityReach bank form x → TFormulaIsLiteral bank.sig (bank.cell x) = false →
        TermCellQueryProp bank1 x TPPosPolarity = true ∨
        TermCellQueryProp bank1 x TPNegPolarity = true := by
  induction fuel with
  | zero => intro bank form polarity bank1 _ _ _ h; exact absurd h (Nat.not_lt_zero _)
  | succ fuel ih =>
    intro bank form polarity bank1 hwf hpw hform hfuel hpol hrun x hreach hlx
    by_cases hlit : TFormulaIsLiteral bank.sig (bank.cell form) = true
    · exfalso
      cases hreach with
      | root => rw [hlit] at hlx; cases hlx
      | arg0 _ a _ hl _ _ _ => rw [hlit] at hl; cases hl
      | arg1 _ a _ hl _ _ _ => rw [hlit] at hl; cases hl
    · have hsa : ShapeExt bank (TermCellSetProp bank form (polarityFlags polarity)) :=
        ShapeExt.setProperties bank form _
      have hla : (TermCellSetProp bank form (polarityFlags polarity)).cells.length
          = bank.cells.length := TB.length_setProperties bank form _
      obtain ⟨bb, hb, sb1, sb2, sb3, _, _⟩ := markPolarity_args0 fuel
        (TFormulaMarkPolarity_spec fuel) bank
        (TermCellSetProp bank form (polarityFlags polarity)) form polarity hwf hpw hform hfuel
        hsa hla
      have hsb : ShapeExt bank bb := hsa.trans sb1
      have hlb : bb.cells.length = bank.cells.length := sb2.trans hla
      obtain ⟨bc, hc, sc1, sc2, sc3, _, sc5⟩ := markPolarity_args1 fuel
        (TFormulaMarkPolarity_spec fuel) bank bb form polarity hwf hpw hform hfuel hsb hlb
      rw [TFormulaMarkPolarity, if_neg hlit] at hrun
      simp only [] at hrun
      rw [markRoot_eq, hb, Option.some_bind, hc] at hrun
      cases hrun
      cases hreach with
      | root =>
        have hcell : (bank1.cell form).properties
            = SetProp (bank.cell form).properties (polarityFlags polarity) := by
          rw [sc3 form hform (Or.inl rfl), sb3 form hform (Or.inl rfl)]
          exact TermCellSetProp_self bank form _ hform
        unfold TermCellQueryProp
        rw [hcell]
        exact polarityFlags_tagged _ polarity hpol
      | arg0 _ a _ hl hcode ha hr =>
        have hat : a < form := hwf.arg_lt hform ha
        have hal : a < bank.cells.length := lt_trans hat hform
        have hxl : x < bank.cells.length := lt_of_le_of_lt (hr.reach_le hwf hal) hal
        obtain ⟨pol1, hp1, hrun1⟩ := markPolarity_call0 fuel bank
          (TermCellSetProp bank form (polarityFlags polarity)) bb form a polarity hform hsa hpol
          hcode ha hb
        have ht := ih (TermCellSetProp bank form (polarityFlags polarity)) a pol1 bb
          (TB.WF_of_shape hsa hla hwf) (TB.PolarityWF_of_shape hsa hla hpw)
          (by rw [hla]; exact hal) (Nat.lt_of_lt_of_le hat (Nat.lt_succ_iff.mp hfuel)) hp1 hrun1
          x (hr.reach_of_shape hsa hwf hal) (by rw [hsa.isLiteral_eq hxl]; exact hlx)
        rcases ht with ht | ht
        · exact Or.inl (sc5 x _ ht)
        · exact Or.inr (sc5 x _ ht)
      | arg1 _ a _ hl hcode ha hr =>
        have hat : a < form := hwf.arg_lt hform ha
        have hal : a < bank.cells.length := lt_trans hat hform
        have hxl : x < bank.cells.length := lt_of_le_of_lt (hr.reach_le hwf hal) hal
        obtain ⟨pol1, hp1, hrun1⟩ := markPolarity_call1 fuel bank bb bank1 form a polarity hform
          hsb hpol hcode ha hc
        exact ih bb a pol1 bank1 (TB.WF_of_shape hsb hlb hwf) (TB.PolarityWF_of_shape hsb hlb hpw)
          (by rw [hlb]; exact hal) (Nat.lt_of_lt_of_le hat (Nat.lt_succ_iff.mp hfuel)) hp1 hrun1
          x (hr.reach_of_shape hsb hwf hal) (by rw [hsb.isLiteral_eq hxl]; exact hlx)

theorem markPolarity_no_descent (fuel : Nat) (bank : TB) (form : TermRef) (polarity : Int)
    (hlit : TFormulaIsLiteral bank.sig (bank.cell form) = false)
    (hcode : (bank.cell form).f_code ∉ [bank.sig.and_code, bank.sig.or_code,
      bank.sig.not_code, bank.sig.impl_code, bank.sig.equiv_code, bank.sig.qex_code,
      bank.sig.qall_code]) :
    TFormulaMarkPolarity (fuel + 1) bank form polarity
      = some (TermCellSetProp bank form (polarityFlags polarity)) := by
  have hsa : ShapeExt bank (TermCellSetProp bank form (polarityFlags polarity)) :=
    ShapeExt.setProperties bank form _
  have hc : ((TermCellSetProp bank form (polarityFlags polarity)).cell form).f_code
      = (bank.cell form).f_code := by
    unfold TermCellSetProp
    rw [TB.cell_setProperties]
    split_ifs <;> rfl
  simp only [List.mem_cons, List.mem_singleton, List.not_mem_nil, or_false, not_or] at hcode
  obtain ⟨n1, n2, n3, n4, n5, n6, n7⟩ := hcode
  rw [TFormulaMarkPolarity, hlit]
  simp only [Bool.false_eq_true, if_false]
  rw [markRoot_eq]
  simp only [hc, hsa.1, beq_eq_false_iff_ne.mpr n1, beq_eq_false_iff_ne.mpr n2,
    beq_eq_false_iff_ne.mpr n3, beq_eq_false_iff_ne.mpr n4, beq_eq_false_iff_ne.mpr n5,
    beq_eq_false_iff_ne.mpr n6, beq_eq_false_iff_ne.mpr n7, Bool.or_self, Bool.false_eq_true,
    if_false, Option.some_bind]

theorem IsAnyPropSet_of_tagged (props : TermProperties)
    (h : QueryProp props TPPosPolarity = true ∨ QueryProp props TPNegPolarity = true) :
    IsAnyPropSet props (TPPosPolarity ||| TPNegPolarity) = true := by
  unfold IsAnyPropSet
  rw [bne_iff_ne]
  intro h0
  rw [QueryProp_pos, QueryProp_neg] at h
  have h18 := congrArg (fun x => Nat.testBit x 18) h0
  have h19 := congrArg (fun x => Nat.testBit x 19) h0
  simp only [Nat.testBit_land, Nat.testBit_lor, testBit_TPPosPolarity, testBit_TPNegPolarity,
    Nat.zero_testBit] at h18 h19
  rcases h with h | h
  · rw [h] at h18; simp at h18
  · rw [h] at h19; simp at h19

/-- Claim C28 (as stated, refuted): in `op(~(p(X) = $true), ~(q(Y) = $true))`,
for `op` the reverse implication, xor, nand or nor, the two negations are
subformulas that are not literals.  No cell carries a polarity flag before the
call; after `TFormulaMarkPolarity` with polarity `+1` the root carries one, but
neither negation carries `TPPosPolarity` or `TPNegPolarity`. -/
theorem TFormulaMarkPolarity_untagged_subformulas :
    demoImpl.sig.bimpl_code = 9 ∧ demoImpl.sig.xor_code = 11 ∧ demoImpl.sig.nand_code = 12 ∧
    demoImpl.sig.nor_code = 13 ∧
    ∀ op ∈ [(9 : FunCode), 11, 12, 13],
      ((demoBin op).cell 14).f_code = op ∧ ((demoBin op).cell 14).args = [some 9, some 10] ∧
      ((demoBin op).cell 9).f_code = (demoBin op).sig.not_code ∧
      ((demoBin op).cell 10).f_code = (demoBin op).sig.not_code ∧
      TFormulaIsLiteral (demoBin op).sig ((demoBin op).cell 9) = false ∧
      TFormulaIsLiteral (demoBin op).sig ((demoBin op).cell 10) = false ∧
      ((demoBin op).cells.all
        (fun c => !IsAnyPropSet c.properties (TPPosPolarity ||| TPNegPolarity))) = true ∧
      (TFormulaMarkPolarity 15 (demoBin op) 14 1).map
          (fun b => (IsAnyPropSet (b.cell 14).properties (TPPosPolarity ||| TPNegPolarity),
            IsAnyPropSet (b.cell 9).properties (TPPosPolarity ||| TPNegPolarity),
            IsAnyPropSet (b.cell 10).properties (TPPosPolarity ||| TPNegPolarity)))
        = some (true, false, false) := by
  decide

/-- Claim C28 (amended): after `TFormulaMarkPolarity(bank, form, polarity)` with
a polarity in `{-1, 0, +1}`, every non-literal subformula of `form` that is
reached through conjunctions, disjunctions, negations, implications,
equivalences and quantifier bodies carries at least one of `TPPosPolarity` and
`TPNegPolarity`.  A node with any other symbol (reverse implication, xor, nand,
nor) is tagged itself, but the call does not descend into it: the bank differs
from the one before only in the flags of that node. -/
theorem TFormulaMarkPolarity_tags_reached (bank : TB) (form : TermRef) (polarity : Int)
    (fuel : Nat) (hwf : bank.WF) (hpw : bank.PolarityWF) (hform : form < bank.cells.length)
    (hfuel : form < fuel) (hpol : polarity = -1 ∨ polarity = 0 ∨ polarity = 1) :
    ∃ bank1, TFormulaMarkPolarity fuel bank form polarity = some bank1 ∧
      (∀ x, PolarityReach bank form x → TFormulaIsLiteral bank.sig (bank.cell x) = false →
        IsAnyPropSet (bank1.cell x).properties (TPPosPolarity ||| TPNegPolarity) = true) ∧
      (TFormulaIsLiteral bank.sig (bank.cell form) = false →
        (bank.cell form).f_code ∉ [bank.sig.and_code, bank.sig.or_code, bank.sig.not_code,
          bank.sig.impl_code, bank.sig.equiv_code, bank.sig.qex_code, bank.sig.qall_code] →
        bank1 = TermCellSetProp bank form (polarityFlags polarity)) := by
  obtain ⟨bank1, hrun, _⟩ :=
    TFormulaMarkPolarity_spec fuel bank form polarity hwf hpw hform hfuel
  refine ⟨bank1, hrun, fun x hr hl => ?_, fun hl hc => ?_⟩
  · exact IsAnyPropSet_of_tagged _
      (markPolarity_tags fuel bank form polarity bank1 hwf hpw hform hfuel hpol hrun x hr hl)
  · cases fuel with
    | zero => exact absurd hfuel (Nat.not_lt_zero _)
    | succ n =>
      rw [markPolarity_no_descent n bank form polarity hl hc] at hrun
      exact (Option.some.inj hrun).symm

theorem TFormulaMarkPolarity_tags_reached_witness :
    (demoImpl.WF ∧ demoImpl.PolarityWF ∧ 13 < demoImpl.cells.length ∧ 13 < 14 ∧
      (demoImpl.cell 13).f_code = demoImpl.sig.equiv_code ∧
      (demoImpl.cell 13).args = [some 9, some 10] ∧
      (demoImpl.cell 9).f_code = demoImpl.sig.not_code ∧
      (demoImpl.cell 10).f_code = demoImpl.sig.not_code) ∧
    (TFormulaMarkPolarity 14 demoImpl 13 1).map
        (fun b => (TFormulaDecodePolarity b 13, TFormulaDecodePolarity b 9,
          TFormulaDecodePolarity b 10)) = some (1, 0, 0) ∧
    ∃ bank1, TFormulaMarkPolarity 14 demoImpl 13 1 = some bank1 ∧
      (∀ x, PolarityReach demoImpl 13 x →
        TFormulaIsLiteral demoImpl.sig (demoImpl.cell x) = false →
        IsAnyPropSet (bank1.cell x).properties (TPPosPolarity ||| TPNegPolarity) = true) ∧
      (TFormulaIsLiteral demoImpl.sig (demoImpl.cell 13) = false →
        (demoImpl.cell 13).f_code ∉ [demoImpl.sig.and_code, demoImpl.sig.or_code,
          demoImpl.sig.not_code, demoImpl.sig.impl_code, demoImpl.sig.equiv_code,
          demoImpl.sig.qex_code, demoImpl.sig.qall_code] →
        bank1 = TermCellSetProp demoImpl 13 (polarityFlags 1)) :=
  ⟨⟨by decide, by decide, by decide, by decide, by decide, by decide, by decide, by decide⟩,
    by decide,
    TFormulaMarkPolarity_tags_reached demoImpl 13 1 14 (by decide) (by decide) (by decide)
      (by decide) (Or.inr (Or.inr rfl))⟩


/-! ## The named property flags -/

theorem TermPropertiesFlags_eq :
    TermPropertiesFlags = (List.range 31).map (fun k => 2 ^ k) := by
  decide

theorem TermPropertiesFlags_mem {p : TermProperties} (h : p ∈ TermPropertiesFlags) :
    ∃ k, k < 31 ∧ p = 2 ^ k := by
  rw [TermPropertiesFlags_eq, List.mem_map] at h
  obtain ⟨k, hk, rfl⟩ := h
  exact ⟨k, List.mem_range.mp hk, rfl⟩

theorem QueryProp_two_pow (props : TermProperties) (k : Nat) :
    QueryProp props (2 ^ k) = props.testBit k := by
  cases h : props.testBit k with
  | true =>
    rw [QueryProp_iff]
    intro i hi
    rw [Nat.testBit_two_pow] at hi
    rw [← of_decide_eq_true hi]
    exact h
  | false =>
    cases hq : QueryProp props (2 ^ k) with
    | false => rfl
    | true =>
      have := (QueryProp_iff props (2 ^ k)).mp hq k (by rw [Nat.testBit_two_pow]; simp)
      rw [h] at this
      exact this.symm

theorem QueryProp_SetProp_other (props : TermProperties) {i j : Nat} (hij : i ≠ j) :
    QueryProp (SetProp props (2 ^ i)) (2 ^ j) = QueryProp props (2 ^ j) := by
  rw [QueryProp_two_pow, QueryProp_two_pow]
  unfold SetProp
  rw [Nat.testBit_lor, Nat.testBit_two_pow]
  simp [hij]

theorem QueryProp_DelProp_other (props : TermProperties) {i j : Nat} (hij : i ≠ j) :
    QueryProp (DelProp props (2 ^ i)) (2 ^ j) = QueryProp props (2 ^ j) := by
  rw [QueryProp_two_pow, QueryProp_two_pow]
  unfold DelProp
  rw [Nat.testBit_xor, Nat.testBit_land, Nat.testBit_two_pow]
  simp [hij]

/-- Claim C34: the term property flags are independent bits.  `TPIgnoreProps`
is `0`; every other named value of `enum TermProperties` is a power of two;
the values are pairwise distinct; there are 31 of them, at least 30; all are
below `2^31`, so they fit in a 32-bit signed integer.  Consequently setting
or clearing one flag never changes the result of testing a different flag,
in a property word and in a cell of the bank. -/
theorem TermProperties_independent_bits :
    TPIgnoreProps = 0 ∧
    (∀ p ∈ TermPropertiesFlags, ∃ k, p = 2 ^ k) ∧
    TermPropertiesFlags.Nodup ∧
    TermPropertiesFlags.length = 31 ∧ 30 ≤ TermPropertiesFlags.length ∧
    (∀ p ∈ TermPropertiesFlags, p < 2 ^ 31) ∧
    (∀ p ∈ TermPropertiesFlags, ∀ q ∈ TermPropertiesFlags, p ≠ q →
      ∀ props : TermProperties,
        QueryProp (SetProp props p) q = QueryProp props q ∧
        QueryProp (DelProp props p) q = QueryProp props q) ∧
    (∀ p ∈ TermPropertiesFlags, ∀ q ∈ TermPropertiesFlags, p ≠ q →
      ∀ (bank : TB) (t : TermRef),
        TermCellQueryProp (TermCellSetProp bank t p) t q = TermCellQueryProp bank t q ∧
        TermCellQueryProp (TermCellDelProp bank t p) t q = TermCellQueryProp bank t q) := by
  have hind : ∀ p ∈ TermPropertiesFlags, ∀ q ∈ TermPropertiesFlags, p ≠ q →
      ∀ props : TermProperties,
        QueryProp (SetProp props p) q = QueryProp props q ∧
        QueryProp (DelProp props p) q = QueryProp props q := by
    intro p hp q hq hpq props
    obtain ⟨i, _, rfl⟩ := TermPropertiesFlags_mem hp
    obtain ⟨j, _, rfl⟩ := TermPropertiesFlags_mem hq
    have hij : i ≠ j := fun e => hpq (by rw [e])
    exact ⟨QueryProp_SetProp_other props hij, QueryProp_DelProp_other props hij⟩
  refine ⟨rfl, ?_, by decide, by decide, by decide, by decide, hind, ?_⟩
  · intro p hp
    obtain ⟨k, _, e⟩ := TermPropertiesFlags_mem hp
    exact ⟨k, e⟩
  · intro p hp q hq hpq bank t
    unfold TermCellQueryProp TermCellSetProp TermCellDelProp
    rw [TB.cell_setProperties, TB.cell_setProperties]
    by_cases ht : t = t ∧ t < bank.cells.length
    · rw [if_pos ht, if_pos ht]
      exact hind p hp q hq hpq _
    · rw [if_neg ht, if_neg ht]
      exact ⟨rfl, rfl⟩


/-! ## Termination of the downward pass -/

theorem drop_down_loop_repeat (size : PStackPointer) (h : MinHeap) (curr : PStackPointer)
    (vc vl : IntOrP) (hleaf : IS_LEAF curr size = false)
    (hc : PStackElementRef h.arr curr = some vc)
    (hl : PStackElementRef h.arr (LEFT curr) = some vl) (hcl : ¬ h.cmp vc vl < 0)
    (hr : ¬ RIGHT curr < size) (fuel : Nat) :
    drop_down_loop size (fuel + 1) h curr = drop_down_loop size fuel h curr := by
  rw [drop_down_loop]
  simp only [hleaf, Bool.false_eq_true, if_false, hc, hl, hcl, hr, ne_eq, not_true_eq_false]

/-- Claim C36 does not hold of the code.  The heap `[5, 5]` has size `2` and
satisfies the heap property; index `0` is within the heap and has the child
at index `1`, and no swap is required since the child does not compare
greater.  An iteration of the loop of `drop_down(h, 0)` then leaves the heap
and the index as they are (the branch `min_c_idx = size` does not change the
loop condition), so the call with one more iteration allowed is the call
itself, and for no number of iterations does it return. -/
theorem drop_down_no_return :
    demoHeapPair.elements = [5, 5] ∧ MinHeapSize demoHeapPair = 2 ∧
    demoHeapPair.heapProperty = true ∧
    IS_LEAF 0 (MinHeapSize demoHeapPair) = false ∧
    PStackElementRef demoHeapPair.arr 0 = some 5 ∧
    PStackElementRef demoHeapPair.arr (LEFT 0) = some 5 ∧
    ¬ demoHeapPair.cmp 5 5 < 0 ∧ ¬ RIGHT 0 < MinHeapSize demoHeapPair ∧
    (∀ fuel, drop_down (fuel + 1) demoHeapPair 0 = drop_down fuel demoHeapPair 0) ∧
    ∀ fuel, drop_down fuel demoHeapPair 0 = none := by
  refine ⟨by decide, by decide, by decide, by decide, by decide, by decide, by decide,
    by decide, fun fuel => ?_, fun fuel => ?_⟩
  · exact drop_down_loop_repeat 2 demoHeapPair 0 5 5 (by decide) (by decide) (by decide)
      (by decide) (by decide) fuel
  · exact drop_down_loop_stuck 2 demoHeapPair 0 5 5 (by decide) (by decide) (by decide)
      (by decide) (Or.inl (by decide)) fuel


/-! ## The encoding of the empty clause -/

/-- Claim C40: the empty clause is encoded as the propositional constant
false.  For a clause without literals `TFormulaClauseEncode` returns what
`TFormulaPropConstantAlloc(bank, false)` returns: the node `$true != $true`
(negated-equation code, both arguments the true term), on which
`TFormulaIsPropConst(sig, result, false)` holds.  `TFormulaCollectClause`
applied to that node returns, for every positive fuel, the clause with the one
literal `$true != $true`, which is not the empty clause.  The true term of the
bank is a cell of the bank with code `SIG_TRUE_CODE`, and the
negated-equation code differs from the codes of disjunction and equation. -/
theorem TFormulaClauseEncode_empty (bank : TB) (clause : Clause) (fuel : Nat)
    (hempty : ClauseIsEmpty clause = true)
    (htl : bank.true_term < bank.cells.length)
    (htrue : (bank.cell bank.true_term).f_code = bank.sig.SIG_TRUE_CODE)
    (hor : bank.sig.neqn_code ≠ bank.sig.or_code)
    (hne : bank.sig.neqn_code ≠ bank.sig.eqn_code) :
    TFormulaClauseEncode bank clause = TFormulaPropConstantAlloc bank false ∧
    ((TFormulaClauseEncode bank clause).1.cell (TFormulaClauseEncode bank clause).2).f_code
      = bank.sig.neqn_code ∧
    ((TFormulaClauseEncode bank clause).1.cell (TFormulaClauseEncode bank clause).2).args
      = [some bank.true_term, some bank.true_term] ∧
    TFormulaIsPropConst (TFormulaClauseEncode bank clause).1
      (TFormulaClauseEncode bank clause).1.sig (TFormulaClauseEncode bank clause).2 false = true ∧
    TFormulaCollectClause (fuel + 1) (TFormulaClauseEncode bank clause).2
      (TFormulaClauseEncode bank clause).1
      = some (ClauseAlloc [EqnAlloc bank.true_term bank.true_term false]) ∧
    ClauseIsEmpty (ClauseAlloc [EqnAlloc bank.true_term bank.true_term false]) = false := by
  have hl : clause.literals = [] := by
    unfold ClauseIsEmpty at hempty
    exact List.isEmpty_iff.mp hempty
  have henc : TFormulaClauseEncode bank clause = TFormulaPropConstantAlloc bank false := by
    unfold TFormulaClauseEncode
    rw [hl]
  have hdef : TFormulaPropConstantAlloc bank false
      = EqnTermsTBTermEncode bank bank.true_term bank.true_term false := rfl
  obtain ⟨c1, _, c3⟩ := EqnTermsTBTermEncode_cell bank bank.true_term bank.true_term false
  have hsig : (EqnTermsTBTermEncode bank bank.true_term bank.true_term false).1.sig = bank.sig :=
    TBTermTopInsert_sig bank _
  have hold : (EqnTermsTBTermEncode bank bank.true_term bank.true_term false).1.cell bank.true_term
      = bank.cell bank.true_term := TBTermTopInsert_cell_old bank _ _ htl
  rw [henc, hdef]
  have hcode : SigGetEqnCode bank.sig false = bank.sig.neqn_code := rfl
  rw [hcode] at c1
  have a0 := TB.arg_of_args _ _ _ 0 c3
  have a1 := TB.arg_of_args _ _ _ 1 c3
  refine ⟨rfl, c1, c3, ?_, ?_, rfl⟩
  · unfold TFormulaIsPropConst
    rw [hsig, c1, a0, a1]
    simp [SigGetEqnCode, TB.cellAt, hold, htrue]
  · unfold TFormulaCollectClause
    rw [TFormulaCollectClause_loop]
    simp only [c1, hsig, beq_eq_false_iff_ne.mpr hor, Bool.false_eq_true, if_false,
      EqnTBTermDecode, a0, a1, List.getD_cons_zero, List.getD_cons_succ, Option.some_bind,
      beq_eq_false_iff_ne.mpr hne]
    cases fuel <;> simp [TFormulaCollectClause_loop, ClauseAlloc, EqnAlloc]

theorem TFormulaClauseEncode_empty_witness :
    (ClauseIsEmpty (ClauseAlloc []) = true ∧ demoAtoms.true_term < demoAtoms.cells.length ∧
      (demoAtoms.cell demoAtoms.true_term).f_code = demoAtoms.sig.SIG_TRUE_CODE) ∧
    TFormulaClauseEncode demoAtoms (ClauseAlloc []) = TFormulaPropConstantAlloc demoAtoms false ∧
    ((TFormulaClauseEncode demoAtoms (ClauseAlloc [])).1.cell
      (TFormulaClauseEncode demoAtoms (ClauseAlloc [])).2).f_code = demoAtoms.sig.neqn_code ∧
    ((TFormulaClauseEncode demoAtoms (ClauseAlloc [])).1.cell
      (TFormulaClauseEncode demoAtoms (ClauseAlloc [])).2).args
      = [some demoAtoms.true_term, some demoAtoms.true_term] ∧
    TFormulaIsPropConst (TFormulaClauseEncode demoAtoms (ClauseAlloc [])).1
      (TFormulaClauseEncode demoAtoms (ClauseAlloc [])).1.sig
      (TFormulaClauseEncode demoAtoms (ClauseAlloc [])).2 false = true ∧
    TFormulaCollectClause (0 + 1) (TFormulaClauseEncode demoAtoms (ClauseAlloc [])).2
      (TFormulaClauseEncode demoAtoms (ClauseAlloc [])).1
      = some (ClauseAlloc [EqnAlloc demoAtoms.true_term demoAtoms.true_term false]) ∧
    ClauseIsEmpty (ClauseAlloc [EqnAlloc demoAtoms.true_term demoAtoms.true_term false])
      = false :=
  ⟨⟨by decide, by decide, by decide⟩,
    TFormulaClauseEncode_empty demoAtoms (ClauseAlloc []) 0 (by decide) (by decide) (by decide)
      (by decide) (by decide)⟩


/-! ## Negation of formulas -/

theorem SigGetOtherEqnCode_other (sig : Sig) (hne : sig.neqn_code ≠ sig.eqn_code) (c : FunCode)
    (hc : c = sig.eqn_code ∨ c = sig.neqn_code) :
    (SigGetOtherEqnCode sig c = sig.eqn_code ∨ SigGetOtherEqnCode sig c = sig.neqn_code) ∧
    SigGetOtherEqnCode sig c ≠ c ∧
    SigGetOtherEqnCode sig (SigGetOtherEqnCode sig c) = c := by
  unfold SigGetOtherEqnCode
  rcases hc with rfl | rfl
  · simp [Ne.symm hne, hne]
  · simp [Ne.symm hne, hne]

theorem TFormulaIsLiteral_iff (sig : Sig) (c : TermCell) :
    TFormulaIsLiteral sig c = true ↔ c.f_code = sig.eqn_code ∨ c.f_code = sig.neqn_code := by
  unfold TFormulaIsLiteral
  simp

theorem TFormulaFCodeAlloc_lookup (bank : TB) (op : FunCode) (a b : TermRef) (L : TermRef)
    (har : SigFindArity bank.sig op = 2)
    (hcode : (bank.cell L).f_code = op) (harity : (bank.cell L).arity = 2)
    (hargs : (bank.cell L).args = [some a, some b])
    (hfind : TermCellStoreFind (bank.cell L) bank.cells = some L) :
    TFormulaFCodeAlloc bank op a (some b) = (bank, L) := by
  obtain ⟨t, e, t1, t2, t3⟩ := TFormulaFCodeAlloc_top bank op a (some b)
  rw [har] at t2 t3
  have t3' : t.args = [some a, some b] := by rw [t3]; rfl
  rw [e]
  unfold TBTermTopInsert
  rw [TermCellStoreFind_congr t (bank.cell L)
    ⟨by rw [t1, hcode], by rw [t2, harity], by rw [t3', hargs]⟩, hfind]

/-- Claim C39: `TFormulaNegate` is an involution on literals.  For a literal node
`L` with the arguments `a`, `b` that is the node the bank holds for its symbol
and arguments, `TFormulaNegate(L)` returns a node with the other equation
code and the arguments `a`, `b` in this order, and `TFormulaNegate` of that
node returns `L` itself and leaves the bank as it is.  For a node `f` that is
not a literal, `TFormulaNegate(f)` returns the node with the negation code and
the single argument `f`.  The two equation codes differ and are declared
binary, the negation code unary. -/
theorem TFormulaNegate_involution (terms : TB) (L a b f : TermRef)
    (hne : terms.sig.neqn_code ≠ terms.sig.eqn_code)
    (hare : SigFindArity terms.sig terms.sig.eqn_code = 2)
    (harn : SigFindArity terms.sig terms.sig.neqn_code = 2)
    (hnot : SigFindArity terms.sig terms.sig.not_code = 1)
    (hlit : TFormulaIsLiteral terms.sig (terms.cell L) = true)
    (harity : (terms.cell L).arity = 2)
    (hargs : (terms.cell L).args = [some a, some b])
    (hfind : TermCellStoreFind (terms.cell L) terms.cells = some L)
    (hf : TFormulaIsLiteral terms.sig (terms.cell f) = false) :
    (∃ terms1 n, TFormulaNegate L terms = some (terms1, n) ∧
      (terms1.cell n).f_code = SigGetOtherEqnCode terms.sig (terms.cell L).f_code ∧
      (terms1.cell n).f_code ≠ (terms.cell L).f_code ∧
      TFormulaIsLiteral terms1.sig (terms1.cell n) = true ∧
      (terms1.cell n).args = [some a, some b] ∧
      TFormulaNegate n terms1 = some (terms1, L)) ∧
    (∃ terms2 m, TFormulaNegate f terms = some (terms2, m) ∧
      (terms2.cell m).f_code = terms.sig.not_code ∧ (terms2.cell m).args = [some f]) := by
  have hLc := (TFormulaIsLiteral_iff _ _).mp hlit
  obtain ⟨o1, o2, o3⟩ := SigGetOtherEqnCode_other terms.sig hne _ hLc
  have a0 : terms.arg L 0 = some a := by rw [TB.arg_of_args terms L _ 0 hargs]; rfl
  have a1 : terms.arg L 1 = some b := by rw [TB.arg_of_args terms L _ 1 hargs]; rfl
  have haro : SigFindArity terms.sig (SigGetOtherEqnCode terms.sig (terms.cell L).f_code) = 2 := by
    rcases o1 with e | e <;> rw [e] <;> assumption
  constructor
  · obtain ⟨t, e, t1, t2, t3⟩ := TFormulaFCodeAlloc_top terms
      (SigGetOtherEqnCode terms.sig (terms.cell L).f_code) a (some b)
    rw [haro] at t2 t3
    have t3' : t.args = [some a, some b] := by rw [t3]; rfl
    obtain ⟨c1, c2, c3, _⟩ := TBTermTopInsert_cell terms t
    have hsig := TBTermTopInsert_sig terms t
    have hrun : TFormulaNegate L terms = some (TBTermTopInsert terms t) := by
      unfold TFormulaNegate
      rw [if_pos hlit]
      simp only [a0, a1, e]
    refine ⟨(TBTermTopInsert terms t).1, (TBTermTopInsert terms t).2, hrun, ?_, ?_, ?_, ?_, ?_⟩
    · rw [c1, t1]
    · rw [c1, t1]; exact o2
    · rw [TFormulaIsLiteral_iff, hsig, c1, t1]; exact o1
    · rw [c3, t3']
    · have b0 : (TBTermTopInsert terms t).1.arg (TBTermTopInsert terms t).2 0 = some a := by
        rw [TB.arg_of_args _ _ _ 0 (c3.trans t3')]; rfl
      have b1 : (TBTermTopInsert terms t).1.arg (TBTermTopInsert terms t).2 1 = some b := by
        rw [TB.arg_of_args _ _ _ 1 (c3.trans t3')]; rfl
      have hl2 : TFormulaIsLiteral (TBTermTopInsert terms t).1.sig
          ((TBTermTopInsert terms t).1.cell (TBTermTopInsert terms t).2) = true := by
        rw [TFormulaIsLiteral_iff, hsig, c1, t1]; exact o1
      have hLlt : L < terms.cells.length := (TermCellStoreFind_some _ _ _ hfind).1
      have hcellL : (TBTermTopInsert terms t).1.cell L = terms.cell L :=
        TBTermTopInsert_cell_old terms t L hLlt
      have hfind1 : TermCellStoreFind ((TBTermTopInsert terms t).1.cell L)
          (TBTermTopInsert terms t).1.cells = some L := by
        rw [hcellL]
        rcases TBTermTopInsert_cases terms t with ⟨r, hr, _, _⟩ | ⟨t1, hr, _⟩
        · rw [hr]; exact hfind
        · rw [hr]; exact TermCellStoreFind_append_some _ _ _ _ hfind
      unfold TFormulaNegate
      rw [if_pos hl2]
      simp only [b0, b1, c1, t1, hsig, o3]
      have hare1 : SigFindArity (TBTermTopInsert terms t).1.sig (terms.cell L).f_code = 2 := by
        rw [hsig]
        rcases hLc with e | e <;> rw [e] <;> assumption
      rw [TFormulaFCodeAlloc_lookup (TBTermTopInsert terms t).1 (terms.cell L).f_code a b L hare1
        (by rw [hcellL]) (by rw [hcellL]; exact harity) (by rw [hcellL]; exact hargs) hfind1]
  · refine ⟨(TFormulaFCodeAlloc terms terms.sig.not_code f none).1,
      (TFormulaFCodeAlloc terms terms.sig.not_code f none).2, ?_, ?_, ?_⟩
    · unfold TFormulaNegate
      rw [hf]
      rfl
    · obtain ⟨t, e, t1, _, _⟩ := TFormulaFCodeAlloc_top terms terms.sig.not_code f none
      rw [e, (TBTermTopInsert_cell terms t).1, t1]
    · rw [TFormulaFCodeAlloc_args terms terms.sig.not_code f none (Or.inl hnot), hnot]
      rfl

theorem TFormulaNegate_involution_witness :
    (demoAnd.sig.neqn_code ≠ demoAnd.sig.eqn_code ∧
      TFormulaIsLiteral demoAnd.sig (demoAnd.cell 7) = true ∧
      (demoAnd.cell 7).args = [some 5, some 2] ∧
      TermCellStoreFind (demoAnd.cell 7) demoAnd.cells = some 7 ∧
      TFormulaIsLiteral demoAnd.sig (demoAnd.cell 9) = false) ∧
    ((TFormulaNegate 7 demoAnd).map Prod.snd = some 10 ∧
      ((TFormulaNegate 7 demoAnd).bind (fun r => TFormulaNegate r.2 r.1)).map Prod.snd
        = some 7) ∧
    (∃ terms1 n, TFormulaNegate 7 demoAnd = some (terms1, n) ∧
      (terms1.cell n).f_code = SigGetOtherEqnCode demoAnd.sig (demoAnd.cell 7).f_code ∧
      (terms1.cell n).f_code ≠ (demoAnd.cell 7).f_code ∧
      TFormulaIsLiteral terms1.sig (terms1.cell n) = true ∧
      (terms1.cell n).args = [some 5, some 2] ∧
      TFormulaNegate n terms1 = some (terms1, 7)) ∧
    (∃ terms2 m, TFormulaNegate 9 demoAnd = some (terms2, m) ∧
      (terms2.cell m).f_code = demoAnd.sig.not_code ∧ (terms2.cell m).args = [some 9]) :=
  ⟨⟨by decide, by decide, by decide, by decide, by decide⟩, ⟨by decide, by decide⟩,
    TFormulaNegate_involution demoAnd 7 5 2 9 (by decide) (by decide) (by decide) (by decide)
      (by decide) (by decide) (by decide) (by decide) (by decide)⟩


/-! ## Encoding a predicate twice -/

theorem EncodePredicateAsEqn_of_literal (problemType : ProblemType) (bank : TB) (g : TermRef)
    (hsig : bank.sig.EqnCodesInternal)
    (hg : TFormulaIsLiteral bank.sig (bank.cell g) = true) :
    EncodePredicateAsEqn problemType bank g = (bank, g) := by
  have hc : (bank.cell g).f_code ∈ [bank.sig.eqn_code, bank.sig.neqn_code] := by
    unfold TFormulaIsLiteral at hg
    simp only [Bool.or_eq_true, beq_iff_eq] at hg
    simp only [List.mem_cons, List.mem_singleton, List.not_mem_nil, or_false]
    exact hg
  obtain ⟨h0, h1, h2, h3, h4⟩ := hsig _ hc
  unfold EncodePredicateAsEqn
  have g1 : decide ((bank.cell g).f_code > bank.sig.internal_symbols) = false :=
    decide_eq_false (not_lt.mpr h1)
  have g2 : ((bank.cell g).f_code == bank.sig.SIG_TRUE_CODE) = false :=
    beq_eq_false_iff_ne.mpr h2
  have g3 : ((bank.cell g).f_code == bank.sig.SIG_FALSE_CODE) = false :=
    beq_eq_false_iff_ne.mpr h3
  have g4 : TermIsVar (bank.cell g) = false := by
    unfold TermIsVar
    exact decide_eq_false (not_lt.mpr h0)
  have g5 : TermIsPhonyApp bank.sig (bank.cell g) = false := by
    unfold TermIsPhonyApp
    rw [beq_eq_false_iff_ne.mpr h4, Bool.and_false]
  simp only [g1, g2, g3, g4, g5, Bool.or_self, Bool.and_false, Bool.false_and,
    Bool.false_eq_true, if_false]

/-- Claim C38: `EncodePredicateAsEqn` is idempotent.  In every problem mode and
for every node `f`, applying the function to the node it returned (in the
bank it left) returns that node again and leaves the bank as it is; an
equation or negated-equation node `g` is returned unchanged.  The two
equation codes are internal symbols of the signature. -/
theorem EncodePredicateAsEqn_idempotent (problemType : ProblemType) (bank : TB) (f g : TermRef)
    (hsig : bank.sig.EqnCodesInternal)
    (hg : TFormulaIsLiteral bank.sig (bank.cell g) = true) :
    EncodePredicateAsEqn problemType (EncodePredicateAsEqn problemType bank f).1
        (EncodePredicateAsEqn problemType bank f).2
      = EncodePredicateAsEqn problemType bank f ∧
    EncodePredicateAsEqn problemType bank g = (bank, g) := by
  refine ⟨?_, EncodePredicateAsEqn_of_literal problemType bank g hsig hg⟩
  by_cases hguard : (problemType == ProblemType.PROBLEM_HO &&
      (decide ((bank.cell f).f_code > bank.sig.internal_symbols) ||
       (bank.cell f).f_code == bank.sig.SIG_TRUE_CODE ||
       (bank.cell f).f_code == bank.sig.SIG_FALSE_CODE ||
       TermIsVar (bank.cell f) ||
       TermIsPhonyApp bank.sig (bank.cell f)) &&
      (bank.cell f).type == some bank.sig.type_bank.bool_type) = true
  · have e : EncodePredicateAsEqn problemType bank f
        = EqnTermsTBTermEncode bank
            (if (bank.cell f).f_code == bank.sig.SIG_FALSE_CODE then bank.true_term else f)
            bank.true_term ((bank.cell f).f_code != bank.sig.SIG_FALSE_CODE) := by
      unfold EncodePredicateAsEqn
      simp only [hguard, if_true]
    rw [e]
    obtain ⟨c1, _, _⟩ := EqnTermsTBTermEncode_cell bank
      (if (bank.cell f).f_code == bank.sig.SIG_FALSE_CODE then bank.true_term else f)
      bank.true_term ((bank.cell f).f_code != bank.sig.SIG_FALSE_CODE)
    have hs : (EqnTermsTBTermEncode bank
        (if (bank.cell f).f_code == bank.sig.SIG_FALSE_CODE then bank.true_term else f)
        bank.true_term ((bank.cell f).f_code != bank.sig.SIG_FALSE_CODE)).1.sig = bank.sig :=
      TBTermTopInsert_sig bank _
    apply EncodePredicateAsEqn_of_literal
    · rw [hs]; exact hsig
    · rw [hs, TFormulaIsLiteral_iff, c1]
      unfold SigGetEqnCode
      cases ((bank.cell f).f_code != bank.sig.SIG_FALSE_CODE) <;> simp
  · have e : EncodePredicateAsEqn problemType bank f = (bank, f) := by
      unfold EncodePredicateAsEqn
      simp only [hguard, Bool.false_eq_true, if_false]
    rw [e]
    exact e

theorem EncodePredicateAsEqn_idempotent_witness :
    (demoLits.sig.EqnCodesInternal ∧
      TFormulaIsLiteral demoLits.sig (demoLits.cell 7) = true ∧
      TFormulaIsLiteral demoLits.sig (demoLits.cell 6) = false) ∧
    (EncodePredicateAsEqn ProblemType.PROBLEM_HO demoLits 6).2 = 8 ∧
    EncodePredicateAsEqn ProblemType.PROBLEM_HO
        (EncodePredicateAsEqn ProblemType.PROBLEM_HO demoLits 6).1
        (EncodePredicateAsEqn ProblemType.PROBLEM_HO demoLits 6).2
      = EncodePredicateAsEqn ProblemType.PROBLEM_HO demoLits 6 ∧
    EncodePredicateAsEqn ProblemType.PROBLEM_HO demoLits 7 = (demoLits, 7) :=
  ⟨⟨by decide, by decide, by decide⟩, by decide,
    EncodePredicateAsEqn_idempotent ProblemType.PROBLEM_HO demoLits 6 7 (by decide)
      (by decide)⟩


/-! ## Sort keys of the precedence generators -/

theorem forSymbols_length (body : Nat → FCodeFeatureSortCell → FCodeFeatureSortCell)
    (array : List FCodeFeatureSortCell) (f_count : Nat) :
    (forSymbols f_count body array).length = array.length := by
  unfold forSymbols
  induction f_count with
  | zero => rfl
  | succ n ih =>
    rw [List.range_succ, List.foldl_append]
    simp only [List.foldl_cons, List.foldl_nil, List.length_set]
    exact ih

theorem forSymbols_getD (body : Nat → FCodeFeatureSortCell → FCodeFeatureSortCell)
    (array : List FCodeFeatureSortCell) (f_count i : Nat) :
    (forSymbols f_count body array).getD i default
      = if 1 ≤ i ∧ i ≤ f_count ∧ i < array.length then body i (array.getD i default)
        else array.getD i default := by
  induction f_count with
  | zero =>
    have h : ¬ (1 ≤ i ∧ i ≤ 0 ∧ i < array.length) := by omega
    rw [if_neg h]
    rfl
  | succ n ih =>
    have hl := forSymbols_length body array n
    have hstep : forSymbols (n + 1) body array
        = (forSymbols n body array).set (n + 1)
            (body (n + 1) ((forSymbols n body array).getD (n + 1) default)) := by
      unfold forSymbols
      rw [List.range_succ, List.foldl_append]
      rfl
    rw [hstep, list_getD_set, hl, ih]
    by_cases hi : n + 1 = i
    · subst hi
      by_cases hlt : n + 1 < array.length
      · have h1 : ¬ (1 ≤ n + 1 ∧ n + 1 ≤ n ∧ n + 1 < array.length) := by omega
        have h2 : 1 ≤ n + 1 ∧ n + 1 ≤ n + 1 ∧ n + 1 < array.length := by omega
        rw [if_pos ⟨rfl, hlt⟩, ih, if_neg h1, if_pos h2]
      · have h1 : ¬ (1 ≤ n + 1 ∧ n + 1 ≤ n ∧ n + 1 < array.length) := by omega
        have h2 : ¬ (1 ≤ n + 1 ∧ n + 1 ≤ n + 1 ∧ n + 1 < array.length) := by omega
        have h3 : ¬ (n + 1 = n + 1 ∧ n + 1 < array.length) := by omega
        rw [if_neg h3, if_neg h1, if_neg h2]
    · have h3 : ¬ (n + 1 = i ∧ n + 1 < array.length) := by omega
      rw [if_neg h3]
      by_cases hc : 1 ≤ i ∧ i ≤ n ∧ i < array.length
      · have h2 : 1 ≤ i ∧ i ≤ n + 1 ∧ i < array.length := by omega
        rw [if_pos hc, if_pos h2]
      · have h2 : ¬ (1 ≤ i ∧ i ≤ n + 1 ∧ i < array.length) := by omega
        rw [if_neg hc, if_neg h2]

/-- Claim C35 (as stated, refuted): symbol `1` occurs in conjectures and symbol
`2` does not.  `generate_invfreq_conjmin_precedence` gives symbol `1` the
primary key `0` and symbol `2` the primary key `1`: the key of the conjecture
symbol is the smaller one. -/
theorem generate_invfreq_conjmin_precedence_conj_smaller :
    (demoFeatures.getD 1 default).conjfreq = 3 ∧ (demoFeatures.getD 2 default).conjfreq = 0 ∧
    ((generate_invfreq_conjmin_precedence demoSig 2 demoFeatures).getD 1 default).key1 = 0 ∧
    ((generate_invfreq_conjmin_precedence demoSig 2 demoFeatures).getD 2 default).key1 = 1 ∧
    ¬ ((generate_invfreq_conjmin_precedence demoSig 2 demoFeatures).getD 1 default).key1
      > ((generate_invfreq_conjmin_precedence demoSig 2 demoFeatures).getD 2 default).key1 := by
  decide

/-- Claim C35 (amended): `generate_invfreq_conjmin_precedence` gives every symbol
`i` from `1` to `f_count` the primary key `0` if it occurs in a conjecture
(`conjfreq` not zero) and `1` otherwise, the second key `-freq` and the third
key its arity, and leaves the counts and the symbol of the cell as they are.
So every conjecture symbol receives a primary key strictly smaller than that
of every symbol that occurs in no conjecture.  The twin
`generate_invfreq_conjmax_precedence` gives the keys `1` and `0` instead, so
there the conjecture symbols receive the greater key.  The array has a slot
for every symbol. -/
theorem generate_invfreq_conjmin_precedence_keys (sig : Sig) (f_count : Nat)
    (array : List FCodeFeatureSortCell) (hsize : f_count < array.length) :
    (∀ i, 1 ≤ i → i ≤ f_count →
      (generate_invfreq_conjmin_precedence sig f_count array).getD i default
        = { array.getD i default with
            key1 := if (array.getD i default).conjfreq ≠ 0 then 0 else 1
            key2 := -(array.getD i default).freq
            key3 := SigFindArity sig i }) ∧
    (∀ i j, 1 ≤ i → i ≤ f_count → 1 ≤ j → j ≤ f_count →
      (array.getD i default).conjfreq ≠ 0 → (array.getD j default).conjfreq = 0 →
      ((generate_invfreq_conjmin_precedence sig f_count array).getD i default).key1
        < ((generate_invfreq_conjmin_precedence sig f_count array).getD j default).key1 ∧
      ((generate_invfreq_conjmax_precedence sig f_count array).getD j default).key1
        < ((generate_invfreq_conjmax_precedence sig f_count array).getD i default).key1) := by
  have hmin : ∀ i, 1 ≤ i → i ≤ f_count →
      (generate_invfreq_conjmin_precedence sig f_count array).getD i default
        = { array.getD i default with
            key1 := if (array.getD i default).conjfreq ≠ 0 then 0 else 1
            key2 := -(array.getD i default).freq
            key3 := SigFindArity sig i } := by
    intro i h1 h2
    unfold generate_invfreq_conjmin_precedence
    rw [forSymbols_getD, if_pos ⟨h1, h2, lt_of_le_of_lt h2 hsize⟩]
  have hmax : ∀ i, 1 ≤ i → i ≤ f_count →
      (generate_invfreq_conjmax_precedence sig f_count array).getD i default
        = { array.getD i default with
            key1 := if (array.getD i default).conjfreq ≠ 0 then 1 else 0
            key2 := -(array.getD i default).freq
            key3 := SigFindArity sig i } := by
    intro i h1 h2
    unfold generate_invfreq_conjmax_precedence
    rw [forSymbols_getD, if_pos ⟨h1, h2, lt_of_le_of_lt h2 hsize⟩]
  refine ⟨hmin, fun i j i1 i2 j1 j2 hi hj => ?_⟩
  rw [hmin i i1 i2, hmin j j1 j2, hmax i i1 i2, hmax j j1 j2]
  simp only [ne_eq, hi, hj, not_true_eq_false, not_false_eq_true, if_true, if_false]
  exact ⟨by decide, by decide⟩

theorem generate_invfreq_conjmin_precedence_keys_witness :
    2 < demoFeatures.length ∧
    generate_invfreq_conjmin_precedence demoSig 2 demoFeatures
      = [⟨0, 0, 0, 0, 0, 0⟩, ⟨0, -5, 0, 5, 3, 1⟩, ⟨1, -4, 0, 4, 0, 2⟩] ∧
    (∀ i, 1 ≤ i → i ≤ 2 →
      (generate_invfreq_conjmin_precedence demoSig 2 demoFeatures).getD i default
        = { demoFeatures.getD i default with
            key1 := if (demoFeatures.getD i default).conjfreq ≠ 0 then 0 else 1
            key2 := -(demoFeatures.getD i default).freq
            key3 := SigFindArity demoSig i }) ∧
    (∀ i j, 1 ≤ i → i ≤ 2 → 1 ≤ j → j ≤ 2 →
      (demoFeatures.getD i default).conjfreq ≠ 0 → (demoFeatures.getD j default).conjfreq = 0 →
      ((generate_invfreq_conjmin_precedence demoSig 2 demoFeatures).getD i default).key1
        < ((generate_invfreq_conjmin_precedence demoSig 2 demoFeatures).getD j default).key1 ∧
      ((generate_invfreq_conjmax_precedence demoSig 2 demoFeatures).getD j default).key1
        < ((generate_invfreq_conjmax_precedence demoSig 2 demoFeatures).getD i default).key1) :=
  ⟨by decide, by decide,
    generate_invfreq_conjmin_precedence_keys demoSig 2 demoFeatures (by decide)⟩


/-! ## Heads of undeclared symbols -/

/-- Claim C33: constructing a head for an undeclared symbol is an error.  When
`SigFindFCode(sig, name)` is `0`, `make_head` reports the syntax error
"Function symbol <name> has not been defined previously." and returns no
cell.  For a declared name it returns an unshared cell with arity `0`, no
arguments, the code of the symbol and the type `SigGetType` gives for that
code.  This holds for every symbol table; for the table of the demonstration
signature, `p` is declared and `r` is not. -/
theorem make_head_undeclared (SigFindFCode : Sig → String → FunCode)
    (SigGetType : Sig → FunCode → Option Type_p) (sig : Sig) (f_name : String) :
    (SigFindFCode sig f_name = 0 →
      make_head SigFindFCode SigGetType sig f_name
        = Except.error ⟨"Function symbol " ++ f_name ++ " has not been defined previously.",
            ErrorCodes.SYNTAX_ERROR⟩) ∧
    (SigFindFCode sig f_name ≠ 0 →
      ∃ head, make_head SigFindFCode SigGetType sig f_name = Except.ok head ∧
        TermIsShared head = false ∧ head.arity = 0 ∧ head.args = [] ∧
        head.f_code = SigFindFCode sig f_name ∧
        head.type = SigGetType sig (SigFindFCode sig f_name)) ∧
    make_head demoFindFCode demoGetType demoSig "r"
      = Except.error ⟨"Function symbol r has not been defined previously.",
          ErrorCodes.SYNTAX_ERROR⟩ ∧
    make_head demoFindFCode demoGetType demoSig "p"
      = Except.ok { TermDefaultCellAlloc with
          f_code := 19, type := some demoSig.type_bank.bool_type } := by
  refine ⟨fun h => ?_, fun h => ?_, rfl, rfl⟩
  · unfold make_head
    simp only [h, if_true]
  · refine ⟨{ TermDefaultCellAlloc with
        f_code := SigFindFCode sig f_name
        type := SigGetType sig (SigFindFCode sig f_name) }, ?_, ?_, rfl, rfl, rfl, rfl⟩
    · unfold make_head
      simp only [h, if_false]
      rfl
    · show QueryProp TPIgnoreProps TPIsShared = false
      decide


/-! ## Applications with too many arguments -/

theorem copyArgs_length (n off : Nat) (src : Nat → Option TermRef)
    (args : List (Option TermRef)) : (copyArgs n off src args).length = args.length := by
  unfold copyArgs
  induction n with
  | zero => rfl
  | succ n ih =>
    rw [List.range_succ, List.foldl_append]
    simp only [List.foldl_cons, List.foldl_nil, List.length_set]
    exact ih

theorem copyArgs_getD (n off : Nat) (src : Nat → Option TermRef)
    (args : List (Option TermRef)) (j : Nat) :
    (copyArgs n off src args).getD j none
      = if off ≤ j ∧ j < off + n ∧ j < args.length then src (j - off)
        else args.getD j none := by
  induction n with
  | zero =>
    have h : ¬ (off ≤ j ∧ j < off + 0 ∧ j < args.length) := by omega
    rw [if_neg h]
    rfl
  | succ n ih =>
    have hl := copyArgs_length n off src args
    have hstep : copyArgs (n + 1) off src args
        = (copyArgs n off src args).set (off + n) (src n) := by
      unfold copyArgs
      rw [List.range_succ, List.foldl_append]
      rfl
    rw [hstep, list_getD_set, hl, ih]
    by_cases hi : off + n = j
    · subst hi
      by_cases hlt : off + n < args.length
      · have h2 : off ≤ off + n ∧ off + n < off + (n + 1) ∧ off + n < args.length := by omega
        rw [if_pos ⟨rfl, hlt⟩, if_pos h2, Nat.add_sub_cancel_left]
      · have h1 : ¬ (off ≤ off + n ∧ off + n < off + n ∧ off + n < args.length) := by omega
        have h2 : ¬ (off ≤ off + n ∧ off + n < off + (n + 1) ∧ off + n < args.length) := by
          omega
        have h3 : ¬ (off + n = off + n ∧ off + n < args.length) := by omega
        rw [if_neg h3, if_neg h1, if_neg h2]
    · have h3 : ¬ (off + n = j ∧ off + n < args.length) := by omega
      rw [if_neg h3]
      by_cases hc : off ≤ j ∧ j < off + n ∧ j < args.length
      · have h2 : off ≤ j ∧ j < off + (n + 1) ∧ j < args.length := by omega
        rw [if_pos hc, if_pos h2]
      · have h2 : ¬ (off ≤ j ∧ j < off + (n + 1) ∧ j < args.length) := by omega
        rw [if_neg hc, if_neg h2]

theorem storeArgs_length (l : List TermRef) :
    ∀ (args : List (Option TermRef)) (i : Nat), (storeArgs args i l).length = args.length := by
  induction l with
  | nil => intro args i; rfl
  | cons a rest ih =>
    intro args i
    rw [storeArgs, ih, List.length_set]

theorem storeArgs_getD (l : List TermRef) :
    ∀ (args : List (Option TermRef)) (i m : Nat), i + l.length ≤ args.length →
      (storeArgs args i l).getD m none
        = if i ≤ m ∧ m < i + l.length then (l.map some).getD (m - i) none
          else args.getD m none := by
  induction l with
  | nil =>
    intro args i m _
    have h : ¬ (i ≤ m ∧ m < i + ([] : List TermRef).length) := by
      simp only [List.length_nil]; omega
    rw [if_neg h]
    rfl
  | cons a rest ih =>
    intro args i m hlen
    simp only [List.length_cons] at hlen
    rw [storeArgs, ih (args.set i (some a)) (i + 1) m (by rw [List.length_set]; omega),
      list_getD_set]
    simp only [List.length_cons, List.map_cons]
    by_cases h1 : i + 1 ≤ m ∧ m < i + 1 + rest.length
    · have h2 : i ≤ m ∧ m < i + (rest.length + 1) := by omega
      have e : m - i = (m - (i + 1)) + 1 := by omega
      rw [if_pos h1, if_pos h2, e, List.getD_cons_succ]
    · rw [if_neg h1]
      by_cases h3 : i = m
      · subst h3
        have h2 : i ≤ i ∧ i < i + (rest.length + 1) := by omega
        have h4 : i = i ∧ i < args.length := by omega
        rw [if_pos h4, if_pos h2, Nat.sub_self, List.getD_cons_zero]
      · have h2 : ¬ (i ≤ m ∧ m < i + (rest.length + 1)) := by omega
        have h4 : ¬ (i = m ∧ i < args.length) := by omega
        rw [if_neg h4, if_neg h2]

theorem alloc_cell_fields (bank : TB) (res : TermCell) (c : Bool) :
    ((if c then TBTermTopInsert bank res
        else ({ bank with cells := bank.cells ++ [res] }, bank.cells.length)).1.cell
      (if c then TBTermTopInsert bank res
        else ({ bank with cells := bank.cells ++ [res] }, bank.cells.length)).2).f_code
      = res.f_code ∧
    ((if c then TBTermTopInsert bank res
        else ({ bank with cells := bank.cells ++ [res] }, bank.cells.length)).1.cell
      (if c then TBTermTopInsert bank res
        else ({ bank with cells := bank.cells ++ [res] }, bank.cells.length)).2).arity
      = res.arity ∧
    ((if c then TBTermTopInsert bank res
        else ({ bank with cells := bank.cells ++ [res] }, bank.cells.length)).1.cell
      (if c then TBTermTopInsert bank res
        else ({ bank with cells := bank.cells ++ [res] }, bank.cells.length)).2).args
      = res.args := by
  cases c with
  | true =>
    simp only [if_true]
    obtain ⟨c1, c2, c3, _⟩ := TBTermTopInsert_cell bank res
    exact ⟨c1, c2, c3⟩
  | false =>
    simp only [Bool.false_eq_true, if_false]
    rw [TB.cell_append_length]
    exact ⟨rfl, rfl, rfl⟩

/-- The node that `normalize_head` builds for at least one applied argument: a
head that is a variable or a lambda term becomes the first argument under the
application marker, followed by the applied arguments; any other head keeps
its symbol and its own arguments, followed by the applied arguments. -/
theorem normalize_head_node (lfho : Bool) (head : TermRef) (rest_args : List (Option TermRef))
    (k : Nat) (bank : TB) (hk : 1 ≤ k) :
    ((normalize_head lfho head rest_args k bank).1.cell
        (normalize_head lfho head rest_args k bank).2).arity
      = (if TermIsLambda lfho bank.sig (bank.cell head) then 0 else (bank.cell head).arity) + k
        + (if TermIsVar (bank.cell head) || TermIsLambda lfho bank.sig (bank.cell head)
            then 1 else 0) ∧
    ((TermIsVar (bank.cell head) || TermIsLambda lfho bank.sig (bank.cell head)) = true →
      ((normalize_head lfho head rest_args k bank).1.cell
          (normalize_head lfho head rest_args k bank).2).f_code = bank.sig.SIG_PHONY_APP_CODE ∧
      (normalize_head lfho head rest_args k bank).1.arg
          (normalize_head lfho head rest_args k bank).2 0 = some head ∧
      ∀ i, i < k →
        (normalize_head lfho head rest_args k bank).1.arg
          (normalize_head lfho head rest_args k bank).2 (1 + i) = rest_args.getD i none) ∧
    ((TermIsVar (bank.cell head) || TermIsLambda lfho bank.sig (bank.cell head)) = false →
      ((normalize_head lfho head rest_args k bank).1.cell
          (normalize_head lfho head rest_args k bank).2).f_code = (bank.cell head).f_code ∧
      (∀ i, i < (bank.cell head).arity →
        (normalize_head lfho head rest_args k bank).1.arg
          (normalize_head lfho head rest_args k bank).2 i = (bank.cell head).args.getD i none) ∧
      ∀ i, i < k →
        (normalize_head lfho head rest_args k bank).1.arg
          (normalize_head lfho head rest_args k bank).2 ((bank.cell head).arity + i)
            = rest_args.getD i none) := by
  have hk0 : ¬ k = 0 := by omega
  unfold normalize_head
  simp only [hk0, if_false]
  cases hv : (TermIsVar (bank.cell head) || TermIsLambda lfho bank.sig (bank.cell head)) with
  | true =>
    simp only [if_true, Bool.true_eq_false, false_implies, and_true, true_implies]
    obtain ⟨f1, f2, f3⟩ := alloc_cell_fields bank _ _
    unfold TB.arg
    rw [f1, f2, f3]
    refine ⟨rfl, rfl, ?_, ?_⟩
    · rw [copyArgs_getD]
      simp [TermDefaultCellArityAlloc]
    · intro i hi
      rw [copyArgs_getD]
      simp only [TermDefaultCellArityAlloc, List.length_set, List.length_replicate]
      rw [if_pos (by omega)]
      simp
  | false =>
    simp only [Bool.false_eq_true, if_false, false_implies, true_and, true_implies]
    obtain ⟨f1, f2, f3⟩ := alloc_cell_fields bank _ _
    unfold TB.arg
    rw [f1, f2, f3]
    have hl : TermIsLambda lfho bank.sig (bank.cell head) = false := by
      cases h : TermIsLambda lfho bank.sig (bank.cell head) with
      | false => rfl
      | true => rw [h, Bool.or_true] at hv; cases hv
    simp only [hl, Bool.false_eq_true, if_false]
    refine ⟨rfl, trivial, ?_, ?_⟩
    · intro i hi
      rw [copyArgs_getD, copyArgs_length]
      simp only [TermDefaultCellArityAlloc, List.length_replicate]
      rw [if_neg (by omega), copyArgs_getD]
      simp only [List.length_replicate]
      rw [if_pos (by omega)]
      simp
    · intro i hi
      rw [copyArgs_getD, copyArgs_length]
      simp only [TermDefaultCellArityAlloc, List.length_replicate]
      rw [if_pos (by omega)]
      simp

theorem applied_tform_tstp_parse_loop_run {Scanner : Type} (P : TermParsers Scanner)
    (problemType : ProblemType) (max_args : Int) (head_is_logical : Bool)
    {inp : Scanner} {terms : TB} {l : List TermRef} {inp2 : Scanner} {terms2 : TB}
    (h : AppliedArgs P problemType head_is_logical inp terms l inp2 terms2) :
    ∀ (fuel : Nat) (args : List (Option TermRef)) (i : Nat), l.length ≤ fuel →
      (((i + l.length : Nat) : Int) ≤ max_args →
        applied_tform_tstp_parse_loop P problemType max_args head_is_logical fuel inp terms
            args i
          = some (Except.ok (inp2, terms2, storeArgs args i l, i + l.length))) ∧
      (max_args < ((i + l.length : Nat) : Int) → ((i : Int) ≤ max_args ∨ 1 ≤ l.length) →
        applied_tform_tstp_parse_loop P problemType max_args head_is_logical fuel inp terms
            args i
          = some (Except.error ⟨" Too many arguments applied to the symbol",
              ErrorCodes.SYNTAX_ERROR⟩)) := by
  induction h with
  | done inp terms htest =>
    intro fuel args i _
    constructor
    · intro _
      cases fuel <;> simp [applied_tform_tstp_parse_loop, htest, storeArgs]
    · intro h1 h2
      simp only [List.length_nil] at h1 h2
      omega
  | next inp terms inp1 terms1 arg rest inp2 terms2 htest hparse _ ih =>
    intro fuel args i hfuel
    simp only [List.length_cons] at hfuel ⊢
    cases fuel with
    | zero => omega
    | succ fuel =>
      have hf : rest.length ≤ fuel := by omega
      obtain ⟨ih1, ih2⟩ := ih fuel (args.set i
        (some (if head_is_logical then EncodePredicateAsEqn problemType terms1 arg
          else (terms1, arg)).2)) (i + 1) hf
      constructor
      · intro hle
        have hlt : ¬ ((i : Int) ≥ max_args) := by omega
        rw [applied_tform_tstp_parse_loop]
        simp only [htest, if_true, hlt, if_false, hparse]
        rw [ih1 (by omega)]
        simp only [storeArgs]
        have e : i + 1 + rest.length = i + (rest.length + 1) := by omega
        rw [e]
      · intro hgt _
        rw [applied_tform_tstp_parse_loop]
        by_cases hge : (i : Int) ≥ max_args
        · simp only [htest, if_true, hge]
        · simp only [htest, if_true, hge, if_false, hparse]
          exact ih2 (by omega) (Or.inl (by omega))

theorem AppliedArgs.args_length_pos {Scanner : Type} {P : TermParsers Scanner}
    {problemType : ProblemType} {head_is_logical : Bool}
    {inp : Scanner} {terms : TB} {l : List TermRef} {inp2 : Scanner} {terms2 : TB}
    (h : AppliedArgs P problemType head_is_logical inp terms l inp2 terms2)
    (hentry : P.TestInpTok inp = true) : 1 ≤ l.length := by
  cases h with
  | done _ _ htest => rw [htest] at hentry; cases hentry
  | next _ _ _ _ _ _ _ _ _ _ _ => simp

/-- Claim C32: the applied-term parser fails exactly when too many arguments are
applied.  The scanner stands before `k` `@`-applied arguments that the
argument parser accepts (the entry assertion: an `@` is next), and the loop
may run `k` times.  Then `applied_tform_tstp_parse` reports an error if and
only if `k` exceeds `TypeGetMaxArity` of the head type, and the error is the
syntax error " Too many arguments applied to the symbol".  Otherwise it
returns `EncodePredicateAsEqn` of the node built by `normalize_head` from the
head and the array holding all `k` arguments: a head that is a variable or a
lambda term is the first argument under the application marker and the `k`
arguments follow in order; any other head keeps its symbol and its own
arguments and the `k` arguments follow in order.  None is dropped. -/
theorem applied_tform_tstp_parse_too_many {Scanner : Type} (P : TermParsers Scanner)
    (lfho : Bool) (problemType : ProblemType) (fuel : Nat) (inp : Scanner) (terms : TB)
    (head : TermRef) (l : List TermRef) (inp2 : Scanner) (terms2 : TB)
    (hentry : P.TestInpTok inp = true)
    (hargs : AppliedArgs P problemType
      (!TermIsVar (terms.cell head) && P.SigQueryFuncProp terms.sig (terms.cell head).f_code)
      inp terms l inp2 terms2)
    (hfuel : l.length ≤ fuel) :
    ((∃ e, applied_tform_tstp_parse P lfho problemType fuel inp terms head
        = some (Except.error e)) ↔ P.TypeGetMaxArity (P.GetHeadType terms head) < l.length) ∧
    (P.TypeGetMaxArity (P.GetHeadType terms head) < l.length →
      applied_tform_tstp_parse P lfho problemType fuel inp terms head
        = some (Except.error ⟨" Too many arguments applied to the symbol",
            ErrorCodes.SYNTAX_ERROR⟩)) ∧
    ((l.length : Int) ≤ P.TypeGetMaxArity (P.GetHeadType terms head) →
      ∃ node : TB × TermRef,
        node = normalize_head lfho head
          (storeArgs (List.replicate (P.TypeGetMaxArity (P.GetHeadType terms head)).toNat none)
            0 l) l.length terms2 ∧
        applied_tform_tstp_parse P lfho problemType fuel inp terms head
          = some (Except.ok (inp2, EncodePredicateAsEqn problemType node.1 node.2)) ∧
        (node.1.cell node.2).arity
          = (if TermIsLambda lfho terms2.sig (terms2.cell head) then 0
              else (terms2.cell head).arity) + l.length
            + (if TermIsVar (terms2.cell head) || TermIsLambda lfho terms2.sig (terms2.cell head)
                then 1 else 0) ∧
        ((TermIsVar (terms2.cell head) || TermIsLambda lfho terms2.sig (terms2.cell head)) = true →
          (node.1.cell node.2).f_code = terms2.sig.SIG_PHONY_APP_CODE ∧
          node.1.arg node.2 0 = some head ∧
          ∀ i, i < l.length → node.1.arg node.2 (1 + i) = (l.map some).getD i none) ∧
        ((TermIsVar (terms2.cell head) || TermIsLambda lfho terms2.sig (terms2.cell head)) = false →
          (node.1.cell node.2).f_code = (terms2.cell head).f_code ∧
          (∀ i, i < (terms2.cell head).arity →
            node.1.arg node.2 i = (terms2.cell head).args.getD i none) ∧
          ∀ i, i < l.length →
            node.1.arg node.2 ((terms2.cell head).arity + i) = (l.map some).getD i none)) := by
  have hpos := hargs.args_length_pos hentry
  obtain ⟨run1, run2⟩ := applied_tform_tstp_parse_loop_run P problemType
    (P.TypeGetMaxArity (P.GetHeadType terms head)) _ hargs fuel
    (List.replicate (P.TypeGetMaxArity (P.GetHeadType terms head)).toNat none) 0 hfuel
  rw [Nat.zero_add] at run1 run2
  have herr : P.TypeGetMaxArity (P.GetHeadType terms head) < l.length →
      applied_tform_tstp_parse P lfho problemType fuel inp terms head
        = some (Except.error ⟨" Too many arguments applied to the symbol",
            ErrorCodes.SYNTAX_ERROR⟩) := by
    intro hgt
    unfold applied_tform_tstp_parse
    simp only [run2 hgt (Or.inr hpos)]
  have hok : (l.length : Int) ≤ P.TypeGetMaxArity (P.GetHeadType terms head) →
      applied_tform_tstp_parse P lfho problemType fuel inp terms head
        = some (Except.ok (inp2, EncodePredicateAsEqn problemType
            (normalize_head lfho head
              (storeArgs (List.replicate (P.TypeGetMaxArity (P.GetHeadType terms head)).toNat
                none) 0 l) l.length terms2).1
            (normalize_head lfho head
              (storeArgs (List.replicate (P.TypeGetMaxArity (P.GetHeadType terms head)).toNat
                none) 0 l) l.length terms2).2)) := by
    intro hle
    unfold applied_tform_tstp_parse
    simp only [run1 hle]
  refine ⟨⟨fun ⟨e, he⟩ => ?_, fun hgt => ⟨_, herr hgt⟩⟩, herr, fun hle => ?_⟩
  · by_contra hn
    rw [hok (not_lt.mp hn)] at he
    cases he
  · obtain ⟨n1, n2, n3⟩ := normalize_head_node lfho head
      (storeArgs (List.replicate (P.TypeGetMaxArity (P.GetHeadType terms head)).toNat none) 0 l)
      l.length terms2 hpos
    have hget : ∀ i, i < l.length →
        (storeArgs (List.replicate (P.TypeGetMaxArity (P.GetHeadType terms head)).toNat none)
          0 l).getD i none = (l.map some).getD i none := by
      intro i hi
      rw [storeArgs_getD l _ 0 i (by rw [List.length_replicate]; omega),
        if_pos (by omega), Nat.sub_zero]
    refine ⟨_, rfl, hok hle, n1, fun hv => ?_, fun hv => ?_⟩
    · obtain ⟨a, b, c⟩ := n2 hv
      exact ⟨a, b, fun i hi => (c i hi).trans (hget i hi)⟩
    · obtain ⟨a, b, c⟩ := n3 hv
      exact ⟨a, b, fun i hi => (c i hi).trans (hget i hi)⟩

theorem demoParsers_two_args :
    AppliedArgs demoParsers ProblemType.PROBLEM_HO
      (!TermIsVar (demoBank.cell 4) &&
        demoParsers.SigQueryFuncProp demoBank.sig (demoBank.cell 4).f_code)
      [0, 1] demoBank [0, 1] [] demoBank :=
  AppliedArgs.next [0, 1] demoBank [1] demoBank 0 [1] [] demoBank rfl rfl
    (AppliedArgs.next [1] demoBank [] demoBank 1 [] [] demoBank rfl rfl
      (AppliedArgs.done [] demoBank rfl))

theorem applied_tform_tstp_parse_too_many_witness :
    (demoParsers.TestInpTok [0, 1] = true ∧
      AppliedArgs demoParsers ProblemType.PROBLEM_HO
        (!TermIsVar (demoBank.cell 4) &&
          demoParsers.SigQueryFuncProp demoBank.sig (demoBank.cell 4).f_code)
        [0, 1] demoBank [0, 1] [] demoBank ∧
      ([0, 1] : List TermRef).length ≤ 2 ∧
      demoParsers.TypeGetMaxArity (demoParsers.GetHeadType demoBank 4) = 2 ∧
      (demoBank.cell 4).f_code = 21 ∧ (demoBank.cell 4).arity = 0) ∧
    ((applied_tform_tstp_parse demoParsers true ProblemType.PROBLEM_HO 2 [0, 1] demoBank 4).map
        (fun r => r.toOption.map (fun s => (s.2.2, (s.2.1.cell s.2.2).f_code,
          (s.2.1.cell s.2.2).args)))
      = some (some (5, 21, [some 0, some 1]))) ∧
    (applied_tform_tstp_parse demoParsers true ProblemType.PROBLEM_HO 3 [0, 1, 0] demoBank 4
      = some (Except.error ⟨" Too many arguments applied to the symbol",
          ErrorCodes.SYNTAX_ERROR⟩)) ∧
    ((∃ e, applied_tform_tstp_parse demoParsers true ProblemType.PROBLEM_HO 2 [0, 1] demoBank 4
        = some (Except.error e))
      ↔ demoParsers.TypeGetMaxArity (demoParsers.GetHeadType demoBank 4)
          < ([0, 1] : List TermRef).length) :=
  ⟨⟨rfl, demoParsers_two_args, by decide, rfl, rfl, rfl⟩, by decide, rfl,
    (applied_tform_tstp_parse_too_many demoParsers true ProblemType.PROBLEM_HO 2 [0, 1]
      demoBank 4 [0, 1] [] demoBank rfl demoParsers_two_args (by decide)).1⟩


/-! ## Flattened quantifier prefixes -/

theorem TFormulaTPTPPrint_chain (P : TermPrinters) (problemType : ProblemType) (bank : TB)
    (fullterms pcl : Bool) (hwf : bank.WF) (hcd : bank.sig.CodesDistinct) (q : FunCode)
    (hq : q = bank.sig.qall_code ∨ q = bank.sig.qex_code) (x : TermRef) (xs : List TermRef)
    (body form : TermRef) (hchain : QuantChain bank q (x :: xs) body form)
    (hbody : (bank.cell body).f_code ≠ q) (hform : form < bank.cells.length) (fuel : Nat)
    (hfuel : form ≤ fuel) :
    TFormulaTPTPPrint P problemType (fuel + 1) bank form fullterms pcl
      = (TFormulaTPTPPrint P problemType fuel bank body fullterms pcl).map
          (fun sb => tptpPrefix P problemType bank q x xs ++ "]:" ++ sb) := by
  obtain ⟨last, e, hl⟩ := TFormulaTPTPPrint_vars_chain P problemType bank hwf q body hbody xs x
    form ((if q = bank.sig.qall_code then "![" else "?[") ++ tptpVarText P problemType bank x)
    fuel hform hfuel hchain
  obtain ⟨c1, _, r1, c3, _⟩ := id hchain
  have h0 : bank.arg form 0 = some x := by rw [TB.arg_of_args bank form _ 0 c3]; rfl
  have n5 : bank.sig.qex_code ≠ bank.sig.qall_code :=
    hcd.get_ne ⟨11, by decide⟩ ⟨12, by decide⟩ (by decide)
  have m1 : bank.sig.qall_code ≠ bank.sig.eqn_code :=
    hcd.get_ne ⟨12, by decide⟩ ⟨0, by decide⟩ (by decide)
  have m2 : bank.sig.qall_code ≠ bank.sig.neqn_code :=
    hcd.get_ne ⟨12, by decide⟩ ⟨1, by decide⟩ (by decide)
  have m3 : bank.sig.qex_code ≠ bank.sig.eqn_code :=
    hcd.get_ne ⟨11, by decide⟩ ⟨0, by decide⟩ (by decide)
  have m4 : bank.sig.qex_code ≠ bank.sig.neqn_code :=
    hcd.get_ne ⟨11, by decide⟩ ⟨1, by decide⟩ (by decide)
  have hlit : TFormulaIsLiteral bank.sig (bank.cell form) = false := by
    unfold TFormulaIsLiteral
    rw [c1]
    rcases hq with rfl | rfl
    · rw [beq_eq_false_iff_ne.mpr m1, beq_eq_false_iff_ne.mpr m2]
      rfl
    · rw [beq_eq_false_iff_ne.mpr m3, beq_eq_false_iff_ne.mpr m4]
      rfl
  have hqu : TFormulaIsQuantified bank.sig (bank.cell form) = true := by
    unfold TFormulaIsQuantified
    rw [c1]
    rcases hq with rfl | rfl <;> simp
  have hout : (if q == bank.sig.qex_code then "?["
      else if q == bank.sig.qall_code then "![" else "^[")
      = (if q = bank.sig.qall_code then "![" else "?[") := by
    rcases hq with rfl | rfl
    · simp [Ne.symm n5]
    · simp [n5]
  rw [TFormulaTPTPPrint]
  simp only [hlit, hqu, Bool.false_eq_true, if_false, if_true, c1, hout,
    TFormulaTPTPPrint_var_eq P problemType bank form x h0, e, hl]
  cases TFormulaTPTPPrint P problemType fuel bank body fullterms pcl <;> rfl

/-- Claim C31: nested quantifiers of the same quantor are printed as one
flattened prefix.  For a chain `Q X1.(Q X2.( ... (Q Xn. F)))` of quantifier
nodes with the same code and `F` not headed by that code,
`TFormulaTPTPPrint` writes the prefix `![` or `?[`, the variables
`X1, ..., Xn` in outer-to-inner order separated by `, `, then `]:` and the
print of `F`.  When `F` is itself a chain of the other quantifier around `G`,
its variables are not added to the list: a new prefix starts after `]:`.  The
function only returns the text; the bank, in which the chain is right-nested,
is an argument that it does not change.  The bank is well-formed with pairwise
distinct reserved codes, and the fuel reaches the address of the formula. -/
theorem TFormulaTPTPPrint_flattens (P : TermPrinters) (problemType : ProblemType) (bank : TB)
    (fullterms pcl : Bool) (q : FunCode) (x : TermRef) (xs : List TermRef)
    (body form : TermRef) (fuel : Nat)
    (hwf : bank.WF) (hcd : bank.sig.CodesDistinct)
    (hq : q = bank.sig.qall_code ∨ q = bank.sig.qex_code)
    (hchain : QuantChain bank q (x :: xs) body form)
    (hbody : (bank.cell body).f_code ≠ q) (hform : form < bank.cells.length)
    (hfuel : form ≤ fuel + 1) :
    TFormulaTPTPPrint P problemType (fuel + 2) bank form fullterms pcl
      = (TFormulaTPTPPrint P problemType (fuel + 1) bank body fullterms pcl).map
          (fun sb => tptpPrefix P problemType bank q x xs ++ "]:" ++ sb) ∧
    ∀ (q2 : FunCode) (y : TermRef) (ys : List TermRef) (body2 : TermRef),
      (q2 = bank.sig.qall_code ∨ q2 = bank.sig.qex_code) → q2 ≠ q →
      QuantChain bank q2 (y :: ys) body2 body → (bank.cell body2).f_code ≠ q2 →
      TFormulaTPTPPrint P problemType (fuel + 2) bank form fullterms pcl
        = (TFormulaTPTPPrint P problemType fuel bank body2 fullterms pcl).map
            (fun sb => tptpPrefix P problemType bank q x xs ++ "]:" ++
              (tptpPrefix P problemType bank q2 y ys ++ "]:" ++ sb)) := by
  have h1 := TFormulaTPTPPrint_chain P problemType bank fullterms pcl hwf hcd q hq x xs body
    form hchain hbody hform (fuel + 1) hfuel
  refine ⟨h1, fun q2 y ys body2 hq2 _ hchain2 hbody2 => ?_⟩
  have hbl : body < form := QuantChain.body_lt hwf q body xs x form hform hchain
  have hb1 : body ≤ fuel := Nat.lt_succ_iff.mp (Nat.lt_of_lt_of_le hbl hfuel)
  have h2 := TFormulaTPTPPrint_chain P problemType bank fullterms pcl hwf hcd q2 hq2 y ys body2
    body hchain2 hbody2 (Nat.lt_trans hbl hform) fuel hb1
  rw [h1, h2, Option.map_map]
  rfl

theorem TFormulaTPTPPrint_flattens_witness :
    (demoMixed.WF ∧ demoMixed.sig.CodesDistinct ∧
      QuantChain demoMixed demoMixed.sig.qex_code [1] 14 15 ∧
      QuantChain demoMixed demoMixed.sig.qall_code [0, 1] 12 14 ∧
      (demoMixed.cell 12).f_code = demoMixed.sig.impl_code) ∧
    TFormulaTPTPPrint demoPrinters ProblemType.PROBLEM_FO 16 demoMixed 15 true false
      = some "?[Y]:![X, Y]:(~((p(X)|q(Y)|p(X)))=>q(Y))" ∧
    TFormulaTPTPPrint demoPrinters ProblemType.PROBLEM_FO (14 + 2) demoMixed 15 true false
      = (TFormulaTPTPPrint demoPrinters ProblemType.PROBLEM_FO 14 demoMixed 12 true false).map
          (fun sb => tptpPrefix demoPrinters ProblemType.PROBLEM_FO demoMixed
              demoMixed.sig.qex_code 1 [] ++ "]:" ++
            (tptpPrefix demoPrinters ProblemType.PROBLEM_FO demoMixed
              demoMixed.sig.qall_code 0 [1] ++ "]:" ++ sb)) :=
  ⟨⟨by decide, by decide,
      ⟨by decide, by decide, 14, by decide, rfl⟩,
      ⟨by decide, by decide, 13, by decide, by decide, by decide, 12, by decide, rfl⟩,
      by decide⟩,
    by decide,
    (TFormulaTPTPPrint_flattens demoPrinters ProblemType.PROBLEM_FO demoMixed true false
      demoMixed.sig.qex_code 1 [] 14 15 14 (by decide) (by decide) (Or.inr rfl)
      ⟨by decide, by decide, 14, by decide, rfl⟩ (by decide) (by decide) (by decide)).2
      demoMixed.sig.qall_code 0 [1] 12 (Or.inl rfl) (by decide)
      ⟨by decide, by decide, 13, by decide, by decide, by decide, 12, by decide, rfl⟩
      (by decide)⟩


/-! ## Testing one variable for freeness -/

theorem anyArg_spec (f : TermRef → Option Bool) (Q : TermRef → Prop) :
    ∀ l : List (Option TermRef),
      (∀ a ∈ l, ∃ r, a = some r ∧ ∃ b, f r = some b ∧ (b = true ↔ Q r)) →
      ∃ b, anyArg f l = some b ∧ (b = true ↔ ∃ r, some r ∈ l ∧ Q r) := by
  intro l
  induction l with
  | nil =>
    intro _
    exact ⟨false, rfl, by simp⟩
  | cons a rest ih =>
    intro h
    obtain ⟨r, rfl, b, hb, hq⟩ := h a (List.mem_cons_self _ _)
    obtain ⟨b2, hb2, hq2⟩ := ih (fun x hx => h x (List.mem_cons_of_mem _ hx))
    cases b with
    | true =>
      refine ⟨true, by simp [anyArg, hb], ?_⟩
      simp only [true_iff]
      exact ⟨r, List.mem_cons_self _ _, hq.mp rfl⟩
    | false =>
      refine ⟨b2, by simp [anyArg, hb, hb2], ?_⟩
      rw [hq2]
      constructor
      · rintro ⟨x, hx, hqx⟩
        exact ⟨x, List.mem_cons_of_mem _ hx, hqx⟩
      · rintro ⟨x, hx, hqx⟩
        rcases List.mem_cons.mp hx with e | hx
        · have e2 : x = r := Option.some.inj e
          subst e2
          exact absurd (hq.mpr hqx) (by simp)
        · exact ⟨x, hx, hqx⟩

theorem list_getD_some_mem {α : Type} (l : List (Option α)) (i : Nat) (a : α)
    (h : l.getD i none = some a) : some a ∈ l := by
  by_cases hi : i < l.length
  · rw [List.getD_eq_getElem _ _ hi] at h
    rw [← h]
    exact List.getElem_mem hi
  · rw [List.getD_eq_default _ _ (not_lt.mp hi)] at h
    cases h

theorem list_mem_getD {α : Type} (l : List (Option α)) (a : α) (h : some a ∈ l) :
    ∃ i, i < l.length ∧ l.getD i none = some a := by
  obtain ⟨i, hi, e⟩ := List.mem_iff_getElem.mp h
  exact ⟨i, hi, by rw [List.getD_eq_getElem _ _ hi, e]⟩

theorem TB.WF.cell_wf {b : TB} (hwf : b.WF) {t : TermRef} (ht : t < b.cells.length) :
    TermCell.WF b.sig b.vars t (b.cell t) := hwf.2.2.2.2 t ht

theorem TB.WF.take_args {b : TB} (hwf : b.WF) {t : TermRef} (ht : t < b.cells.length) :
    (b.cell t).args.take (b.cell t).arity = (b.cell t).args := by
  rw [← (hwf.cell_wf ht).1]
  exact List.take_length _

theorem TB.WF.arg_mem_iff {b : TB} (hwf : b.WF) {t : TermRef} (ht : t < b.cells.length)
    (Q : TermRef → Prop) :
    (∃ i a, i < (b.cell t).arity ∧ b.arg t i = some a ∧ Q a)
      ↔ ∃ r, some r ∈ (b.cell t).args ∧ Q r := by
  constructor
  · rintro ⟨i, a, _, ha, hq⟩
    exact ⟨a, list_getD_some_mem _ i a ha, hq⟩
  · rintro ⟨r, hr, hq⟩
    obtain ⟨i, hi, e⟩ := list_mem_getD _ r hr
    rw [(hwf.cell_wf ht).1] at hi
    exact ⟨i, r, hi, e, hq⟩

theorem Sig.isLogical_quantified (sig : Sig) (c : TermCell)
    (h : TFormulaIsQuantified sig c = true) : sig.isLogical c = true := by
  unfold TFormulaIsQuantified at h
  unfold Sig.isLogical Sig.logicalCodes
  simp only [Bool.or_eq_true, beq_iff_eq] at h
  rcases h with h | h <;> simp [h]

theorem Sig.isLogical_literal (sig : Sig) (c : TermCell)
    (h : TFormulaIsLiteral sig c = true) : sig.isLogical c = true := by
  unfold TFormulaIsLiteral at h
  unfold Sig.isLogical Sig.logicalCodes
  simp only [Bool.or_eq_true, beq_iff_eq] at h
  rcases h with h | h <;> simp [h]

theorem TB.FirstOrder.logical_not_var {b : TB} (hfo : b.FirstOrder) (c : TermCell)
    (h : b.sig.isLogical c = true) : TermIsVar c = false := by
  unfold Sig.isLogical at h
  have h0 := hfo.1 _ (of_decide_eq_true h)
  unfold TermIsVar
  exact decide_eq_false (not_lt.mpr h0)

theorem TFormulaIsLiteral_not_quantified {sig : Sig} (hcd : sig.CodesDistinct) (c : TermCell)
    (h : TFormulaIsLiteral sig c = true) : TFormulaIsQuantified sig c = false := by
  have m1 : sig.eqn_code ≠ sig.qex_code := hcd.get_ne ⟨0, by decide⟩ ⟨11, by decide⟩ (by decide)
  have m2 : sig.eqn_code ≠ sig.qall_code := hcd.get_ne ⟨0, by decide⟩ ⟨12, by decide⟩ (by decide)
  have m3 : sig.neqn_code ≠ sig.qex_code := hcd.get_ne ⟨1, by decide⟩ ⟨11, by decide⟩ (by decide)
  have m4 : sig.neqn_code ≠ sig.qall_code :=
    hcd.get_ne ⟨1, by decide⟩ ⟨12, by decide⟩ (by decide)
  rcases (TFormulaIsLiteral_iff sig c).mp h with e | e
  · unfold TFormulaIsQuantified
    rw [e, beq_eq_false_iff_ne.mpr m1, beq_eq_false_iff_ne.mpr m2]
    rfl
  · unfold TFormulaIsQuantified
    rw [e, beq_eq_false_iff_ne.mpr m3, beq_eq_false_iff_ne.mpr m4]
    rfl

theorem FreeOcc.v_count_ne_zero {b : TB} (hwf : b.WF) (hfo : b.FirstOrder) {v f : TermRef}
    (hocc : FreeOcc b v f) : f < b.cells.length → (b.cell f).v_count ≠ 0 := by
  induction hocc with
  | var hv =>
    intro hf
    exact ((hfo.2 v hf).1 hv).2
  | quant form a0 a1 _ _ h1 _ _ ih =>
    intro hf h0
    have ha : a1 < form := hwf.arg_lt hf h1
    have hz := (hfo.2 form hf).2.1 h0 (some a1) (list_getD_some_mem _ 1 a1 h1)
    exact ih (lt_trans ha hf) hz
  | arg form i a _ _ _ ha _ ih =>
    intro hf h0
    have hlt : a < form := hwf.arg_lt hf ha
    have hz := (hfo.2 form hf).2.1 h0 (some a) (list_getD_some_mem _ i a ha)
    exact ih (lt_trans hlt hf) hz

theorem TermCell.FirstOrder.term_args {b : TB} {c : TermCell} (h : TermCell.FirstOrder b c)
    (hc : b.sig.isLogical c = false ∨ TFormulaIsLiteral b.sig c = true) :
    ∀ a ∈ c.args, b.sig.isLogical (b.cellAt a) = false := by
  have h5 := h.2.2.2.2
  have hcond : (b.sig.isLogical c && !TFormulaIsLiteral b.sig c) = false := by
    rcases hc with e | e <;> simp [e]
  rw [hcond] at h5
  exact h5

theorem TBTermIsSubterm_spec (bank : TB) (v : TermRef) (hwf : bank.WF) (hfo : bank.FirstOrder)
    (hcd : bank.sig.CodesDistinct) (hv : TermIsVar (bank.cell v) = true) (fuel : Nat) :
    ∀ t, t < bank.cells.length → t < fuel →
      (bank.sig.isLogical (bank.cell t) = false ∨
        TFormulaIsLiteral bank.sig (bank.cell t) = true) →
      ∃ b, TBTermIsSubterm fuel bank t v = some b ∧ (b = true ↔ FreeOcc bank v t) := by
  induction fuel with
  | zero => intro t _ h; exact absurd h (Nat.not_lt_zero _)
  | succ fuel ih =>
    intro t ht hfuel hc
    rw [TBTermIsSubterm]
    by_cases htv : t = v
    · subst htv
      rw [if_pos rfl]
      exact ⟨true, rfl, by simp only [true_iff]; exact FreeOcc.var hv⟩
    · rw [if_neg htv, hwf.take_args ht]
      have hargs := (hfo.2 t ht).term_args hc
      obtain ⟨b, hb, hq⟩ := anyArg_spec (fun a => TBTermIsSubterm fuel bank a v)
        (fun r => FreeOcc bank v r) (bank.cell t).args (by
          intro a ha
          obtain ⟨r, rfl, hr⟩ := hwf.args_lt ht a ha
          have hrl : r < bank.cells.length := lt_trans hr ht
          exact ⟨r, rfl, ih r hrl (Nat.lt_of_lt_of_le hr (Nat.lt_succ_iff.mp hfuel))
            (Or.inl (hargs _ ha))⟩)
      refine ⟨b, hb, ?_⟩
      rw [hq]
      have hnq : TFormulaIsQuantified bank.sig (bank.cell t) = false := by
        rcases hc with e | e
        · cases hq2 : TFormulaIsQuantified bank.sig (bank.cell t) with
          | false => rfl
          | true => rw [Sig.isLogical_quantified _ _ hq2] at e; cases e
        · exact TFormulaIsLiteral_not_quantified hcd _ e
      cases hvar : TermIsVar (bank.cell t) with
      | true =>
        rw [FreeOcc.var_iff hnq hvar]
        have har := ((hfo.2 t ht).1 hvar).1
        have hnil : (bank.cell t).args = [] := by
          apply List.eq_nil_of_length_eq_zero
          rw [(hwf.cell_wf ht).1, har]
        rw [hnil]
        constructor
        · rintro ⟨r, hr, _⟩
          cases hr
        · intro e
          exact absurd e.symm htv
      | false =>
        rw [FreeOcc.arg_iff hnq hvar]
        exact (hwf.arg_mem_iff ht (fun r => FreeOcc bank v r)).symm

theorem TFormulaVarIsFree_spec (bank : TB) (v : TermRef) (hwf : bank.WF) (hfo : bank.FirstOrder)
    (hcd : bank.sig.CodesDistinct) (hv : TermIsVar (bank.cell v) = true) (fuel : Nat) :
    ∀ form, form < bank.cells.length → form + 1 < fuel →
      bank.sig.isLogical (bank.cell form) = true →
      ∃ b, TFormulaVarIsFree fuel bank form v = some b ∧ (b = true ↔ FreeOcc bank v form) := by
  induction fuel with
  | zero => intro t _ h; exact absurd h (Nat.not_lt_zero _)
  | succ fuel ih =>
    intro form hf hfuel hlog
    have hfl : form < fuel := Nat.lt_of_succ_lt_succ hfuel
    rw [TFormulaVarIsFree]
    by_cases hcount : (bank.cell form).v_count = 0
    · rw [if_pos hcount]
      refine ⟨false, rfl, ?_⟩
      simp only [Bool.false_eq_true, false_iff]
      exact fun hocc => hocc.v_count_ne_zero hwf hfo hf hcount
    · rw [if_neg hcount]
      cases hlit : TFormulaIsLiteral bank.sig (bank.cell form) with
      | true =>
        simp only [if_true]
        exact TBTermIsSubterm_spec bank v hwf hfo hcd hv fuel form hf hfl (Or.inr hlit)
      | false =>
        simp only [Bool.false_eq_true, if_false]
        have hnv := hfo.logical_not_var _ hlog
        have h5 := (hfo.2 form hf).2.2.2.2
        rw [hlog, hlit] at h5
        simp only [Bool.not_false, Bool.and_self, if_true] at h5
        cases hq : TFormulaIsQuantified bank.sig (bank.cell form) with
        | true =>
          have hq' : ((bank.cell form).f_code == bank.sig.qex_code ||
              (bank.cell form).f_code == bank.sig.qall_code) = true := hq
          rw [hq] at h5
          simp only [if_true] at h5
          rw [hq']
          simp only [if_true]
          have har : (bank.cell form).arity = 2 := (hwf.cell_wf hf).2.2.1 hq
          obtain ⟨a0, h0⟩ := hwf.arg_some hf (i := 0) (by rw [har]; decide)
          obtain ⟨a1, h1⟩ := hwf.arg_some hf (i := 1) (by rw [har]; decide)
          have hbody : bank.sig.isLogical (bank.cell a1) = true := by
            have e : (bank.cell form).args.getD 1 none = some a1 := h1
            rw [e] at h5
            exact h5
          have ha1 : a1 < form := hwf.arg_lt hf h1
          rw [FreeOcc.quant_iff hwf hq h0 h1, h0, h1]
          by_cases hav : a0 = v
          · subst hav
            rw [if_pos rfl]
            exact ⟨false, rfl, by simp⟩
          · rw [if_neg (fun e => hav (Option.some.inj e))]
            obtain ⟨b, hb, hbq⟩ := ih a1 (lt_trans ha1 hf)
              (Nat.lt_of_le_of_lt (Nat.succ_le_of_lt ha1) hfl) hbody
            exact ⟨b, hb, by rw [hbq]; simp [hav]⟩
        | false =>
          have hq' : ((bank.cell form).f_code == bank.sig.qex_code ||
              (bank.cell form).f_code == bank.sig.qall_code) = false := hq
          rw [hq] at h5
          simp only [Bool.false_eq_true, if_false] at h5
          rw [hq']
          simp only [Bool.false_eq_true, if_false]
          rw [hwf.take_args hf]
          obtain ⟨b, hb, hbq⟩ := anyArg_spec (fun a => TFormulaVarIsFree fuel bank a v)
            (fun r => FreeOcc bank v r) (bank.cell form).args (by
              intro a ha
              obtain ⟨r, rfl, hr⟩ := hwf.args_lt hf a ha
              exact ⟨r, rfl, ih r (lt_trans hr hf)
                (Nat.lt_of_le_of_lt (Nat.succ_le_of_lt hr) hfl) (h5 _ ha)⟩)
          refine ⟨b, hb, ?_⟩
          rw [hbq, FreeOcc.arg_iff hq hnv]
          exact (hwf.arg_mem_iff hf (fun r => FreeOcc bank v r)).symm

/-- Claim C37 does not hold of the code.  In the literal
`q(![X]: p(X)) = $true` (address 11) the only occurrence of `X` lies inside
the atom, in the scope of the quantifier at address 9, so `X` has no free
occurrence in the literal, and `TFormulaCollectFreeVars` collects no variable
from it.  `TFormulaVarIsFree(bank, form, X)` returns true all the same: on a
literal it only asks whether `X` is a subterm, whatever binds it there. -/
theorem TFormulaVarIsFree_nested_binder :
    demoNested.WF ∧ TermIsVar (demoNested.cell 0) = true ∧
    TFormulaIsLiteral demoNested.sig (demoNested.cell 11) = true ∧
    (demoNested.cell 11).args = [some 10, some 2] ∧
    (demoNested.cell 10).args = [some 9] ∧
    (demoNested.cell 9).f_code = demoNested.sig.qall_code ∧
    (demoNested.cell 9).args = [some 0, some 7] ∧
    ¬ FreeOcc demoNested 0 11 ∧
    (TFormulaCollectFreeVars 13 demoNested 11 []).map Prod.snd = some [] ∧
    TFormulaVarIsFree 13 demoNested 11 0 = some true := by
  refine ⟨by decide, by decide, by decide, by decide, by decide, by decide, by decide, ?_,
    by decide, by decide⟩
  intro hocc
  obtain ⟨vars, hrun, _, hmem, _⟩ := TFormulaCollectFreeVars_spec demoNested 11 13 (by decide)
    (by decide) (by decide)
  have hev : (tformula_collect_freevars 13 (VarBankVarsSetProp demoNested TPIsFreeVar) 11 []).map
      Prod.snd = some [] := by decide
  rw [hrun] at hev
  have hnil : vars = [] := Option.some.inj hev
  have h0 := (hmem 0).mpr hocc
  rw [hnil] at h0
  cases h0

/-- Where the two functions agree.  In a well-formed first-order bank (formula
nodes only under connectives and quantifiers, no formula inside a term, no
lambda terms, cached variable counts that are zero only without variables)
with pairwise distinct reserved codes, for every formula node `form` and every
variable `v` both `TFormulaCollectFreeVars` and `TFormulaVarIsFree` return, and
`v` is in the set collected from an empty set if and only if
`TFormulaVarIsFree(bank, form, v)` returns true.  The wrong answer of
`TFormulaVarIsFree` needs a binder inside a literal. -/
theorem TFormulaVarIsFree_agrees (bank : TB) (form v : TermRef) (fuel : Nat)
    (hwf : bank.WF) (hfo : bank.FirstOrder) (hcd : bank.sig.CodesDistinct)
    (hform : form < bank.cells.length)
    (hlog : bank.sig.isLogical (bank.cell form) = true)
    (hv : TermIsVar (bank.cell v) = true) (hfuel : form + 1 < fuel) :
    ∃ bank1 vars b, TFormulaCollectFreeVars fuel bank form [] = some (bank1, vars) ∧
      TFormulaVarIsFree fuel bank form v = some b ∧ (v ∈ vars ↔ b = true) := by
  obtain ⟨vars, hrun, _, hmem, _⟩ := TFormulaCollectFreeVars_spec bank form fuel hwf hform
    (Nat.lt_of_succ_lt hfuel)
  obtain ⟨b, hb, hbq⟩ := TFormulaVarIsFree_spec bank v hwf hfo hcd hv fuel form hform hfuel hlog
  exact ⟨_, vars, b, hrun, hb, by rw [hmem, hbq]⟩

theorem TFormulaVarIsFree_agrees_witness :
    (demoSibling.WF ∧ demoSibling.FirstOrder ∧ demoSibling.sig.CodesDistinct ∧
      12 < demoSibling.cells.length ∧
      demoSibling.sig.isLogical (demoSibling.cell 12) = true ∧
      TermIsVar (demoSibling.cell 0) = true ∧ 12 + 1 < 14) ∧
    ((TFormulaCollectFreeVars 14 demoSibling 12 []).map Prod.snd = some [0] ∧
      TFormulaVarIsFree 14 demoSibling 12 0 = some true ∧
      TFormulaVarIsFree 14 demoSibling 12 1 = some false ∧
      TFormulaVarIsFree 14 demoSibling 11 0 = some false) ∧
    ∃ bank1 vars b, TFormulaCollectFreeVars 14 demoSibling 12 [] = some (bank1, vars) ∧
      TFormulaVarIsFree 14 demoSibling 12 0 = some b ∧ (0 ∈ vars ↔ b = true) :=
  ⟨⟨by decide, by decide, by decide, by decide, by decide, by decide, by decide⟩,
    by decide,
    TFormulaVarIsFree_agrees demoSibling 12 0 14 (by decide) (by decide) (by decide)
      (by decide) (by decide) (by decide) (by decide)⟩

end EProver
